import Mathlib

/-!
# Patch catalog (`pluginLib::patchDB::DB`): shallow embedding and properties

The embedding follows `source/jucePluginLib/patchdb/db.cpp`.

* Shared pointers are addresses (`Nat`) into two heaps held by the catalog state:
  `nodes` for `DataSourceNode` objects and `patchHeap` for `Patch` objects.  A heap
  cell holding `none` is an object that was destroyed, so a `weak_ptr` to it is expired.
* `std::set` of pointers or handles is a strictly increasing list (`setInsert`,
  `setErase`); `std::map` is an association list that holds every key at most once.
* Byte vectors are lists of naturals; unsigned counters are naturals.
* Every function is the body that runs on the loader thread (or, for the functions
  that are called directly, the body of the call): the locks and the queue of the
  loader are not part of the state.
-/

namespace PatchDB

/-! ## Data model -/

/-- The `SourceType` enumeration. -/
inductive SourceType where
  | Invalid
  | Rom
  | Folder
  | File
  | LocalStorage
  | Count
  deriving DecidableEq, Repr

/-- The `DataSourceOrigin` enumeration. -/
inductive DataSourceOrigin where
  | Manual
  | Autogenerated
  deriving DecidableEq, Repr

abbrev Data := List Nat
abbrev DataList := List Data
abbrev TagType := Nat
abbrev Tag := String
abbrev Color := Nat
abbrev SearchHandle := Nat
abbrev PatchHash := List Nat
abbrev NodePtr := Nat
abbrev PatchPtr := Nat

/-- Modelled from the spec: the identity of a `DataSource` (`datasource.h` is not among
the sources).  Equality and ordering of data sources are structural on type, name and
bank; this triple is what `m_dataSources` is keyed by. -/
structure DataSourceKey where
  type : SourceType
  name : String
  bank : Nat
  deriving DecidableEq, Repr

/-- Modelled from the spec: the `DataSource` value type (`datasource.h` is not among the
sources): type, name, origin and bank. -/
structure DataSource where
  type : SourceType
  name : String
  origin : DataSourceOrigin
  bank : Nat
  deriving DecidableEq, Repr

/-- The part of a data source that `operator==` and `operator<` compare. -/
def DataSource.key (d : DataSource) : DataSourceKey :=
  ⟨d.type, d.name, d.bank⟩

/-- Modelled from the spec: `DataSourceNode` (`datasource.h` is not among the sources): a
data source that owns a set of patches, a shared pointer to its parent and a list of weak
pointers to its children. -/
structure DataSourceNode extends DataSource where
  patches : List PatchPtr
  parent : Option NodePtr
  children : List NodePtr
  deriving DecidableEq, Repr

/-- The accessor `DataSourceNode::hasParent`: `getParent() != nullptr`. -/
def DataSourceNode.hasParent (n : DataSourceNode) : Bool :=
  n.parent.isSome

/-- Modelled from the spec: a tag diff (`tags.h` is not among the sources): the added and
the removed tags of one tag type. -/
structure Tags where
  added : List Tag
  removed : List Tag
  deriving DecidableEq, Repr

abbrev TypedTags := List (TagType × Tags)

/-- Modelled from the spec: `PatchModifications` (`patchmodifications.h` is not among the
sources): a name override, a tag diff and the weak back-reference to the patch. -/
structure PatchModifications where
  tags : TypedTags
  name : String
  patch : Option PatchPtr
  deriving DecidableEq, Repr

/-- Modelled from the spec: `Patch` (`patch.h` is not among the sources): the raw bytes,
the name decoded from them, the hash, the program, the intrinsic tags, the weak reference
to the owning node and the optional overlay. -/
structure Patch where
  name : String
  sysex : Data
  hash : PatchHash
  program : Nat
  tags : TypedTags
  source : Option NodePtr
  modifications : Option PatchModifications
  deriving DecidableEq, Repr

/-- Modelled from the spec: `Patch::getName` (`patch.h` is not among the sources): the
name of the overlay if there is an overlay and its name is not empty, else the name
decoded from the raw bytes. -/
def Patch.getName (p : Patch) : String :=
  match p.modifications with
  | some m => if m.name = "" then p.name else m.name
  | none => p.name

/-- `DB::isValid` (db.cpp:494).  A `PatchPtr` is passed as the patch it points to, `none`
being the null pointer. -/
def isValid (_patch : Option Patch) : Bool :=
  match _patch with
  | none => false
  | some p =>
    if p.getName = "" then false
    else if p.sysex = [] then false
    else if p.sysex.head? ≠ some 0xf0 then false
    else if p.sysex.getLast? ≠ some 0xf7 then false
    else true

/-! ## Containers -/

/-- Insertion into a `std::set` of pointers or handles, kept as an increasing list. -/
def setInsert (a : Nat) : List Nat → List Nat
  | [] => [a]
  | b :: l => if a < b then a :: b :: l else if a = b then b :: l else b :: setInsert a l

/-- Removal of a value from a `std::set` (`erase(key)`). -/
def setErase (a : Nat) (l : List Nat) : List Nat :=
  l.filter (fun b => decide (b ≠ a))

/-- Lookup in a `std::map` (`find`), `none` being `end()`. -/
def mapFind {κ ν : Type} [DecidableEq κ] (k : κ) : List (κ × ν) → Option ν
  | [] => none
  | e :: m => if e.1 = k then some e.2 else mapFind k m

/-- Removal of a key from a `std::map` (`erase(key)`). -/
def mapErase {κ ν : Type} [DecidableEq κ] (k : κ) (m : List (κ × ν)) : List (κ × ν) :=
  m.filter (fun e => decide (e.1 ≠ k))

/-- Insertion into a `std::map` (`insert`): nothing happens when the key is present. -/
def mapInsert {κ ν : Type} [DecidableEq κ] (m : List (κ × ν)) (k : κ) (v : ν) :
    List (κ × ν) :=
  if (mapFind k m).isSome then m else m ++ [(k, v)]

/-- Assignment through `operator[]` of a map: the value of the key is replaced or the
key is added. -/
def mapSet {κ ν : Type} [DecidableEq κ] (m : List (κ × ν)) (k : κ) (v : ν) :
    List (κ × ν) :=
  if (mapFind k m).isSome then m.map (fun e => if e.1 = k then (k, v) else e)
  else m ++ [(k, v)]

/-- Write of one heap cell. -/
def update {α : Type} (heap : Nat → Option α) (p : Nat) (v : α) : Nat → Option α :=
  fun q => if q = p then some v else heap q

/-! ## Catalog state -/

/-- The `Dirty` accumulator. -/
structure Dirty where
  dataSources : Bool
  patches : Bool
  tags : List TagType
  searches : List SearchHandle
  errors : List String
  deriving DecidableEq, Repr

/-- The value of a default constructed `Dirty` (`m_dirty = {}`). -/
def Dirty.empty : Dirty :=
  ⟨false, false, [], [], []⟩

/-- The `SearchState` enumeration. -/
inductive SearchState where
  | NotStarted
  | Running
  | Cancelled
  | Completed
  deriving DecidableEq, Repr

/-- Modelled from the spec: `SearchRequest` (`search.h` is not among the sources): the
optional source node, the source type (`Invalid` when not given), the tags and the
optional patch to find. -/
structure SearchRequest where
  tags : TypedTags
  name : String
  sourceNode : Option NodePtr
  sourceType : SourceType
  patch : Option PatchPtr
  deriving DecidableEq, Repr

/-- Modelled from the spec: `Search` (`search.h` is not among the sources), without its
callback and its lock. -/
structure Search where
  handle : SearchHandle
  request : SearchRequest
  results : List PatchPtr
  state : SearchState
  deriving DecidableEq, Repr

/-- Modelled from the spec: `PatchKey` (`patch.h` is not among the sources): the identity
of the owning data source (absent when the source reference is expired), the hash and the
program. -/
structure PatchKey where
  source : Option DataSourceKey
  hash : PatchHash
  program : Nat
  deriving DecidableEq, Repr

/-- A JSON value (`juce::var`). -/
inductive Json where
  | null
  | int (n : Int)
  | str (s : String)
  | arr (xs : List Json)
  | obj (ps : List (String × Json))

/-- The content of a file: the text of a JSON value or raw bytes. -/
inductive FileContent where
  | text (j : Json)
  | data (bytes : Data)

/-- The collaborators of the catalog that are not part of `db.cpp`: the file system
primitives, the conversions to and from strings, the patch parser of the derived class
and the predicate of a search request.  `equals` is the virtual `DB::equals`, and
`getSourceType` and `modifyTags` are `Search::getSourceType` and
`PatchModifications::modifyTags`, whose sources are not among the files (`search.h`,
`patchmodifications.cpp`).  `toSourceType` and `toTagType` are the conversions from
strings, `invalidColor` is the constant `g_invalidColor`, and `getLargeIntValue` is the
number that a string stands for (`juce::String::getLargeIntValue`). -/
structure Host where
  hasWriteAccess : String → Bool
  writeSucceeds : String → Bool
  copySucceeds : String → String → Bool
  isAbsolutePath : String → Bool
  getChildFile : String → String → String
  sourceTypeToString : SourceType → String
  tagTypeToString : TagType → String
  patchKeyToString : PatchKey → Bool → String
  patchKeyFromString : String → Option DataSourceKey → PatchKey
  patchKeyIsValid : PatchKey → Bool
  serialize : PatchModifications → Json
  deserialize : Json → Option PatchModifications
  findFiles : String → List String
  isDirectory : String → Bool
  loadRomData : Nat → Bool × DataList
  extractSysexFromData : Data → Bool × DataList
  splitMultipleSysex : Data → DataList
  parseJson : Data → Json
  jsonText : Json → Data
  initializePatch : Data → Option Patch
  getTags : Patch → TypedTags
  requestMatch : (NodePtr → Option DataSourceNode) → SearchRequest → Patch → Bool
  invalidBank : Nat
  equals : Patch → Patch → Bool
  getSourceType : (NodePtr → Option DataSourceNode) → SearchRequest → SourceType
  modifyTags : PatchModifications → TypedTags → PatchModifications × Bool
  toSourceType : String → SourceType
  toTagType : String → TagType
  invalidColor : Color
  getLargeIntValue : String → Int

/-- The state of a `DB`.  `W` is the state that the queued UI functions act on. -/
structure DB (W : Type) where
  nodes : NodePtr → Option DataSourceNode
  patchHeap : PatchPtr → Option Patch
  nextNode : NodePtr
  nextPatch : PatchPtr
  loaderDestroyed : Bool
  m_settingsDir : String
  m_jsonFileName : String
  m_dataSources : List (DataSourceKey × NodePtr)
  m_tags : List (TagType × List Tag)
  m_tagColors : List (TagType × List (Tag × Color))
  m_patchModifications : List (PatchKey × PatchModifications)
  m_searches : List (SearchHandle × Search)
  m_cancelledSearches : List SearchHandle
  m_nextSearchHandle : SearchHandle
  m_dirty : Dirty
  m_uiFuncs : List (W → W)
  files : List (String × FileContent)

variable {W : Type}

/-- `DB::pushError` (db.cpp:1630). -/
def pushError (s : DB W) (_string : String) : DB W :=
  { s with m_dirty := { s.m_dirty with errors := s.m_dirty.errors ++ [_string] } }

/-- The constructor `PatchKey(const Patch&)`: the source is the locked source reference
of the patch. -/
def PatchKey.ofPatch (nodes : NodePtr → Option DataSourceNode) (p : Patch) : PatchKey :=
  ⟨(p.source.bind nodes).map (fun n => n.key), p.hash, p.program⟩

/-- Modelled from the spec: `PatchModifications::empty` (`patchmodifications.h` is not
among the sources): nothing to persist, neither a name nor a tag. -/
def PatchModifications.empty (m : PatchModifications) : Bool :=
  decide (m.name = "") && m.tags.all (fun t => decide (t.2.added = []) && decide (t.2.removed = []))

/-! ## Files -/

/-- The call `juce::File::deleteFile`. -/
def deleteFile (s : DB W) (file : String) : DB W :=
  { s with files := mapErase file s.files }

/-- The calls `juce::File::replaceWithText` and `replaceWithData`: the host decides
whether the write succeeds, and a successful write replaces the content. -/
def replaceWith (h : Host) (s : DB W) (file : String) (c : FileContent) : DB W × Bool :=
  if h.writeSucceeds file then ({ s with files := mapSet s.files file c }, true)
  else (s, false)

/-- The call `juce::File::copyFileTo`, which is
`(*this == newFile) || (exists() && newFile.deleteFile() && copyInternal(newFile))`: a
file copied to itself is a success without any work; otherwise the call fails when there
is nothing to copy, and else the target is deleted first and the content is copied then.
The deletion takes place, as every deletion of this model does, and the host
decides whether the copy succeeds, so a copy that fails leaves the target deleted. -/
def copyFileTo (h : Host) (s : DB W) (src dst : String) : DB W × Bool :=
  if src = dst then (s, true)
  else
    match mapFind src s.files with
    | none => (s, false)
    | some c =>
      if h.copySucceeds src dst then
        ({ s with files := mapSet (deleteFile s dst).files dst c }, true)
      else (deleteFile s dst, false)

/-- The function `createValidFilename` (db.cpp:19). -/
def createValidFilename (_name : String) : String :=
  String.mk (_name.data.map (fun c =>
    if ('0' ≤ c ∧ c ≤ '9') ∨ ('A' ≤ c ∧ c ≤ 'Z') ∨ ('a' ≤ c ∧ c ≤ 'z') then c else '_'))

/-- `DB::getLocalStorageFile` (db.cpp:1581). -/
def getLocalStorageFile (h : Host) (s : DB W) (_ds : DataSource) : String :=
  h.getChildFile s.m_settingsDir (createValidFilename _ds.name ++ ".syx")

/-- `DB::getJsonFile` (db.cpp:1487); the empty path is the default constructed file. -/
def getJsonFile (h : Host) (s : DB W) (_ds : DataSource) : String :=
  if _ds.type = SourceType.LocalStorage then getLocalStorageFile h s _ds ++ ".json"
  else if _ds.type = SourceType.File then _ds.name ++ ".json"
  else ""

/-- The method `setProperty` of a `juce::DynamicObject`. -/
def setProperty (o : List (String × Json)) (name : String) (v : Json) :
    List (String × Json) :=
  mapSet o name v

/-- `DB::saveJson(const juce::File&, juce::DynamicObject*)` (db.cpp:1553). -/
def saveJsonTo (h : Host) (s : DB W) (_target : String) (_src : Json) : DB W × Bool :=
  if !h.hasWriteAccess _target then
    (pushError s ("No write access to file:\n" ++ _target), false)
  else
    let tempFile := _target ++ "_tmp.json"
    if !h.hasWriteAccess tempFile then
      (pushError s ("No write access to file:\n" ++ tempFile), false)
    else
      let w := replaceWith h s tempFile (FileContent.text _src)
      if !w.2 then
        (pushError w.1 ("Failed to write data to file:\n" ++ tempFile), false)
      else
        let c := copyFileTo h w.1 tempFile _target
        if !c.2 then
          (pushError c.1 ("Failed to copy\n" ++ tempFile ++ "\nto\n" ++ _target), false)
        else
          (deleteFile c.1 tempFile, true)

/-- `DB::saveJson(const DataSourceNodePtr&)` (db.cpp:1496): the sidecar of one source. -/
def saveJsonOf (h : Host) (s : DB W) (_ds : Option NodePtr) : DB W × Bool :=
  match _ds.bind s.nodes with
  | none => (s, false)
  | some ds =>
    let filename := getJsonFile h s ds.toDataSource
    if filename = "" then (s, decide (ds.patches = []))
    else
      let filename :=
        if !h.isAbsolutePath filename then h.getChildFile s.m_settingsDir filename
        else filename
      if !h.hasWriteAccess filename then
        (pushError s ("No write access to file:\n" ++ filename), false)
      else if ds.patches = [] then (deleteFile s filename, true)
      else
        let patchMods : Option (List (String × Json)) :=
          ds.patches.foldl (fun acc ptr =>
            match s.patchHeap ptr with
            | none => acc
            | some patch =>
              match patch.modifications with
              | none => acc
              | some mods =>
                if mods.empty then acc
                else
                  some (setProperty (acc.getD [])
                    (h.patchKeyToString (PatchKey.ofPatch s.nodes patch) false)
                    (h.serialize mods))) none
        match patchMods with
        | none => (deleteFile s filename, true)
        | some pm => saveJsonTo h s filename (Json.obj [("patches", Json.obj pm)])

/-- `DB::writePatchesToFile` (db.cpp:52). -/
def writePatchesToFile (h : Host) (s : DB W) (_file : String) (_patches : List PatchPtr) :
    DB W × Bool :=
  let sysexBuffer : Data :=
    _patches.foldl (fun buf ptr =>
      match s.patchHeap ptr with
      | none => buf
      | some patch => if patch.sysex ≠ [] then buf ++ patch.sysex else buf) []
  replaceWith h s _file (FileContent.data sysexBuffer)

/-- The program of the patch behind a pointer. -/
def programOf (s : DB W) (p : PatchPtr) : Nat :=
  match s.patchHeap p with
  | some patch => patch.program
  | none => 0

/-- Modelled from the spec: `DataSource::sortByProgram` (`datasource.cpp` is not among the
sources): the patches in ascending order of their program. -/
def sortByProgram (s : DB W) (_patches : List PatchPtr) : List PatchPtr :=
  _patches.insertionSort (fun a b => programOf s a ≤ programOf s b)

/-- Insertion into a map that is keyed by a pointer and iterated in pointer order. -/
def ptrMapInsert {ν : Type} (k : Nat) (v : ν) : List (Nat × ν) → List (Nat × ν)
  | [] => [(k, v)]
  | e :: m =>
    if k < e.1 then (k, v) :: e :: m
    else if k = e.1 then e :: m
    else e :: ptrMapInsert k v m

/-- One pass of the second loop of `DB::saveLocalStorage` (db.cpp:1608): the file of a
source without patches is deleted, else its patches are written in program order. -/
def saveLocalStorageStep (h : Host) (acc : DB W × Bool) (it : NodePtr × List PatchPtr) :
    DB W × Bool :=
  match acc.1.nodes it.1 with
  | none => acc
  | some ds =>
    let file := getLocalStorageFile h acc.1 ds.toDataSource
    if it.2 = [] then (deleteFile acc.1 file, acc.2)
    else
      let w := writePatchesToFile h acc.1 file (sortByProgram acc.1 it.2)
      (w.1, if !w.2 then false else acc.2)

/-- `DB::saveLocalStorage` (db.cpp:1588). -/
def saveLocalStorage (h : Host) (s : DB W) : DB W × Bool :=
  let localStoragePatches : List (NodePtr × List PatchPtr) :=
    s.m_dataSources.foldl (fun acc it =>
      match s.nodes it.2 with
      | none => acc
      | some ds =>
        if ds.type = SourceType.LocalStorage then ptrMapInsert it.2 ds.patches acc
        else acc) []
  if localStoragePatches = [] then (s, false)
  else localStoragePatches.foldl (saveLocalStorageStep h) (s, true)

/-- One pass of the loop over `m_dataSources` in `DB::saveJson()` (db.cpp:1396): the
sidecar of the source is written; when that fails the overlays of its patches go to the
index; a Manual source that is not a Rom is listed. -/
def saveJsonStep (h : Host) (acc : DB W × List (PatchKey × PatchModifications) × List Json)
    (it : DataSourceKey × NodePtr) : DB W × List (PatchKey × PatchModifications) × List Json :=
  match acc.1.nodes it.2 with
  | none => acc
  | some dataSource =>
    let r := saveJsonOf h acc.1 (some it.2)
    let patchModifications :=
      if !r.2 then
        dataSource.patches.foldl (fun pm ptr =>
          match r.1.patchHeap ptr with
          | none => pm
          | some patch =>
            match patch.modifications with
            | none => pm
            | some mods =>
              if mods.empty then pm
              else mapInsert pm (PatchKey.ofPatch r.1.nodes patch) mods) acc.2.1
      else acc.2.1
    if dataSource.origin ≠ DataSourceOrigin.Manual then (r.1, patchModifications, acc.2.2)
    else if dataSource.type = SourceType.Rom then (r.1, patchModifications, acc.2.2)
    else
      (r.1, patchModifications, acc.2.2 ++
        [Json.obj [("type", Json.str (h.sourceTypeToString dataSource.type)),
          ("name", Json.str dataSource.name)]])

/-- The document that `DB::saveJson()` builds (db.cpp:1424 to 1481) from the listed
sources `dss`, the tags, the tag colours and the collected overlays. -/
def indexDocument (h : Host) (s : DB W) (patchModifications : List (PatchKey × PatchModifications))
    (dss : List Json) : Json :=
  let tagTypes : List (String × Json) :=
    s.m_tags.foldl (fun o it =>
      if it.2 = [] then o
      else setProperty o (h.tagTypeToString it.1) (Json.arr (it.2.map Json.str))) []
  let tagColors : List (String × Json) :=
    s.m_tagColors.foldl (fun o it =>
      if it.2 = [] then o
      else
        setProperty o (h.tagTypeToString it.1)
          (Json.obj (it.2.foldl (fun colors tc =>
            setProperty colors tc.1 (Json.int (Int.ofNat tc.2))) []))) []
  let patchMods : List (String × Json) :=
    patchModifications.foldl (fun o it =>
      if it.2.empty then o
      else setProperty o (h.patchKeyToString it.1 true) (h.serialize it.2)) []
  Json.obj [("datasources", Json.arr dss), ("tags", Json.obj tagTypes),
    ("tagColors", Json.obj tagColors), ("patches", Json.obj patchMods)]

/-- `DB::saveJson()` (db.cpp:1378): the index file. -/
def saveJson (h : Host) (s : DB W) : DB W × Bool :=
  if !h.hasWriteAccess s.m_jsonFileName then
    (pushError s ("No write access to file:\n" ++ s.m_jsonFileName), false)
  else
    let loop := s.m_dataSources.foldl (saveJsonStep h) (s, s.m_patchModifications, [])
    let s1 := (saveLocalStorage h loop.1).1
    saveJsonTo h s1 s1.m_jsonFileName (indexDocument h s1 loop.2.1 loop.2.2)

/-! ## Tree links -/

/-- Write through a pointer: the live object behind `p` is replaced by `f` of it. -/
def modify {α : Type} (heap : Nat → Option α) (p : Nat) (f : α → α) : Nat → Option α :=
  match heap p with
  | none => heap
  | some v => update heap p (f v)

/-- Modelled from the spec: `DataSourceNode::setParent` (`datasource.cpp` is not among the
sources): the node leaves the child list of its old parent, takes the new parent and
joins the child list of the new parent. -/
def setParent (nodes : NodePtr → Option DataSourceNode) (self : NodePtr)
    (_parent : Option NodePtr) : NodePtr → Option DataSourceNode :=
  match nodes self with
  | none => nodes
  | some n =>
    if n.parent = _parent then nodes
    else
      let nodes1 :=
        match n.parent with
        | none => nodes
        | some op => modify nodes op (fun opn => { opn with children := opn.children.erase self })
      let nodes2 := modify nodes1 self (fun n1 => { n1 with parent := _parent })
      match _parent with
      | none => nodes2
      | some np => modify nodes2 np (fun npn => { npn with children := npn.children ++ [self] })

/-- Modelled from the spec: `DataSourceNode::removeAllChildren` (`datasource.cpp` is not
among the sources): every live child loses its parent and the child list is cleared. -/
def removeAllChildren (nodes : NodePtr → Option DataSourceNode) (self : NodePtr) :
    NodePtr → Option DataSourceNode :=
  match nodes self with
  | none => nodes
  | some n =>
    modify (n.children.foldl (fun hp c => setParent hp c none) nodes) self
      (fun n1 => { n1 with children := [] })

/-- The statement `removed->patches.clear()`. -/
def clearPatches (nodes : NodePtr → Option DataSourceNode) (self : NodePtr) :
    NodePtr → Option DataSourceNode :=
  modify nodes self (fun n => { n with patches := [] })

/-! ## Searches -/

/-- The result set of a search after `erase(key)` for every key. -/
def eraseKeys (_keys : List PatchPtr) (results : List PatchPtr) : List PatchPtr :=
  _keys.foldl (fun r key => setErase key r) results

/-- `DB::removePatchesFromSearches` (db.cpp:1145): every search of the registry loses the
keys; a search whose result count changed is marked dirty. -/
def removePatchesFromSearches (s : DB W) (_keys : List PatchPtr) : DB W × Bool :=
  let countChanged := fun (it : SearchHandle × Search) =>
    decide ((eraseKeys _keys it.2.results).length ≠ it.2.results.length)
  ({ s with
      m_searches :=
        s.m_searches.map (fun it => (it.1, { it.2 with results := eraseKeys _keys it.2.results })),
      m_dirty :=
        { s.m_dirty with
          searches :=
            (s.m_searches.filter countChanged).foldl (fun d it => setInsert it.1 d)
              s.m_dirty.searches } },
    s.m_searches.any countChanged)

/-! ## Removing a data source -/

/-- The recursive lambda `removeChildren` of `DB::removeDataSource` (db.cpp:110).  The
first argument bounds the depth of the recursion; `none` is a recursion that did not
come to an end within that bound. -/
def removeChildren (nodes : NodePtr → Option DataSourceNode) :
    Nat → NodePtr → List NodePtr → Option (List NodePtr)
  | 0, _, _ => none
  | fuel + 1, _parent, removedDataSources =>
    match nodes _parent with
    | none => some removedDataSources
    | some p =>
      p.children.foldlM (fun removed child =>
        match nodes child with
        | none => some removed
        | some c =>
          if c.origin = DataSourceOrigin.Manual then some removed
          else removeChildren nodes fuel child (setInsert child removed)) removedDataSources

/-- The loop of `DB::removeDataSource` that erases the removed nodes from the table
(db.cpp:126), each by its own identity. -/
def eraseRemoved (nodes : NodePtr → Option DataSourceNode)
    (removedDataSources : List NodePtr) (table : List (DataSourceKey × NodePtr)) :
    List (DataSourceKey × NodePtr) :=
  removedDataSources.foldl (fun m removed =>
    match nodes removed with
    | none => m
    | some n => mapErase n.key m) table

/-- The patches of the removed nodes, in the order of the loop (db.cpp:128). -/
def collectPatches (nodes : NodePtr → Option DataSourceNode)
    (removedDataSources : List NodePtr) : List PatchPtr :=
  removedDataSources.foldl (fun removedPatches removed =>
    match nodes removed with
    | none => removedPatches
    | some n => removedPatches ++ n.patches) []

/-- The last loop of `DB::removeDataSource` (db.cpp:146): the links and the patches of
every removed node are dropped. -/
def severRemoved (nodes : NodePtr → Option DataSourceNode)
    (removedDataSources : List NodePtr) : NodePtr → Option DataSourceNode :=
  removedDataSources.foldl (fun hp removedDataSource =>
    clearPatches (removeAllChildren (setParent hp removedDataSource none) removedDataSource)
      removedDataSource) nodes

/-- The task of `DB::removeDataSource` (db.cpp:84).  `fuel` bounds the depth of
`removeChildren`. -/
def removeDataSource (h : Host) (fuel : Nat) (s : DB W) (_ds : DataSource) (_save : Bool) :
    Option (DB W) :=
  match mapFind _ds.key s.m_dataSources with
  | none => some s
  | some it =>
    match s.nodes it with
    | none => some s
    | some ds =>
      if ds.origin = DataSourceOrigin.Manual ∧ ds.hasParent = true then
        some { s with
          nodes := update s.nodes it { ds with origin := DataSourceOrigin.Autogenerated },
          m_dirty := { s.m_dirty with dataSources := true } }
      else
        match removeChildren s.nodes fuel it [it] with
        | none => none
        | some removedDataSources =>
          let removedPatches := collectPatches s.nodes removedDataSources
          let s1 : DB W :=
            { s with m_dataSources := eraseRemoved s.nodes removedDataSources s.m_dataSources }
          let patchesChanged := decide (removedPatches ≠ [])
          let s2 := (removePatchesFromSearches s1 removedPatches).1
          let s3 : DB W :=
            { s2 with
              m_dirty :=
                { s2.m_dirty with
                  dataSources := true,
                  patches := if patchesChanged then true else s2.m_dirty.patches } }
          let s4 : DB W := { s3 with nodes := severRemoved s3.nodes removedDataSources }
          if _save then some (saveJson h s4).1 else some s4

/-! ## Loading -/

/-- The function `synthLib::readFile`: the bytes of a file, `none` when there is no file. -/
def readFile (h : Host) (s : DB W) (file : String) : Option Data :=
  match mapFind file s.files with
  | none => none
  | some (FileContent.data bytes) => some bytes
  | some (FileContent.text j) => some (h.jsonText j)

/-- The call `juce::JSON::parse(file)`; a missing file gives the void value. -/
def parseFile (h : Host) (s : DB W) (file : String) : Json :=
  match mapFind file s.files with
  | none => Json.null
  | some (FileContent.data bytes) => h.parseJson bytes
  | some (FileContent.text j) => j

/-- The property `name` of a JSON value (`operator[]` of `juce::var`). -/
def Json.getProperty (j : Json) (name : String) : Json :=
  match j with
  | Json.obj ps => (mapFind name ps).getD Json.null
  | _ => Json.null

/-- The properties of a JSON value that is an object (`getDynamicObject`). -/
def Json.getDynamicObject (j : Json) : Option (List (String × Json)) :=
  match j with
  | Json.obj ps => some ps
  | _ => none

/-- `DB::parseFileData` (db.cpp:721). -/
def parseFileData (h : Host) (_data : Data) : Bool × DataList :=
  h.extractSysexFromData _data

/-- `DB::loadFile` (db.cpp:669); the size of a file is the number of its bytes. -/
def loadFile (h : Host) (s : DB W) (_file : String) : Bool × DataList :=
  let size := ((readFile h s _file).getD []).length
  if size = 0 ∨ size ≥ 4 * 1024 * 1024 then (false, [])
  else
    match readFile h s _file with
    | none => (false, [])
    | some data => if data = [] then (false, []) else parseFileData h data

/-- `DB::loadLocalStorage` (db.cpp:684). -/
def loadLocalStorage (h : Host) (s : DB W) (_ds : DataSource) : Bool × DataList :=
  match readFile h s (getLocalStorageFile h s _ds) with
  | none => (false, [])
  | some data =>
    let results := h.splitMultipleSysex data
    (decide (results ≠ []), results)

/-- `DB::loadData` (db.cpp:651). -/
def loadData (h : Host) (s : DB W) (_ds : DataSource) : Bool × DataList :=
  match _ds.type with
  | SourceType.Rom => h.loadRomData _ds.bank
  | SourceType.File => loadFile h s _ds.name
  | SourceType.Invalid => (false, [])
  | SourceType.Folder => (false, [])
  | SourceType.Count => (false, [])
  | SourceType.LocalStorage => loadLocalStorage h s _ds

/-- `DB::loadPatchModifications(std::map<PatchKey, PatchModificationsPtr>&, const juce::var&,
const DataSourceNodePtr&)` (db.cpp:1341). -/
def loadPatchModificationsFrom (h : Host) (nodes : NodePtr → Option DataSourceNode)
    (_patchModifications : List (PatchKey × PatchModifications)) (_parentNode : Json)
    (_dataSource : Option NodePtr) : List (PatchKey × PatchModifications) × Bool :=
  match (_parentNode.getProperty "patches").getDynamicObject with
  | none => (_patchModifications, true)
  | some props =>
    props.foldl (fun (acc : List (PatchKey × PatchModifications) × Bool) it =>
      let key := h.patchKeyFromString it.1 ((_dataSource.bind nodes).map (fun n => n.key))
      match h.deserialize it.2 with
      | none => (acc.1, false)
      | some mods =>
        (mapInsert acc.1 key mods, if !h.patchKeyIsValid key then false else acc.2))
      (_patchModifications, true)

/-- The loop of `DB::loadPatchModifications` that applies the loaded overlays to the
patches (db.cpp:1314); it stops as soon as no overlay is left. -/
def applyModifications (nodes : NodePtr → Option DataSourceNode) :
    List PatchPtr → (PatchPtr → Option Patch) × List (PatchKey × PatchModifications) →
      (PatchPtr → Option Patch) × List (PatchKey × PatchModifications)
  | [], acc => acc
  | ptr :: rest, acc =>
    match acc.1 ptr with
    | none => applyModifications nodes rest acc
    | some patch =>
      let key := PatchKey.ofPatch nodes patch
      match mapFind key acc.2 with
      | none => applyModifications nodes rest acc
      | some mods =>
        let heap := update acc.1 ptr { patch with modifications := some { mods with patch := some ptr } }
        let left := mapErase key acc.2
        if left = [] then (heap, left) else applyModifications nodes rest (heap, left)

/-- `DB::loadPatchModifications(const DataSourceNodePtr&, const std::vector<PatchPtr>&)`
(db.cpp:1294): the overlays of the sidecar file of the source. -/
def loadPatchModifications (h : Host) (s : DB W) (_ds : NodePtr) (_patches : List PatchPtr) :
    DB W × Bool :=
  if _patches = [] then (s, true)
  else
    match s.nodes _ds with
    | none => (s, false)
    | some ds =>
      let file := getJsonFile h s ds.toDataSource
      if file = "" then (s, false)
      else if (mapFind file s.files).isNone then (s, true)
      else
        let loaded := loadPatchModificationsFrom h s.nodes [] (parseFile h s file) (some _ds)
        if !loaded.2 then (s, false)
        else
          let applied := applyModifications s.nodes _patches (s.patchHeap, loaded.1)
          ({ s with
              patchHeap := applied.1,
              m_patchModifications :=
                applied.2.foldl (fun m pm => mapInsert m pm.1 pm.2) s.m_patchModifications },
            true)

/-! ## Tags and searches of added patches -/

/-- Insertion into a `std::set` of strings, kept as an increasing list. -/
def tagInsert (a : Tag) : List Tag → List Tag
  | [] => [a]
  | b :: l => if a < b then a :: b :: l else if a = b then b :: l else b :: tagInsert a l

/-- `DB::internalAddTag` (db.cpp:940). -/
def internalAddTag (s : DB W) (_type : TagType) (_tag : Tag) : DB W × Bool :=
  match mapFind _type s.m_tags with
  | none =>
    ({ s with
        m_tags := mapInsert s.m_tags _type [_tag],
        m_dirty := { s.m_dirty with tags := setInsert _type s.m_dirty.tags } }, true)
  | some tags =>
    if _tag ∈ tags then (s, false)
    else
      ({ s with
          m_tags := mapSet s.m_tags _type (tagInsert _tag tags),
          m_dirty := { s.m_dirty with tags := setInsert _type s.m_dirty.tags } }, true)

/-- The result set of one search after `DB::updateSearches` looked at the patches
(db.cpp:1110): a patch that matches is inserted, a patch that does not is erased. -/
def updateResults (h : Host) (s : DB W) (request : SearchRequest) (_patches : List PatchPtr)
    (results : List PatchPtr) : List PatchPtr :=
  _patches.foldl (fun r ptr =>
    match s.patchHeap ptr with
    | none => r
    | some patch =>
      if h.requestMatch s.nodes request patch then setInsert ptr r else setErase ptr r) results

/-- Whether a pass of `DB::updateSearches` over the patches changed the result count of
the search at some patch (`searchDirty`). -/
def updateDirty (h : Host) (s : DB W) (request : SearchRequest) :
    List PatchPtr → List PatchPtr → Bool
  | [], _ => false
  | ptr :: rest, results =>
    let next := updateResults h s request [ptr] results
    decide (next.length ≠ results.length) || updateDirty h s request rest next

/-- `DB::updateSearches` (db.cpp:1097). -/
def updateSearches (h : Host) (s : DB W) (_patches : List PatchPtr) : DB W :=
  { s with
    m_searches :=
      s.m_searches.map (fun it =>
        (it.1, { it.2 with results := updateResults h s it.2.request _patches it.2.results })),
    m_dirty :=
      { s.m_dirty with
        searches :=
          (s.m_searches.filter (fun it =>
            updateDirty h s it.2.request _patches it.2.results)).foldl
              (fun d it => setInsert it.1 d) s.m_dirty.searches } }

/-- The first half of a pass of the loop of `DB::addPatches` (db.cpp:877): a pending
overlay with the key of the patch moves from the pending map to the patch. -/
def attachPending (s : DB W) (ptr : PatchPtr) (patch : Patch) : DB W :=
  match mapFind (PatchKey.ofPatch s.nodes patch) s.m_patchModifications with
  | none => s
  | some mods =>
    { s with
      patchHeap :=
        update s.patchHeap ptr { patch with modifications := some { mods with patch := some ptr } },
      m_patchModifications := mapErase (PatchKey.ofPatch s.nodes patch) s.m_patchModifications }

/-- The second half of a pass of the loop of `DB::addPatches` (db.cpp:890): every added
tag of the patch is registered. -/
def registerTags (s : DB W) (tags : TypedTags) : DB W :=
  tags.foldl (fun st it =>
    it.2.added.foldl (fun st tag => (internalAddTag st it.1 tag).1) st) s

/-- One pass of the loop of `DB::addPatches` (db.cpp:873). -/
def addPatchesStep (h : Host) (s : DB W) (ptr : PatchPtr) : DB W :=
  match s.patchHeap ptr with
  | none => s
  | some patch =>
    match (attachPending s ptr patch).patchHeap ptr with
    | none => attachPending s ptr patch
    | some patch1 => registerTags (attachPending s ptr patch) (h.getTags patch1)

/-- `DB::addPatches` (db.cpp:866). -/
def addPatches (h : Host) (s : DB W) (_patches : List PatchPtr) : DB W × Bool :=
  if _patches = [] then (s, false)
  else (updateSearches h (_patches.foldl (addPatchesStep h) s) _patches, true)

/-! ## Adding a data source -/

/-- The expression `std::make_shared<DataSourceNode>(...)`: a node at a fresh address. -/
def newNode (s : DB W) (n : DataSourceNode) : DB W × NodePtr :=
  ({ s with nodes := update s.nodes s.nextNode n, nextNode := s.nextNode + 1 }, s.nextNode)

/-- The end of the scope of a local node pointer: a node that the table does not hold is
destroyed, and weak pointers to it are expired from then on. -/
def release (s : DB W) (ptr : NodePtr) : DB W :=
  if s.m_dataSources.any (fun e => decide (e.2 = ptr)) then s
  else { s with nodes := fun q => if q = ptr then none else s.nodes q }

/-- The first block of `DB::addDataSource(const DataSourceNodePtr&)` (db.cpp:772 to 808):
the merge with a node of the same identity.  `none` is the early return of the branch
where nothing is to be done; otherwise the state, the node to go on with and `dsExists`
are returned. -/
def mergeExisting (s : DB W) (_ds : NodePtr) (n : DataSourceNode) :
    Option (DB W × NodePtr × Bool) :=
  match mapFind n.key s.m_dataSources with
  | none => some (s, _ds, false)
  | some ds =>
    match s.nodes ds with
    | none => some (s, ds, true)
    | some e =>
      if n.origin = DataSourceOrigin.Manual then
        some ({ s with
            nodes := update s.nodes ds { e with origin := n.origin },
            m_dirty := { s.m_dirty with dataSources := true } }, ds, true)
      else if n.hasParent = true ∧ e.hasParent = false then
        some ({ s with
            nodes := setParent s.nodes ds n.parent,
            m_dirty := { s.m_dirty with dataSources := true } }, ds, true)
      else none

/-- The lambda `addDsToList` of `DB::addDataSource` (db.cpp:810), with `dsExists` passed
in; after the call `dsExists` is true. -/
def addDsToList (s : DB W) (ds : NodePtr) (dsExists : Bool) : DB W :=
  if dsExists then s
  else
    match s.nodes ds with
    | none => s
    | some n =>
      { s with
        m_dataSources := mapInsert s.m_dataSources n.key ds,
        m_dirty := { s.m_dirty with dataSources := true } }

/-- One pass of the loop over the loaded data in `DB::addDataSource` (db.cpp:842) for the
payload `d` with index `p`.  The patch object takes the next address; an invalid patch is
dropped, so its address is never used again. -/
def ingestStep (h : Host) (ds : NodePtr) (acc : DB W × List PatchPtr) (p : Nat) (d : Data) :
    DB W × List PatchPtr :=
  match h.initializePatch d with
  | none => acc
  | some patch0 =>
    let patch : Patch := { patch0 with source := some ds }
    if isValid (some patch) then
      ({ acc.1 with
          patchHeap := update acc.1.patchHeap acc.1.nextPatch { patch with program := p },
          nextPatch := acc.1.nextPatch + 1,
          nodes := modify acc.1.nodes ds
            (fun n => { n with patches := setInsert acc.1.nextPatch n.patches }) },
        acc.2 ++ [acc.1.nextPatch])
    else ({ acc.1 with nextPatch := acc.1.nextPatch + 1 }, acc.2)

/-- The loop over the loaded data in `DB::addDataSource` (db.cpp:842), from index `p`. -/
def ingestFrom (h : Host) (ds : NodePtr) :
    Nat → DataList → DB W × List PatchPtr → DB W × List PatchPtr
  | _, [], acc => acc
  | p, d :: rest, acc => ingestFrom h ds (p + 1) rest (ingestStep h ds acc p d)

/-- The part of `DB::addDataSource(const DataSourceNodePtr&)` for a source that is not a
folder (db.cpp:831 to 863). -/
def addLoaded (h : Host) (s : DB W) (ds : NodePtr) (dn : DataSourceNode) (dsExists : Bool) :
    DB W :=
  let s2 := if dn.origin = DataSourceOrigin.Manual then addDsToList s ds dsExists else s
  let dsExists2 := dsExists || decide (dn.origin = DataSourceOrigin.Manual)
  let data := loadData h s2 dn.toDataSource
  if data.1 = true ∧ data.2 ≠ [] then
    let ing := ingestFrom h ds 0 data.2 (s2, [])
    if ing.2 ≠ [] then
      let s3 := addDsToList ing.1 ds dsExists2
      let s4 := (loadPatchModifications h s3 ds ing.2).1
      (addPatches h s4 ing.2).1
    else ing.1
  else s2

/-- The child node that `DB::loadFolder` makes for a file (db.cpp:705): it is created,
linked to the folder and then named and typed. -/
def newChild (h : Host) (s : DB W) (_folder : NodePtr) (file : String) : DB W × NodePtr :=
  let a := newNode s
    ⟨⟨SourceType.Invalid, "", DataSourceOrigin.Autogenerated, h.invalidBank⟩, [], none, []⟩
  let nodes1 := setParent a.1.nodes a.2 (some _folder)
  let nodes2 := modify nodes1 a.2 (fun c =>
    { c with
      name := file,
      origin := DataSourceOrigin.Autogenerated,
      type := if h.isDirectory file then SourceType.Folder else SourceType.File })
  ({ a.1 with nodes := nodes2 }, a.2)

/-- `DB::addDataSource(const DataSourceNodePtr&)` (db.cpp:763) with `DB::loadFolder`
(db.cpp:696) as the loop of its folder branch.  The first argument bounds the depth of
the recursion through folders; `none` is a recursion that did not come to an end within
that bound. -/
def addDataSource (h : Host) : Nat → DB W → NodePtr → Option (DB W)
  | 0, _, _ => none
  | fuel + 1, s, _ds =>
    if s.loaderDestroyed then some s
    else
      match s.nodes _ds with
      | none => some s
      | some n =>
        match mergeExisting s _ds n with
        | none => some s
        | some m =>
          match m.1.nodes m.2.1 with
          | none => some m.1
          | some dn =>
            if dn.type = SourceType.Folder then
              (h.findFiles dn.name).foldlM (fun st file =>
                let c := newChild h st m.2.1 file
                (addDataSource h fuel c.1 c.2).map (fun st' => release st' c.2))
                (addDsToList m.1 m.2.1 m.2.2)
            else some (addLoaded h m.1 m.2.1 dn m.2.2)

/-- `DB::addDataSource(const DataSource&, bool)` (db.cpp:68): the node is made and the
task adds it and saves the index when needed.  The node is returned to the caller. -/
def addDataSourceTask (h : Host) (fuel : Nat) (s : DB W) (_ds : DataSource) (_save : Bool) :
    Option (DB W × NodePtr) :=
  let needsSave :=
    _save && decide (_ds.origin = DataSourceOrigin.Manual) && decide (_ds.type ≠ SourceType.Rom)
  let a := newNode s ⟨_ds, [], none, []⟩
  match addDataSource h fuel a.1 a.2 with
  | none => none
  | some s2 => some (if needsSave then (saveJson h s2).1 else s2, a.2)

/-! ## Renaming a data source and draining the UI channel -/

/-- `DB::renameDataSource` (db.cpp:172): the two checks of the caller and then the task. -/
def renameDataSource (h : Host) (s : DB W) (_ds : NodePtr) (_newName : String) : DB W :=
  match s.nodes _ds with
  | none => s
  | some n =>
    if n.type ≠ SourceType.LocalStorage then s
    else if _newName = "" then s
    else
      match mapFind n.key s.m_dataSources with
      | none => s
      | some it =>
        match s.nodes it with
        | none => s
        | some ds =>
          if ds.name = _newName then s
          else if s.m_dataSources.any (fun e =>
              match s.nodes e.2 with
              | none => false
              | some d => decide (d.type = SourceType.LocalStorage) && decide (d.name = _newName))
            then s
          else
            let renamed : DataSourceNode := { ds with name := _newName }
            let s1 : DB W :=
              { s with
                nodes := update s.nodes it renamed,
                m_dataSources := mapInsert (mapErase n.key s.m_dataSources) renamed.key it }
            let s2 : DB W := { s1 with m_dirty := { s1.m_dirty with dataSources := true } }
            (saveJson h s2).1

/-- `DB::uiProcess` (db.cpp:292).  The result is the state after the call, the `Dirty`
handed to the caller and the state `w` that the queued functions have acted on. -/
def uiProcess (s : DB W) (w : W) : DB W × Dirty × W :=
  let uiFuncs := s.m_uiFuncs
  let _dirty := s.m_dirty
  let s1 : DB W := { s with m_uiFuncs := [], m_dirty := Dirty.empty }
  (s1, _dirty, uiFuncs.foldl (fun w func => func w) w)

/-! ## Searches: registration, cancellation and execution -/

/-- `DB::search` (db.cpp:306): the search gets the next handle and joins the registry.
The handle is a `uint32_t`.  The task that the call queues is `executeSearch` for the new
search. -/
def search (s : DB W) (_request : SearchRequest) : DB W × Search :=
  let x : Search := ⟨s.m_nextSearchHandle, _request, [], SearchState.NotStarted⟩
  ({ s with
      m_nextSearchHandle := (s.m_nextSearchHandle + 1) % 2 ^ 32,
      m_searches := mapInsert s.m_searches x.handle x }, x)

/-- `DB::cancelSearch` (db.cpp:336). -/
def cancelSearch (s : DB W) (_handle : SearchHandle) : DB W :=
  { s with
    m_cancelledSearches := setInsert _handle s.m_cancelledSearches,
    m_searches := mapErase _handle s.m_searches }

/-- `DB::getSearch(SearchHandle)` (db.cpp:343), `none` being the empty pointer. -/
def getSearch (s : DB W) (_handle : SearchHandle) : Option Search :=
  mapFind _handle s.m_searches

/-- The test of one patch in the content branch of `DB::executeSearch` (db.cpp:1001). -/
def contentMatch (h : Host) (patch reqPatch : Patch) : Bool :=
  if patch.hash = reqPatch.hash then true
  else if patch.sysex.length = reqPatch.sysex.length ∧ patch.getName = reqPatch.getName then
    h.equals patch reqPatch
  else false

/-- The two loops of the content branch of `DB::executeSearch` (db.cpp:997): the local
set `results` after the scan of every node of the table. -/
def contentResults (h : Host) (s : DB W) (reqPatch : Patch) : List PatchPtr :=
  s.m_dataSources.foldl (fun results it =>
    match s.nodes it.2 with
    | none => results
    | some ds =>
      ds.patches.foldl (fun results ptr =>
        match s.patchHeap ptr with
        | none => results
        | some patch => if contentMatch h patch reqPatch then setInsert ptr results else results)
        results) []

/-- The loop over the patches of one node in the lambda `searchInDs` (db.cpp:1051). -/
def scanPatches (h : Host) (s : DB W) (request : SearchRequest) (_patches : List PatchPtr)
    (results : List PatchPtr) : List PatchPtr :=
  _patches.foldl (fun r ptr =>
    match s.patchHeap ptr with
    | none => r
    | some patch => if h.requestMatch s.nodes request patch then setInsert ptr r else r) results

/-- The lambda `searchInDs` of `DB::executeSearch` (db.cpp:1026).  The result is the state,
the search and the value that the lambda returns: whether the scan goes on. -/
def searchInDs (h : Host) (s : DB W) (_search : Search) (_ds : NodePtr) :
    DB W × Search × Bool :=
  match s.nodes _ds with
  | none => (s, _search, true)
  | some ds =>
    if _search.request.sourceNode = none ∧
        h.getSourceType s.nodes _search.request ≠ SourceType.Invalid ∧
        ds.type ≠ _search.request.sourceType then (s, _search, true)
    else if _search.handle ∈ s.m_cancelledSearches then
      ({ s with
          m_cancelledSearches := setErase _search.handle s.m_cancelledSearches,
          m_dirty := { s.m_dirty with searches := setInsert _search.handle s.m_dirty.searches } },
        { _search with state := SearchState.Cancelled }, false)
    else
      (s, { _search with
          results := scanPatches h s _search.request ds.patches _search.results }, true)

/-- The loop over the table in the filter branch of `DB::executeSearch` (db.cpp:1080): it
stops at the first node for which `searchInDs` returns false. -/
def searchInAll (h : Host) : List NodePtr → DB W → Search → DB W × Search × Bool
  | [], s, _search => (s, _search, true)
  | ds :: rest, s, _search =>
    let r := searchInDs h s _search ds
    if r.2.2 then searchInAll h rest r.1 r.2.1 else r

/-- The search object is shared between the task and the registry: what the task writes
to it shows in the entry of the registry that holds it. -/
def storeSearch (s : DB W) (x : Search) : DB W :=
  { s with m_searches := s.m_searches.map (fun it => if it.1 = x.handle then (it.1, x) else it) }

/-- The end of the filter branch of `DB::executeSearch` (db.cpp:1087). -/
def completeSearch (s : DB W) (_search : Search) : DB W × Search × Bool :=
  ({ s with m_dirty := { s.m_dirty with searches := setInsert _search.handle s.m_dirty.searches } },
    { _search with state := SearchState.Completed }, true)

/-- The body of `DB::executeSearch` (db.cpp:986) on the search object.  A pointer that the
request holds is a shared pointer and points to a live object; a dangling one is read as
a request for a node or patch that nothing equals. -/
def runSearch (h : Host) (s : DB W) (_search : Search) : DB W × Search × Bool :=
  let running : Search := { _search with state := SearchState.Running }
  match running.request.patch with
  | some reqPatch =>
    let results :=
      match s.patchHeap reqPatch with
      | none => []
      | some req => contentResults h s req
    let found : Search := if results ≠ [] then { running with results := results } else running
    completeSearch s found
  | none =>
    if running.request.sourceNode ≠ none ∧
        (h.getSourceType s.nodes running.request = SourceType.File ∨
          h.getSourceType s.nodes running.request = SourceType.LocalStorage) then
      match (running.request.sourceNode.bind s.nodes).bind
          (fun n => mapFind n.key s.m_dataSources) with
      | none => (s, { running with state := SearchState.Completed }, false)
      | some it =>
        let r := searchInDs h s running it
        if r.2.2 then completeSearch r.1 r.2.1 else (r.1, r.2.1, false)
    else
      let r := searchInAll h (s.m_dataSources.map Prod.snd) s running
      if r.2.2 then completeSearch r.1 r.2.1 else (r.1, r.2.1, false)

/-- `DB::executeSearch` (db.cpp:986): the state after the call, the search object after
the call and the returned value. -/
def executeSearch (h : Host) (s : DB W) (_search : Search) : DB W × Search × Bool :=
  let r := runSearch h s _search
  (storeSearch r.1 r.2.1, r.2.1, r.2.2)

/-! ## Tags and names of patches -/

/-- Modelled from the spec: `TypedTags::empty` (`tags.h` is not among the sources): no tag
is added and none is removed. -/
def typedTagsEmpty (t : TypedTags) : Bool :=
  t.all (fun e => decide (e.2.added = []) && decide (e.2.removed = []))

/-- The overlay that `modifyTags` and `renamePatch` make for a patch without one:
`std::make_shared<PatchModifications>()` with the back-reference set to the patch. -/
def overlayOf (ptr : PatchPtr) (patch : Patch) : PatchModifications :=
  match patch.modifications with
  | some m => m
  | none => ⟨[], "", some ptr⟩

/-- One pass of the loop of `DB::modifyTags` (db.cpp:539).  The second component is the
vector `changed`. -/
def modifyTagsStep (h : Host) (_tags : TypedTags) (acc : DB W × List PatchPtr)
    (ptr : PatchPtr) : DB W × List PatchPtr :=
  match acc.1.patchHeap ptr with
  | none => acc
  | some patch =>
    if (patch.source.bind acc.1.nodes).isNone then acc
    else
      let r := h.modifyTags (overlayOf ptr patch) _tags
      let s1 : DB W :=
        { acc.1 with
          patchHeap := update acc.1.patchHeap ptr { patch with modifications := some r.1 } }
      if !r.2 then (s1, acc.2) else (s1, acc.2 ++ [ptr])

/-- The vector `changed` of `DB::modifyTags` after the loop (db.cpp:559). -/
def changedPatches (h : Host) (s : DB W) (_patches : List PatchPtr) (_tags : TypedTags) :
    List PatchPtr :=
  (_patches.foldl (modifyTagsStep h _tags) (s, [])).2

/-- `DB::modifyTags` (db.cpp:528). -/
def modifyTags (h : Host) (s : DB W) (_patches : List PatchPtr) (_tags : TypedTags) :
    DB W × Bool :=
  if typedTagsEmpty _tags then (s, false)
  else
    let r := _patches.foldl (modifyTagsStep h _tags) (s, [])
    let s1 := if r.2 ≠ [] then updateSearches h r.1 r.2 else r.1
    let s2 := if r.2 ≠ [] then (saveJson h s1).1 else s1
    (s2, true)

/-- `DB::renamePatch` (db.cpp:573).  The task that the call queues is `saveJson`; it is
run at the end of the call. -/
def renamePatch (h : Host) (s : DB W) (_patch : PatchPtr) (_name : String) : DB W × Bool :=
  match s.patchHeap _patch with
  | none => (s, false)
  | some patch =>
    if patch.getName = _name then (s, false)
    else if _name = "" then (s, false)
    else if (patch.source.bind s.nodes).isNone then (s, false)
    else
      let mods : PatchModifications := { overlayOf _patch patch with name := _name }
      let s1 : DB W :=
        { s with patchHeap := update s.patchHeap _patch { patch with modifications := some mods } }
      let s2 := updateSearches h s1 [_patch]
      ((saveJson h s2).1, true)

/-! ## Removing patches -/

/-- The overlay of a removed patch goes to the pending map when it is not empty
(db.cpp:922): its back-reference is reset and `insert` puts it under the key of the
patch. -/
def retainOverlay (s : DB W) (_patch : PatchPtr) (patch : Patch) : DB W :=
  match patch.modifications with
  | none => s
  | some mods =>
    if !mods.empty then
      { s with
        patchHeap :=
          update s.patchHeap _patch { patch with modifications := some { mods with patch := none } },
        m_patchModifications :=
          mapInsert s.m_patchModifications (PatchKey.ofPatch s.nodes patch)
            { mods with patch := none } }
    else s

/-- `DB::removePatch` (db.cpp:906).  The lookup in the table takes the key from
`*_patch->source.lock()`: the pointer that `lock()` returns is dereferenced without a
test.  `none` is the call without a defined result, the dereference of a pointer that
points to no object: the source reference of the patch is expired. -/
def removePatch (s : DB W) (_patch : PatchPtr) : Option (DB W × Bool) :=
  match s.patchHeap _patch with
  | none => none
  | some patch =>
    match patch.source.bind s.nodes with
    | none => none
    | some source =>
      match mapFind source.key s.m_dataSources with
      | none => some (s, false)
      | some ds =>
        match s.nodes ds with
        | none => none
        | some dn =>
          if _patch ∉ dn.patches then some (s, false)
          else
            let s1 := retainOverlay s _patch patch
            let s2 : DB W :=
              { s1 with
                nodes :=
                  modify s1.nodes ds (fun n => { n with patches := setErase _patch n.patches }) }
            let s3 := (removePatchesFromSearches s2 [_patch]).1
            some ({ s3 with m_dirty := { s3.m_dirty with patches := true } }, true)

/-- The loop of `DB::removePatches` (db.cpp:441): the patches that the node held leave its
patch set and are collected in `removedPatches`. -/
def erasePatches (nodes : NodePtr → Option DataSourceNode) (_ds : NodePtr)
    (_patches : List PatchPtr) : (NodePtr → Option DataSourceNode) × List PatchPtr :=
  _patches.foldl (fun acc patch =>
    match acc.1 _ds with
    | none => acc
    | some n =>
      if patch ∈ n.patches then
        (update acc.1 _ds { n with patches := setErase patch n.patches }, acc.2 ++ [patch])
      else acc) (nodes, [])

/-- `DB::removePatches` (db.cpp:423): the check of the caller and then the task. -/
def removePatches (h : Host) (s : DB W) (_ds : NodePtr) (_patches : List PatchPtr) : DB W :=
  match s.nodes _ds with
  | none => s
  | some n =>
    if n.type ≠ SourceType.LocalStorage then s
    else
      match mapFind n.key s.m_dataSources with
      | none => s
      | some _ =>
        let r := erasePatches s.nodes _ds _patches
        if r.2 = [] then s
        else
          let s1 := (removePatchesFromSearches { s with nodes := r.1 } r.2).1
          let s2 : DB W := { s1 with m_dirty := { s1.m_dirty with patches := true } }
          (saveJson h s2).1

/-! ## Copying patches to a local store -/

/-- Modelled from the spec: the constant `g_invalidProgram` (`patch.h` is not among the
sources): the program of a patch without a program, all bits of a `uint32_t` set. -/
def invalidProgram : Nat :=
  2 ^ 32 - 1

/-- Modelled from the spec: `DataSource::contains` (`datasource.cpp` is not among the
sources): whether the patch set of the node holds the patch. -/
def DataSourceNode.contains (n : DataSourceNode) (patch : PatchPtr) : Bool :=
  decide (patch ∈ n.patches)

/-- Modelled from the spec: `DataSource::getMaxProgramNumber` (`datasource.cpp` is not
among the sources): the largest program of the patches of the node, and the invalid
program for a node without patches, so that the successor is the program 0. -/
def getMaxProgramNumber (s : DB W) (n : DataSourceNode) : Nat :=
  if n.patches = [] then invalidProgram
  else n.patches.foldl (fun m q => max m (programOf s q)) 0

/-- Modelled from the spec: `DataSource::makeSpaceForNewPatches` (`datasource.cpp` is not
among the sources): every patch of the node whose program is not below the insert
position moves up by the count. -/
def makeSpaceForNewPatches (s : DB W) (n : DataSourceNode) (_insertPosition _count : Nat) :
    DB W :=
  { s with
    patchHeap := fun q =>
      if q ∈ n.patches then
        (s.patchHeap q).map (fun p =>
          if _insertPosition ≤ p.program then
            { p with program := (p.program + _count) % 2 ^ 32 }
          else p)
      else s.patchHeap q }

/-- Modelled from the spec: `Patch::createCopy` (`patch.cpp` is not among the sources): a
new patch with the same payload and hash, an overlay of its own and no program, owned by
the target node.  The copy joins the patch set of the target: `copyPatchesTo` never
inserts it itself, and the target holds the copies afterwards. -/
def createCopy (s : DB W) (patch : Patch) (_ds : NodePtr) : DB W × PatchPtr :=
  ({ s with
      patchHeap :=
        update s.patchHeap s.nextPatch
          { patch with
            program := invalidProgram,
            source := some _ds,
            modifications := patch.modifications.map (fun m => { m with patch := some s.nextPatch }) },
      nextPatch := s.nextPatch + 1,
      nodes := modify s.nodes _ds (fun n => { n with patches := setInsert s.nextPatch n.patches }) },
    s.nextPatch)

/-- One pass of the loop of `DB::copyPatchesTo` that copies the patches (db.cpp:406): the
state, the counter `newPatchProgramNumber` and the vector `newPatches`. -/
def copyStep (_ds : NodePtr) (acc : DB W × Nat × List PatchPtr) (patch : PatchPtr) :
    DB W × Nat × List PatchPtr :=
  match acc.1.patchHeap patch with
  | none => acc
  | some p =>
    let c := createCopy acc.1 p _ds
    ({ c.1 with patchHeap := modify c.1.patchHeap c.2 (fun q => { q with program := acc.2.1 }) },
      (acc.2.1 + 1) % 2 ^ 32, acc.2.2 ++ [c.2])

/-- The loop of `DataSource::createConsecutiveProgramNumbers` over the sorted patches:
the patches get the programs `i`, `i + 1` and so on. -/
def renumber (heap : PatchPtr → Option Patch) : Nat → List PatchPtr → PatchPtr → Option Patch
  | _, [] => heap
  | i, q :: rest => renumber (modify heap q (fun p => { p with program := i })) (i + 1) rest

/-- `DB::createConsecutiveProgramNumbers` (db.cpp:1177) with, modelled from the spec,
`DataSource::createConsecutiveProgramNumbers` (`datasource.cpp` is not among the sources):
the patches of the node, in the order of their programs, get the programs 0, 1 and so on;
the result says whether a program changed. -/
def createConsecutiveProgramNumbers (s : DB W) (_ds : NodePtr) : DB W × Bool :=
  match s.nodes _ds with
  | none => (s, false)
  | some n =>
    if n.patches = [] then (s, false)
    else
      ({ s with patchHeap := renumber s.patchHeap 0 (sortByProgram s n.patches) },
        (sortByProgram s n.patches).enum.any (fun e => decide (programOf s e.2 ≠ e.1)))

/-- `DB::copyPatchesTo` (db.cpp:367): the check of the caller and then the task.  The row
is an `int`; the programs are `uint32_t`. -/
def copyPatchesTo (h : Host) (s : DB W) (_ds : NodePtr) (_patches : List PatchPtr)
    (_insertRow : Int) : DB W :=
  match s.nodes _ds with
  | none => s
  | some n =>
    if n.type ≠ SourceType.LocalStorage then s
    else
      match mapFind n.key s.m_dataSources with
      | none => s
      | some _ =>
        let patchesToAdd := _patches.filter (fun patch => !n.contains patch)
        if patchesToAdd = [] then s
        else
          let next := (getMaxProgramNumber s n + 1) % 2 ^ 32
          let row := if 0 ≤ _insertRow then (_insertRow % 2 ^ 32).toNat else next
          let newPatchProgramNumber := if next < row then next else row
          let s1 := makeSpaceForNewPatches s n newPatchProgramNumber
            (patchesToAdd.length % 2 ^ 32)
          let r := patchesToAdd.foldl (copyStep _ds) (s1, newPatchProgramNumber, [])
          let s2 := (addPatches h r.1 r.2.2).1
          let s3 := (createConsecutiveProgramNumbers s2 _ds).1
          (saveJson h s3).1

/-! ## Loading the index -/

/-- `DB::getTagColorInternal` (db.cpp:1183). -/
def getTagColorInternal (s : DB W) (_type : TagType) (_tag : Tag) : Color :=
  match mapFind _type s.m_tagColors with
  | none => 0
  | some tags =>
    match mapFind _tag tags with
    | none => 0
    | some c => c

/-- `DB::getTagColor` (db.cpp:244). -/
def getTagColor (s : DB W) (_type : TagType) (_tag : Tag) : Color :=
  getTagColorInternal s _type _tag

/-- `DB::setTagColor` (db.cpp:213) with the task that it queues.  The invalid colour
erases the entry of the tag; for another colour the test `m_tagColors[_type][_tag] ==
_color` goes through `operator[]`, which adds the entries that are missing with the value
0, also when the call then returns false. -/
def setTagColor (h : Host) (s : DB W) (_type : TagType) (_tag : Tag) (_color : Color) :
    DB W × Bool :=
  if _color = h.invalidColor then
    match mapFind _type s.m_tagColors with
    | none => (s, false)
    | some tags =>
      if (mapFind _tag tags).isNone then (s, false)
      else
        let s1 : DB W := { s with m_tagColors := mapSet s.m_tagColors _type (mapErase _tag tags) }
        let s2 : DB W :=
          { s1 with m_dirty := { s1.m_dirty with tags := setInsert _type s1.m_dirty.tags } }
        ((saveJson h s2).1, true)
  else
    let tags := mapInsert ((mapFind _type s.m_tagColors).getD []) _tag 0
    let s1 : DB W := { s with m_tagColors := mapSet s.m_tagColors _type tags }
    if (mapFind _tag tags).getD 0 = _color then (s1, false)
    else
      let s2 : DB W := { s1 with m_tagColors := mapSet s1.m_tagColors _type (mapSet tags _tag _color) }
      let s3 : DB W :=
        { s2 with m_dirty := { s2.m_dirty with tags := setInsert _type s2.m_dirty.tags } }
      ((saveJson h s3).1, true)

/-! ## Parameter indices of the controller -/

/-- The structure `Controller::ParamIndex` (controller.h:100): three `uint8_t`. -/
structure ParamIndex where
  page : Nat
  partNum : Nat
  paramNum : Nat
  deriving DecidableEq, Repr

/-- `Controller::ParamIndex::operator<` (controller.h:106). -/
def ParamIndex.lt (a _p : ParamIndex) : Bool :=
  if a.page < _p.page then true
  else if a.page > _p.page then false
  else if a.partNum < _p.partNum then true
  else if a.partNum > _p.partNum then false
  else if a.paramNum < _p.paramNum then true
  else if a.paramNum > _p.paramNum then false
  else false

/-- `Controller::ParamIndex::operator==` (controller.h:117).  The last two operands of the
conjunction are the numbers `paramNum` and `_p.paramNum` themselves, converted to `bool`. -/
def ParamIndex.eq (a _p : ParamIndex) : Bool :=
  decide (a.page = _p.page) && decide (a.partNum = _p.partNum) && decide (a.paramNum ≠ 0)
    && decide (_p.paramNum ≠ 0)

/-! ## Predicates of the statements -/

/-- The catalog part of two states is the same: everything but the files and the error
list, and the error list only grew. -/
structure SameCatalog (s s' : DB W) : Prop where
  nodes : s'.nodes = s.nodes
  patchHeap : s'.patchHeap = s.patchHeap
  nextNode : s'.nextNode = s.nextNode
  nextPatch : s'.nextPatch = s.nextPatch
  loaderDestroyed : s'.loaderDestroyed = s.loaderDestroyed
  m_settingsDir : s'.m_settingsDir = s.m_settingsDir
  m_jsonFileName : s'.m_jsonFileName = s.m_jsonFileName
  m_dataSources : s'.m_dataSources = s.m_dataSources
  m_tags : s'.m_tags = s.m_tags
  m_tagColors : s'.m_tagColors = s.m_tagColors
  m_patchModifications : s'.m_patchModifications = s.m_patchModifications
  m_searches : s'.m_searches = s.m_searches
  m_cancelledSearches : s'.m_cancelledSearches = s.m_cancelledSearches
  m_nextSearchHandle : s'.m_nextSearchHandle = s.m_nextSearchHandle
  m_uiFuncs : s'.m_uiFuncs = s.m_uiFuncs
  dirty_dataSources : s'.m_dirty.dataSources = s.m_dirty.dataSources
  dirty_patches : s'.m_dirty.patches = s.m_dirty.patches
  dirty_tags : s'.m_dirty.tags = s.m_dirty.tags
  dirty_searches : s'.m_dirty.searches = s.m_dirty.searches
  errors : ∃ es, s'.m_dirty.errors = s.m_dirty.errors ++ es

/-- Two node heaps hold the same data sources with the same patch sets; only the links
between the nodes may differ. -/
def SameData (nodes nodes' : NodePtr → Option DataSourceNode) : Prop :=
  ∀ q, (nodes' q).map (fun n => (n.toDataSource, n.patches)) =
    (nodes q).map (fun n => (n.toDataSource, n.patches))

/-- The heap `nodes'` holds the data sources of `nodes`; the patch sets of the nodes of
`rs` are empty and the other patch sets are as in `nodes`. -/
def Cleared (rs : List NodePtr) (nodes nodes' : NodePtr → Option DataSourceNode) : Prop :=
  ∀ q, (nodes' q).map (fun n => (n.toDataSource, n.patches)) =
    (nodes q).map (fun n => (n.toDataSource, if q ∈ rs then [] else n.patches))

/-- The live node `c` is listed as a child of the live node `p`. -/
def IsChild (nodes : NodePtr → Option DataSourceNode) (p c : NodePtr) : Prop :=
  ∃ pn cn, nodes p = some pn ∧ c ∈ pn.children ∧ nodes c = some cn

/-- The live node `c` is listed as a child of the live node `p` and is Autogenerated. -/
def IsAutoChild (nodes : NodePtr → Option DataSourceNode) (p c : NodePtr) : Prop :=
  ∃ pn cn, nodes p = some pn ∧ c ∈ pn.children ∧ nodes c = some cn ∧
    cn.origin = DataSourceOrigin.Autogenerated

/-- The node `x` is below `a` in the child tree, at any depth. -/
def Descendant (nodes : NodePtr → Option DataSourceNode) (a x : NodePtr) : Prop :=
  Relation.TransGen (IsChild nodes) a x

/-- The node `x` is reached from `a` through children that are all Autogenerated. -/
def AutoDescendant (nodes : NodePtr → Option DataSourceNode) (a x : NodePtr) : Prop :=
  Relation.TransGen (IsAutoChild nodes) a x

/-- The child lists have no cycle: `rank` decreases from a node to its children. -/
def Ranked (nodes : NodePtr → Option DataSourceNode) (rank : NodePtr → Nat) : Prop :=
  ∀ p c, IsChild nodes p c → rank c < rank p

/-- The invariants that tie the table to the child tree. -/
structure TreeInvariant (s : DB W) : Prop where
  /-- a table entry holds a live node under the identity of that node -/
  keyed : ∀ e ∈ s.m_dataSources, ∃ n, s.nodes e.2 = some n ∧ n.key = e.1
  /-- the table holds every identity at most once -/
  nodupKeys : (s.m_dataSources.map Prod.fst).Nodup
  /-- a listed child points back to the node that lists it -/
  parentLink : ∀ p c, IsChild s.nodes p c → ∃ cn, s.nodes c = some cn ∧ cn.parent = some p
  /-- a listed child is the node that the table holds for its identity, if it holds one -/
  childOwned : ∀ p c, IsChild s.nodes p c →
    ∀ cn, s.nodes c = some cn → ∀ v, (cn.key, v) ∈ s.m_dataSources → v = c

/-- A patch without its overlay. -/
def stripMods (p : Patch) : Patch :=
  { p with modifications := none }

/-- The patch heap `heap'` differs from `heap` at most in the overlays of the patches of
`touched`. -/
def SameUpToMods (touched : List PatchPtr) (heap heap' : PatchPtr → Option Patch) : Prop :=
  ∀ q, (heap' q).map stripMods = (heap q).map stripMods ∧ (q ∉ touched → heap' q = heap q)

/-- The part of the state that the registration of patches leaves alone: the nodes, the
table, the counters, the files and the error list. -/
structure SameNodes (s s' : DB W) : Prop where
  nodes : s'.nodes = s.nodes
  nextNode : s'.nextNode = s.nextNode
  nextPatch : s'.nextPatch = s.nextPatch
  loaderDestroyed : s'.loaderDestroyed = s.loaderDestroyed
  m_settingsDir : s'.m_settingsDir = s.m_settingsDir
  m_dataSources : s'.m_dataSources = s.m_dataSources
  files : s'.files = s.files
  errors : s'.m_dirty.errors = s.m_dirty.errors

/-- What the loop over the loaded data leaves behind: `r` is the state after the loop
over `data` (whose first payload has the index `p0`) that started in `s0` with the node
`dn0` behind `ds`, and `new` are the patches that the loop kept. -/
structure Ingested (h : Host) (ds : NodePtr) (data : DataList) (p0 : Nat) (s0 : DB W)
    (dn0 : DataSourceNode) (r : DB W) (new : List PatchPtr) : Prop where
  node : ∃ P, r.nodes ds = some { dn0 with patches := P } ∧
    ∀ x, x ∈ P ↔ x ∈ dn0.patches ∨ x ∈ new
  others : ∀ q, q ≠ ds → r.nodes q = s0.nodes q
  next : s0.nextPatch ≤ r.nextPatch
  fresh : ∀ x ∈ new, s0.nextPatch ≤ x ∧ x < r.nextPatch
  made : ∀ x ∈ new, ∃ i d patch0, p0 ≤ i ∧ data[i - p0]? = some d ∧
    h.initializePatch d = some patch0 ∧ isValid (some patch0) = true ∧
    r.patchHeap x = some { patch0 with source := some ds, program := i }
  kept : ∀ x, x ∉ new → r.patchHeap x = s0.patchHeap x
  m_searches : r.m_searches = s0.m_searches
  m_dirty : r.m_dirty = s0.m_dirty
  files : r.files = s0.files
  m_dataSources : r.m_dataSources = s0.m_dataSources
  m_settingsDir : r.m_settingsDir = s0.m_settingsDir
  nextNode : r.nextNode = s0.nextNode
  loaderDestroyed : r.loaderDestroyed = s0.loaderDestroyed

/-- The part of the state that neither the merge with an existing node nor the insertion
into the table touches: the patches, the counters, the searches, the files and the
error list. -/
structure SamePatches (s s' : DB W) : Prop where
  patchHeap : s'.patchHeap = s.patchHeap
  nextPatch : s'.nextPatch = s.nextPatch
  nextNode : s'.nextNode = s.nextNode
  loaderDestroyed : s'.loaderDestroyed = s.loaderDestroyed
  m_settingsDir : s'.m_settingsDir = s.m_settingsDir
  files : s'.files = s.files
  m_searches : s'.m_searches = s.m_searches
  m_patchModifications : s'.m_patchModifications = s.m_patchModifications
  errors : s'.m_dirty.errors = s.m_dirty.errors

/-- The directory listing of the host has no cycle: `rank` decreases from a directory to
the entries that `findFiles` lists for it. -/
def FsRanked (h : Host) (rank : String → Nat) : Prop :=
  ∀ dir f, f ∈ h.findFiles dir → rank f < rank dir

/-- The invariants of the table: an entry holds a live node under the identity of that
node, no identity is held twice, and the nodes of the table were all made before the
next node address. -/
structure Sound (s : DB W) : Prop where
  keyed : ∀ e ∈ s.m_dataSources, ∃ n, s.nodes e.2 = some n ∧ n.key = e.1
  nodupKeys : (s.m_dataSources.map Prod.fst).Nodup
  below : ∀ e ∈ s.m_dataSources, e.2 < s.nextNode

/-- Every node of `nodes` with an address below `b` is live in `nodes'` with the same
identity; a Manual node is still Manual and a node with a parent still has that parent. -/
def Preserved (b : Nat) (nodes nodes' : NodePtr → Option DataSourceNode) : Prop :=
  ∀ q n, q < b → nodes q = some n → ∃ n', nodes' q = some n' ∧ n'.key = n.key ∧
    (n.origin = DataSourceOrigin.Manual → n'.origin = DataSourceOrigin.Manual) ∧
    (∀ P, n.parent = some P → n'.parent = some P)

/-- Whether some payload of the data gives a patch that passes `isValid`. -/
def anyValid (h : Host) (data : DataList) : Bool :=
  data.any (fun d =>
    match h.initializePatch d with
    | none => false
    | some p => isValid (some p))

/-- Whether loading the data source gives at least one valid patch, which is when
`DB::addDataSource` inserts a source that is neither Manual nor a folder. -/
def loadable (h : Host) (s : DB W) (d : DataSource) : Bool :=
  (loadData h s d).1 && decide ((loadData h s d).2 ≠ []) && anyValid h (loadData h s d).2

/-- The identity of the child node that `DB::loadFolder` makes for a listed file. -/
def childKey (h : Host) (file : String) : DataSourceKey :=
  ⟨if h.isDirectory file then SourceType.Folder else SourceType.File, file, h.invalidBank⟩

/-- The data source of the child node that `DB::loadFolder` makes for a listed file. -/
def childSource (h : Host) (file : String) : DataSource :=
  ⟨if h.isDirectory file then SourceType.Folder else SourceType.File, file,
    DataSourceOrigin.Autogenerated, h.invalidBank⟩

/-- The identities that a run of `addDataSource` for the node `n` can insert: that of `n`
when `n` is a folder, is Manual or is loadable, and that of a listed file when it is a
directory or is loadable. -/
def Insertable (h : Host) (s : DB W) (n : DataSourceNode) (k : DataSourceKey) : Prop :=
  (k = n.key ∧ (n.type = SourceType.Folder ∨ n.origin = DataSourceOrigin.Manual ∨
      loadable h s n.toDataSource = true)) ∨
    ∃ f, k = childKey h f ∧ (h.isDirectory f = true ∨ loadable h s (childSource h f) = true)

/-- A listed file is settled when a scan of its folder would not touch the table for it:
the table holds a node with a parent for it, or it is a file that is not loadable and the
table holds nothing for it. -/
def Settled (h : Host) (s : DB W) (f : String) : Prop :=
  (∃ X xn, mapFind (childKey h f) s.m_dataSources = some X ∧ s.nodes X = some xn ∧
      xn.parent ≠ none) ∨
    (mapFind (childKey h f) s.m_dataSources = none ∧ h.isDirectory f = false ∧
      loadable h s (childSource h f) = false)

/-- What a run of `addDataSource` for the node `n` at the address `arg` does to the table
and to the nodes that existed before. -/
structure Added (h : Host) (arg : NodePtr) (n : DataSourceNode) (s s' : DB W) : Prop where
  nextNode : s.nextNode ≤ s'.nextNode
  found : ∀ k v, mapFind k s.m_dataSources = some v → mapFind k s'.m_dataSources = some v
  entries : ∀ e ∈ s'.m_dataSources, e ∈ s.m_dataSources ∨ e.2 = arg ∨ s.nextNode ≤ e.2
  alive : Preserved s.nextNode s.nodes s'.nodes
  files : s'.files = s.files
  m_settingsDir : s'.m_settingsDir = s.m_settingsDir
  loaderDestroyed : s'.loaderDestroyed = s.loaderDestroyed
  inserted : ∀ k, mapFind k s.m_dataSources = none → (mapFind k s'.m_dataSources).isSome = true →
    Insertable h s n k
  self : ∀ v, mapFind n.key s.m_dataSources = none → mapFind n.key s'.m_dataSources = some v →
    v = arg
  present : s.loaderDestroyed = false →
    (n.type = SourceType.Folder ∨ n.origin = DataSourceOrigin.Manual ∨
      loadable h s n.toDataSource = true) →
    (mapFind n.key s'.m_dataSources).isSome = true
  adopted : s.loaderDestroyed = false → n.origin ≠ DataSourceOrigin.Manual → n.parent ≠ none →
    ∀ X, mapFind n.key s.m_dataSources = some X →
      ∃ xn, s'.nodes X = some xn ∧ xn.parent ≠ none

/-- What the loop of `DB::loadFolder` does to the table and to the nodes that existed
before. -/
structure Scanned (h : Host) (s s' : DB W) : Prop where
  nextNode : s.nextNode ≤ s'.nextNode
  found : ∀ k v, mapFind k s.m_dataSources = some v → mapFind k s'.m_dataSources = some v
  entries : ∀ e ∈ s'.m_dataSources, e ∈ s.m_dataSources ∨ s.nextNode ≤ e.2
  alive : Preserved s.nextNode s.nodes s'.nodes
  files : s'.files = s.files
  m_settingsDir : s'.m_settingsDir = s.m_settingsDir
  loaderDestroyed : s'.loaderDestroyed = s.loaderDestroyed
  inserted : ∀ k, mapFind k s.m_dataSources = none → (mapFind k s'.m_dataSources).isSome = true →
    ∃ f, k = childKey h f ∧ (h.isDirectory f = true ∨ loadable h s (childSource h f) = true)

/-- What `addDataSource` does after the merge, from the state `s1` after the merge on:
`ds` is the node that it goes on with, `dn` the node behind it and `ex` says whether the
table held it already. -/
structure Rest (h : Host) (ds : NodePtr) (dn : DataSourceNode) (ex : Bool) (s1 s' : DB W) :
    Prop where
  nextNode : s1.nextNode ≤ s'.nextNode
  found : ∀ k v, mapFind k s1.m_dataSources = some v → mapFind k s'.m_dataSources = some v
  entries : ∀ e ∈ s'.m_dataSources,
    e ∈ s1.m_dataSources ∨ (ex = false ∧ e.2 = ds) ∨ s1.nextNode ≤ e.2
  alive : Preserved s1.nextNode s1.nodes s'.nodes
  files : s'.files = s1.files
  m_settingsDir : s'.m_settingsDir = s1.m_settingsDir
  loaderDestroyed : s'.loaderDestroyed = s1.loaderDestroyed
  inserted : ∀ k, mapFind k s1.m_dataSources = none →
    (mapFind k s'.m_dataSources).isSome = true →
    (ex = false ∧ k = dn.key ∧ (dn.type = SourceType.Folder ∨
        dn.origin = DataSourceOrigin.Manual ∨ loadable h s1 dn.toDataSource = true)) ∨
      ∃ f, k = childKey h f ∧
        (h.isDirectory f = true ∨ loadable h s1 (childSource h f) = true)
  self : ∀ v, mapFind dn.key s1.m_dataSources = none →
    mapFind dn.key s'.m_dataSources = some v → v = ds
  present : ex = false →
    (dn.type = SourceType.Folder ∨ dn.origin = DataSourceOrigin.Manual ∨
      loadable h s1 dn.toDataSource = true) →
    (mapFind dn.key s'.m_dataSources).isSome = true

/-- The patch at `p` is a hit of the content search for the patch `T`: some node of the
table holds it, and it has the hash of `T`, or the length and the name of `T` and
`equals` holds. -/
def ContentHit (h : Host) (s : DB W) (T : Patch) (p : PatchPtr) : Prop :=
  ∃ e ∈ s.m_dataSources, ∃ n, s.nodes e.2 = some n ∧ p ∈ n.patches ∧
    ∃ patch, s.patchHeap p = some patch ∧
      (patch.hash = T.hash ∨
        (patch.sysex.length = T.sysex.length ∧ patch.getName = T.getName ∧
          h.equals patch T = true))

/-- Whether a filter search scans the patch set of the node: the node is live, and a node
is named by the request, or no source type is given, or the node has the requested
type. -/
def isCandidate (h : Host) (s : DB W) (r : SearchRequest) (p : NodePtr) : Bool :=
  match s.nodes p with
  | none => false
  | some ds =>
    decide (r.sourceNode ≠ none ∨ h.getSourceType s.nodes r = SourceType.Invalid ∨
      ds.type = r.sourceType)

/-- The nodes whose patch sets a filter search scans: the node that the table holds for
the identity of the requested node when the request names a node of type File or
LocalStorage, else the nodes of the table that pass `isCandidate`. -/
def candidateNodes (h : Host) (s : DB W) (r : SearchRequest) : List NodePtr :=
  if r.sourceNode ≠ none ∧
      (h.getSourceType s.nodes r = SourceType.File ∨
        h.getSourceType s.nodes r = SourceType.LocalStorage) then
    (((r.sourceNode.bind s.nodes).bind (fun n => mapFind n.key s.m_dataSources)).toList).filter
      (isCandidate h s r)
  else (s.m_dataSources.map Prod.snd).filter (isCandidate h s r)

/-- The patch at `p` is a hit of the filter search: a candidate node holds it and the
request matches it. -/
def FilterHit (h : Host) (s : DB W) (r : SearchRequest) (p : PatchPtr) : Prop :=
  ∃ n ∈ candidateNodes h s r, ∃ dn, s.nodes n = some dn ∧ p ∈ dn.patches ∧
    ∃ patch, s.patchHeap p = some patch ∧ h.requestMatch s.nodes r patch = true

/-- The payloads of the patches behind the pointers of a list, one after the other. -/
def payload (s : DB W) (l : List PatchPtr) : Data :=
  ((l.filterMap s.patchHeap).map (fun p => p.sysex)).flatten

/-- The list `localStoragePatches` of `DB::saveLocalStorage` (db.cpp:1590): the
LocalStorage nodes of the table with their patch sets, in the order of the pointers. -/
def localStoragePatches (s : DB W) : List (NodePtr × List PatchPtr) :=
  s.m_dataSources.foldl (fun acc it =>
    match s.nodes it.2 with
    | none => acc
    | some ds =>
      if ds.type = SourceType.LocalStorage then ptrMapInsert it.2 ds.patches acc
      else acc) []

/-- No two LocalStorage nodes of the table have the same name. -/
def UniqueStoreNames (s : DB W) : Prop :=
  ∀ e1 ∈ s.m_dataSources, ∀ e2 ∈ s.m_dataSources, ∀ d1 d2,
    s.nodes e1.2 = some d1 → s.nodes e2.2 = some d2 →
    d1.type = SourceType.LocalStorage → d2.type = SourceType.LocalStorage →
    d1.name = d2.name → e1 = e2

/-- The calls `search(r)` for the requests of a list, one after the other: the state after
the last call and the searches that the calls created, in the order of the calls. -/
def searchAll : DB W → List SearchRequest → DB W × List Search
  | s, [] => (s, [])
  | s, r :: rs =>
    ((searchAll (search s r).1 rs).1, (search s r).2 :: (searchAll (search s r).1 rs).2)

/-- A character that `createValidFilename` keeps: an ASCII digit or letter. -/
def isFilenameChar (c : Char) : Bool :=
  decide (('0' ≤ c ∧ c ≤ '9') ∨ ('A' ≤ c ∧ c ≤ 'Z') ∨ ('a' ≤ c ∧ c ≤ 'z'))

/-! ## A small catalog for the examples -/

/-- A host without a file system: nothing is writable and nothing can be read. -/
def exampleHost : Host where
  hasWriteAccess := fun _ => false
  writeSucceeds := fun _ => false
  copySucceeds := fun _ _ => false
  isAbsolutePath := fun _ => true
  getChildFile := fun d f => d ++ "/" ++ f
  sourceTypeToString := fun _ => ""
  tagTypeToString := fun _ => ""
  patchKeyToString := fun _ _ => ""
  patchKeyFromString := fun _ _ => ⟨none, [], 0⟩
  patchKeyIsValid := fun _ => false
  serialize := fun _ => Json.null
  deserialize := fun _ => none
  findFiles := fun _ => []
  isDirectory := fun _ => false
  loadRomData := fun _ => (false, [])
  extractSysexFromData := fun _ => (false, [])
  splitMultipleSysex := fun _ => []
  parseJson := fun _ => Json.null
  jsonText := fun _ => []
  initializePatch := fun _ => none
  getTags := fun p => p.tags
  requestMatch := fun _ _ _ => false
  invalidBank := 0
  equals := fun a b => decide (a.sysex = b.sysex)
  getSourceType := fun nodes r =>
    match r.sourceNode.bind nodes with
    | some n => n.type
    | none => r.sourceType
  modifyTags := fun m t => ({ m with tags := t }, decide (m.tags ≠ t))
  toSourceType := fun _ => SourceType.Invalid
  toTagType := fun _ => 0
  invalidColor := 0
  getLargeIntValue := fun _ => 0

/-- The folder `d`, added by the user: node 0 with the children 1 and 3. -/
def exampleD : DataSourceNode :=
  ⟨⟨SourceType.Folder, "d", DataSourceOrigin.Manual, 0⟩, [], none, [1, 3]⟩

/-- The folder `d/m`, found below `d` and later added by the user as well: node 1. -/
def exampleM : DataSourceNode :=
  ⟨⟨SourceType.Folder, "d/m", DataSourceOrigin.Manual, 0⟩, [], some 0, [2]⟩

/-- The file `d/m/a`, found by the scan of `d/m`: node 2 with the patch 10. -/
def exampleA : DataSourceNode :=
  ⟨⟨SourceType.File, "d/m/a", DataSourceOrigin.Autogenerated, 0⟩, [10], some 1, []⟩

/-- The file `d/b`, found by the scan of `d`: node 3 with the patch 11. -/
def exampleB : DataSourceNode :=
  ⟨⟨SourceType.File, "d/b", DataSourceOrigin.Autogenerated, 0⟩, [11], some 0, []⟩

/-- A patch of the examples. -/
def examplePatch (name : String) (program : Nat) (source : NodePtr) : Patch :=
  ⟨name, [0xf0, program, 0xf7], [program], program, [], some source, none⟩

/-- The heap of the four nodes of the examples. -/
def exampleNodes : NodePtr → Option DataSourceNode :=
  fun p =>
    if p = 0 then some exampleD
    else if p = 1 then some exampleM
    else if p = 2 then some exampleA
    else if p = 3 then some exampleB
    else none

/-- The depth of the tree below each node of the examples. -/
def exampleRank : NodePtr → Nat :=
  fun p => if p = 0 then 2 else if p = 1 then 1 else 0

/-- A catalog that holds the four nodes and one search with both patches as results. -/
def exampleTree : DB Unit where
  nodes := exampleNodes
  patchHeap := fun p =>
    if p = 10 then some (examplePatch "a" 0 2)
    else if p = 11 then some (examplePatch "b" 0 3)
    else none
  nextNode := 4
  nextPatch := 12
  loaderDestroyed := false
  m_settingsDir := "cfg"
  m_jsonFileName := "cfg/patchmanagerdb.json"
  m_dataSources := [(exampleD.key, 0), (exampleM.key, 1), (exampleA.key, 2), (exampleB.key, 3)]
  m_tags := []
  m_tagColors := []
  m_patchModifications := []
  m_searches := [(0, ⟨0, ⟨[], "", none, SourceType.Invalid, none⟩, [10, 11], SearchState.Completed⟩)]
  m_cancelledSearches := []
  m_nextSearchHandle := 1
  m_dirty := Dirty.empty
  m_uiFuncs := []
  files := []

/-- A catalog with the two local stores `A` (node 0) and `B` (node 1). -/
def exampleStores : DB Unit :=
  { exampleTree with
    nodes := fun p =>
      if p = 0 then some ⟨⟨SourceType.LocalStorage, "A", DataSourceOrigin.Manual, 0⟩, [], none, []⟩
      else if p = 1 then some ⟨⟨SourceType.LocalStorage, "B", DataSourceOrigin.Manual, 0⟩, [], none, []⟩
      else none,
    patchHeap := fun _ => none,
    nextNode := 2,
    m_dataSources := [(⟨SourceType.LocalStorage, "A", 0⟩, 0), (⟨SourceType.LocalStorage, "B", 0⟩, 1)],
    m_searches := [] }

/-- A host that reads a file as two payloads, an invalid one and the bytes of the file,
and that names every patch `p`. -/
def exampleLoader : Host :=
  { exampleHost with
    extractSysexFromData := fun d => (true, [[0x00], d]),
    initializePatch := fun d => some ⟨"p", d, d, 0, [], none, none⟩ }

/-- The node of the file `bank`, as the user adds it. -/
def exampleBankNode : DataSourceNode :=
  ⟨⟨SourceType.File, "bank", DataSourceOrigin.Manual, 0⟩, [], none, []⟩

/-- A catalog with an empty table, the node of `bank` at address 0 and the file `bank`
that holds one sysex message. -/
def exampleBank : DB Unit :=
  { exampleTree with
    nodes := fun p => if p = 0 then some exampleBankNode else none,
    patchHeap := fun _ => none,
    nextNode := 1,
    nextPatch := 0,
    m_dataSources := [],
    m_searches := [],
    files := [("bank", FileContent.data [0xf0, 1, 0xf7])] }

/-- A host whose folder `dir` lists one entry, the empty directory `dir/sub`. -/
def exampleFolderHost : Host :=
  { exampleHost with
    findFiles := fun d => if d = "dir" then ["dir/sub"] else [],
    isDirectory := fun f => decide (f = "dir/sub") }

/-- The node of the folder `dir`, as the user adds it. -/
def exampleDirNode : DataSourceNode :=
  ⟨⟨SourceType.Folder, "dir", DataSourceOrigin.Manual, 0⟩, [], none, []⟩

/-- A catalog whose table holds the folder `dir` (node 0) from a time when the folder was
empty, and the node 1 that the user adds for `dir` again. -/
def exampleRescan : DB Unit :=
  { exampleTree with
    nodes := fun p => if p = 0 then some exampleDirNode else if p = 1 then some exampleDirNode
      else none,
    patchHeap := fun _ => none,
    nextNode := 2,
    nextPatch := 0,
    m_dataSources := [(exampleDirNode.key, 0)],
    m_searches := [] }

/-- The node that the user adds for the file `d/b`, which the catalog of the examples
holds already as the node 3. -/
def exampleAgainNode : DataSourceNode :=
  ⟨⟨SourceType.File, "d/b", DataSourceOrigin.Manual, 0⟩, [], none, []⟩

/-- The catalog of the examples with the node 4 that the user adds for `d/b`. -/
def exampleAgain : DB Unit :=
  (newNode exampleTree exampleAgainNode).1

/-- A catalog without nodes. -/
def exampleEmpty : DB Unit :=
  { exampleTree with
    nodes := fun _ => none,
    patchHeap := fun _ => none,
    nextNode := 0,
    nextPatch := 0,
    m_dataSources := [],
    m_searches := [] }

/-- A file that a scan would report and that does not exist. -/
def exampleMissing : DataSource :=
  ⟨SourceType.File, "missing", DataSourceOrigin.Autogenerated, 0⟩

/-- A host whose search requests match every patch. -/
def exampleMatchAll : Host :=
  { exampleHost with requestMatch := fun _ _ _ => true }

/-- The catalog of the examples with an empty registry and a third patch, at address 12,
that no node holds and that differs from the two others in hash and length. -/
def exampleTarget : DB Unit :=
  { exampleTree with
    patchHeap := fun p =>
      if p = 12 then some ⟨"t", [0xf0, 0xf7], [9], 0, [], none, none⟩
      else exampleTree.patchHeap p,
    nextPatch := 13,
    m_searches := [],
    m_nextSearchHandle := 0 }

/-- A request for the patches that equal the patch at address 12. -/
def exampleStaleRequest : SearchRequest :=
  ⟨[], "", none, SourceType.Invalid, some 12⟩

/-- The catalog after `search` registered the request for the patch 12 and, before the
task of the search ran, `updateSearches` looked at the patch 10, which the request
matches: the search waits with the result 10. -/
def exampleStale : DB Unit :=
  updateSearches exampleMatchAll (search exampleTarget exampleStaleRequest).1 [10]

/-- A filter request without constraints. -/
def exampleFilter : SearchRequest :=
  ⟨[], "", none, SourceType.Invalid, none⟩

/-- A filter request that names the folder `d`, node 0. -/
def exampleFolderFilter : SearchRequest :=
  ⟨[], "", some 0, SourceType.Invalid, none⟩

/-- A tag diff that adds the tag `Bass` of the tag type 0. -/
def exampleBass : TypedTags :=
  [(0, ⟨["Bass"], []⟩)]

/-- The catalog after `modifyTags` added the tag `Bass` to the patch 10 and a filter
search without constraints was registered; its task has not run yet. -/
def exampleTagged : DB Unit :=
  (search (modifyTags exampleMatchAll exampleTarget [10] exampleBass).1 exampleFilter).1

/-- The catalog after the user added the file `bank` twice and then named the two patch
objects that the node 1 holds for the one message of the file, the patch 1 `A` and the
patch 3 `B`. -/
def exampleTwins : DB Unit :=
  match addDataSourceTask exampleLoader 1 exampleBank exampleBankNode.toDataSource false with
  | none => exampleBank
  | some r =>
    match addDataSourceTask exampleLoader 1 r.1 exampleBankNode.toDataSource false with
    | none => exampleBank
    | some r2 => (renamePatch exampleLoader (renamePatch exampleLoader r2.1 1 "A").1 3 "B").1

/-- The catalog of the twins after `removePatch` removed the patch 1, whose overlay waits
in the pending map. -/
def exampleTwinLeft : DB Unit :=
  match removePatch exampleTwins 1 with
  | some r => r.1
  | none => exampleTwins

/-- The two local stores with one patch, at address 5, in the store `A`; the user has
named the patch `Lead`. -/
def exampleFavorites : DB Unit :=
  (renamePatch exampleHost
    { exampleStores with
      nodes := fun p =>
        if p = 0 then
          some ⟨⟨SourceType.LocalStorage, "A", DataSourceOrigin.Manual, 0⟩, [5], none, []⟩
        else exampleStores.nodes p,
      patchHeap := fun p => if p = 5 then some (examplePatch "a" 0 0) else none,
      nextPatch := 6 } 5 "Lead").1

/-- Three local stores: `A` (node 0) holds the patch 4 with the program 0, `B` (node 1)
holds the patches 5 and 6 with the programs 0 and 1, and `Favorites` (node 2) is empty. -/
def exampleShelf : DB Unit :=
  { exampleStores with
    nodes := fun p =>
      if p = 0 then
        some ⟨⟨SourceType.LocalStorage, "A", DataSourceOrigin.Manual, 0⟩, [4], none, []⟩
      else if p = 1 then
        some ⟨⟨SourceType.LocalStorage, "B", DataSourceOrigin.Manual, 0⟩, [5, 6], none, []⟩
      else if p = 2 then
        some ⟨⟨SourceType.LocalStorage, "Favorites", DataSourceOrigin.Manual, 0⟩, [], none, []⟩
      else none,
    patchHeap := fun p =>
      if p = 4 then some (examplePatch "x" 0 0)
      else if p = 5 then some (examplePatch "a" 0 1)
      else if p = 6 then some (examplePatch "b" 1 1)
      else none,
    nextNode := 3,
    nextPatch := 7,
    m_dataSources :=
      [(⟨SourceType.LocalStorage, "A", 0⟩, 0), (⟨SourceType.LocalStorage, "B", 0⟩, 1),
        (⟨SourceType.LocalStorage, "Favorites", 0⟩, 2)] }

/-- The catalog of the examples after the file `d/m/a` (node 2) is gone: the table has
lost it and the node is destroyed, while the patch 10 still lives, as a result of the
search, with its source reference expired. -/
def exampleOrphan : DB Unit :=
  { exampleTree with
    nodes := fun p => if p = 2 then none else exampleNodes p,
    m_dataSources := [(exampleD.key, 0), (exampleM.key, 1), (exampleB.key, 3)] }

/-- A host with a file system that takes every write and with conversions that can be
read back: a source type is its name, a tag type `t` is a string of `t` letters, a patch
key is the string of its hash bytes, valid when it is not empty, and an overlay is an
object with its name. -/
def exampleCodec : Host :=
  { exampleHost with
    hasWriteAccess := fun _ => true,
    writeSucceeds := fun _ => true,
    copySucceeds := fun _ _ => true,
    sourceTypeToString := fun t =>
      match t with
      | SourceType.Rom => "rom"
      | SourceType.Folder => "folder"
      | SourceType.File => "file"
      | SourceType.LocalStorage => "localstorage"
      | _ => "",
    toSourceType := fun str =>
      if str = "rom" then SourceType.Rom
      else if str = "folder" then SourceType.Folder
      else if str = "file" then SourceType.File
      else if str = "localstorage" then SourceType.LocalStorage
      else SourceType.Invalid,
    tagTypeToString := fun t => String.mk (List.replicate t 't'),
    toTagType := fun str => str.length,
    patchKeyToString := fun k _ => String.mk (k.hash.map Char.ofNat),
    patchKeyFromString := fun str ds => ⟨ds, str.data.map Char.toNat, 0⟩,
    patchKeyIsValid := fun k => decide (k.hash ≠ []),
    serialize := fun m => Json.obj [("name", Json.str m.name)],
    deserialize := fun j =>
      match j with
      | Json.obj [("name", Json.str n)] => some ⟨[], n, none⟩
      | _ => none }

/-- Two local stores whose names differ in one character that is not a letter or a
digit: `a b` (node 0) holds the patch 5 and `a_b` (node 1) holds the patch 6. -/
def exampleClash : DB Unit :=
  { exampleStores with
    nodes := fun p =>
      if p = 0 then
        some ⟨⟨SourceType.LocalStorage, "a b", DataSourceOrigin.Manual, 0⟩, [5], none, []⟩
      else if p = 1 then
        some ⟨⟨SourceType.LocalStorage, "a_b", DataSourceOrigin.Manual, 0⟩, [6], none, []⟩
      else none,
    patchHeap := fun p =>
      if p = 5 then some (examplePatch "x" 0 0)
      else if p = 6 then some (examplePatch "y" 1 1)
      else none,
    nextPatch := 7,
    m_dataSources :=
      [(⟨SourceType.LocalStorage, "a b", 0⟩, 0), (⟨SourceType.LocalStorage, "a_b", 0⟩, 1)] }

/-- The two local stores `a b` and `a_b` when the store `a_b` is empty. -/
def exampleClashEmpty : DB Unit :=
  { exampleClash with
    nodes := fun p =>
      if p = 0 then
        some ⟨⟨SourceType.LocalStorage, "a b", DataSourceOrigin.Manual, 0⟩, [5], none, []⟩
      else if p = 1 then
        some ⟨⟨SourceType.LocalStorage, "a_b", DataSourceOrigin.Manual, 0⟩, [], none, []⟩
      else none }

theorem isValid_eq_true_iff (p : Patch) :
    isValid (some p) = true ↔
      p.getName ≠ "" ∧ p.sysex ≠ [] ∧ p.sysex.head? = some 0xF0 ∧
        p.sysex.getLast? = some 0xF7 := by
  simp only [isValid]
  by_cases h1 : p.getName = ""
  · simp [h1]
  · by_cases h2 : p.sysex = []
    · simp [h1, h2]
    · by_cases h3 : p.sysex.head? = some 0xf0
      · by_cases h4 : p.sysex.getLast? = some 0xf7
        · simp [h1, h2, h3, h4]
        · simp [h1, h2, h3, h4]
      · simp [h1, h2, h3]

/-- C1: `isValid` holds exactly for a non-null patch with a non-empty name and a
non-empty payload whose first byte is 0xF0 and whose last byte is 0xF7. -/
theorem isValid_iff (P : Option Patch) :
    isValid P = true ↔
      ∃ p, P = some p ∧ p.getName ≠ "" ∧ p.sysex ≠ [] ∧
        p.sysex.head? = some 0xF0 ∧ p.sysex.getLast? = some 0xF7 := by
  cases P with
  | none => simp [isValid]
  | some p =>
    simp only [Option.some.injEq, exists_eq_left']
    exact isValid_eq_true_iff p

/-! ### Persistence leaves the catalog alone -/

theorem sameCatalog_refl (s : DB W) : SameCatalog s s :=
  ⟨rfl, rfl, rfl, rfl, rfl, rfl, rfl, rfl, rfl, rfl, rfl, rfl, rfl, rfl, rfl, rfl, rfl, rfl,
    rfl, ⟨[], by simp⟩⟩

theorem SameCatalog.compose {s t u : DB W} (a : SameCatalog s t) (b : SameCatalog t u) :
    SameCatalog s u := by
  obtain ⟨e1, he1⟩ := a.errors
  obtain ⟨e2, he2⟩ := b.errors
  exact
    ⟨b.nodes.trans a.nodes, b.patchHeap.trans a.patchHeap, b.nextNode.trans a.nextNode,
      b.nextPatch.trans a.nextPatch, b.loaderDestroyed.trans a.loaderDestroyed,
      b.m_settingsDir.trans a.m_settingsDir, b.m_jsonFileName.trans a.m_jsonFileName,
      b.m_dataSources.trans a.m_dataSources, b.m_tags.trans a.m_tags,
      b.m_tagColors.trans a.m_tagColors,
      b.m_patchModifications.trans a.m_patchModifications, b.m_searches.trans a.m_searches,
      b.m_cancelledSearches.trans a.m_cancelledSearches,
      b.m_nextSearchHandle.trans a.m_nextSearchHandle, b.m_uiFuncs.trans a.m_uiFuncs,
      b.dirty_dataSources.trans a.dirty_dataSources, b.dirty_patches.trans a.dirty_patches,
      b.dirty_tags.trans a.dirty_tags, b.dirty_searches.trans a.dirty_searches,
      ⟨e1 ++ e2, by rw [he2, he1, List.append_assoc]⟩⟩

theorem sameCatalog_pushError (s : DB W) (e : String) : SameCatalog s (pushError s e) :=
  ⟨rfl, rfl, rfl, rfl, rfl, rfl, rfl, rfl, rfl, rfl, rfl, rfl, rfl, rfl, rfl, rfl, rfl, rfl,
    rfl, ⟨[e], rfl⟩⟩

theorem sameCatalog_files (s : DB W) (f : List (String × FileContent)) :
    SameCatalog s { s with files := f } :=
  ⟨rfl, rfl, rfl, rfl, rfl, rfl, rfl, rfl, rfl, rfl, rfl, rfl, rfl, rfl, rfl, rfl, rfl, rfl,
    rfl, ⟨[], by simp⟩⟩

theorem sameCatalog_deleteFile (s : DB W) (f : String) : SameCatalog s (deleteFile s f) :=
  sameCatalog_files s _

theorem sameCatalog_replaceWith (h : Host) (s : DB W) (f : String) (c : FileContent) :
    SameCatalog s (replaceWith h s f c).1 := by
  unfold replaceWith
  split
  · exact sameCatalog_files s _
  · exact sameCatalog_refl s

theorem sameCatalog_copyFileTo (h : Host) (s : DB W) (a b : String) :
    SameCatalog s (copyFileTo h s a b).1 := by
  unfold copyFileTo
  split
  · exact sameCatalog_refl s
  · split
    · exact sameCatalog_refl s
    · split
      · exact sameCatalog_files s _
      · exact sameCatalog_deleteFile s _

theorem sameCatalog_saveJsonTo (h : Host) (s : DB W) (t : String) (j : Json) :
    SameCatalog s (saveJsonTo h s t j).1 := by
  have hw := sameCatalog_replaceWith h s (t ++ "_tmp.json") (FileContent.text j)
  have hc := sameCatalog_copyFileTo h (replaceWith h s (t ++ "_tmp.json")
    (FileContent.text j)).1 (t ++ "_tmp.json") t
  unfold saveJsonTo
  dsimp only
  split
  · exact sameCatalog_pushError s _
  · split
    · exact sameCatalog_pushError s _
    · split
      · exact hw.compose (sameCatalog_pushError _ _)
      · split
        · exact (hw.compose hc).compose (sameCatalog_pushError _ _)
        · exact (hw.compose hc).compose (sameCatalog_deleteFile _ _)

theorem sameCatalog_saveJsonOf (h : Host) (s : DB W) (d : Option NodePtr) :
    SameCatalog s (saveJsonOf h s d).1 := by
  unfold saveJsonOf
  dsimp only
  repeat' split
  all_goals
    first
    | exact sameCatalog_refl s
    | exact sameCatalog_pushError s _
    | exact sameCatalog_deleteFile s _
    | exact sameCatalog_saveJsonTo h s _ _

theorem sameCatalog_writePatchesToFile (h : Host) (s : DB W) (f : String)
    (ps : List PatchPtr) : SameCatalog s (writePatchesToFile h s f ps).1 :=
  sameCatalog_replaceWith h s f _

theorem sameCatalog_foldl {α β : Type} (proj : β → DB W) (step : β → α → β)
    (hstep : ∀ b a, SameCatalog (proj b) (proj (step b a))) (l : List α) (b : β) :
    SameCatalog (proj b) (proj (l.foldl step b)) := by
  induction l generalizing b with
  | nil => exact sameCatalog_refl _
  | cons a l ih => exact (hstep b a).compose (ih (step b a))

theorem sameCatalog_saveLocalStorageStep (h : Host) (b : DB W × Bool)
    (a : NodePtr × List PatchPtr) : SameCatalog b.1 (saveLocalStorageStep h b a).1 := by
  unfold saveLocalStorageStep
  dsimp only
  repeat' split
  all_goals
    first
    | exact sameCatalog_refl _
    | exact sameCatalog_deleteFile _ _
    | exact sameCatalog_writePatchesToFile h _ _ _

theorem sameCatalog_saveLocalStorage (h : Host) (s : DB W) :
    SameCatalog s (saveLocalStorage h s).1 := by
  unfold saveLocalStorage
  dsimp only
  split
  · exact sameCatalog_refl s
  · exact sameCatalog_foldl (fun (b : DB W × Bool) => b.1) _
      (sameCatalog_saveLocalStorageStep h) _ (s, true)

theorem sameCatalog_saveJsonStep (h : Host)
    (b : DB W × List (PatchKey × PatchModifications) × List Json)
    (a : DataSourceKey × NodePtr) : SameCatalog b.1 (saveJsonStep h b a).1 := by
  have := sameCatalog_saveJsonOf h b.1 (some a.2)
  unfold saveJsonStep
  dsimp only
  repeat' split
  all_goals
    first
    | exact sameCatalog_refl _
    | exact this

theorem sameCatalog_saveJson (h : Host) (s : DB W) : SameCatalog s (saveJson h s).1 := by
  unfold saveJson
  split
  · exact sameCatalog_pushError s _
  · exact
      ((sameCatalog_foldl
          (fun (b : DB W × List (PatchKey × PatchModifications) × List Json) => b.1) _
          (sameCatalog_saveJsonStep h) _ (s, s.m_patchModifications, [])).compose
        (sameCatalog_saveLocalStorage h _)).compose (sameCatalog_saveJsonTo h _ _ _)

/-! ### Containers -/

theorem mem_setInsert (a x : Nat) (l : List Nat) : x ∈ setInsert a l ↔ x = a ∨ x ∈ l := by
  induction l with
  | nil => simp [setInsert]
  | cons b l ih =>
    unfold setInsert
    by_cases h1 : a < b
    · simp [h1]
    · by_cases h2 : a = b
      · subst h2
        simp
      · simp only [h1, h2, if_false, List.mem_cons, ih]
        tauto

theorem mem_setErase (a x : Nat) (l : List Nat) : x ∈ setErase a l ↔ x ∈ l ∧ x ≠ a := by
  simp [setErase]

theorem mem_eraseKeys (ks : List PatchPtr) (x : PatchPtr) (r : List PatchPtr) :
    x ∈ eraseKeys ks r ↔ x ∈ r ∧ x ∉ ks := by
  unfold eraseKeys
  induction ks generalizing r with
  | nil => simp
  | cons k ks ih =>
    rw [List.foldl_cons, ih, mem_setErase]
    simp only [List.mem_cons, not_or]
    tauto

theorem mem_mapErase {κ ν : Type} [DecidableEq κ] (k : κ) (m : List (κ × ν)) (e : κ × ν) :
    e ∈ mapErase k m ↔ e ∈ m ∧ e.1 ≠ k := by
  simp [mapErase]

theorem mapFind_mem {κ ν : Type} [DecidableEq κ] (k : κ) (m : List (κ × ν)) (v : ν)
    (h : mapFind k m = some v) : (k, v) ∈ m := by
  induction m with
  | nil => simp [mapFind] at h
  | cons e m ih =>
    unfold mapFind at h
    by_cases he : e.1 = k
    · simp only [he, if_true, Option.some.injEq] at h
      have : e = (k, v) := Prod.ext he h
      simp [this]
    · simp only [he, if_false] at h
      exact List.mem_cons_of_mem _ (ih h)

theorem nodup_keys_unique {κ ν : Type} (m : List (κ × ν)) (hn : (m.map Prod.fst).Nodup)
    (k : κ) (v w : ν) (hv : (k, v) ∈ m) (hw : (k, w) ∈ m) : v = w := by
  induction m with
  | nil => simp at hv
  | cons e m ih =>
    simp only [List.map_cons, List.nodup_cons, List.mem_map, not_exists, not_and] at hn
    rcases List.mem_cons.1 hv with hv | hv <;> rcases List.mem_cons.1 hw with hw | hw
    · exact (Prod.mk.inj (hv.trans hw.symm)).2
    · exact absurd (by rw [← hv]) (hn.1 (k, w) hw)
    · exact absurd (by rw [← hw]) (hn.1 (k, v) hv)
    · exact ih hn.2 hv hw

theorem mem_eraseRemoved (nodes : NodePtr → Option DataSourceNode) (rs : List NodePtr)
    (m : List (DataSourceKey × NodePtr)) (e : DataSourceKey × NodePtr) :
    e ∈ eraseRemoved nodes rs m ↔
      e ∈ m ∧ ∀ r ∈ rs, ∀ n, nodes r = some n → n.key ≠ e.1 := by
  unfold eraseRemoved
  induction rs generalizing m with
  | nil => simp
  | cons r rs ih =>
    rw [List.foldl_cons, ih]
    cases hr : nodes r with
    | none =>
      simp only [List.mem_cons, forall_eq_or_imp, hr]
      simp
    | some n =>
      simp only [List.mem_cons, forall_eq_or_imp, hr, mem_mapErase, Option.some.injEq,
        forall_eq']
      constructor
      · rintro ⟨⟨h1, h2⟩, h3⟩
        exact ⟨h1, fun h => h2 h.symm, h3⟩
      · rintro ⟨h1, h2, h3⟩
        exact ⟨⟨h1, fun h => h2 h.symm⟩, h3⟩

theorem mem_collectPatches (nodes : NodePtr → Option DataSourceNode) (rs : List NodePtr)
    (x : PatchPtr) :
    x ∈ collectPatches nodes rs ↔ ∃ r ∈ rs, ∃ n, nodes r = some n ∧ x ∈ n.patches := by
  unfold collectPatches
  suffices H : ∀ acc : List PatchPtr,
      x ∈ rs.foldl (fun removedPatches removed =>
        match nodes removed with
        | none => removedPatches
        | some n => removedPatches ++ n.patches) acc ↔
      x ∈ acc ∨ ∃ r ∈ rs, ∃ n, nodes r = some n ∧ x ∈ n.patches by
    simpa using H []
  induction rs with
  | nil => intro acc; simp
  | cons r rs ih =>
    intro acc
    rw [List.foldl_cons, ih]
    cases hr : nodes r with
    | none => simp [hr]
    | some n =>
      simp only [List.mem_append, List.mem_cons, exists_eq_or_imp, hr, Option.some.injEq,
        exists_eq_left']
      tauto

/-! ### The links of the tree -/

theorem sameData_refl (nodes : NodePtr → Option DataSourceNode) : SameData nodes nodes :=
  fun _ => rfl

theorem SameData.follow {a b c : NodePtr → Option DataSourceNode} (h1 : SameData a b)
    (h2 : SameData b c) : SameData a c :=
  fun q => (h2 q).trans (h1 q)

theorem sameData_modify (nodes : NodePtr → Option DataSourceNode) (p : NodePtr)
    (f : DataSourceNode → DataSourceNode)
    (hf : ∀ n, (f n).toDataSource = n.toDataSource ∧ (f n).patches = n.patches) :
    SameData nodes (modify nodes p f) := by
  intro q
  unfold modify
  cases hp : nodes p with
  | none => rfl
  | some n =>
    simp only [update]
    by_cases hq : q = p
    · subst hq
      simp [hp, (hf n).1, (hf n).2]
    · simp [hq]

theorem sameData_setParent (nodes : NodePtr → Option DataSourceNode) (self : NodePtr)
    (par : Option NodePtr) : SameData nodes (setParent nodes self par) := by
  unfold setParent
  cases nodes self with
  | none => exact sameData_refl _
  | some n =>
    dsimp only
    split
    · exact sameData_refl _
    · have h1 : SameData nodes
          (match n.parent with
            | none => nodes
            | some op =>
              modify nodes op (fun opn => { opn with children := opn.children.erase self })) := by
        cases n.parent with
        | none => exact sameData_refl _
        | some op => exact sameData_modify _ _ _ (fun _ => ⟨rfl, rfl⟩)
      have h2 := h1.follow (sameData_modify _ self (fun n1 => { n1 with parent := par })
        (fun _ => ⟨rfl, rfl⟩))
      cases par with
      | none => exact h2
      | some np => exact h2.follow (sameData_modify _ _ _ (fun _ => ⟨rfl, rfl⟩))

theorem sameData_foldl_setParent (cs : List NodePtr) (nodes : NodePtr → Option DataSourceNode) :
    SameData nodes (cs.foldl (fun hp c => setParent hp c none) nodes) := by
  induction cs generalizing nodes with
  | nil => exact sameData_refl _
  | cons c cs ih => exact (sameData_setParent nodes c none).follow (ih _)

theorem sameData_removeAllChildren (nodes : NodePtr → Option DataSourceNode)
    (self : NodePtr) : SameData nodes (removeAllChildren nodes self) := by
  unfold removeAllChildren
  cases nodes self with
  | none => exact sameData_refl _
  | some n =>
    exact (sameData_foldl_setParent n.children nodes).follow
      (sameData_modify _ _ _ (fun _ => ⟨rfl, rfl⟩))

theorem cleared_step (rs : List NodePtr) (nodes cur : NodePtr → Option DataSourceNode)
    (r : NodePtr) (hc : Cleared rs nodes cur) :
    Cleared (rs ++ [r]) nodes
      (clearPatches (removeAllChildren (setParent cur r none) r) r) := by
  have hs : SameData cur (removeAllChildren (setParent cur r none) r) :=
    (sameData_setParent cur r none).follow (sameData_removeAllChildren _ r)
  intro q
  have hsq := hs q
  have hcq := hc q
  unfold clearPatches modify
  cases hr : removeAllChildren (setParent cur r none) r r with
  | none =>
    dsimp only
    rw [hsq, hcq]
    by_cases hq : q = r
    · subst hq
      rw [hr] at hsq
      cases hn : nodes q with
      | none => rfl
      | some n => rw [hcq, hn] at hsq; simp at hsq
    · cases hn : nodes q with
      | none => rfl
      | some n => simp [hq]
  | some n =>
    dsimp only [update]
    by_cases hq : q = r
    · subst hq
      rw [hr, hcq] at hsq
      cases hn : nodes q with
      | none => rw [hn] at hsq; simp at hsq
      | some m =>
        rw [hn] at hsq
        simp only [Option.map_some', Option.some.injEq, Prod.mk.injEq] at hsq
        simp [hsq.1]
    · simp only [hq, if_false]
      rw [hsq, hcq]
      cases hn : nodes q with
      | none => rfl
      | some m => simp [hq]

theorem cleared_severRemoved (nodes : NodePtr → Option DataSourceNode) (rs : List NodePtr) :
    Cleared rs nodes (severRemoved nodes rs) := by
  unfold severRemoved
  suffices H : ∀ (todo done : List NodePtr) (cur : NodePtr → Option DataSourceNode),
      Cleared done nodes cur →
      Cleared (done ++ todo) nodes
        (todo.foldl (fun hp removedDataSource =>
          clearPatches (removeAllChildren (setParent hp removedDataSource none)
            removedDataSource) removedDataSource) cur) by
    have h0 : Cleared [] nodes nodes := by
      intro q
      cases nodes q <;> simp
    simpa using H rs [] nodes h0
  intro todo
  induction todo with
  | nil => intro done cur hc; simpa using hc
  | cons r todo ih =>
    intro done cur hc
    have := ih (done ++ [r]) _ (cleared_step done nodes cur r hc)
    simpa using this

/-! ### The recursion of `removeChildren` -/

theorem origin_ne_manual (o : DataSourceOrigin) :
    o ≠ DataSourceOrigin.Manual ↔ o = DataSourceOrigin.Autogenerated := by
  cases o <;> simp

theorem autoDescendant_iff (nodes : NodePtr → Option DataSourceNode) (p x : NodePtr) :
    AutoDescendant nodes p x ↔
      ∃ c, IsAutoChild nodes p c ∧ (x = c ∨ AutoDescendant nodes c x) := by
  unfold AutoDescendant
  rw [Relation.TransGen.head'_iff]
  constructor
  · rintro ⟨c, hc, hx⟩
    rcases Relation.reflTransGen_iff_eq_or_transGen.1 hx with h | h
    · exact ⟨c, hc, Or.inl h⟩
    · exact ⟨c, hc, Or.inr h⟩
  · rintro ⟨c, hc, hx⟩
    refine ⟨c, hc, ?_⟩
    rcases hx with h | h
    · rw [h]
    · exact h.to_reflTransGen

theorem removeChildren_loop (nodes : NodePtr → Option DataSourceNode) (fuel : Nat)
    (p : NodePtr) (pn : DataSourceNode) (hp : nodes p = some pn)
    (ih : ∀ c acc, IsChild nodes p c →
      ∃ out, removeChildren nodes fuel c acc = some out ∧
        ∀ x, x ∈ out ↔ x ∈ acc ∨ AutoDescendant nodes c x)
    (cs : List NodePtr) (hcs : ∀ c ∈ cs, c ∈ pn.children) (acc : List NodePtr) :
    ∃ out,
      cs.foldlM (fun removed child =>
        match nodes child with
        | none => some removed
        | some c =>
          if c.origin = DataSourceOrigin.Manual then some removed
          else removeChildren nodes fuel child (setInsert child removed)) acc = some out ∧
      ∀ x, x ∈ out ↔
        x ∈ acc ∨ ∃ c ∈ cs, IsAutoChild nodes p c ∧ (x = c ∨ AutoDescendant nodes c x) := by
  induction cs generalizing acc with
  | nil => exact ⟨acc, rfl, by simp⟩
  | cons c cs ihc =>
    have hcs' : ∀ d ∈ cs, d ∈ pn.children := fun d hd => hcs d (List.mem_cons_of_mem _ hd)
    have hc : c ∈ pn.children := hcs c (List.mem_cons_self _ _)
    rw [List.foldlM_cons]
    cases hn : nodes c with
    | none =>
      obtain ⟨out, ho, hx⟩ := ihc hcs' acc
      refine ⟨out, by simpa using ho, fun x => ?_⟩
      rw [hx]
      have hno : ¬ IsAutoChild nodes p c := by
        rintro ⟨_, cn, _, _, h, _⟩
        rw [hn] at h
        cases h
      simp only [List.mem_cons, exists_eq_or_imp, hno, false_and, false_or]
    | some cn =>
      by_cases ho : cn.origin = DataSourceOrigin.Manual
      · obtain ⟨out, hout, hx⟩ := ihc hcs' acc
        refine ⟨out, by simpa [ho] using hout, fun x => ?_⟩
        rw [hx]
        have hno : ¬ IsAutoChild nodes p c := by
          rintro ⟨_, cn', _, _, h, h'⟩
          rw [hn] at h
          cases h
          rw [ho] at h'
          cases h'
        simp only [List.mem_cons, exists_eq_or_imp, hno, false_and, false_or]
      · obtain ⟨out1, hout1, hx1⟩ := ih c (setInsert c acc) ⟨pn, cn, hp, hc, hn⟩
        obtain ⟨out, hout, hx⟩ := ihc hcs' out1
        refine ⟨out, by simpa [ho, hout1] using hout, fun x => ?_⟩
        rw [hx, hx1, mem_setInsert]
        have hyes : IsAutoChild nodes p c :=
          ⟨pn, cn, hp, hc, hn, (origin_ne_manual _).1 ho⟩
        simp only [List.mem_cons, exists_eq_or_imp, hyes, true_and]
        generalize (∃ a ∈ cs, IsAutoChild nodes p a ∧ (x = a ∨ AutoDescendant nodes a x)) = Q
        tauto

theorem removeChildren_spec (nodes : NodePtr → Option DataSourceNode) (rank : NodePtr → Nat)
    (hr : Ranked nodes rank) (fuel : Nat) :
    ∀ p acc, rank p < fuel →
      ∃ out, removeChildren nodes fuel p acc = some out ∧
        ∀ x, x ∈ out ↔ x ∈ acc ∨ AutoDescendant nodes p x := by
  induction fuel with
  | zero => intro p acc h; exact absurd h (Nat.not_lt_zero _)
  | succ fuel ih =>
    intro p acc hlt
    unfold removeChildren
    cases hp : nodes p with
    | none =>
      refine ⟨acc, rfl, fun x => ?_⟩
      have : ¬ AutoDescendant nodes p x := by
        rw [autoDescendant_iff]
        rintro ⟨c, ⟨pn, _, h, _⟩, _⟩
        rw [hp] at h
        cases h
      simp [this]
    | some pn =>
      have key := removeChildren_loop nodes fuel p pn hp
        (fun c acc hc => ih c acc (by have := hr p c hc; omega))
        pn.children (fun _ h => h) acc
      obtain ⟨out, hout, hx⟩ := key
      refine ⟨out, hout, fun x => ?_⟩
      rw [hx, autoDescendant_iff]
      constructor
      · rintro (h | ⟨c, _, hc, h⟩)
        · exact Or.inl h
        · exact Or.inr ⟨c, hc, h⟩
      · rintro (h | ⟨c, hc, h⟩)
        · exact Or.inl h
        · obtain ⟨pn', cn, hp', hmem, hcn, ho⟩ := hc
          rw [hp] at hp'
          cases hp'
          exact Or.inr ⟨c, hmem, ⟨pn, cn, hp, hmem, hcn, ho⟩, h⟩

/-! ### Removing a data source -/

theorem removeDataSource_deleting (h : Host) (s : DB W) (D : DataSource) (save : Bool)
    (rank : NodePtr → Nat) (fuel : Nat) (it : NodePtr) (ds : DataSourceNode)
    (hfind : mapFind D.key s.m_dataSources = some it) (hnode : s.nodes it = some ds)
    (hdel : ¬(ds.origin = DataSourceOrigin.Manual ∧ ds.hasParent = true))
    (hr : Ranked s.nodes rank) (hfuel : rank it < fuel) :
    ∃ s' removed, removeDataSource h fuel s D save = some s' ∧
      (∀ x, x ∈ removed ↔ x = it ∨ AutoDescendant s.nodes it x) ∧
      s'.m_dataSources = eraseRemoved s.nodes removed s.m_dataSources ∧
      s'.m_searches = s.m_searches.map (fun e =>
        (e.1, { e.2 with results := eraseKeys (collectPatches s.nodes removed) e.2.results })) ∧
      s'.nodes = severRemoved s.nodes removed ∧
      s'.patchHeap = s.patchHeap ∧
      s'.m_dirty.dataSources = true := by
  obtain ⟨removed, hrem, hx⟩ := removeChildren_spec s.nodes rank hr fuel it [it] hfuel
  have hx' : ∀ x, x ∈ removed ↔ x = it ∨ AutoDescendant s.nodes it x := by
    intro x
    rw [hx]
    simp
  unfold removeDataSource
  simp only [hfind, hnode, hdel, if_false, hrem]
  cases save with
  | false =>
    exact ⟨_, removed, rfl, hx', rfl, rfl, rfl, rfl, rfl⟩
  | true =>
    exact ⟨_, removed, rfl, hx', (sameCatalog_saveJson h _).m_dataSources.trans rfl,
      (sameCatalog_saveJson h _).m_searches.trans rfl,
      (sameCatalog_saveJson h _).nodes.trans rfl,
      (sameCatalog_saveJson h _).patchHeap.trans rfl,
      (sameCatalog_saveJson h _).dirty_dataSources.trans rfl⟩

/-- C2: removing a Manual data source whose node has a parent changes nothing but the
origin of that node, which becomes Autogenerated, and `dirty.dataSources`, which is set:
the table, the patch sets, the links and the searches are those of the state before. -/
theorem removeDataSource_demotes (h : Host) (fuel : Nat) (s : DB W) (D : DataSource)
    (save : Bool) (it : NodePtr) (ds : DataSourceNode)
    (hfind : mapFind D.key s.m_dataSources = some it) (hnode : s.nodes it = some ds)
    (hman : ds.origin = DataSourceOrigin.Manual) (hpar : ds.parent.isSome = true) :
    removeDataSource h fuel s D save =
      some { s with
        nodes := update s.nodes it { ds with origin := DataSourceOrigin.Autogenerated },
        m_dirty := { s.m_dirty with dataSources := true } } := by
  unfold removeDataSource
  simp [hfind, hnode, hman, DataSourceNode.hasParent, hpar]

theorem removeDataSource_demotes_witness :
    mapFind exampleM.key exampleTree.m_dataSources = some 1 ∧
    exampleTree.nodes 1 = some exampleM ∧
    exampleM.origin = DataSourceOrigin.Manual ∧ exampleM.parent.isSome = true ∧
    removeDataSource exampleHost 0 exampleTree exampleM.toDataSource true =
      some { exampleTree with
        nodes := update exampleTree.nodes 1
          { exampleM with origin := DataSourceOrigin.Autogenerated },
        m_dirty := { exampleTree.m_dirty with dataSources := true } } :=
  ⟨by decide, rfl, rfl, rfl,
    removeDataSource_demotes exampleHost 0 exampleTree exampleM.toDataSource true 1 exampleM
      (by decide) rfl rfl rfl⟩

/-! ### The example catalog is well formed -/

theorem exampleNodes_isChild (p c : NodePtr) :
    IsChild exampleNodes p c ↔ (p = 0 ∧ c = 1) ∨ (p = 0 ∧ c = 3) ∨ (p = 1 ∧ c = 2) := by
  constructor
  · rintro ⟨pn, cn, hp, hc, _⟩
    unfold exampleNodes at hp
    split_ifs at hp with h0 h1 h2 h3
    · cases hp
      simp only [exampleD, List.mem_cons, List.mem_singleton, List.not_mem_nil, or_false] at hc
      rcases hc with rfl | rfl <;> simp [h0]
    · cases hp
      simp only [exampleM, List.mem_cons, List.mem_singleton, List.not_mem_nil, or_false] at hc
      simp [h1, hc]
    · cases hp
      simp [exampleA] at hc
    · cases hp
      simp [exampleB] at hc
  · rintro (⟨rfl, rfl⟩ | ⟨rfl, rfl⟩ | ⟨rfl, rfl⟩)
    · exact ⟨exampleD, exampleM, rfl, by simp [exampleD], rfl⟩
    · exact ⟨exampleD, exampleB, rfl, by simp [exampleD], rfl⟩
    · exact ⟨exampleM, exampleA, rfl, by simp [exampleM], rfl⟩

theorem exampleTree_ranked : Ranked exampleTree.nodes exampleRank := by
  intro p c hc
  rcases (exampleNodes_isChild p c).1 hc with ⟨rfl, rfl⟩ | ⟨rfl, rfl⟩ | ⟨rfl, rfl⟩ <;>
    simp [exampleRank]

theorem exampleTree_invariant : TreeInvariant exampleTree where
  keyed := by
    intro e he
    simp only [exampleTree, List.mem_cons, List.mem_singleton, List.not_mem_nil,
      or_false] at he
    rcases he with rfl | rfl | rfl | rfl <;> exact ⟨_, rfl, rfl⟩
  nodupKeys := by decide
  parentLink := by
    intro p c hc
    rcases (exampleNodes_isChild p c).1 hc with ⟨rfl, rfl⟩ | ⟨rfl, rfl⟩ | ⟨rfl, rfl⟩
    · exact ⟨exampleM, rfl, rfl⟩
    · exact ⟨exampleB, rfl, rfl⟩
    · exact ⟨exampleA, rfl, rfl⟩
  childOwned := by
    intro p c hc cn hcn v hv
    rcases (exampleNodes_isChild p c).1 hc with ⟨rfl, rfl⟩ | ⟨rfl, rfl⟩ | ⟨rfl, rfl⟩ <;>
    · cases hcn
      simp only [exampleTree, List.mem_cons, List.mem_singleton, List.not_mem_nil,
        or_false, Prod.mk.injEq] at hv
      rcases hv with ⟨hk, rfl⟩ | ⟨hk, rfl⟩ | ⟨hk, rfl⟩ | ⟨hk, rfl⟩ <;>
        first
        | rfl
        | exact absurd hk (by decide)

/-! ### C3 and C4 -/

/-- C3, as the code has it: after the removal of a data source whose node is
Autogenerated or is Manual without a parent, the table holds neither that node nor any
node that is reached from it through children that are all Autogenerated. -/
theorem removeDataSource_erases_reached (h : Host) (s : DB W) (D : DataSource)
    (save : Bool) (rank : NodePtr → Nat) (fuel : Nat) (it : NodePtr) (ds : DataSourceNode)
    (hfind : mapFind D.key s.m_dataSources = some it) (hnode : s.nodes it = some ds)
    (hdel : ds.origin = DataSourceOrigin.Autogenerated ∨
      (ds.origin = DataSourceOrigin.Manual ∧ ds.parent = none))
    (hkeyed : ∀ e ∈ s.m_dataSources, ∃ n, s.nodes e.2 = some n ∧ n.key = e.1)
    (hr : Ranked s.nodes rank) (hfuel : rank it < fuel) :
    ∃ s', removeDataSource h fuel s D save = some s' ∧
      ∀ x, (x = it ∨ AutoDescendant s.nodes it x) → ∀ e ∈ s'.m_dataSources, e.2 ≠ x := by
  have hdel' : ¬(ds.origin = DataSourceOrigin.Manual ∧ ds.hasParent = true) := by
    rintro ⟨h1, h2⟩
    rcases hdel with h3 | ⟨_, h3⟩
    · rw [h1] at h3
      cases h3
    · simp [DataSourceNode.hasParent, h3] at h2
  obtain ⟨s', removed, hs', hrem, htab, _, _, _, _⟩ :=
    removeDataSource_deleting h s D save rank fuel it ds hfind hnode hdel' hr hfuel
  refine ⟨s', hs', ?_⟩
  rintro x hx e he rfl
  rw [htab, mem_eraseRemoved] at he
  obtain ⟨n, hn, hk⟩ := hkeyed e he.1
  exact he.2 e.2 ((hrem e.2).2 hx) n hn hk

theorem removeDataSource_erases_reached_witness :
    mapFind exampleD.key exampleTree.m_dataSources = some 0 ∧
    exampleTree.nodes 0 = some exampleD ∧
    (exampleD.origin = DataSourceOrigin.Autogenerated ∨
      (exampleD.origin = DataSourceOrigin.Manual ∧ exampleD.parent = none)) ∧
    (∀ e ∈ exampleTree.m_dataSources, ∃ n, exampleTree.nodes e.2 = some n ∧ n.key = e.1) ∧
    Ranked exampleTree.nodes exampleRank ∧ exampleRank 0 < 3 ∧
    ∃ s', removeDataSource exampleHost 3 exampleTree exampleD.toDataSource true = some s' ∧
      ∀ x, (x = 0 ∨ AutoDescendant exampleTree.nodes 0 x) →
        ∀ e ∈ s'.m_dataSources, e.2 ≠ x :=
  ⟨by decide, rfl, Or.inr ⟨rfl, rfl⟩, exampleTree_invariant.keyed, exampleTree_ranked,
    by decide,
    removeDataSource_erases_reached exampleHost exampleTree exampleD.toDataSource true
      exampleRank 3 0 exampleD (by decide) rfl (Or.inr ⟨rfl, rfl⟩)
      exampleTree_invariant.keyed exampleTree_ranked (by decide)⟩

/-- C3 as stated fails: the folder `d` of the example is Manual and has no parent, the
file `d/m/a` is an Autogenerated descendant of it (below the Manual folder `d/m`), and
after the removal of `d` the table still holds `d/m/a`. -/
theorem removeDataSource_keeps_auto_below_manual :
    mapFind exampleD.key exampleTree.m_dataSources = some 0 ∧
    (exampleTree.nodes 0).map (fun n => (n.origin, n.parent)) =
      some (DataSourceOrigin.Manual, none) ∧
    Descendant exampleTree.nodes 0 2 ∧
    (exampleTree.nodes 2).map (fun n => n.origin) = some DataSourceOrigin.Autogenerated ∧
    (removeDataSource exampleHost 3 exampleTree exampleD.toDataSource true).map
      (fun s' => mapFind exampleA.key s'.m_dataSources) = some (some 2) := by
  refine ⟨by decide, rfl, ?_, rfl, by decide⟩
  exact Relation.TransGen.tail
    (Relation.TransGen.single ((exampleNodes_isChild 0 1).2 (Or.inl ⟨rfl, rfl⟩)))
    ((exampleNodes_isChild 1 2).2 (Or.inr (Or.inr ⟨rfl, rfl⟩)))

/-- C4: when `removeDataSource` deletes, then for every deleted node (the node of the
data source and every node reached from it through Autogenerated children) the patch set
is empty afterwards and none of the patches it held is a result of a search of the
registry. -/
theorem removeDataSource_detaches_patches (h : Host) (s : DB W) (D : DataSource)
    (save : Bool) (rank : NodePtr → Nat) (fuel : Nat) (it : NodePtr) (ds : DataSourceNode)
    (hfind : mapFind D.key s.m_dataSources = some it) (hnode : s.nodes it = some ds)
    (hdel : ds.origin = DataSourceOrigin.Autogenerated ∨
      (ds.origin = DataSourceOrigin.Manual ∧ ds.parent = none))
    (hr : Ranked s.nodes rank) (hfuel : rank it < fuel) :
    ∃ s', removeDataSource h fuel s D save = some s' ∧
      ∀ r n, (r = it ∨ AutoDescendant s.nodes it r) → s.nodes r = some n →
        (s'.nodes r).map (fun m => m.patches) = some [] ∧
        ∀ p ∈ n.patches, ∀ e ∈ s'.m_searches, p ∉ e.2.results := by
  have hdel' : ¬(ds.origin = DataSourceOrigin.Manual ∧ ds.hasParent = true) := by
    rintro ⟨h1, h2⟩
    rcases hdel with h3 | ⟨_, h3⟩
    · rw [h1] at h3
      cases h3
    · simp [DataSourceNode.hasParent, h3] at h2
  obtain ⟨s', removed, hs', hrem, _, hsearch, hnodes, _, _⟩ :=
    removeDataSource_deleting h s D save rank fuel it ds hfind hnode hdel' hr hfuel
  refine ⟨s', hs', ?_⟩
  intro r n hr' hn
  have hmem : r ∈ removed := (hrem r).2 hr'
  constructor
  · have hc := cleared_severRemoved s.nodes removed r
    rw [← hnodes, hn] at hc
    cases hs : s'.nodes r with
    | none => rw [hs] at hc; simp at hc
    | some m =>
      rw [hs] at hc
      simp only [Option.map_some', Option.some.injEq, Prod.mk.injEq, hmem, if_true] at hc
      simp [hc.2]
  · intro p hp e he hres
    rw [hsearch, List.mem_map] at he
    obtain ⟨e0, _, rfl⟩ := he
    have := (mem_eraseKeys _ _ _).1 hres
    exact this.2 ((mem_collectPatches _ _ _).2 ⟨r, hmem, n, hn, hp⟩)

theorem removeDataSource_detaches_patches_witness :
    mapFind exampleD.key exampleTree.m_dataSources = some 0 ∧
    exampleTree.nodes 0 = some exampleD ∧
    (exampleD.origin = DataSourceOrigin.Autogenerated ∨
      (exampleD.origin = DataSourceOrigin.Manual ∧ exampleD.parent = none)) ∧
    Ranked exampleTree.nodes exampleRank ∧ exampleRank 0 < 3 ∧
    ∃ s', removeDataSource exampleHost 3 exampleTree exampleD.toDataSource true = some s' ∧
      ∀ r n, (r = 0 ∨ AutoDescendant exampleTree.nodes 0 r) → exampleTree.nodes r = some n →
        (s'.nodes r).map (fun m => m.patches) = some [] ∧
        ∀ p ∈ n.patches, ∀ e ∈ s'.m_searches, p ∉ e.2.results :=
  ⟨by decide, rfl, Or.inr ⟨rfl, rfl⟩, exampleTree_ranked, by decide,
    removeDataSource_detaches_patches exampleHost exampleTree exampleD.toDataSource true
      exampleRank 3 0 exampleD (by decide) rfl (Or.inr ⟨rfl, rfl⟩) exampleTree_ranked
      (by decide)⟩

/-! ### The shape of the child tree -/

theorem isChild_of_isAutoChild {nodes : NodePtr → Option DataSourceNode} {p c : NodePtr}
    (h : IsAutoChild nodes p c) : IsChild nodes p c := by
  obtain ⟨pn, cn, hp, hc, hcn, _⟩ := h
  exact ⟨pn, cn, hp, hc, hcn⟩

theorem descendant_of_autoDescendant {nodes : NodePtr → Option DataSourceNode}
    {a x : NodePtr} (h : AutoDescendant nodes a x) : Descendant nodes a x :=
  Relation.TransGen.mono (fun _ _ hc => isChild_of_isAutoChild hc) h

theorem descendant_rank_lt {nodes : NodePtr → Option DataSourceNode} {rank : NodePtr → Nat}
    (hr : Ranked nodes rank) {a x : NodePtr} (h : Descendant nodes a x) :
    rank x < rank a := by
  induction h with
  | single hc => exact hr _ _ hc
  | tail _ hc ih => exact lt_trans (hr _ _ hc) ih

theorem descendant_irrefl {nodes : NodePtr → Option DataSourceNode} {rank : NodePtr → Nat}
    (hr : Ranked nodes rank) (a : NodePtr) : ¬ Descendant nodes a a :=
  fun h => lt_irrefl _ (descendant_rank_lt hr h)

theorem autoDescendant_origin {nodes : NodePtr → Option DataSourceNode} {a x : NodePtr}
    (h : AutoDescendant nodes a x) :
    ∃ n, nodes x = some n ∧ n.origin = DataSourceOrigin.Autogenerated := by
  cases h with
  | single hc =>
    obtain ⟨_, cn, _, _, hcn, ho⟩ := hc
    exact ⟨cn, hcn, ho⟩
  | tail _ hc =>
    obtain ⟨_, cn, _, _, hcn, ho⟩ := hc
    exact ⟨cn, hcn, ho⟩

theorem autoDescendant_isChild {nodes : NodePtr → Option DataSourceNode} {a x : NodePtr}
    (h : AutoDescendant nodes a x) : ∃ b, IsChild nodes b x := by
  cases h with
  | single hc => exact ⟨_, isChild_of_isAutoChild hc⟩
  | tail _ hc => exact ⟨_, isChild_of_isAutoChild hc⟩

theorem parent_unique {nodes : NodePtr → Option DataSourceNode}
    (hpl : ∀ p c, IsChild nodes p c → ∃ cn, nodes c = some cn ∧ cn.parent = some p)
    {p q c : NodePtr} (h1 : IsChild nodes p c) (h2 : IsChild nodes q c) : p = q := by
  obtain ⟨cn, hcn, hp⟩ := hpl p c h1
  obtain ⟨cn', hcn', hq⟩ := hpl q c h2
  rw [hcn] at hcn'
  cases hcn'
  rw [hp] at hq
  exact Option.some.inj hq

theorem descendant_linear {nodes : NodePtr → Option DataSourceNode}
    (hpl : ∀ p c, IsChild nodes p c → ∃ cn, nodes c = some cn ∧ cn.parent = some p)
    {a x : NodePtr} (ha : Descendant nodes a x) :
    ∀ b, Descendant nodes b x → a = b ∨ Descendant nodes a b ∨ Descendant nodes b a := by
  induction ha with
  | single hax =>
    intro b hb
    cases hb with
    | single hbx => exact Or.inl (parent_unique hpl hax hbx)
    | tail hby hyx =>
      have := parent_unique hpl hax hyx
      subst this
      exact Or.inr (Or.inr hby)
  | tail hay hyx ih =>
    intro b hb
    cases hb with
    | single hbx =>
      have := parent_unique hpl hyx hbx
      subst this
      exact Or.inr (Or.inl hay)
    | tail hby hzx =>
      have := parent_unique hpl hyx hzx
      subst this
      exact ih b hby

theorem auto_between {nodes : NodePtr → Option DataSourceNode} {rank : NodePtr → Nat}
    (hpl : ∀ p c, IsChild nodes p c → ∃ cn, nodes c = some cn ∧ cn.parent = some p)
    (hr : Ranked nodes rank) {root x : NodePtr} (hx : AutoDescendant nodes root x) :
    ∀ m, Descendant nodes root m → Descendant nodes m x →
      ∃ n, nodes m = some n ∧ n.origin = DataSourceOrigin.Autogenerated := by
  induction hx with
  | single hrx =>
    intro m hrm hmx
    exfalso
    cases hmx with
    | single hmx' =>
      have := parent_unique hpl (isChild_of_isAutoChild hrx) hmx'
      subst this
      exact descendant_irrefl hr _ hrm
    | tail hmy hyx =>
      have := parent_unique hpl (isChild_of_isAutoChild hrx) hyx
      subst this
      exact descendant_irrefl hr _ (Relation.TransGen.trans hrm hmy)
  | tail hry hyx ih =>
    intro m hrm hmx
    cases hmx with
    | single hmx' =>
      have := parent_unique hpl (isChild_of_isAutoChild hyx) hmx'
      subst this
      exact autoDescendant_origin hry
    | tail hmz hzx =>
      have := parent_unique hpl (isChild_of_isAutoChild hyx) hzx
      subst this
      exact ih m hrm hmz

theorem below_manual_not_reached {nodes : NodePtr → Option DataSourceNode}
    {rank : NodePtr → Nat}
    (hpl : ∀ p c, IsChild nodes p c → ∃ cn, nodes c = some cn ∧ cn.parent = some p)
    (hr : Ranked nodes rank) {it d m x : NodePtr} {mn : DataSourceNode}
    (hd : d = it ∨ AutoDescendant nodes it d) (hm : IsChild nodes d m)
    (hmn : nodes m = some mn) (hman : mn.origin = DataSourceOrigin.Manual)
    (hxm : x = m ∨ Descendant nodes m x) :
    ¬(x = it ∨ AutoDescendant nodes it x) := by
  have hitm : Descendant nodes it m := by
    rcases hd with rfl | hd
    · exact Relation.TransGen.single hm
    · exact Relation.TransGen.tail (descendant_of_autoDescendant hd) hm
  have hne : m ≠ it := by
    rintro rfl
    exact descendant_irrefl hr _ hitm
  have hnoauto : ¬ AutoDescendant nodes it m := by
    intro h
    obtain ⟨n, hn, ho⟩ := autoDescendant_origin h
    rw [hmn] at hn
    cases hn
    rw [hman] at ho
    cases ho
  rintro (hx | hx)
  · rcases hxm with hxm | hxm
    · exact hne (hxm.symm.trans hx)
    · rw [hx] at hxm
      exact descendant_irrefl hr _ (Relation.TransGen.trans hitm hxm)
  · rcases hxm with hxm | hxm
    · rw [hxm] at hx
      exact hnoauto hx
    · rcases descendant_linear hpl (descendant_of_autoDescendant hx) m hxm with h | h | h
      · exact hne h.symm
      · obtain ⟨n, hn, ho⟩ := auto_between hpl hr hx m h hxm
        rw [hmn] at hn
        cases hn
        rw [hman] at ho
        cases ho
      · exact descendant_irrefl hr _ (Relation.TransGen.trans hitm h)

/-- C5: when `removeDataSource` deletes, the entries erased from the table are exactly
those of the node of the data source and of the nodes reached from it through children
that are all Autogenerated; a Manual child of a deleted node and everything below that
child is not reached, keeps its entry in the table and keeps its patch set. -/
theorem removeDataSource_erased_exactly (h : Host) (s : DB W) (D : DataSource)
    (save : Bool) (rank : NodePtr → Nat) (fuel : Nat) (it : NodePtr) (ds : DataSourceNode)
    (hfind : mapFind D.key s.m_dataSources = some it) (hnode : s.nodes it = some ds)
    (hdel : ds.origin = DataSourceOrigin.Autogenerated ∨
      (ds.origin = DataSourceOrigin.Manual ∧ ds.parent = none))
    (hinv : TreeInvariant s) (hr : Ranked s.nodes rank) (hfuel : rank it < fuel) :
    ∃ s', removeDataSource h fuel s D save = some s' ∧
      (∀ e, e ∈ s'.m_dataSources ↔
        e ∈ s.m_dataSources ∧ ¬(e.2 = it ∨ AutoDescendant s.nodes it e.2)) ∧
      ∀ d m mn x, (d = it ∨ AutoDescendant s.nodes it d) → IsChild s.nodes d m →
        s.nodes m = some mn → mn.origin = DataSourceOrigin.Manual →
        (x = m ∨ Descendant s.nodes m x) →
        ¬(x = it ∨ AutoDescendant s.nodes it x) ∧
        (∀ k, (k, x) ∈ s.m_dataSources → (k, x) ∈ s'.m_dataSources) ∧
        (s'.nodes x).map (fun n => n.patches) = (s.nodes x).map (fun n => n.patches) := by
  have hdel' : ¬(ds.origin = DataSourceOrigin.Manual ∧ ds.hasParent = true) := by
    rintro ⟨h1, h2⟩
    rcases hdel with h3 | ⟨_, h3⟩
    · rw [h1] at h3
      cases h3
    · simp [DataSourceNode.hasParent, h3] at h2
  obtain ⟨s', removed, hs', hrem, htab, _, hnodes, _, _⟩ :=
    removeDataSource_deleting h s D save rank fuel it ds hfind hnode hdel' hr hfuel
  have htable : ∀ e, e ∈ s'.m_dataSources ↔
      e ∈ s.m_dataSources ∧ ¬(e.2 = it ∨ AutoDescendant s.nodes it e.2) := by
    intro e
    rw [htab, mem_eraseRemoved]
    constructor
    · rintro ⟨he, hk⟩
      refine ⟨he, fun hx => ?_⟩
      obtain ⟨n, hn, hkey⟩ := hinv.keyed e he
      exact hk e.2 ((hrem e.2).2 hx) n hn hkey
    · rintro ⟨he, hx⟩
      refine ⟨he, ?_⟩
      intro r hr' n hn hkey
      have hmem : (n.key, e.2) ∈ s.m_dataSources := by
        rw [hkey]
        exact he
      apply hx
      rcases (hrem r).1 hr' with rfl | hauto
      · left
        obtain ⟨n', hn', hkey'⟩ := hinv.keyed (D.key, r) (mapFind_mem _ _ _ hfind)
        rw [hn] at hn'
        cases hn'
        have hkey'' : n.key = D.key := hkey'
        rw [hkey''] at hmem
        exact nodup_keys_unique _ hinv.nodupKeys D.key e.2 r hmem (mapFind_mem _ _ _ hfind)
      · right
        obtain ⟨b, hb⟩ := autoDescendant_isChild hauto
        have := hinv.childOwned b r hb n hn e.2 hmem
        rw [this]
        exact hauto
  refine ⟨s', hs', htable, ?_⟩
  intro d m mn x hd hm hmn hman hxm
  have hnot := below_manual_not_reached hinv.parentLink hr hd hm hmn hman hxm
  refine ⟨hnot, fun k hk => (htable (k, x)).2 ⟨hk, hnot⟩, ?_⟩
  have hc := cleared_severRemoved s.nodes removed x
  rw [← hnodes] at hc
  have hxr : x ∉ removed := fun hmem => hnot ((hrem x).1 hmem)
  cases hs : s'.nodes x with
  | none =>
    rw [hs] at hc
    cases hn : s.nodes x with
    | none => rfl
    | some n => rw [hn] at hc; simp at hc
  | some n' =>
    rw [hs] at hc
    cases hn : s.nodes x with
    | none => rw [hn] at hc; simp at hc
    | some n =>
      rw [hn] at hc
      simp only [Option.map_some', Option.some.injEq, Prod.mk.injEq, hxr, if_false] at hc
      simp [hc.2]

theorem removeDataSource_erased_exactly_witness :
    mapFind exampleD.key exampleTree.m_dataSources = some 0 ∧
    exampleTree.nodes 0 = some exampleD ∧
    (exampleD.origin = DataSourceOrigin.Autogenerated ∨
      (exampleD.origin = DataSourceOrigin.Manual ∧ exampleD.parent = none)) ∧
    TreeInvariant exampleTree ∧ Ranked exampleTree.nodes exampleRank ∧ exampleRank 0 < 3 ∧
    ∃ s', removeDataSource exampleHost 3 exampleTree exampleD.toDataSource true = some s' ∧
      (∀ e, e ∈ s'.m_dataSources ↔
        e ∈ exampleTree.m_dataSources ∧
          ¬(e.2 = 0 ∨ AutoDescendant exampleTree.nodes 0 e.2)) ∧
      ∀ d m mn x, (d = 0 ∨ AutoDescendant exampleTree.nodes 0 d) →
        IsChild exampleTree.nodes d m →
        exampleTree.nodes m = some mn → mn.origin = DataSourceOrigin.Manual →
        (x = m ∨ Descendant exampleTree.nodes m x) →
        ¬(x = 0 ∨ AutoDescendant exampleTree.nodes 0 x) ∧
        (∀ k, (k, x) ∈ exampleTree.m_dataSources → (k, x) ∈ s'.m_dataSources) ∧
        (s'.nodes x).map (fun n => n.patches) =
          (exampleTree.nodes x).map (fun n => n.patches) :=
  ⟨by decide, rfl, Or.inr ⟨rfl, rfl⟩, exampleTree_invariant, exampleTree_ranked, by decide,
    removeDataSource_erased_exactly exampleHost exampleTree exampleD.toDataSource true
      exampleRank 3 0 exampleD (by decide) rfl (Or.inr ⟨rfl, rfl⟩) exampleTree_invariant
      exampleTree_ranked (by decide)⟩

/-! ### C9 and C10 -/

/-- C9: `renameDataSource` changes nothing when the node is not a LocalStorage source, or
the new name is empty, or the node is not in the table, or the new name is the current
name, or a LocalStorage node of the table has the new name already. -/
theorem renameDataSource_rejects (h : Host) (s : DB W) (_ds : NodePtr) (n : DataSourceNode)
    (newName : String) (hn : s.nodes _ds = some n)
    (hkeyed : ∀ e ∈ s.m_dataSources, ∃ d, s.nodes e.2 = some d ∧ d.key = e.1)
    (hrej : n.type ≠ SourceType.LocalStorage ∨ newName = "" ∨
      mapFind n.key s.m_dataSources = none ∨ newName = n.name ∨
      ∃ e ∈ s.m_dataSources, ∃ d, s.nodes e.2 = some d ∧
        d.type = SourceType.LocalStorage ∧ d.name = newName) :
    renameDataSource h s _ds newName = s := by
  unfold renameDataSource
  simp only [hn]
  by_cases h1 : n.type ≠ SourceType.LocalStorage
  · simp [h1]
  by_cases h2 : newName = ""
  · simp [h2]
  rw [if_neg h1, if_neg h2]
  cases h3 : mapFind n.key s.m_dataSources with
  | none => rfl
  | some it =>
    obtain ⟨d, hd, hkey⟩ := hkeyed (n.key, it) (mapFind_mem _ _ _ h3)
    simp only [hd]
    by_cases h4 : d.name = newName
    · simp [h4]
    rw [if_neg h4]
    rcases hrej with hr | hr | hr | hr | ⟨e, he, d', hd', ht, hnm⟩
    · exact absurd hr h1
    · exact absurd hr h2
    · rw [h3] at hr
      cases hr
    · exfalso
      apply h4
      have : d.name = n.name := congrArg DataSourceKey.name hkey
      rw [this, hr]
    · have hany : s.m_dataSources.any (fun e =>
          match s.nodes e.2 with
          | none => false
          | some d => decide (d.type = SourceType.LocalStorage) && decide (d.name = newName)) =
          true := by
        rw [List.any_eq_true]
        exact ⟨e, he, by simp [hd', ht, hnm]⟩
      rw [if_pos hany]

theorem renameDataSource_rejects_witness :
    exampleStores.nodes 0 =
      some ⟨⟨SourceType.LocalStorage, "A", DataSourceOrigin.Manual, 0⟩, [], none, []⟩ ∧
    (∀ e ∈ exampleStores.m_dataSources, ∃ d, exampleStores.nodes e.2 = some d ∧ d.key = e.1) ∧
    (∃ e ∈ exampleStores.m_dataSources, ∃ d, exampleStores.nodes e.2 = some d ∧
      d.type = SourceType.LocalStorage ∧ d.name = "B") ∧
    renameDataSource exampleHost exampleStores 0 "B" = exampleStores :=
  have hkeyed : ∀ e ∈ exampleStores.m_dataSources,
      ∃ d, exampleStores.nodes e.2 = some d ∧ d.key = e.1 := by
    intro e he
    simp only [exampleStores, List.mem_cons, List.mem_singleton, List.not_mem_nil,
      or_false] at he
    rcases he with rfl | rfl <;> exact ⟨_, rfl, rfl⟩
  have hdup : ∃ e ∈ exampleStores.m_dataSources, ∃ d, exampleStores.nodes e.2 = some d ∧
      d.type = SourceType.LocalStorage ∧ d.name = "B" :=
    ⟨(⟨SourceType.LocalStorage, "B", 0⟩, 1), by simp [exampleStores], _, rfl, rfl, rfl⟩
  ⟨rfl, hkeyed, hdup,
    renameDataSource_rejects exampleHost exampleStores 0 _ "B" rfl hkeyed
      (Or.inr (Or.inr (Or.inr (Or.inr hdup))))⟩

/-- C10: `uiProcess` hands the accumulated `Dirty` to the caller, runs the queued
functions once each in the order of the queue, and leaves an empty `Dirty` and an empty
queue; a second `uiProcess` right after it hands out the empty `Dirty` and runs
nothing. -/
theorem uiProcess_drains (s : DB W) (w : W) :
    (uiProcess s w).2.1 = s.m_dirty ∧
    (uiProcess s w).2.2 = s.m_uiFuncs.foldl (fun w func => func w) w ∧
    (uiProcess s w).1.m_dirty = ⟨false, false, [], [], []⟩ ∧
    (uiProcess s w).1.m_uiFuncs = [] ∧
    (∀ w', (uiProcess (uiProcess s w).1 w').2.1 = ⟨false, false, [], [], []⟩ ∧
      (uiProcess (uiProcess s w).1 w').2.2 = w' ∧
      uiProcess (uiProcess s w).1 w' = ((uiProcess s w).1, Dirty.empty, w')) :=
  ⟨rfl, rfl, rfl, rfl, fun _ => ⟨rfl, rfl, rfl⟩⟩

/-! ### Registration of patches -/

theorem sameNodes_refl (s : DB W) : SameNodes s s :=
  ⟨rfl, rfl, rfl, rfl, rfl, rfl, rfl, rfl⟩

theorem SameNodes.andThen {s t u : DB W} (a : SameNodes s t) (b : SameNodes t u) :
    SameNodes s u :=
  ⟨b.nodes.trans a.nodes, b.nextNode.trans a.nextNode, b.nextPatch.trans a.nextPatch,
    b.loaderDestroyed.trans a.loaderDestroyed, b.m_settingsDir.trans a.m_settingsDir,
    b.m_dataSources.trans a.m_dataSources, b.files.trans a.files, b.errors.trans a.errors⟩

theorem sameNodes_foldl {α : Type} (step : DB W → α → DB W)
    (hstep : ∀ b a, SameNodes b (step b a)) (l : List α) (b : DB W) :
    SameNodes b (l.foldl step b) := by
  induction l generalizing b with
  | nil => exact sameNodes_refl _
  | cons a l ih => exact (hstep b a).andThen (ih (step b a))

theorem sameNodes_internalAddTag (s : DB W) (t : TagType) (g : Tag) :
    SameNodes s (internalAddTag s t g).1 ∧
      (internalAddTag s t g).1.patchHeap = s.patchHeap ∧
      (internalAddTag s t g).1.m_searches = s.m_searches ∧
      (internalAddTag s t g).1.m_patchModifications = s.m_patchModifications := by
  unfold internalAddTag
  split
  · exact ⟨⟨rfl, rfl, rfl, rfl, rfl, rfl, rfl, rfl⟩, rfl, rfl, rfl⟩
  · split
    · exact ⟨sameNodes_refl s, rfl, rfl, rfl⟩
    · exact ⟨⟨rfl, rfl, rfl, rfl, rfl, rfl, rfl, rfl⟩, rfl, rfl, rfl⟩

theorem registerTags_frame (tags : TypedTags) (s : DB W) :
    SameNodes s (registerTags s tags) ∧
      (registerTags s tags).patchHeap = s.patchHeap ∧
      (registerTags s tags).m_searches = s.m_searches := by
  have inner : ∀ (t : TagType) (l : List Tag) (st : DB W),
      SameNodes st (l.foldl (fun st tag => (internalAddTag st t tag).1) st) ∧
        (l.foldl (fun st tag => (internalAddTag st t tag).1) st).patchHeap = st.patchHeap ∧
        (l.foldl (fun st tag => (internalAddTag st t tag).1) st).m_searches =
          st.m_searches := by
    intro t l
    induction l with
    | nil => intro st; exact ⟨sameNodes_refl _, rfl, rfl⟩
    | cons g l ih =>
      intro st
      obtain ⟨a1, a2, a3, _⟩ := sameNodes_internalAddTag st t g
      obtain ⟨b1, b2, b3⟩ := ih (internalAddTag st t g).1
      exact ⟨a1.andThen b1, b2.trans a2, b3.trans a3⟩
  unfold registerTags
  induction tags generalizing s with
  | nil => exact ⟨sameNodes_refl _, rfl, rfl⟩
  | cons it tags ih =>
    obtain ⟨a1, a2, a3⟩ := inner it.1 it.2.added s
    obtain ⟨b1, b2, b3⟩ := ih (it.2.added.foldl (fun st tag => (internalAddTag st it.1 tag).1) s)
    exact ⟨a1.andThen b1, b2.trans a2, b3.trans a3⟩

theorem sameUpToMods_refl (touched : List PatchPtr) (heap : PatchPtr → Option Patch) :
    SameUpToMods touched heap heap :=
  fun _ => ⟨rfl, fun _ => rfl⟩

theorem SameUpToMods.andThen' {touched : List PatchPtr} {a b c : PatchPtr → Option Patch}
    (h1 : SameUpToMods touched a b) (h2 : SameUpToMods touched b c) :
    SameUpToMods touched a c :=
  fun q => ⟨((h2 q).1).trans (h1 q).1, fun hq => ((h2 q).2 hq).trans ((h1 q).2 hq)⟩

theorem SameUpToMods.widen {t1 t2 : List PatchPtr} {a b : PatchPtr → Option Patch}
    (h : SameUpToMods t1 a b) (hsub : ∀ q ∈ t1, q ∈ t2) : SameUpToMods t2 a b :=
  fun q => ⟨(h q).1, fun hq => (h q).2 (fun hq' => hq (hsub q hq'))⟩

theorem sameUpToMods_update (heap : PatchPtr → Option Patch) (ptr : PatchPtr) (patch : Patch)
    (m : Option PatchModifications) (hp : heap ptr = some patch) :
    SameUpToMods [ptr] heap (update heap ptr { patch with modifications := m }) := by
  intro q
  unfold update
  by_cases hq : q = ptr
  · subst hq
    simp [hp, stripMods]
  · simp [hq]

theorem attachPending_frame (s : DB W) (ptr : PatchPtr) (patch : Patch)
    (hp : s.patchHeap ptr = some patch) :
    SameNodes s (attachPending s ptr patch) ∧
      SameUpToMods [ptr] s.patchHeap (attachPending s ptr patch).patchHeap ∧
      (attachPending s ptr patch).m_searches = s.m_searches := by
  unfold attachPending
  split
  · exact ⟨sameNodes_refl _, sameUpToMods_refl _ _, rfl⟩
  · exact ⟨⟨rfl, rfl, rfl, rfl, rfl, rfl, rfl, rfl⟩, sameUpToMods_update _ _ _ _ hp, rfl⟩

theorem addPatchesStep_frame (h : Host) (s : DB W) (ptr : PatchPtr) :
    SameNodes s (addPatchesStep h s ptr) ∧
      SameUpToMods [ptr] s.patchHeap (addPatchesStep h s ptr).patchHeap ∧
      (addPatchesStep h s ptr).m_searches = s.m_searches := by
  unfold addPatchesStep
  cases hp : s.patchHeap ptr with
  | none => exact ⟨sameNodes_refl _, sameUpToMods_refl _ _, rfl⟩
  | some patch =>
    dsimp only
    obtain ⟨a1, a2, a3⟩ := attachPending_frame s ptr patch hp
    split
    · exact ⟨a1, a2, a3⟩
    · rename_i patch1 _
      obtain ⟨b1, b2, b3⟩ := registerTags_frame (h.getTags patch1) (attachPending s ptr patch)
      refine ⟨a1.andThen b1, ?_, b3.trans a3⟩
      rw [b2]
      exact a2

theorem addPatchesFold_frame (h : Host) (ps : List PatchPtr) (s : DB W) :
    SameNodes s (ps.foldl (addPatchesStep h) s) ∧
      SameUpToMods ps s.patchHeap (ps.foldl (addPatchesStep h) s).patchHeap ∧
      (ps.foldl (addPatchesStep h) s).m_searches = s.m_searches := by
  induction ps generalizing s with
  | nil => exact ⟨sameNodes_refl _, sameUpToMods_refl _ _, rfl⟩
  | cons ptr ps ih =>
    obtain ⟨a1, a2, a3⟩ := addPatchesStep_frame h s ptr
    obtain ⟨b1, b2, b3⟩ := ih (addPatchesStep h s ptr)
    refine ⟨a1.andThen b1, ?_, b3.trans a3⟩
    exact (a2.widen (fun q hq => by
      rw [List.mem_singleton] at hq
      rw [hq]
      exact List.mem_cons_self _ _)).andThen'
      (b2.widen (fun q hq => List.mem_cons_of_mem _ hq))

theorem mem_updateResults (h : Host) (s : DB W) (req : SearchRequest) (ps : List PatchPtr)
    (r : List PatchPtr) (x : PatchPtr) (hx : x ∈ updateResults h s req ps r) :
    x ∈ r ∨ x ∈ ps := by
  unfold updateResults at hx
  induction ps generalizing r with
  | nil => exact Or.inl hx
  | cons ptr ps ih =>
    rw [List.foldl_cons] at hx
    rcases ih _ hx with h1 | h1
    · have : x ∈ r ∨ x = ptr := by
        revert h1
        split
        · exact fun h1 => Or.inl h1
        · split
          · intro h1
            rcases (mem_setInsert _ _ _).1 h1 with h2 | h2
            · exact Or.inr h2
            · exact Or.inl h2
          · intro h1
            exact Or.inl ((mem_setErase _ _ _).1 h1).1
      rcases this with h2 | h2
      · exact Or.inl h2
      · exact Or.inr (by rw [h2]; exact List.mem_cons_self _ _)
    · exact Or.inr (List.mem_cons_of_mem _ h1)

theorem addPatches_frame (h : Host) (s : DB W) (ps : List PatchPtr) :
    SameNodes s (addPatches h s ps).1 ∧
      SameUpToMods ps s.patchHeap (addPatches h s ps).1.patchHeap ∧
      ∀ e ∈ (addPatches h s ps).1.m_searches, ∀ x ∈ e.2.results,
        x ∈ ps ∨ ∃ e0 ∈ s.m_searches, x ∈ e0.2.results := by
  unfold addPatches
  split
  · exact ⟨sameNodes_refl _, sameUpToMods_refl _ _,
      fun e he x hx => Or.inr ⟨e, he, hx⟩⟩
  · obtain ⟨a1, a2, a3⟩ := addPatchesFold_frame h ps s
    refine ⟨a1.andThen ⟨rfl, rfl, rfl, rfl, rfl, rfl, rfl, rfl⟩, a2, ?_⟩
    intro e he x hx
    simp only [updateSearches, List.mem_map] at he
    obtain ⟨e0, he0, rfl⟩ := he
    rw [a3] at he0
    rcases mem_updateResults _ _ _ _ _ _ hx with h1 | h1
    · exact Or.inr ⟨e0, he0, h1⟩
    · exact Or.inl h1

/-! ### Ingestion -/

theorem applyModifications_frame (nodes : NodePtr → Option DataSourceNode)
    (ps : List PatchPtr) (acc : (PatchPtr → Option Patch) × List (PatchKey × PatchModifications)) :
    SameUpToMods ps acc.1 (applyModifications nodes ps acc).1 := by
  induction ps generalizing acc with
  | nil => exact sameUpToMods_refl _ _
  | cons ptr ps ih =>
    unfold applyModifications
    have hsub : ∀ q ∈ ps, q ∈ ptr :: ps := fun q hq => List.mem_cons_of_mem _ hq
    cases hp : acc.1 ptr with
    | none => exact (ih acc).widen hsub
    | some patch =>
      dsimp only
      cases hm : mapFind (PatchKey.ofPatch nodes patch) acc.2 with
      | none => exact (ih acc).widen hsub
      | some mods =>
        dsimp only
        have h1 : SameUpToMods (ptr :: ps) acc.1
            (update acc.1 ptr
              { patch with modifications := some { mods with patch := some ptr } }) :=
          (sameUpToMods_update _ _ _ _ hp).widen (fun q hq => by
            rw [List.mem_singleton] at hq
            rw [hq]
            exact List.mem_cons_self _ _)
        split
        · exact h1
        · exact h1.andThen' ((ih _).widen hsub)

theorem loadPatchModifications_frame (h : Host) (s : DB W) (ds : NodePtr)
    (ps : List PatchPtr) :
    SameNodes s (loadPatchModifications h s ds ps).1 ∧
      SameUpToMods ps s.patchHeap (loadPatchModifications h s ds ps).1.patchHeap ∧
      (loadPatchModifications h s ds ps).1.m_searches = s.m_searches := by
  unfold loadPatchModifications
  have base : SameNodes s s ∧ SameUpToMods ps s.patchHeap s.patchHeap ∧
      s.m_searches = s.m_searches := ⟨sameNodes_refl _, sameUpToMods_refl _ _, rfl⟩
  split
  · exact base
  · split
    · exact base
    · dsimp only
      split
      · exact base
      · split
        · exact base
        · split
          · exact base
          · exact ⟨⟨rfl, rfl, rfl, rfl, rfl, rfl, rfl, rfl⟩,
              applyModifications_frame s.nodes ps (s.patchHeap, _), rfl⟩

theorem isValid_of_stripMods (p q : Patch) (hq : q.modifications = none)
    (hs : stripMods p = stripMods q) (hv : isValid (some q) = true) :
    isValid (some p) = true := by
  have hname : p.name = q.name := by
    have := congrArg Patch.name hs
    exact this
  have hsys : p.sysex = q.sysex := by
    have := congrArg Patch.sysex hs
    exact this
  rw [isValid_eq_true_iff] at hv ⊢
  obtain ⟨h1, h2, h3, h4⟩ := hv
  have hqn : q.getName = q.name := by
    unfold Patch.getName
    rw [hq]
  rw [hqn] at h1
  refine ⟨?_, by rw [hsys]; exact h2, by rw [hsys]; exact h3, by rw [hsys]; exact h4⟩
  unfold Patch.getName
  cases p.modifications with
  | none =>
    dsimp only
    rw [hname]
    exact h1
  | some m =>
    dsimp only
    split
    · rw [hname]
      exact h1
    · assumption

theorem ingestFrom_spec (h : Host) (ds : NodePtr) (data : DataList) :
    ∀ (p0 : Nat) (s0 : DB W) (acc0 : List PatchPtr) (dn0 : DataSourceNode),
      s0.nodes ds = some dn0 →
      ∃ new, (ingestFrom h ds p0 data (s0, acc0)).2 = acc0 ++ new ∧
        Ingested h ds data p0 s0 dn0 (ingestFrom h ds p0 data (s0, acc0)).1 new := by
  induction data with
  | nil =>
    intro p0 s0 acc0 dn0 hn
    refine ⟨[], by simp [ingestFrom], ?_⟩
    exact
      { node := ⟨dn0.patches, hn, by simp⟩
        others := fun _ _ => rfl
        next := le_refl _
        fresh := by simp
        made := by simp
        kept := fun _ _ => rfl
        m_searches := rfl
        m_dirty := rfl
        files := rfl
        m_dataSources := rfl
        m_settingsDir := rfl
        nextNode := rfl
        loaderDestroyed := rfl }
  | cons d rest ih =>
    intro p0 s0 acc0 dn0 hn
    have hidx : ∀ i, p0 + 1 ≤ i → (d :: rest)[i - p0]? = rest[i - (p0 + 1)]? := by
      intro i hi
      have : i - p0 = (i - (p0 + 1)) + 1 := by omega
      rw [this, List.getElem?_cons_succ]
    unfold ingestFrom
    cases hinit : h.initializePatch d with
    | none =>
      have hstep : ingestStep h ds (s0, acc0) p0 d = (s0, acc0) := by
        unfold ingestStep
        rw [hinit]
      rw [hstep]
      obtain ⟨new, hacc, hing⟩ := ih (p0 + 1) s0 acc0 dn0 hn
      refine ⟨new, hacc, { hing with made := ?_ }⟩
      intro x hx
      obtain ⟨i, d', patch0, hi, hd', rest'⟩ := hing.made x hx
      exact ⟨i, d', patch0, Nat.le_of_succ_le hi, by rw [hidx i hi]; exact hd', rest'⟩
    | some patch0 =>
      by_cases hv : isValid (some ({ patch0 with source := some ds } : Patch)) = true
      · have hstep : ingestStep h ds (s0, acc0) p0 d =
            (({ s0 with
                patchHeap := update s0.patchHeap s0.nextPatch
                  { patch0 with source := some ds, program := p0 },
                nextPatch := s0.nextPatch + 1,
                nodes := modify s0.nodes ds
                  (fun n => { n with patches := setInsert s0.nextPatch n.patches }) } : DB W),
              acc0 ++ [s0.nextPatch]) := by
          unfold ingestStep
          rw [hinit]
          dsimp only
          rw [if_pos hv]
        rw [hstep]
        have hn1 : (modify s0.nodes ds
            (fun n => { n with patches := setInsert s0.nextPatch n.patches })) ds =
            some { dn0 with patches := setInsert s0.nextPatch dn0.patches } := by
          unfold modify
          rw [hn]
          simp [update]
        obtain ⟨new, hacc, hing⟩ := ih (p0 + 1)
          ({ s0 with
              patchHeap := update s0.patchHeap s0.nextPatch
                { patch0 with source := some ds, program := p0 },
              nextPatch := s0.nextPatch + 1,
              nodes := modify s0.nodes ds
                (fun n => { n with patches := setInsert s0.nextPatch n.patches }) } : DB W)
          (acc0 ++ [s0.nextPatch]) _ hn1
        refine ⟨s0.nextPatch :: new, by rw [hacc]; simp, ?_⟩
        obtain ⟨P, hP1, hP2⟩ := hing.node
        have hnext : s0.nextPatch + 1 ≤
            (ingestFrom h ds (p0 + 1) rest
              (({ s0 with
                patchHeap := update s0.patchHeap s0.nextPatch
                  { patch0 with source := some ds, program := p0 },
                nextPatch := s0.nextPatch + 1,
                nodes := modify s0.nodes ds
                  (fun n => { n with patches := setInsert s0.nextPatch n.patches }) } : DB W),
              acc0 ++ [s0.nextPatch])).1.nextPatch := hing.next
        have hfresh : ∀ x ∈ new, s0.nextPatch + 1 ≤ x := fun x hx => (hing.fresh x hx).1
        have hnotin : s0.nextPatch ∉ new := fun hmem =>
          Nat.not_succ_le_self _ (hfresh _ hmem)
        exact
          { node := ⟨P, hP1, fun x => by
              rw [hP2, mem_setInsert, List.mem_cons]
              tauto⟩
            others := fun q hq => by
              rw [hing.others q hq]
              unfold modify
              rw [hn]
              simp [update, hq]
            next := Nat.le_of_succ_le hnext
            fresh := by
              intro x hx
              rcases List.mem_cons.1 hx with rfl | hx
              · exact ⟨le_refl _, hnext⟩
              · exact ⟨Nat.le_of_succ_le (hfresh x hx), (hing.fresh x hx).2⟩
            made := by
              intro x hx
              rcases List.mem_cons.1 hx with rfl | hx
              · refine ⟨p0, d, patch0, le_refl _, by simp, hinit, hv, ?_⟩
                rw [hing.kept _ hnotin]
                simp [update]
              · obtain ⟨i, d', p', hi, hd', rest'⟩ := hing.made x hx
                exact ⟨i, d', p', Nat.le_of_succ_le hi, by rw [hidx i hi]; exact hd', rest'⟩
            kept := by
              intro x hx
              rw [List.mem_cons, not_or] at hx
              rw [hing.kept x hx.2]
              simp [update, hx.1]
            m_searches := hing.m_searches
            m_dirty := hing.m_dirty
            files := hing.files
            m_dataSources := hing.m_dataSources
            m_settingsDir := hing.m_settingsDir
            nextNode := hing.nextNode
            loaderDestroyed := hing.loaderDestroyed }
      · have hstep : ingestStep h ds (s0, acc0) p0 d =
            (({ s0 with nextPatch := s0.nextPatch + 1 } : DB W), acc0) := by
          unfold ingestStep
          rw [hinit]
          dsimp only
          rw [if_neg hv]
        rw [hstep]
        obtain ⟨new, hacc, hing⟩ :=
          ih (p0 + 1) ({ s0 with nextPatch := s0.nextPatch + 1 } : DB W) acc0 dn0 hn
        have hnext : s0.nextPatch + 1 ≤
            (ingestFrom h ds (p0 + 1) rest
              (({ s0 with nextPatch := s0.nextPatch + 1 } : DB W), acc0)).1.nextPatch :=
          hing.next
        have hfresh : ∀ x ∈ new, s0.nextPatch + 1 ≤ x := fun x hx => (hing.fresh x hx).1
        refine ⟨new, hacc, ?_⟩
        exact
          { node := hing.node
            others := hing.others
            next := Nat.le_of_succ_le hnext
            fresh := fun x hx => ⟨Nat.le_of_succ_le (hfresh x hx), (hing.fresh x hx).2⟩
            made := by
              intro x hx
              obtain ⟨i, d', p', hi, hd', rest'⟩ := hing.made x hx
              exact ⟨i, d', p', Nat.le_of_succ_le hi, by rw [hidx i hi]; exact hd', rest'⟩
            kept := hing.kept
            m_searches := hing.m_searches
            m_dirty := hing.m_dirty
            files := hing.files
            m_dataSources := hing.m_dataSources
            m_settingsDir := hing.m_settingsDir
            nextNode := hing.nextNode
            loaderDestroyed := hing.loaderDestroyed }

theorem samePatches_refl (s : DB W) : SamePatches s s :=
  ⟨rfl, rfl, rfl, rfl, rfl, rfl, rfl, rfl, rfl⟩

theorem samePatches_addDsToList (s : DB W) (ds : NodePtr) (ex : Bool) :
    SamePatches s (addDsToList s ds ex) ∧ (addDsToList s ds ex).nodes = s.nodes := by
  unfold addDsToList
  split
  · exact ⟨samePatches_refl s, rfl⟩
  · split
    · exact ⟨samePatches_refl s, rfl⟩
    · exact ⟨⟨rfl, rfl, rfl, rfl, rfl, rfl, rfl, rfl, rfl⟩, rfl⟩

theorem samePatches_mergeExisting (s s1 : DB W) (_ds ds : NodePtr) (n : DataSourceNode)
    (ex : Bool) (hm : mergeExisting s _ds n = some (s1, ds, ex)) : SamePatches s s1 := by
  unfold mergeExisting at hm
  split at hm
  · cases hm
    exact samePatches_refl s
  · split at hm
    · cases hm
      exact samePatches_refl s
    · split at hm
      · cases hm
        exact ⟨rfl, rfl, rfl, rfl, rfl, rfl, rfl, rfl, rfl⟩
      · split at hm
        · cases hm
          exact ⟨rfl, rfl, rfl, rfl, rfl, rfl, rfl, rfl, rfl⟩
        · cases hm

theorem loadData_congr (h : Host) (s t : DB W) (d : DataSource) (hf : t.files = s.files)
    (hd : t.m_settingsDir = s.m_settingsDir) : loadData h t d = loadData h s d := by
  unfold loadData loadFile loadLocalStorage readFile getLocalStorageFile
  rw [hf, hd]

theorem ingested_nil (h : Host) (ds : NodePtr) (data : DataList) (p0 : Nat) (s0 : DB W)
    (dn0 : DataSourceNode) (hn : s0.nodes ds = some dn0) :
    Ingested h ds data p0 s0 dn0 s0 [] :=
  { node := ⟨dn0.patches, hn, by simp⟩
    others := fun _ _ => rfl
    next := le_refl _
    fresh := by simp
    made := by simp
    kept := fun _ _ => rfl
    m_searches := rfl
    m_dirty := rfl
    files := rfl
    m_dataSources := rfl
    m_settingsDir := rfl
    nextNode := rfl
    loaderDestroyed := rfl }

theorem ingest_conclusions (h : Host) (ds : NodePtr) (data : DataList) (s2 r f : DB W)
    (dn : DataSourceNode) (new : List PatchPtr)
    (hfresh : ∀ d p, h.initializePatch d = some p → p.modifications = none)
    (hing : Ingested h ds data 0 s2 dn r new)
    (hold : ∀ p ∈ dn.patches, p < s2.nextPatch ∧ ∃ patch, s2.patchHeap p = some patch ∧
      isValid (some patch) = true ∧ patch.source = some ds)
    (hres : ∀ e ∈ s2.m_searches, ∀ p ∈ e.2.results, p < s2.nextPatch)
    (hheap : ∀ p, s2.nextPatch ≤ p → s2.patchHeap p = none)
    (hnodes : f.nodes = r.nodes) (hmods : SameUpToMods new r.patchHeap f.patchHeap)
    (hsearch : ∀ e ∈ f.m_searches, ∀ x ∈ e.2.results,
      x ∈ new ∨ ∃ e0 ∈ r.m_searches, x ∈ e0.2.results)
    (herr : f.m_dirty.errors = r.m_dirty.errors) :
    ∃ dn', f.nodes ds = some dn' ∧
      (∀ p ∈ dn'.patches, ∃ patch, f.patchHeap p = some patch ∧
        isValid (some patch) = true ∧ patch.source = some ds) ∧
      (∀ p ∈ dn'.patches, p ∉ dn.patches → ∃ i d patch0 patch,
        data[i]? = some d ∧ h.initializePatch d = some patch0 ∧
        isValid (some patch0) = true ∧ f.patchHeap p = some patch ∧
        patch.program = i ∧ patch.sysex = patch0.sysex ∧ patch.name = patch0.name) ∧
      (∀ p, s2.nextPatch ≤ p → p ∉ dn'.patches →
        f.patchHeap p = none ∧ ∀ e ∈ f.m_searches, p ∉ e.2.results) ∧
      f.m_dirty.errors = s2.m_dirty.errors := by
  obtain ⟨P, hP1, hP2⟩ := hing.node
  have hnew : ∀ p ∈ new, ∃ i d patch0 patch,
      data[i]? = some d ∧ h.initializePatch d = some patch0 ∧
      isValid (some patch0) = true ∧ f.patchHeap p = some patch ∧
      stripMods patch = stripMods { patch0 with source := some ds, program := i } := by
    intro p hp
    obtain ⟨i, d, patch0, _, hd, hinit, hv, hheap'⟩ := hing.made p hp
    have hs := (hmods p).1
    rw [hheap'] at hs
    cases hf : f.patchHeap p with
    | none => rw [hf] at hs; simp at hs
    | some patch =>
      rw [hf] at hs
      simp only [Option.map_some', Option.some.injEq] at hs
      exact ⟨i, d, patch0, patch, by simpa using hd, hinit, hv, rfl, hs⟩
  have hnotnew : ∀ p, p < s2.nextPatch → p ∉ new := fun p hp hmem =>
    Nat.lt_irrefl _ (Nat.lt_of_lt_of_le hp (hing.fresh p hmem).1)
  refine ⟨{ dn with patches := P }, by rw [hnodes]; exact hP1, ?_, ?_, ?_, ?_⟩
  · intro p hp
    rcases (hP2 p).1 hp with hp' | hp'
    · obtain ⟨hlt, patch, hpatch, hv, hsrc⟩ := hold p hp'
      refine ⟨patch, ?_, hv, hsrc⟩
      rw [(hmods p).2 (hnotnew p hlt), hing.kept p (hnotnew p hlt)]
      exact hpatch
    · obtain ⟨i, d, patch0, patch, _, hinit, hv, hf, hs⟩ := hnew p hp'
      refine ⟨patch, hf, ?_, ?_⟩
      · exact isValid_of_stripMods patch { patch0 with source := some ds, program := i }
          (hfresh d patch0 hinit) hs hv
      · have := congrArg Patch.source hs
        exact this
  · intro p hp hnot
    rcases (hP2 p).1 hp with hp' | hp'
    · exact absurd hp' hnot
    · obtain ⟨i, d, patch0, patch, hd, hinit, hv, hf, hs⟩ := hnew p hp'
      refine ⟨i, d, patch0, patch, hd, hinit, hv, hf, ?_, ?_, ?_⟩
      · have := congrArg Patch.program hs
        exact this
      · have := congrArg Patch.sysex hs
        exact this
      · have := congrArg Patch.name hs
        exact this
  · intro p hge hnot
    have hpn : p ∉ new := fun hmem => hnot ((hP2 p).2 (Or.inr hmem))
    refine ⟨?_, ?_⟩
    · rw [(hmods p).2 hpn, hing.kept p hpn]
      exact hheap p hge
    · intro e he hmem
      rcases hsearch e he p hmem with h1 | ⟨e0, he0, h1⟩
      · exact hpn h1
      · rw [hing.m_searches] at he0
        exact Nat.lt_irrefl _ (Nat.lt_of_lt_of_le (hres e0 he0 p h1) hge)
  · rw [herr, hing.m_dirty]

theorem addLoaded_ingests (h : Host) (s1 : DB W) (ds : NodePtr) (dn : DataSourceNode)
    (ex : Bool) (hfresh : ∀ d p, h.initializePatch d = some p → p.modifications = none)
    (hdn : s1.nodes ds = some dn)
    (hold : ∀ p ∈ dn.patches, p < s1.nextPatch ∧ ∃ patch, s1.patchHeap p = some patch ∧
      isValid (some patch) = true ∧ patch.source = some ds)
    (hres : ∀ e ∈ s1.m_searches, ∀ p ∈ e.2.results, p < s1.nextPatch)
    (hheap : ∀ p, s1.nextPatch ≤ p → s1.patchHeap p = none) :
    ∃ dn', (addLoaded h s1 ds dn ex).nodes ds = some dn' ∧
      (∀ p ∈ dn'.patches, ∃ patch, (addLoaded h s1 ds dn ex).patchHeap p = some patch ∧
        isValid (some patch) = true ∧ patch.source = some ds) ∧
      (∀ p ∈ dn'.patches, p ∉ dn.patches → ∃ i d patch0 patch,
        (loadData h s1 dn.toDataSource).2[i]? = some d ∧ h.initializePatch d = some patch0 ∧
        isValid (some patch0) = true ∧ (addLoaded h s1 ds dn ex).patchHeap p = some patch ∧
        patch.program = i ∧ patch.sysex = patch0.sysex ∧ patch.name = patch0.name) ∧
      (∀ p, s1.nextPatch ≤ p → p ∉ dn'.patches →
        (addLoaded h s1 ds dn ex).patchHeap p = none ∧
        ∀ e ∈ (addLoaded h s1 ds dn ex).m_searches, p ∉ e.2.results) ∧
      (addLoaded h s1 ds dn ex).m_dirty.errors = s1.m_dirty.errors := by
  obtain ⟨hs2, hs2n⟩ : SamePatches s1
      (if dn.origin = DataSourceOrigin.Manual then addDsToList s1 ds ex else s1) ∧
      (if dn.origin = DataSourceOrigin.Manual then addDsToList s1 ds ex else s1).nodes =
        s1.nodes := by
    split
    · exact samePatches_addDsToList s1 ds ex
    · exact ⟨samePatches_refl s1, rfl⟩
  generalize hs2def :
    (if dn.origin = DataSourceOrigin.Manual then addDsToList s1 ds ex else s1) = s2 at hs2 hs2n
  have hdata : loadData h s2 dn.toDataSource = loadData h s1 dn.toDataSource :=
    loadData_congr h s1 s2 _ hs2.files hs2.m_settingsDir
  have hdn2 : s2.nodes ds = some dn := by rw [hs2n]; exact hdn
  have hold2 : ∀ p ∈ dn.patches, p < s2.nextPatch ∧ ∃ patch, s2.patchHeap p = some patch ∧
      isValid (some patch) = true ∧ patch.source = some ds := by
    rw [hs2.nextPatch, hs2.patchHeap]
    exact hold
  have hres2 : ∀ e ∈ s2.m_searches, ∀ p ∈ e.2.results, p < s2.nextPatch := by
    rw [hs2.nextPatch, hs2.m_searches]
    exact hres
  have hheap2 : ∀ p, s2.nextPatch ≤ p → s2.patchHeap p = none := by
    rw [hs2.nextPatch, hs2.patchHeap]
    exact hheap
  have key : ∀ f : DB W, ∀ r new, Ingested h ds (loadData h s1 dn.toDataSource).2 0 s2 dn r new →
      f.nodes = r.nodes → SameUpToMods new r.patchHeap f.patchHeap →
      (∀ e ∈ f.m_searches, ∀ x ∈ e.2.results,
        x ∈ new ∨ ∃ e0 ∈ r.m_searches, x ∈ e0.2.results) →
      f.m_dirty.errors = r.m_dirty.errors →
      ∃ dn', f.nodes ds = some dn' ∧
        (∀ p ∈ dn'.patches, ∃ patch, f.patchHeap p = some patch ∧
          isValid (some patch) = true ∧ patch.source = some ds) ∧
        (∀ p ∈ dn'.patches, p ∉ dn.patches → ∃ i d patch0 patch,
          (loadData h s1 dn.toDataSource).2[i]? = some d ∧
          h.initializePatch d = some patch0 ∧
          isValid (some patch0) = true ∧ f.patchHeap p = some patch ∧
          patch.program = i ∧ patch.sysex = patch0.sysex ∧ patch.name = patch0.name) ∧
        (∀ p, s1.nextPatch ≤ p → p ∉ dn'.patches →
          f.patchHeap p = none ∧ ∀ e ∈ f.m_searches, p ∉ e.2.results) ∧
        f.m_dirty.errors = s1.m_dirty.errors := by
    intro f r new hing hnodes hmods hsearch herr
    have := ingest_conclusions h ds _ s2 r f dn new hfresh hing hold2 hres2 hheap2 hnodes
      hmods hsearch herr
    rw [hs2.nextPatch, hs2.errors] at this
    exact this
  unfold addLoaded
  simp only [hs2def, hdata]
  split
  · obtain ⟨new, hacc, hing⟩ :=
      ingestFrom_spec h ds (loadData h s1 dn.toDataSource).2 0 s2 [] dn hdn2
    rw [List.nil_append] at hacc
    subst hacc
    split
    · obtain ⟨a1, a2⟩ := samePatches_addDsToList
        (ingestFrom h ds 0 (loadData h s1 dn.toDataSource).2 (s2, [])).1 ds
        (ex || decide (dn.origin = DataSourceOrigin.Manual))
      obtain ⟨b1, b2, b3⟩ := loadPatchModifications_frame h
        (addDsToList (ingestFrom h ds 0 (loadData h s1 dn.toDataSource).2 (s2, [])).1 ds
          (ex || decide (dn.origin = DataSourceOrigin.Manual))) ds
        (ingestFrom h ds 0 (loadData h s1 dn.toDataSource).2 (s2, [])).2
      obtain ⟨c1, c2, c3⟩ := addPatches_frame h
        (loadPatchModifications h
          (addDsToList (ingestFrom h ds 0 (loadData h s1 dn.toDataSource).2 (s2, [])).1 ds
            (ex || decide (dn.origin = DataSourceOrigin.Manual))) ds
          (ingestFrom h ds 0 (loadData h s1 dn.toDataSource).2 (s2, [])).2).1
        (ingestFrom h ds 0 (loadData h s1 dn.toDataSource).2 (s2, [])).2
      rw [a1.patchHeap] at b2
      refine key _ _ _ hing ?_ (b2.andThen' c2) ?_ ?_
      · rw [c1.nodes, b1.nodes, a2]
      · intro e he x hx
        rcases c3 e he x hx with h1 | ⟨e0, he0, h1⟩
        · exact Or.inl h1
        · rw [b3, a1.m_searches] at he0
          exact Or.inr ⟨e0, he0, h1⟩
      · rw [c1.errors, b1.errors, a1.errors]
    · exact key _ _ _ hing rfl (sameUpToMods_refl _ _)
        (fun e he x hx => Or.inr ⟨e, he, hx⟩) rfl
  · exact key s2 s2 [] (ingested_nil h ds _ 0 s2 dn hdn2) rfl (sameUpToMods_refl _ _)
      (fun e he x hx => Or.inr ⟨e, he, hx⟩) rfl

/-- C8: when `addDataSource` loads the data of a source that is not a folder, then
afterwards every patch of the node passes `isValid` and refers to the node as its source;
every patch that the node gained comes from a payload that passes `isValid` and has the
index of that payload as its program; an address that was handed out but is not in the
patch set of the node holds no patch and is a result of no search; and the error list is
the one from before. -/
theorem addDataSource_ingests (h : Host) (fuel : Nat) (s s1 : DB W) (_ds ds : NodePtr)
    (n dn : DataSourceNode) (ex : Bool)
    (hfresh : ∀ d p, h.initializePatch d = some p → p.modifications = none)
    (hlive : s.loaderDestroyed = false) (hn : s.nodes _ds = some n)
    (hmerge : mergeExisting s _ds n = some (s1, ds, ex)) (hdn : s1.nodes ds = some dn)
    (hty : dn.type ≠ SourceType.Folder)
    (hold : ∀ p ∈ dn.patches, p < s.nextPatch ∧ ∃ patch, s.patchHeap p = some patch ∧
      isValid (some patch) = true ∧ patch.source = some ds)
    (hres : ∀ e ∈ s.m_searches, ∀ p ∈ e.2.results, p < s.nextPatch)
    (hheap : ∀ p, s.nextPatch ≤ p → s.patchHeap p = none) :
    ∃ s' dn', addDataSource h (fuel + 1) s _ds = some s' ∧ s'.nodes ds = some dn' ∧
      (∀ p ∈ dn'.patches, ∃ patch, s'.patchHeap p = some patch ∧
        isValid (some patch) = true ∧ patch.source = some ds) ∧
      (∀ p ∈ dn'.patches, p ∉ dn.patches → ∃ i d patch0 patch,
        (loadData h s dn.toDataSource).2[i]? = some d ∧ h.initializePatch d = some patch0 ∧
        isValid (some patch0) = true ∧ s'.patchHeap p = some patch ∧
        patch.program = i ∧ patch.sysex = patch0.sysex ∧ patch.name = patch0.name) ∧
      (∀ p, s.nextPatch ≤ p → p ∉ dn'.patches →
        s'.patchHeap p = none ∧ ∀ e ∈ s'.m_searches, p ∉ e.2.results) ∧
      s'.m_dirty.errors = s.m_dirty.errors := by
  have hsp := samePatches_mergeExisting s s1 _ds ds n ex hmerge
  have hrun : addDataSource h (fuel + 1) s _ds = some (addLoaded h s1 ds dn ex) := by
    unfold addDataSource
    simp [hlive, hn, hmerge, hdn, hty]
  obtain ⟨dn', h1, h2, h3, h4, h5⟩ := addLoaded_ingests h s1 ds dn ex hfresh hdn
    (by rw [hsp.nextPatch, hsp.patchHeap]; exact hold)
    (by rw [hsp.nextPatch, hsp.m_searches]; exact hres)
    (by rw [hsp.nextPatch, hsp.patchHeap]; exact hheap)
  rw [loadData_congr h s s1 _ hsp.files hsp.m_settingsDir] at h3
  rw [hsp.nextPatch] at h4
  rw [hsp.errors] at h5
  exact ⟨_, dn', hrun, h1, h2, h3, h4, h5⟩

theorem addDataSource_ingests_witness :
    (∀ d p, exampleLoader.initializePatch d = some p → p.modifications = none) ∧
    exampleBank.loaderDestroyed = false ∧ exampleBank.nodes 0 = some exampleBankNode ∧
    mergeExisting exampleBank 0 exampleBankNode = some (exampleBank, 0, false) ∧
    exampleBankNode.type ≠ SourceType.Folder ∧
    (∀ p ∈ exampleBankNode.patches, p < exampleBank.nextPatch ∧
      ∃ patch, exampleBank.patchHeap p = some patch ∧ isValid (some patch) = true ∧
        patch.source = some 0) ∧
    (∀ e ∈ exampleBank.m_searches, ∀ p ∈ e.2.results, p < exampleBank.nextPatch) ∧
    (∀ p, exampleBank.nextPatch ≤ p → exampleBank.patchHeap p = none) ∧
    ∃ s' dn', addDataSource exampleLoader (0 + 1) exampleBank 0 = some s' ∧
      s'.nodes 0 = some dn' ∧
      (∀ p ∈ dn'.patches, ∃ patch, s'.patchHeap p = some patch ∧
        isValid (some patch) = true ∧ patch.source = some 0) ∧
      (∀ p ∈ dn'.patches, p ∉ exampleBankNode.patches → ∃ i d patch0 patch,
        (loadData exampleLoader exampleBank exampleBankNode.toDataSource).2[i]? = some d ∧
        exampleLoader.initializePatch d = some patch0 ∧
        isValid (some patch0) = true ∧ s'.patchHeap p = some patch ∧
        patch.program = i ∧ patch.sysex = patch0.sysex ∧ patch.name = patch0.name) ∧
      (∀ p, exampleBank.nextPatch ≤ p → p ∉ dn'.patches →
        s'.patchHeap p = none ∧ ∀ e ∈ s'.m_searches, p ∉ e.2.results) ∧
      s'.m_dirty.errors = exampleBank.m_dirty.errors :=
  have hfresh : ∀ d p, exampleLoader.initializePatch d = some p → p.modifications = none := by
    intro d p hp
    cases hp
    rfl
  have hold : ∀ p ∈ exampleBankNode.patches, p < exampleBank.nextPatch ∧
      ∃ patch, exampleBank.patchHeap p = some patch ∧ isValid (some patch) = true ∧
        patch.source = some 0 := by
    intro p hp
    cases hp
  have hres : ∀ e ∈ exampleBank.m_searches, ∀ p ∈ e.2.results, p < exampleBank.nextPatch := by
    intro e he
    cases he
  ⟨hfresh, rfl, rfl, rfl, by decide, hold, hres, fun _ _ => rfl,
    addDataSource_ingests exampleLoader 0 exampleBank exampleBank 0 0 exampleBankNode
      exampleBankNode false hfresh rfl rfl rfl rfl (by decide) hold hres (fun _ _ => rfl)⟩

/-- The file `bank` of the example is read as an invalid payload at index 0 and a valid
one at index 1: the node keeps one patch, the one at address 1 with program 1, and the
address 0 of the dropped patch holds nothing. -/
theorem addDataSource_ingests_example :
    (addDataSource exampleLoader 1 exampleBank 0).map
      (fun s' => ((s'.nodes 0).map (fun n => n.patches), s'.patchHeap 0,
        (s'.patchHeap 1).map (fun p => (p.program, p.sysex)), s'.m_dirty.errors)) =
      some (some [1], none, some (1, [0xf0, 1, 0xf7]), []) := by
  rfl

/-! ### The table as a map -/

theorem mapFind_append {κ ν : Type} [DecidableEq κ] (k : κ) (m m' : List (κ × ν)) :
    mapFind k (m ++ m') = match mapFind k m with
      | some v => some v
      | none => mapFind k m' := by
  induction m with
  | nil => rfl
  | cons e m ih =>
    simp only [List.cons_append, mapFind]
    split
    · rfl
    · exact ih

theorem mapFind_mapInsert_of_some {κ ν : Type} [DecidableEq κ] (k k' : κ) (v v' : ν)
    (m : List (κ × ν)) (hf : mapFind k m = some v) : mapFind k (mapInsert m k' v') = some v := by
  unfold mapInsert
  split
  · exact hf
  · rw [mapFind_append, hf]

theorem mapFind_mapInsert_self {κ ν : Type} [DecidableEq κ] (k : κ) (v : ν)
    (m : List (κ × ν)) (hf : mapFind k m = none) : mapFind k (mapInsert m k v) = some v := by
  unfold mapInsert
  rw [hf]
  simp [mapFind_append, hf, mapFind]

theorem mapFind_mapInsert_of_ne {κ ν : Type} [DecidableEq κ] (k k' : κ) (v' : ν)
    (m : List (κ × ν)) (hne : k' ≠ k) : mapFind k (mapInsert m k' v') = mapFind k m := by
  unfold mapInsert
  split
  · rfl
  · rw [mapFind_append]
    cases mapFind k m with
    | some v => rfl
    | none => simp [mapFind, hne]

theorem mem_mapInsert {κ ν : Type} [DecidableEq κ] (k : κ) (v : ν) (m : List (κ × ν))
    (e : κ × ν) (he : e ∈ mapInsert m k v) : e ∈ m ∨ (e = (k, v) ∧ mapFind k m = none) := by
  unfold mapInsert at he
  split at he
  · exact Or.inl he
  · rename_i hn
    rcases List.mem_append.1 he with h1 | h1
    · exact Or.inl h1
    · refine Or.inr ⟨List.mem_singleton.1 h1, ?_⟩
      cases hm : mapFind k m with
      | none => rfl
      | some w => rw [hm] at hn; simp at hn

theorem mapFind_eq_none_iff {κ ν : Type} [DecidableEq κ] (k : κ) (m : List (κ × ν)) :
    mapFind k m = none ↔ ∀ e ∈ m, e.1 ≠ k := by
  induction m with
  | nil => simp [mapFind]
  | cons e m ih =>
    unfold mapFind
    by_cases he : e.1 = k
    · simp [he]
    · simp [he, ih]

theorem nodup_mapInsert {κ ν : Type} [DecidableEq κ] (k : κ) (v : ν) (m : List (κ × ν))
    (hn : (m.map Prod.fst).Nodup) : ((mapInsert m k v).map Prod.fst).Nodup := by
  unfold mapInsert
  split
  · exact hn
  · rename_i hf
    have hnone : mapFind k m = none := by
      cases hm : mapFind k m with
      | none => rfl
      | some w => rw [hm] at hf; simp at hf
    rw [List.map_append, List.nodup_append]
    refine ⟨hn, by simp, ?_⟩
    intro a ha hb
    simp only [List.map_cons, List.map_nil, List.mem_singleton] at hb
    obtain ⟨e, he, rfl⟩ := List.mem_map.1 ha
    exact (mapFind_eq_none_iff k m).1 hnone e he hb

theorem mapFind_of_mem {κ ν : Type} [DecidableEq κ] (m : List (κ × ν))
    (hn : (m.map Prod.fst).Nodup) (k : κ) (v : ν) (hv : (k, v) ∈ m) : mapFind k m = some v := by
  cases hm : mapFind k m with
  | none => exact absurd rfl ((mapFind_eq_none_iff k m).1 hm (k, v) hv)
  | some w => rw [nodup_keys_unique m hn k v w hv (mapFind_mem k m w hm)]

/-! ### Nodes that stay as they are -/

theorem preserved_refl (b : Nat) (nodes : NodePtr → Option DataSourceNode) :
    Preserved b nodes nodes :=
  fun _ n _ hn => ⟨n, hn, rfl, fun h => h, fun _ h => h⟩

theorem Preserved.step {b : Nat} {x y z : NodePtr → Option DataSourceNode}
    (h1 : Preserved b x y) (h2 : Preserved b y z) : Preserved b x z := by
  intro q n hq hn
  obtain ⟨n1, hn1, k1, o1, p1⟩ := h1 q n hq hn
  obtain ⟨n2, hn2, k2, o2, p2⟩ := h2 q n1 hq hn1
  exact ⟨n2, hn2, k2.trans k1, fun h => o2 (o1 h), fun P h => p2 P (p1 P h)⟩

theorem Preserved.lower {b c : Nat} {x y : NodePtr → Option DataSourceNode}
    (h1 : Preserved b x y) (hc : c ≤ b) : Preserved c x y :=
  fun q n hq hn => h1 q n (Nat.lt_of_lt_of_le hq hc) hn

theorem modify_apply {α : Type} (heap : Nat → Option α) (p : Nat) (f : α → α) (q : Nat) :
    modify heap p f q = if q = p then (heap p).map f else heap q := by
  unfold modify
  cases hp : heap p with
  | none =>
    by_cases hq : q = p
    · simp [hq, hp]
    · simp [hq]
  | some v =>
    by_cases hq : q = p
    · simp [hq, update]
    · simp [hq, update]

theorem preserved_modify (b : Nat) (nodes : NodePtr → Option DataSourceNode) (p : NodePtr)
    (f : DataSourceNode → DataSourceNode)
    (hf : ∀ n, nodes p = some n → (f n).key = n.key ∧
      (n.origin = DataSourceOrigin.Manual → (f n).origin = DataSourceOrigin.Manual) ∧
      (∀ P, n.parent = some P → (f n).parent = some P)) :
    Preserved b nodes (modify nodes p f) := by
  intro q n _ hn
  rw [modify_apply]
  by_cases hq : q = p
  · subst hq
    rw [if_pos rfl, hn]
    exact ⟨f n, rfl, (hf n hn).1, (hf n hn).2.1, (hf n hn).2.2⟩
  · rw [if_neg hq]
    exact ⟨n, hn, rfl, fun h => h, fun _ h => h⟩

theorem preserved_setParent (b : Nat) (nodes : NodePtr → Option DataSourceNode)
    (self : NodePtr) (par : Option NodePtr)
    (hnone : ∀ n, nodes self = some n → n.parent = none) :
    Preserved b nodes (setParent nodes self par) := by
  unfold setParent
  cases hs : nodes self with
  | none => exact preserved_refl _ _
  | some n =>
    dsimp only
    have hp0 := hnone n hs
    split
    · exact preserved_refl _ _
    · rw [hp0]
      dsimp only
      have h2 : Preserved b nodes (modify nodes self (fun n1 => { n1 with parent := par })) := by
        apply preserved_modify
        intro m hm
        rw [hs] at hm
        cases hm
        exact ⟨rfl, fun h => h, fun P hP => by rw [hp0] at hP; cases hP⟩
      cases par with
      | none => exact h2
      | some np =>
        exact h2.step (preserved_modify _ _ _ _ (fun _ _ => ⟨rfl, fun h => h, fun _ h => h⟩))

theorem setParent_self (nodes : NodePtr → Option DataSourceNode) (self : NodePtr)
    (par : Option NodePtr) (n : DataSourceNode) (hs : nodes self = some n) :
    ∃ n', setParent nodes self par self = some n' ∧ n'.parent = par ∧
      n'.toDataSource = n.toDataSource := by
  unfold setParent
  rw [hs]
  dsimp only
  split
  · rename_i heq
    exact ⟨n, hs, heq, rfl⟩
  · have h1 : ∃ n1, (match n.parent with
        | none => nodes
        | some op =>
          modify nodes op (fun opn => { opn with children := opn.children.erase self })) self =
          some n1 ∧ n1.toDataSource = n.toDataSource := by
      cases n.parent with
      | none => exact ⟨n, hs, rfl⟩
      | some op =>
        dsimp only
        rw [modify_apply]
        by_cases hq : self = op
        · subst hq
          rw [if_pos rfl, hs]
          exact ⟨_, rfl, rfl⟩
        · rw [if_neg hq]
          exact ⟨n, hs, rfl⟩
    obtain ⟨n1, hn1, hd1⟩ := h1
    generalize (match n.parent with
        | none => nodes
        | some op =>
          modify nodes op (fun opn => { opn with children := opn.children.erase self })) =
        nodes1 at hn1
    have h2 : modify nodes1 self (fun n1 => { n1 with parent := par }) self =
        some { n1 with parent := par } := by
      rw [modify_apply, if_pos rfl, hn1]
      rfl
    cases par with
    | none => exact ⟨_, h2, rfl, hd1⟩
    | some np =>
      dsimp only
      rw [modify_apply]
      by_cases hq : self = np
      · subst hq
        rw [if_pos rfl, h2]
        exact ⟨_, rfl, rfl, hd1⟩
      · rw [if_neg hq]
        exact ⟨_, h2, rfl, hd1⟩

/-! ### The branch of `addDataSource` that loads data -/

theorem ingestFrom_eq_nil (h : Host) (ds : NodePtr) (data : DataList) :
    ∀ (p0 : Nat) (s0 : DB W) (acc0 : List PatchPtr),
      (ingestFrom h ds p0 data (s0, acc0)).2 = [] ↔ acc0 = [] ∧ anyValid h data = false := by
  induction data with
  | nil =>
    intro p0 s0 acc0
    simp [ingestFrom, anyValid]
  | cons d rest ih =>
    intro p0 s0 acc0
    unfold ingestFrom
    have hany : anyValid h (d :: rest) =
        ((match h.initializePatch d with
          | none => false
          | some p => isValid (some p)) || anyValid h rest) := by
      simp [anyValid]
    cases hinit : h.initializePatch d with
    | none =>
      have hstep : ingestStep h ds (s0, acc0) p0 d = (s0, acc0) := by
        unfold ingestStep
        rw [hinit]
      rw [hstep, ih, hany, hinit]
      simp
    | some patch0 =>
      have hsrc : isValid (some ({ patch0 with source := some ds } : Patch)) =
          isValid (some patch0) := rfl
      by_cases hv : isValid (some patch0) = true
      · have hstep : (ingestStep h ds (s0, acc0) p0 d).2 = acc0 ++ [s0.nextPatch] := by
          unfold ingestStep
          rw [hinit]
          dsimp only
          rw [hsrc, if_pos hv]
        have hpair : ingestStep h ds (s0, acc0) p0 d =
            ((ingestStep h ds (s0, acc0) p0 d).1, acc0 ++ [s0.nextPatch]) :=
          Prod.ext rfl hstep
        rw [hpair, ih, hany, hinit]
        simp [hv]
      · have hstep : (ingestStep h ds (s0, acc0) p0 d).2 = acc0 := by
          unfold ingestStep
          rw [hinit]
          dsimp only
          rw [hsrc, if_neg hv]
        have hpair : ingestStep h ds (s0, acc0) p0 d =
            ((ingestStep h ds (s0, acc0) p0 d).1, acc0) :=
          Prod.ext rfl hstep
        rw [hpair, ih, hany, hinit]
        simp [hv]

theorem loadable_congr (h : Host) (s t : DB W) (d : DataSource) (hf : t.files = s.files)
    (hd : t.m_settingsDir = s.m_settingsDir) : loadable h t d = loadable h s d := by
  unfold loadable
  rw [loadData_congr h s t d hf hd]

theorem table_addDsToList (s : DB W) (ds : NodePtr) (dn : DataSourceNode) (ex : Bool)
    (hn : s.nodes ds = some dn) :
    (addDsToList s ds ex).m_dataSources =
      if ex = true then s.m_dataSources else mapInsert s.m_dataSources dn.key ds := by
  unfold addDsToList
  cases ex with
  | true => simp
  | false => simp [hn]

theorem addLoaded_effect (h : Host) (s : DB W) (ds : NodePtr) (dn : DataSourceNode)
    (ex : Bool) (hn : s.nodes ds = some dn) :
    (addLoaded h s ds dn ex).m_dataSources =
        (if ex = false ∧ (dn.origin = DataSourceOrigin.Manual ∨
            loadable h s dn.toDataSource = true)
          then mapInsert s.m_dataSources dn.key ds else s.m_dataSources) ∧
      (addLoaded h s ds dn ex).nextNode = s.nextNode ∧
      (addLoaded h s ds dn ex).files = s.files ∧
      (addLoaded h s ds dn ex).m_settingsDir = s.m_settingsDir ∧
      (addLoaded h s ds dn ex).loaderDestroyed = s.loaderDestroyed ∧
      (∃ P, (addLoaded h s ds dn ex).nodes ds = some { dn with patches := P }) ∧
      ∀ q, q ≠ ds → (addLoaded h s ds dn ex).nodes q = s.nodes q := by
  obtain ⟨hs2, hs2n⟩ : SamePatches s
      (if dn.origin = DataSourceOrigin.Manual then addDsToList s ds ex else s) ∧
      (if dn.origin = DataSourceOrigin.Manual then addDsToList s ds ex else s).nodes =
        s.nodes := by
    split
    · exact samePatches_addDsToList s ds ex
    · exact ⟨samePatches_refl s, rfl⟩
  have hs2t : (if dn.origin = DataSourceOrigin.Manual then addDsToList s ds ex else s).m_dataSources =
      if dn.origin = DataSourceOrigin.Manual ∧ ex = false
        then mapInsert s.m_dataSources dn.key ds else s.m_dataSources := by
    by_cases hm : dn.origin = DataSourceOrigin.Manual
    · rw [if_pos hm, table_addDsToList s ds dn ex hn]
      cases ex <;> simp [hm]
    · simp [hm]
  generalize hs2def :
    (if dn.origin = DataSourceOrigin.Manual then addDsToList s ds ex else s) = s2
    at hs2 hs2n hs2t
  have hdata : loadData h s2 dn.toDataSource = loadData h s dn.toDataSource :=
    loadData_congr h s s2 _ hs2.files hs2.m_settingsDir
  have hdn2 : s2.nodes ds = some dn := by rw [hs2n]; exact hn
  have hload : loadable h s dn.toDataSource =
      ((loadData h s dn.toDataSource).1 && decide ((loadData h s dn.toDataSource).2 ≠ []) &&
        anyValid h (loadData h s dn.toDataSource).2) := rfl
  unfold addLoaded
  simp only [hs2def, hdata]
  split
  · rename_i hcond
    obtain ⟨new, hacc, hing⟩ :=
      ingestFrom_spec h ds (loadData h s dn.toDataSource).2 0 s2 [] dn hdn2
    obtain ⟨P, hP, _⟩ := hing.node
    have hnil := ingestFrom_eq_nil h ds (loadData h s dn.toDataSource).2 0 s2 []
    split
    · rename_i hne
      have hany : anyValid h (loadData h s dn.toDataSource).2 = true := by
        cases ha : anyValid h (loadData h s dn.toDataSource).2 with
        | true => rfl
        | false => exact absurd (hnil.2 ⟨rfl, ha⟩) hne
      have hl : loadable h s dn.toDataSource = true := by
        rw [hload, hcond.1, hany]
        simp [hcond.2]
      obtain ⟨a1, a2⟩ := samePatches_addDsToList
        (ingestFrom h ds 0 (loadData h s dn.toDataSource).2 (s2, [])).1 ds
        (ex || decide (dn.origin = DataSourceOrigin.Manual))
      have a3 := table_addDsToList
        (ingestFrom h ds 0 (loadData h s dn.toDataSource).2 (s2, [])).1 ds _
        (ex || decide (dn.origin = DataSourceOrigin.Manual)) hP
      obtain ⟨b1, _, _⟩ := loadPatchModifications_frame h
        (addDsToList (ingestFrom h ds 0 (loadData h s dn.toDataSource).2 (s2, [])).1 ds
          (ex || decide (dn.origin = DataSourceOrigin.Manual))) ds
        (ingestFrom h ds 0 (loadData h s dn.toDataSource).2 (s2, [])).2
      obtain ⟨c1, _, _⟩ := addPatches_frame h
        (loadPatchModifications h
          (addDsToList (ingestFrom h ds 0 (loadData h s dn.toDataSource).2 (s2, [])).1 ds
            (ex || decide (dn.origin = DataSourceOrigin.Manual))) ds
          (ingestFrom h ds 0 (loadData h s dn.toDataSource).2 (s2, [])).2).1
        (ingestFrom h ds 0 (loadData h s dn.toDataSource).2 (s2, [])).2
      refine ⟨?_, ?_, ?_, ?_, ?_, ⟨P, ?_⟩, ?_⟩
      · rw [c1.m_dataSources, b1.m_dataSources, a3, hing.m_dataSources, hs2t]
        have hk : ({ dn with patches := P } : DataSourceNode).key = dn.key := rfl
        rw [hk]
        by_cases hm : dn.origin = DataSourceOrigin.Manual <;> cases ex <;> simp [hm, hl]
      · rw [c1.nextNode, b1.nextNode, a1.nextNode, hing.nextNode, hs2.nextNode]
      · rw [c1.files, b1.files, a1.files, hing.files, hs2.files]
      · rw [c1.m_settingsDir, b1.m_settingsDir, a1.m_settingsDir, hing.m_settingsDir,
          hs2.m_settingsDir]
      · rw [c1.loaderDestroyed, b1.loaderDestroyed, a1.loaderDestroyed,
          hing.loaderDestroyed, hs2.loaderDestroyed]
      · rw [c1.nodes, b1.nodes, a2]
        exact hP
      · intro q hq
        rw [c1.nodes, b1.nodes, a2, hing.others q hq, hs2n]
    · rename_i hne
      have hany : anyValid h (loadData h s dn.toDataSource).2 = false :=
        (hnil.1 (by simpa using hne)).2
      have hl : loadable h s dn.toDataSource = false := by
        rw [hload, hany]
        simp
      refine ⟨?_, ?_, ?_, ?_, ?_, ⟨P, hP⟩, ?_⟩
      · rw [hing.m_dataSources, hs2t]
        by_cases hm : dn.origin = DataSourceOrigin.Manual <;> cases ex <;> simp [hm, hl]
      · rw [hing.nextNode, hs2.nextNode]
      · rw [hing.files, hs2.files]
      · rw [hing.m_settingsDir, hs2.m_settingsDir]
      · rw [hing.loaderDestroyed, hs2.loaderDestroyed]
      · intro q hq
        rw [hing.others q hq, hs2n]
  · rename_i hcond
    have hl : loadable h s dn.toDataSource = false := by
      rw [hload]
      by_cases h1 : (loadData h s dn.toDataSource).1 = true
      · have h2 : (loadData h s dn.toDataSource).2 = [] := by
          by_contra h2
          exact hcond ⟨h1, h2⟩
        simp [h2, anyValid]
      · simp [h1]
    refine ⟨?_, hs2.nextNode, hs2.files, hs2.m_settingsDir, hs2.loaderDestroyed,
      ⟨dn.patches, hdn2⟩, fun q _ => by rw [hs2n]⟩
    rw [hs2t]
    by_cases hm : dn.origin = DataSourceOrigin.Manual <;> cases ex <;> simp [hm, hl]

/-! ### The merge -/

theorem sound_of_preserved (s s' : DB W) (hs : Sound s)
    (ht : s'.m_dataSources = s.m_dataSources) (hnx : s'.nextNode = s.nextNode)
    (hp : Preserved s.nextNode s.nodes s'.nodes) : Sound s' := by
  refine ⟨?_, by rw [ht]; exact hs.nodupKeys, by rw [ht, hnx]; exact hs.below⟩
  intro e he
  rw [ht] at he
  obtain ⟨n, hn, hk⟩ := hs.keyed e he
  obtain ⟨n', hn', hk', _⟩ := hp e.2 n (hs.below e he) hn
  exact ⟨n', hn', hk'.trans hk⟩

theorem mergeExisting_cases (s : DB W) (arg : NodePtr) (n : DataSourceNode) (hs : Sound s) :
    (mapFind n.key s.m_dataSources = none ∧ mergeExisting s arg n = some (s, arg, false)) ∨
    ∃ E e, mapFind n.key s.m_dataSources = some E ∧ s.nodes E = some e ∧ e.key = n.key ∧
      E < s.nextNode ∧
      ((n.origin = DataSourceOrigin.Manual ∧
          mergeExisting s arg n =
            some ({ s with
              nodes := update s.nodes E { e with origin := DataSourceOrigin.Manual },
              m_dirty := { s.m_dirty with dataSources := true } }, E, true)) ∨
        (n.origin ≠ DataSourceOrigin.Manual ∧ n.parent ≠ none ∧ e.parent = none ∧
          mergeExisting s arg n =
            some ({ s with
              nodes := setParent s.nodes E n.parent,
              m_dirty := { s.m_dirty with dataSources := true } }, E, true)) ∨
        (n.origin ≠ DataSourceOrigin.Manual ∧ (n.parent = none ∨ e.parent ≠ none) ∧
          mergeExisting s arg n = none)) := by
  unfold mergeExisting
  cases hf : mapFind n.key s.m_dataSources with
  | none => exact Or.inl ⟨rfl, rfl⟩
  | some E =>
    right
    have hmem := mapFind_mem _ _ _ hf
    obtain ⟨e, he, hk⟩ := hs.keyed (n.key, E) hmem
    refine ⟨E, e, rfl, he, hk, hs.below _ hmem, ?_⟩
    simp only [he]
    by_cases hm : n.origin = DataSourceOrigin.Manual
    · left
      refine ⟨hm, ?_⟩
      rw [if_pos hm, hm]
    · right
      rw [if_neg hm]
      by_cases hp : n.hasParent = true ∧ e.hasParent = false
      · left
        rw [if_pos hp]
        refine ⟨hm, ?_, ?_, rfl⟩
        · intro h0
          have := hp.1
          simp [DataSourceNode.hasParent, h0] at this
        · have := hp.2
          cases hpar : e.parent with
          | none => rfl
          | some P => simp [DataSourceNode.hasParent, hpar] at this
      · right
        rw [if_neg hp]
        refine ⟨hm, ?_, rfl⟩
        by_contra hcon
        rw [not_or, not_not] at hcon
        apply hp
        constructor
        · cases hpar : n.parent with
          | none => exact absurd hpar hcon.1
          | some P => simp [DataSourceNode.hasParent, hpar]
        · simp [DataSourceNode.hasParent, hcon.2]

theorem preserved_update_origin (b : Nat) (nodes : NodePtr → Option DataSourceNode)
    (E : NodePtr) (e : DataSourceNode) (he : nodes E = some e) :
    Preserved b nodes (update nodes E { e with origin := DataSourceOrigin.Manual }) := by
  intro q n _ hn
  unfold update
  by_cases hq : q = E
  · subst hq
    rw [he] at hn
    cases hn
    simp only [if_true]
    exact ⟨_, rfl, rfl, fun _ => rfl, fun _ hP => hP⟩
  · simp only [hq, if_false]
    exact ⟨n, hn, rfl, fun h => h, fun _ h => h⟩

/-! ### After the merge: a source that is not a folder -/

theorem rest_addLoaded (h : Host) (s1 : DB W) (ds : NodePtr) (dn : DataSourceNode) (ex : Bool)
    (hn : s1.nodes ds = some dn) (hty : dn.type ≠ SourceType.Folder) :
    Rest h ds dn ex s1 (addLoaded h s1 ds dn ex) := by
  obtain ⟨ht, hnx, hfi, hsd, hld, ⟨P, hP⟩, hoth⟩ := addLoaded_effect h s1 ds dn ex hn
  have hsub : ∀ e ∈ (addLoaded h s1 ds dn ex).m_dataSources,
      e ∈ s1.m_dataSources ∨ (ex = false ∧ e = (dn.key, ds) ∧
        (dn.origin = DataSourceOrigin.Manual ∨ loadable h s1 dn.toDataSource = true) ∧
        mapFind dn.key s1.m_dataSources = none) := by
    intro e he
    rw [ht] at he
    split at he
    · rename_i hc
      rcases mem_mapInsert _ _ _ _ he with h1 | ⟨h1, h2⟩
      · exact Or.inl h1
      · exact Or.inr ⟨hc.1, h1, hc.2, h2⟩
    · exact Or.inl he
  have hfound : ∀ k v, mapFind k s1.m_dataSources = some v →
      mapFind k (addLoaded h s1 ds dn ex).m_dataSources = some v := by
    intro k v hk
    rw [ht]
    split
    · exact mapFind_mapInsert_of_some _ _ _ _ _ hk
    · exact hk
  refine
    { nextNode := by rw [hnx]
      found := hfound
      entries := ?_
      alive := ?_
      files := hfi
      m_settingsDir := hsd
      loaderDestroyed := hld
      inserted := ?_
      self := ?_
      present := ?_ }
  · intro e he
    rcases hsub e he with h1 | ⟨h1, h2, _⟩
    · exact Or.inl h1
    · exact Or.inr (Or.inl ⟨h1, by rw [h2]⟩)
  · intro q m _ hm
    by_cases hq : q = ds
    · subst hq
      rw [hn] at hm
      cases hm
      exact ⟨_, hP, rfl, fun hh => hh, fun _ hh => hh⟩
    · rw [hoth q hq]
      exact ⟨m, hm, rfl, fun hh => hh, fun _ hh => hh⟩
  · intro k hk hsome
    left
    obtain ⟨v, hv⟩ := Option.isSome_iff_exists.1 hsome
    rcases hsub (k, v) (mapFind_mem _ _ _ hv) with h1 | ⟨h1, h2, h3, _⟩
    · exact absurd rfl ((mapFind_eq_none_iff k _).1 hk (k, v) h1)
    · exact ⟨h1, (Prod.mk.inj h2).1, Or.inr h3⟩
  · intro v hk hv
    rcases hsub (dn.key, v) (mapFind_mem _ _ _ hv) with h1 | ⟨_, h2, _⟩
    · exact absurd rfl ((mapFind_eq_none_iff dn.key _).1 hk (dn.key, v) h1)
    · exact (Prod.mk.inj h2).2
  · intro hex hor
    have hor' : dn.origin = DataSourceOrigin.Manual ∨ loadable h s1 dn.toDataSource = true := by
      rcases hor with h1 | h1 | h1
      · exact absurd h1 hty
      · exact Or.inl h1
      · exact Or.inr h1
    rw [ht, if_pos ⟨hex, hor'⟩]
    cases hk : mapFind dn.key s1.m_dataSources with
    | none => rw [mapFind_mapInsert_self _ _ _ hk]; rfl
    | some v => rw [mapFind_mapInsert_of_some _ _ _ _ _ hk]; rfl

theorem sound_addLoaded (h : Host) (s1 : DB W) (ds : NodePtr) (dn : DataSourceNode) (ex : Bool)
    (hs : Sound s1) (hn : s1.nodes ds = some dn) (hds : ds < s1.nextNode) :
    Sound (addLoaded h s1 ds dn ex) := by
  obtain ⟨ht, hnx, _, _, _, ⟨P, hP⟩, hoth⟩ := addLoaded_effect h s1 ds dn ex hn
  have hnode : ∀ q m, s1.nodes q = some m →
      ∃ m', (addLoaded h s1 ds dn ex).nodes q = some m' ∧ m'.key = m.key := by
    intro q m hm
    by_cases hq : q = ds
    · subst hq
      rw [hn] at hm
      cases hm
      exact ⟨_, hP, rfl⟩
    · rw [hoth q hq]
      exact ⟨m, hm, rfl⟩
  have hold : ∀ e ∈ s1.m_dataSources,
      (∃ m, (addLoaded h s1 ds dn ex).nodes e.2 = some m ∧ m.key = e.1) ∧
        e.2 < (addLoaded h s1 ds dn ex).nextNode := by
    intro e he
    obtain ⟨m, hm, hk⟩ := hs.keyed e he
    obtain ⟨m', hm', hk'⟩ := hnode e.2 m hm
    exact ⟨⟨m', hm', hk'.trans hk⟩, by rw [hnx]; exact hs.below e he⟩
  constructor
  · intro e he
    rw [ht] at he
    split at he
    · rcases mem_mapInsert _ _ _ _ he with h1 | ⟨h1, _⟩
      · exact (hold e h1).1
      · rw [h1]
        exact ⟨_, hP, rfl⟩
    · exact (hold e he).1
  · rw [ht]
    split
    · exact nodup_mapInsert _ _ _ hs.nodupKeys
    · exact hs.nodupKeys
  · intro e he
    rw [ht] at he
    split at he
    · rcases mem_mapInsert _ _ _ _ he with h1 | ⟨h1, _⟩
      · exact (hold e h1).2
      · rw [h1, hnx]
        exact hds
    · exact (hold e he).2

/-! ### After the merge: a folder -/

theorem preserved_modify_high (b : Nat) (nodes : NodePtr → Option DataSourceNode)
    (p : NodePtr) (f : DataSourceNode → DataSourceNode) (hp : b ≤ p) :
    Preserved b nodes (modify nodes p f) := by
  intro q n hq hn
  rw [modify_apply, if_neg (Nat.ne_of_lt (Nat.lt_of_lt_of_le hq hp))]
  exact ⟨n, hn, rfl, fun h => h, fun _ h => h⟩

theorem newChild_spec (h : Host) (st : DB W) (fld : NodePtr) (f : String) :
    (newChild h st fld f).2 = st.nextNode ∧
      (newChild h st fld f).1.nextNode = st.nextNode + 1 ∧
      (newChild h st fld f).1.m_dataSources = st.m_dataSources ∧
      (newChild h st fld f).1.files = st.files ∧
      (newChild h st fld f).1.m_settingsDir = st.m_settingsDir ∧
      (newChild h st fld f).1.loaderDestroyed = st.loaderDestroyed ∧
      Preserved st.nextNode st.nodes (newChild h st fld f).1.nodes ∧
      ∃ cn, (newChild h st fld f).1.nodes st.nextNode = some cn ∧
        cn.toDataSource = childSource h f ∧ cn.parent = some fld := by
  unfold newChild newNode
  dsimp only
  refine ⟨rfl, rfl, rfl, rfl, rfl, rfl, ?_, ?_⟩
  · have h0 : Preserved st.nextNode st.nodes
        (update st.nodes st.nextNode
          ⟨⟨SourceType.Invalid, "", DataSourceOrigin.Autogenerated, h.invalidBank⟩, [], none,
            []⟩) := by
      intro q n hq hn
      unfold update
      rw [if_neg (Nat.ne_of_lt hq)]
      exact ⟨n, hn, rfl, fun hh => hh, fun _ hh => hh⟩
    refine (h0.step (preserved_setParent _ _ _ _ ?_)).step
      (preserved_modify_high _ _ _ _ (le_refl _))
    intro n hn
    simp only [update, if_true, Option.some.injEq] at hn
    rw [← hn]
  · obtain ⟨n', hn', hpar, hd⟩ := setParent_self
      (update st.nodes st.nextNode
        ⟨⟨SourceType.Invalid, "", DataSourceOrigin.Autogenerated, h.invalidBank⟩, [], none, []⟩)
      st.nextNode (some fld)
      ⟨⟨SourceType.Invalid, "", DataSourceOrigin.Autogenerated, h.invalidBank⟩, [], none, []⟩
      (by simp [update])
    have hb : n'.bank = h.invalidBank := by
      have := congrArg DataSource.bank hd
      exact this
    refine ⟨{ n' with
        name := f,
        origin := DataSourceOrigin.Autogenerated,
        type := if h.isDirectory f then SourceType.Folder else SourceType.File }, ?_, ?_, hpar⟩
    · rw [modify_apply, if_pos rfl, hn']
      rfl
    · simp only [childSource, hb]

theorem sound_newChild (h : Host) (st : DB W) (fld : NodePtr) (f : String) (hs : Sound st) :
    Sound (newChild h st fld f).1 := by
  obtain ⟨_, hnx, ht, _, _, _, hp, _⟩ := newChild_spec h st fld f
  refine ⟨?_, by rw [ht]; exact hs.nodupKeys, ?_⟩
  · intro e he
    rw [ht] at he
    obtain ⟨n, hn, hk⟩ := hs.keyed e he
    obtain ⟨n', hn', hk', _⟩ := hp e.2 n (hs.below e he) hn
    exact ⟨n', hn', hk'.trans hk⟩
  · intro e he
    rw [ht] at he
    rw [hnx]
    exact Nat.lt_succ_of_lt (hs.below e he)

theorem release_spec (st : DB W) (c : NodePtr) :
    (release st c).m_dataSources = st.m_dataSources ∧
      (release st c).nextNode = st.nextNode ∧
      (release st c).files = st.files ∧
      (release st c).m_settingsDir = st.m_settingsDir ∧
      (release st c).loaderDestroyed = st.loaderDestroyed ∧
      (∀ q, q ≠ c → (release st c).nodes q = st.nodes q) ∧
      (∀ k, mapFind k st.m_dataSources = some c → (release st c).nodes = st.nodes) := by
  unfold release
  split
  · exact ⟨rfl, rfl, rfl, rfl, rfl, fun _ _ => rfl, fun _ _ => rfl⟩
  · rename_i hany
    refine ⟨rfl, rfl, rfl, rfl, rfl, fun q hq => by simp [hq], ?_⟩
    intro k hk
    exfalso
    apply hany
    rw [List.any_eq_true]
    exact ⟨(k, c), mapFind_mem _ _ _ hk, by simp⟩

theorem sound_release (st : DB W) (c : NodePtr) (hs : Sound st) : Sound (release st c) := by
  unfold release
  split
  · exact hs
  · rename_i hany
    refine ⟨?_, hs.nodupKeys, hs.below⟩
    intro e he
    obtain ⟨n, hn, hk⟩ := hs.keyed e he
    have hne : e.2 ≠ c := by
      intro heq
      apply hany
      rw [List.any_eq_true]
      exact ⟨e, he, by simp [heq]⟩
    exact ⟨n, by simp [hne, hn], hk⟩

theorem childKey_name (h : Host) (f g : String) (hk : childKey h f = childKey h g) : f = g := by
  have := congrArg DataSourceKey.name hk
  exact this

theorem scanned_refl (h : Host) (s : DB W) : Scanned h s s :=
  { nextNode := le_refl _
    found := fun _ _ hk => hk
    entries := fun _ he => Or.inl he
    alive := preserved_refl _ _
    files := rfl
    m_settingsDir := rfl
    loaderDestroyed := rfl
    inserted := fun k hk hs => by rw [hk] at hs; cases hs }

theorem Scanned.next {h : Host} {s t u : DB W} (a : Scanned h s t) (b : Scanned h t u) :
    Scanned h s u :=
  { nextNode := le_trans a.nextNode b.nextNode
    found := fun k v hk => b.found k v (a.found k v hk)
    entries := fun e he => by
      rcases b.entries e he with h1 | h1
      · exact a.entries e h1
      · exact Or.inr (le_trans a.nextNode h1)
    alive := a.alive.step (b.alive.lower a.nextNode)
    files := b.files.trans a.files
    m_settingsDir := b.m_settingsDir.trans a.m_settingsDir
    loaderDestroyed := b.loaderDestroyed.trans a.loaderDestroyed
    inserted := fun k hk hs => by
      cases hkt : mapFind k t.m_dataSources with
      | some v => exact a.inserted k hk (by rw [hkt]; rfl)
      | none =>
        obtain ⟨f, hf, hor⟩ := b.inserted k hkt hs
        rw [loadable_congr h s t _ a.files a.m_settingsDir] at hor
        exact ⟨f, hf, hor⟩ }

theorem settled_of_scanned (h : Host) (s s' : DB W) (f : String) (hs : Sound s)
    (hset : Settled h s f) (hsc : Scanned h s s') : Settled h s' f := by
  rcases hset with ⟨X, xn, hX, hxn, hpar⟩ | ⟨hnone, hdir, hload⟩
  · left
    obtain ⟨xn', hxn', _, _, hp⟩ := hsc.alive X xn (hs.below _ (mapFind_mem _ _ _ hX)) hxn
    refine ⟨X, xn', hsc.found _ _ hX, hxn', ?_⟩
    cases hP : xn.parent with
    | none => exact absurd hP hpar
    | some P => rw [hp P hP]; simp
  · right
    refine ⟨?_, hdir, ?_⟩
    · cases hk : mapFind (childKey h f) s'.m_dataSources with
      | none => rfl
      | some v =>
        exfalso
        obtain ⟨g, hg, hor⟩ := hsc.inserted _ hnone (by rw [hk]; rfl)
        have := childKey_name h f g hg
        subst this
        rcases hor with h1 | h1
        · rw [hdir] at h1
          cases h1
        · rw [hload] at h1
          cases h1
    · rw [loadable_congr h s s' _ hsc.files hsc.m_settingsDir]
      exact hload

theorem scan_step (h : Host) (st st1 : DB W) (fld : NodePtr) (f : String)
    (cn : DataSourceNode) (hs : Sound st)
    (hcn : (newChild h st fld f).1.nodes (newChild h st fld f).2 = some cn)
    (hsrc : cn.toDataSource = childSource h f) (hpar : cn.parent = some fld)
    (hadd : Added h (newChild h st fld f).2 cn (newChild h st fld f).1 st1) :
    Scanned h st (release st1 (newChild h st fld f).2) ∧
      (st.loaderDestroyed = false → Settled h (release st1 (newChild h st fld f).2) f) := by
  obtain ⟨hc2, hnx, ht, hfi, hsd, hld, hpres, _⟩ := newChild_spec h st fld f
  obtain ⟨rt, rnx, rfi, rsd, rld, rne, rsame⟩ := release_spec st1 (newChild h st fld f).2
  have hkey : cn.key = childKey h f := by
    show cn.toDataSource.key = _
    rw [hsrc]
    rfl
  have horigin : cn.origin = DataSourceOrigin.Autogenerated := by
    show cn.toDataSource.origin = _
    rw [hsrc]
    rfl
  have htype : cn.type = SourceType.Folder → h.isDirectory f = true := by
    intro hty
    have h1 : cn.toDataSource.type = SourceType.Folder := hty
    rw [hsrc] at h1
    simp only [childSource] at h1
    by_contra hd
    rw [if_neg hd] at h1
    cases h1
  have hle : st.nextNode ≤ (newChild h st fld f).1.nextNode := by
    rw [hnx]
    exact Nat.le_succ _
  have hload : ∀ d, loadable h (newChild h st fld f).1 d = loadable h st d :=
    fun d => loadable_congr h st _ d hfi hsd
  have hpresRel : Preserved st.nextNode st1.nodes (release st1 (newChild h st fld f).2).nodes := by
    intro q n hq hn
    rw [rne q (by rw [hc2]; exact Nat.ne_of_lt hq)]
    exact ⟨n, hn, rfl, fun hh => hh, fun _ hh => hh⟩
  constructor
  · exact
      { nextNode := by
          rw [rnx]
          exact le_trans hle hadd.nextNode
        found := fun k v hk => by
          rw [rt]
          exact hadd.found k v (by rw [ht]; exact hk)
        entries := fun e he => by
          rw [rt] at he
          rcases hadd.entries e he with h1 | h1 | h1
          · rw [ht] at h1
            exact Or.inl h1
          · rw [h1, hc2]
            exact Or.inr (le_refl _)
          · exact Or.inr (le_trans hle h1)
        alive := (hpres.step (hadd.alive.lower hle)).step hpresRel
        files := by rw [rfi, hadd.files, hfi]
        m_settingsDir := by rw [rsd, hadd.m_settingsDir, hsd]
        loaderDestroyed := by rw [rld, hadd.loaderDestroyed, hld]
        inserted := fun k hk hsome => by
          rw [rt] at hsome
          rcases hadd.inserted k (by rw [ht]; exact hk) hsome with ⟨h1, h2⟩ | ⟨g, hg, hor⟩
          · refine ⟨f, h1.trans hkey, ?_⟩
            rcases h2 with h3 | h3 | h3
            · exact Or.inl (htype h3)
            · rw [horigin] at h3
              cases h3
            · rw [hload, hsrc] at h3
              exact Or.inr h3
          · rw [hload] at hor
            exact ⟨g, hg, hor⟩ }
  · intro hlive
    have hlive1 : (newChild h st fld f).1.loaderDestroyed = false := by rw [hld]; exact hlive
    cases hk : mapFind (childKey h f) st.m_dataSources with
    | some X =>
      left
      have hk1 : mapFind cn.key (newChild h st fld f).1.m_dataSources = some X := by
        rw [hkey, ht]
        exact hk
      obtain ⟨xn, hxn, hxp⟩ := hadd.adopted hlive1 (by rw [horigin]; simp)
        (by rw [hpar]; simp) X hk1
      have hX : X < st.nextNode := hs.below _ (mapFind_mem _ _ _ hk)
      refine ⟨X, xn, ?_, ?_, hxp⟩
      · rw [rt, ← hkey]
        exact hadd.found _ _ hk1
      · rw [rne X (by rw [hc2]; exact Nat.ne_of_lt hX)]
        exact hxn
    | none =>
      have hk0 : mapFind cn.key (newChild h st fld f).1.m_dataSources = none := by
        rw [hkey, ht]
        exact hk
      cases hk1 : mapFind (childKey h f) st1.m_dataSources with
      | some v =>
        left
        have hv : v = (newChild h st fld f).2 := hadd.self v hk0 (by rw [hkey]; exact hk1)
        subst hv
        obtain ⟨cn', hcn', _, _, hp'⟩ := hadd.alive _ cn
          (by rw [hc2, hnx]; exact Nat.lt_succ_self _) hcn
        refine ⟨_, cn', by rw [rt]; exact hk1, ?_, ?_⟩
        · rw [rsame _ hk1]
          exact hcn'
        · rw [hp' fld hpar]
          simp
      | none =>
        right
        refine ⟨by rw [rt]; exact hk1, ?_, ?_⟩
        · cases hd : h.isDirectory f with
          | false => rfl
          | true =>
            exfalso
            have hty : cn.type = SourceType.Folder := by
              show cn.toDataSource.type = _
              rw [hsrc]
              simp [childSource, hd]
            have := hadd.present hlive1 (Or.inl hty)
            rw [hkey, hk1] at this
            cases this
        · cases hl : loadable h (release st1 (newChild h st fld f).2) (childSource h f) with
          | false => rfl
          | true =>
            exfalso
            rw [loadable_congr h st1 _ _ rfi rsd,
              loadable_congr h _ st1 _ hadd.files hadd.m_settingsDir, ← hsrc] at hl
            have := hadd.present hlive1 (Or.inr (Or.inr hl))
            rw [hkey, hk1] at this
            cases this

theorem scan_spec (h : Host) (fuel : Nat) (fld : NodePtr) (ok : String → Prop)
    (hcall : ∀ (st : DB W) (c : NodePtr) (cn : DataSourceNode), Sound st →
      st.nodes c = some cn → c < st.nextNode → ok cn.name →
      ∃ st', addDataSource h fuel st c = some st' ∧ Added h c cn st st' ∧ Sound st')
    (files : List String) (hfiles : ∀ f ∈ files, ok f) (st : DB W) (hs : Sound st) :
    ∃ st', files.foldlM (fun st file =>
        let c := newChild h st fld file
        (addDataSource h fuel c.1 c.2).map (fun st' => release st' c.2)) st = some st' ∧
      Scanned h st st' ∧ Sound st' ∧
      (st.loaderDestroyed = false → ∀ f ∈ files, Settled h st' f) := by
  induction files generalizing st with
  | nil =>
    exact ⟨st, rfl, scanned_refl h st, hs, fun _ f hf => by cases hf⟩
  | cons f files ih =>
    obtain ⟨hc2, hnx, _, _, _, _, _, ⟨cn, hcn, hsrc, hpar⟩⟩ := newChild_spec h st fld f
    have hcn' : (newChild h st fld f).1.nodes (newChild h st fld f).2 = some cn := by
      rw [hc2]
      exact hcn
    have hname : cn.name = f := by
      show cn.toDataSource.name = _
      rw [hsrc]
      rfl
    obtain ⟨st1, hrun, hadd, hs1⟩ := hcall (newChild h st fld f).1 (newChild h st fld f).2 cn
      (sound_newChild h st fld f hs) hcn'
      (by rw [hc2, hnx]; exact Nat.lt_succ_self _)
      (by rw [hname]; exact hfiles f (List.mem_cons_self _ _))
    obtain ⟨hsc, hset⟩ := scan_step h st st1 fld f cn hs hcn' hsrc hpar hadd
    have hs2 := sound_release st1 (newChild h st fld f).2 hs1
    obtain ⟨st', hfold, hsc', hs', hset'⟩ :=
      ih (fun g hg => hfiles g (List.mem_cons_of_mem _ hg))
        (release st1 (newChild h st fld f).2) hs2
    refine ⟨st', ?_, hsc.next hsc', hs', ?_⟩
    · rw [List.foldlM_cons]
      dsimp only
      rw [hrun]
      exact hfold
    · intro hlive g hg
      rcases List.mem_cons.1 hg with rfl | hg'
      · exact settled_of_scanned h _ st' g hs2 (hset hlive) hsc'
      · exact hset' (by rw [hsc.loaderDestroyed]; exact hlive) g hg'

theorem sound_addDsToList (s1 : DB W) (ds : NodePtr) (dn : DataSourceNode) (ex : Bool)
    (hs : Sound s1) (hn : s1.nodes ds = some dn) (hds : ds < s1.nextNode) :
    Sound (addDsToList s1 ds ex) := by
  obtain ⟨hsp, hnodes⟩ := samePatches_addDsToList s1 ds ex
  have ht := table_addDsToList s1 ds dn ex hn
  refine ⟨?_, ?_, ?_⟩
  · intro e he
    rw [hnodes]
    rw [ht] at he
    split at he
    · exact hs.keyed e he
    · rcases mem_mapInsert _ _ _ _ he with h1 | ⟨h1, _⟩
      · exact hs.keyed e h1
      · rw [h1]
        exact ⟨dn, hn, rfl⟩
  · rw [ht]
    split
    · exact hs.nodupKeys
    · exact nodup_mapInsert _ _ _ hs.nodupKeys
  · intro e he
    rw [hsp.nextNode]
    rw [ht] at he
    split at he
    · exact hs.below e he
    · rcases mem_mapInsert _ _ _ _ he with h1 | ⟨h1, _⟩
      · exact hs.below e h1
      · rw [h1]
        exact hds

theorem rest_scan (h : Host) (s1 s' : DB W) (ds : NodePtr) (dn : DataSourceNode) (ex : Bool)
    (hn : s1.nodes ds = some dn) (hty : dn.type = SourceType.Folder)
    (hkex : ex = true → mapFind dn.key s1.m_dataSources = some ds)
    (hsc : Scanned h (addDsToList s1 ds ex) s') : Rest h ds dn ex s1 s' := by
  obtain ⟨hsp, hnodes⟩ := samePatches_addDsToList s1 ds ex
  have ht := table_addDsToList s1 ds dn ex hn
  have hfound0 : ∀ k v, mapFind k s1.m_dataSources = some v →
      mapFind k (addDsToList s1 ds ex).m_dataSources = some v := by
    intro k v hk
    rw [ht]
    split
    · exact hk
    · exact mapFind_mapInsert_of_some _ _ _ _ _ hk
  have hself0 : mapFind dn.key (addDsToList s1 ds ex).m_dataSources = some ds ∨
      (ex = false ∧ ∃ v, mapFind dn.key s1.m_dataSources = some v) := by
    cases ex with
    | true => exact Or.inl (hfound0 _ _ (hkex rfl))
    | false =>
      cases hk : mapFind dn.key s1.m_dataSources with
      | none =>
        left
        rw [ht]
        simp only [Bool.false_eq_true, if_false]
        exact mapFind_mapInsert_self _ _ _ hk
      | some v => exact Or.inr ⟨rfl, v, rfl⟩
  exact
    { nextNode := by
        have := hsc.nextNode
        rw [hsp.nextNode] at this
        exact this
      found := fun k v hk => hsc.found k v (hfound0 k v hk)
      entries := fun e he => by
        rcases hsc.entries e he with h1 | h1
        · rw [ht] at h1
          split at h1
          · exact Or.inl h1
          · rename_i hex
            rcases mem_mapInsert _ _ _ _ h1 with h2 | ⟨h2, _⟩
            · exact Or.inl h2
            · refine Or.inr (Or.inl ⟨?_, by rw [h2]⟩)
              cases ex with
              | true => exact absurd rfl hex
              | false => rfl
        · rw [hsp.nextNode] at h1
          exact Or.inr (Or.inr h1)
      alive := by
        have := hsc.alive
        rw [hsp.nextNode, hnodes] at this
        exact this
      files := by rw [hsc.files, hsp.files]
      m_settingsDir := by rw [hsc.m_settingsDir, hsp.m_settingsDir]
      loaderDestroyed := by rw [hsc.loaderDestroyed, hsp.loaderDestroyed]
      inserted := fun k hk hsome => by
        cases hk0 : mapFind k (addDsToList s1 ds ex).m_dataSources with
        | some v =>
          left
          rw [ht] at hk0
          split at hk0
          · rw [hk] at hk0
            cases hk0
          · rename_i hex
            by_cases hkk : dn.key = k
            · refine ⟨?_, hkk.symm, Or.inl hty⟩
              cases ex with
              | true => exact absurd rfl hex
              | false => rfl
            · rw [mapFind_mapInsert_of_ne _ _ _ _ hkk, hk] at hk0
              cases hk0
        | none =>
          right
          obtain ⟨f, hf, hor⟩ := hsc.inserted k hk0 hsome
          rw [loadable_congr h s1 _ _ hsp.files hsp.m_settingsDir] at hor
          exact ⟨f, hf, hor⟩
      self := fun v hk hv => by
        rcases hself0 with h1 | ⟨_, w, hw⟩
        · have := hsc.found _ _ h1
          rw [hv] at this
          exact Option.some.inj this
        · rw [hk] at hw
          cases hw
      present := fun hex _ => by
        rcases hself0 with h1 | ⟨_, w, hw⟩
        · rw [hsc.found _ _ h1]
          rfl
        · rw [hsc.found _ _ (hfound0 _ _ hw)]
          rfl }

theorem rest_spec (h : Host) (fuel : Nat) (rank : String → Nat) (hfs : FsRanked h rank)
    (hcall : ∀ (st : DB W) (c : NodePtr) (cn : DataSourceNode), Sound st →
      st.nodes c = some cn → c < st.nextNode → rank cn.name < fuel →
      ∃ st', addDataSource h fuel st c = some st' ∧ Added h c cn st st' ∧ Sound st')
    (s1 : DB W) (ds : NodePtr) (dn : DataSourceNode) (ex : Bool) (hs : Sound s1)
    (hn : s1.nodes ds = some dn) (hds : ds < s1.nextNode)
    (hkex : ex = true → mapFind dn.key s1.m_dataSources = some ds)
    (hrank : rank dn.name < fuel + 1) :
    ∃ s',
      (if dn.type = SourceType.Folder then
        (h.findFiles dn.name).foldlM (fun st file =>
          let c := newChild h st ds file
          (addDataSource h fuel c.1 c.2).map (fun st' => release st' c.2))
          (addDsToList s1 ds ex)
      else some (addLoaded h s1 ds dn ex)) = some s' ∧
      Rest h ds dn ex s1 s' ∧ Sound s' ∧
      (s1.loaderDestroyed = false → dn.type = SourceType.Folder →
        ∀ f ∈ h.findFiles dn.name, Settled h s' f) := by
  by_cases hty : dn.type = SourceType.Folder
  · rw [if_pos hty]
    obtain ⟨s', hfold, hsc, hs', hset⟩ := scan_spec h fuel ds (fun f => rank f < fuel) hcall
      (h.findFiles dn.name)
      (fun f hf => Nat.lt_of_lt_of_le (hfs dn.name f hf) (Nat.le_of_lt_succ hrank))
      (addDsToList s1 ds ex) (sound_addDsToList s1 ds dn ex hs hn hds)
    refine ⟨s', hfold, rest_scan h s1 s' ds dn ex hn hty hkex hsc, hs', ?_⟩
    intro hlive _
    exact hset (by rw [(samePatches_addDsToList s1 ds ex).1.loaderDestroyed]; exact hlive)
  · rw [if_neg hty]
    exact ⟨_, rfl, rest_addLoaded h s1 ds dn ex hn hty, sound_addLoaded h s1 ds dn ex hs hn hds,
      fun _ h1 => absurd h1 hty⟩

theorem added_same (h : Host) (arg : NodePtr) (n : DataSourceNode) (s : DB W)
    (hpresent : s.loaderDestroyed = false → (mapFind n.key s.m_dataSources).isSome = true)
    (hadopt : s.loaderDestroyed = false → n.origin ≠ DataSourceOrigin.Manual → n.parent ≠ none →
      ∀ X, mapFind n.key s.m_dataSources = some X → ∃ xn, s.nodes X = some xn ∧ xn.parent ≠ none) :
    Added h arg n s s :=
  { nextNode := le_refl _
    found := fun _ _ hk => hk
    entries := fun _ he => Or.inl he
    alive := preserved_refl _ _
    files := rfl
    m_settingsDir := rfl
    loaderDestroyed := rfl
    inserted := fun k hk hs => by rw [hk] at hs; cases hs
    self := fun v hk hv => by rw [hk] at hv; cases hv
    present := fun hl _ => hpresent hl
    adopted := hadopt }

theorem added_of_rest (h : Host) (s s1 s' : DB W) (arg ds : NodePtr) (n dn : DataSourceNode)
    (ex : Bool) (hs : Sound s)
    (ht : s1.m_dataSources = s.m_dataSources) (hnx : s1.nextNode = s.nextNode)
    (hfi : s1.files = s.files) (hsd : s1.m_settingsDir = s.m_settingsDir)
    (hld : s1.loaderDestroyed = s.loaderDestroyed)
    (hp : Preserved s.nextNode s.nodes s1.nodes)
    (hdn : s1.nodes ds = some dn) (hk : dn.key = n.key)
    (hex0 : ex = false → ds = arg ∧ mapFind n.key s.m_dataSources = none ∧ dn = n)
    (hex1 : ex = true → mapFind n.key s.m_dataSources = some ds ∧
      (n.origin ≠ DataSourceOrigin.Manual → n.parent ≠ none → dn.parent ≠ none))
    (hrest : Rest h ds dn ex s1 s') : Added h arg n s s' :=
  { nextNode := by rw [← hnx]; exact hrest.nextNode
    found := fun k v hkv => hrest.found k v (by rw [ht]; exact hkv)
    entries := fun e he => by
      rcases hrest.entries e he with h1 | ⟨h1, h2⟩ | h1
      · rw [ht] at h1
        exact Or.inl h1
      · rw [h2, (hex0 h1).1]
        exact Or.inr (Or.inl rfl)
      · rw [hnx] at h1
        exact Or.inr (Or.inr h1)
    alive := by
      have := hrest.alive
      rw [hnx] at this
      exact hp.step this
    files := hrest.files.trans hfi
    m_settingsDir := hrest.m_settingsDir.trans hsd
    loaderDestroyed := hrest.loaderDestroyed.trans hld
    inserted := fun k hkn hsome => by
      rcases hrest.inserted k (by rw [ht]; exact hkn) hsome with ⟨h1, h2, h3⟩ | ⟨f, hf, hor⟩
      · left
        obtain ⟨_, _, hdn'⟩ := hex0 h1
        rw [hdn'] at h2 h3
        rw [loadable_congr h s s1 _ hfi hsd] at h3
        exact ⟨h2, h3⟩
      · right
        rw [loadable_congr h s s1 _ hfi hsd] at hor
        exact ⟨f, hf, hor⟩
    self := fun v hkn hv => by
      have hv' := hrest.self v (by rw [hk, ht]; exact hkn) (by rw [hk]; exact hv)
      cases ex with
      | true =>
        rw [(hex1 rfl).1] at hkn
        cases hkn
      | false => rw [hv', (hex0 rfl).1]
    present := fun _ hor => by
      cases ex with
      | true =>
        rw [hrest.found _ _ (by rw [ht]; exact (hex1 rfl).1)]
        rfl
      | false =>
        obtain ⟨_, _, hdn'⟩ := hex0 rfl
        have := hrest.present rfl
          (by rw [hdn', loadable_congr h s s1 _ hfi hsd]; exact hor)
        rw [hk] at this
        exact this
    adopted := fun _ ho hpn X hX => by
      cases ex with
      | false =>
        rw [(hex0 rfl).2.1] at hX
        cases hX
      | true =>
        obtain ⟨h1, h2⟩ := hex1 rfl
        rw [h1] at hX
        cases hX
        have hlt : ds < s1.nextNode := by
          rw [hnx]
          exact hs.below _ (mapFind_mem _ _ _ h1)
        obtain ⟨dn', hdn', _, _, hpp⟩ := hrest.alive ds dn hlt hdn
        refine ⟨dn', hdn', ?_⟩
        cases hP : dn.parent with
        | none => exact absurd hP (h2 ho hpn)
        | some P => rw [hpp P hP]; simp }

theorem addDataSource_live (h : Host) (fuel : Nat) (s s1 : DB W) (arg ds : NodePtr)
    (n dn : DataSourceNode) (ex : Bool) (hlive : s.loaderDestroyed = false)
    (hn : s.nodes arg = some n) (hmerge : mergeExisting s arg n = some (s1, ds, ex))
    (hdn : s1.nodes ds = some dn) :
    addDataSource h (fuel + 1) s arg =
      (if dn.type = SourceType.Folder then
        (h.findFiles dn.name).foldlM (fun st file =>
          let c := newChild h st ds file
          (addDataSource h fuel c.1 c.2).map (fun st' => release st' c.2))
          (addDsToList s1 ds ex)
      else some (addLoaded h s1 ds dn ex)) := by
  rw [addDataSource]
  simp only [hlive, hn, hmerge, hdn, Bool.false_eq_true, if_false]

theorem addDataSource_early (h : Host) (fuel : Nat) (s : DB W) (arg : NodePtr)
    (n : DataSourceNode) (hn : s.nodes arg = some n)
    (hstop : s.loaderDestroyed = true ∨ mergeExisting s arg n = none) :
    addDataSource h (fuel + 1) s arg = some s := by
  rw [addDataSource]
  cases hl : s.loaderDestroyed with
  | true => simp
  | false =>
    rcases hstop with h1 | h1
    · rw [hl] at h1
      cases h1
    · simp only [hn, h1, Bool.false_eq_true, if_false]

theorem addDataSource_added (h : Host) (rank : String → Nat) (hfs : FsRanked h rank) :
    ∀ (fuel : Nat) (s : DB W) (arg : NodePtr) (n : DataSourceNode), Sound s →
      s.nodes arg = some n → arg < s.nextNode → rank n.name < fuel →
      ∃ s', addDataSource h fuel s arg = some s' ∧ Added h arg n s s' ∧ Sound s' ∧
        (s.loaderDestroyed = false → n.type = SourceType.Folder →
          mergeExisting s arg n ≠ none → ∀ f ∈ h.findFiles n.name, Settled h s' f) := by
  intro fuel
  induction fuel with
  | zero =>
    intro s arg n _ _ _ hr
    exact absurd hr (Nat.not_lt_zero _)
  | succ fuel ih =>
    intro s arg n hs hn harg hr
    have hcall : ∀ (st : DB W) (c : NodePtr) (cn : DataSourceNode), Sound st →
        st.nodes c = some cn → c < st.nextNode → rank cn.name < fuel →
        ∃ st', addDataSource h fuel st c = some st' ∧ Added h c cn st st' ∧ Sound st' := by
      intro st c cn a b c' d
      obtain ⟨st', h1, h2, h3, _⟩ := ih st c cn a b c' d
      exact ⟨st', h1, h2, h3⟩
    cases hlive : s.loaderDestroyed with
    | true =>
      refine ⟨s, addDataSource_early h fuel s arg n hn (Or.inl hlive), ?_, hs, ?_⟩
      · exact added_same h arg n s (fun hl => by rw [hlive] at hl; cases hl)
          (fun hl => by rw [hlive] at hl; cases hl)
      · intro hl
        cases hl
    | false =>
      rcases mergeExisting_cases s arg n hs with ⟨hnone, hm⟩ | ⟨E, e, hfind, he, hke, hE, hcase⟩
      · obtain ⟨s', hrun, hrest, hs', hset⟩ := rest_spec h fuel rank hfs hcall s arg n false hs
          hn harg (fun hx => by cases hx) hr
        refine ⟨s', (addDataSource_live h fuel s s arg arg n n false hlive hn hm hn).trans hrun,
          ?_, hs', fun _ hty _ => hset hlive hty⟩
        exact added_of_rest h s s s' arg arg n n false hs rfl rfl rfl rfl rfl
          (preserved_refl _ _) hn rfl (fun _ => ⟨rfl, hnone, rfl⟩) (fun hx => by cases hx) hrest
      · have hname : e.name = n.name := congrArg DataSourceKey.name hke
        have htype : e.type = n.type := congrArg DataSourceKey.type hke
        rcases hcase with ⟨hman, hm⟩ | ⟨hnm, hpar, hep, hm⟩ | ⟨hnm, hor, hm⟩
        · have hp := preserved_update_origin s.nextNode s.nodes E e he
          have hdn : update s.nodes E { e with origin := DataSourceOrigin.Manual } E =
              some { e with origin := DataSourceOrigin.Manual } := by
            simp [update]
          have hs1 := sound_of_preserved s
            { s with
              nodes := update s.nodes E { e with origin := DataSourceOrigin.Manual },
              m_dirty := { s.m_dirty with dataSources := true } } hs rfl rfl hp
          obtain ⟨s', hrun, hrest, hs', hset⟩ := rest_spec h fuel rank hfs hcall _ E
            { e with origin := DataSourceOrigin.Manual } true hs1 hdn hE
            (fun _ => by
              have : mapFind e.key s.m_dataSources = some E := by rw [hke]; exact hfind
              exact this)
            (by
              have : rank e.name < fuel + 1 := by rw [hname]; exact hr
              exact this)
          refine ⟨s', (addDataSource_live h fuel s _ arg E n _ true hlive hn hm hdn).trans hrun,
            ?_, hs', ?_⟩
          · exact added_of_rest h s
              { s with
                nodes := update s.nodes E { e with origin := DataSourceOrigin.Manual },
                m_dirty := { s.m_dirty with dataSources := true } }
              s' arg E n _ true hs rfl rfl rfl rfl rfl hp hdn hke
              (fun hx => by cases hx) (fun _ => ⟨hfind, fun ho => absurd hman ho⟩) hrest
          · intro _ hty _
            have h1 := hset hlive (htype.trans hty)
            have h2 : ({ e with origin := DataSourceOrigin.Manual } : DataSourceNode).name =
                n.name := hname
            rw [h2] at h1
            exact h1
        · have hp := preserved_setParent s.nextNode s.nodes E n.parent
            (fun m hm => by rw [he] at hm; cases hm; exact hep)
          obtain ⟨dn, hdn, hdpar, hdsrc⟩ := setParent_self s.nodes E n.parent e he
          have hdk : dn.key = n.key := by
            show dn.toDataSource.key = _
            rw [hdsrc]
            exact hke
          have hdname : dn.name = n.name := congrArg DataSourceKey.name hdk
          have hdtype : dn.type = n.type := congrArg DataSourceKey.type hdk
          have hs1 := sound_of_preserved s
            { s with
              nodes := setParent s.nodes E n.parent,
              m_dirty := { s.m_dirty with dataSources := true } } hs rfl rfl hp
          obtain ⟨s', hrun, hrest, hs', hset⟩ := rest_spec h fuel rank hfs hcall _ E dn true
            hs1 hdn hE (fun _ => by rw [hdk]; exact hfind) (by rw [hdname]; exact hr)
          refine ⟨s', (addDataSource_live h fuel s _ arg E n dn true hlive hn hm hdn).trans hrun,
            ?_, hs', ?_⟩
          · exact added_of_rest h s
              { s with
                nodes := setParent s.nodes E n.parent,
                m_dirty := { s.m_dirty with dataSources := true } }
              s' arg E n dn true hs rfl rfl rfl rfl rfl hp hdn hdk
              (fun hx => by cases hx)
              (fun _ => ⟨hfind, fun _ _ => by rw [hdpar]; exact hpar⟩) hrest
          · intro _ hty _
            have h1 := hset hlive (hdtype.trans hty)
            rw [hdname] at h1
            exact h1
        · refine ⟨s, addDataSource_early h fuel s arg n hn (Or.inr hm), ?_, hs,
            fun _ _ hne => absurd hm hne⟩
          refine added_same h arg n s (fun _ => by rw [hfind]; rfl) ?_
          intro _ _ hpn X hX
          rw [hfind] at hX
          cases hX
          exact ⟨e, he, hor.resolve_left hpn⟩

/-! ### C7 -/

theorem rest_merged (h : Host) (s1 s' : DB W) (arg E : NodePtr) (dn : DataSourceNode)
    (hdn : s1.nodes E = some dn) (hE : E < s1.nextNode) (harg : arg < s1.nextNode)
    (hfresh : ∀ x ∈ s1.m_dataSources, x.2 ≠ arg)
    (hfind : mapFind dn.key s1.m_dataSources = some E) (hrest : Rest h E dn true s1 s') :
    mapFind dn.key s'.m_dataSources = some E ∧ (∀ x ∈ s'.m_dataSources, x.2 ≠ arg) ∧
      ∃ e', s'.nodes E = some e' ∧
        (dn.origin = DataSourceOrigin.Manual → e'.origin = DataSourceOrigin.Manual) ∧
        (∀ P, dn.parent = some P → e'.parent = some P) := by
  refine ⟨hrest.found _ _ hfind, ?_, ?_⟩
  · intro x hx
    rcases hrest.entries x hx with h1 | ⟨h1, _⟩ | h1
    · exact hfresh x h1
    · cases h1
    · exact Nat.ne_of_gt (Nat.lt_of_lt_of_le harg h1)
  · obtain ⟨e', he', _, ho, hp⟩ := hrest.alive E dn hE hdn
    exact ⟨e', he', ho, hp⟩

theorem table_of_rest (h : Host) (s1 s' : DB W) (E : NodePtr) (dn : DataSourceNode)
    (scan : Option (DB W)) (hdn : s1.nodes E = some dn) (hty : dn.type ≠ SourceType.Folder)
    (hrun : (if dn.type = SourceType.Folder then scan
      else some (addLoaded h s1 E dn true)) = some s') :
    s'.m_dataSources = s1.m_dataSources := by
  rw [if_neg hty] at hrun
  cases hrun
  rw [(addLoaded_effect h s1 E dn true hdn).1]
  simp

/-- C7, as the code has it: when the loader runs and the table holds a node `E` equal to
the added node `N`, `E` stays the node of the table for that identity and `N` is never
inserted; the table is unchanged unless `E` is a folder, which is scanned again; if `N`
is Manual the origin of `E` becomes Manual; otherwise, if `N` has a parent and `E` has
none, the parent of `E` becomes the parent of `N`; otherwise nothing changes at all. -/
theorem addDataSource_merges (h : Host) (rank : String → Nat) (hfs : FsRanked h rank)
    (fuel : Nat) (s : DB W) (arg E : NodePtr) (n e : DataSourceNode) (hs : Sound s)
    (hlive : s.loaderDestroyed = false) (hn : s.nodes arg = some n) (harg : arg < s.nextNode)
    (hfresh : ∀ x ∈ s.m_dataSources, x.2 ≠ arg)
    (hfind : mapFind n.key s.m_dataSources = some E) (he : s.nodes E = some e)
    (hr : rank n.name < fuel) :
    ∃ s', addDataSource h fuel s arg = some s' ∧
      mapFind n.key s'.m_dataSources = some E ∧
      (∀ x ∈ s'.m_dataSources, x.2 ≠ arg) ∧
      (e.type ≠ SourceType.Folder → s'.m_dataSources = s.m_dataSources) ∧
      (n.origin = DataSourceOrigin.Manual →
        ∃ e', s'.nodes E = some e' ∧ e'.origin = DataSourceOrigin.Manual) ∧
      (n.origin ≠ DataSourceOrigin.Manual → n.parent ≠ none → e.parent = none →
        ∃ e', s'.nodes E = some e' ∧ e'.parent = n.parent) ∧
      (n.origin ≠ DataSourceOrigin.Manual → (n.parent = none ∨ e.parent ≠ none) → s' = s) := by
  cases fuel with
  | zero => exact absurd hr (Nat.not_lt_zero _)
  | succ fuel =>
    have hcall : ∀ (st : DB W) (c : NodePtr) (cn : DataSourceNode), Sound st →
        st.nodes c = some cn → c < st.nextNode → rank cn.name < fuel →
        ∃ st', addDataSource h fuel st c = some st' ∧ Added h c cn st st' ∧ Sound st' := by
      intro st c cn a b c' d
      obtain ⟨st', h1, h2, h3, _⟩ := addDataSource_added h rank hfs fuel st c cn a b c' d
      exact ⟨st', h1, h2, h3⟩
    rcases mergeExisting_cases s arg n hs with ⟨hnone, _⟩ | ⟨E', e', hfind', he', hke, hE, hcase⟩
    · rw [hnone] at hfind
      cases hfind
    · rw [hfind] at hfind'
      cases hfind'
      rw [he] at he'
      cases he'
      have hname : e.name = n.name := congrArg DataSourceKey.name hke
      rcases hcase with ⟨hman, hm⟩ | ⟨hnm, hpar, hep, hm⟩ | ⟨hnm, hor, hm⟩
      · have hp := preserved_update_origin s.nextNode s.nodes E e he
        have hdn : update s.nodes E { e with origin := DataSourceOrigin.Manual } E =
            some { e with origin := DataSourceOrigin.Manual } := by
          simp [update]
        have hs1 := sound_of_preserved s
          { s with
            nodes := update s.nodes E { e with origin := DataSourceOrigin.Manual },
            m_dirty := { s.m_dirty with dataSources := true } } hs rfl rfl hp
        have hfind1 : mapFind ({ e with origin := DataSourceOrigin.Manual } : DataSourceNode).key
            s.m_dataSources = some E := by
          have : mapFind e.key s.m_dataSources = some E := by rw [hke]; exact hfind
          exact this
        obtain ⟨s', hrun, hrest, _, _⟩ := rest_spec h fuel rank hfs hcall _ E
          { e with origin := DataSourceOrigin.Manual } true hs1 hdn hE (fun _ => hfind1)
          (by
            have : rank e.name < fuel + 1 := by rw [hname]; exact hr
            exact this)
        obtain ⟨r1, r2, e', r3, r4, _⟩ := rest_merged h
          { s with
            nodes := update s.nodes E { e with origin := DataSourceOrigin.Manual },
            m_dirty := { s.m_dirty with dataSources := true } }
          s' arg E _ hdn hE harg hfresh hfind1 hrest
        refine ⟨s', (addDataSource_live h fuel s _ arg E n _ true hlive hn hm hdn).trans hrun,
          ?_, r2, ?_, fun _ => ⟨e', r3, r4 rfl⟩, fun hx => absurd hman hx,
          fun hx => absurd hman hx⟩
        · have : mapFind e.key s'.m_dataSources = some E := r1
          rw [hke] at this
          exact this
        · intro hty
          exact table_of_rest h
            { s with
              nodes := update s.nodes E { e with origin := DataSourceOrigin.Manual },
              m_dirty := { s.m_dirty with dataSources := true } }
            s' E _ _ hdn hty hrun
      · have hp := preserved_setParent s.nextNode s.nodes E n.parent
          (fun m hm => by rw [he] at hm; cases hm; exact hep)
        obtain ⟨dn, hdn, hdpar, hdsrc⟩ := setParent_self s.nodes E n.parent e he
        have hdk : dn.key = n.key := by
          show dn.toDataSource.key = _
          rw [hdsrc]
          exact hke
        have hdname : dn.name = n.name := congrArg DataSourceKey.name hdk
        have hdtype : dn.type = e.type := by
          show dn.toDataSource.type = _
          rw [hdsrc]
        have hs1 := sound_of_preserved s
          { s with
            nodes := setParent s.nodes E n.parent,
            m_dirty := { s.m_dirty with dataSources := true } } hs rfl rfl hp
        have hfind1 : mapFind dn.key s.m_dataSources = some E := by rw [hdk]; exact hfind
        obtain ⟨s', hrun, hrest, _, _⟩ := rest_spec h fuel rank hfs hcall _ E dn true
          hs1 hdn hE (fun _ => hfind1) (by rw [hdname]; exact hr)
        obtain ⟨r1, r2, e', r3, _, r5⟩ := rest_merged h
          { s with
            nodes := setParent s.nodes E n.parent,
            m_dirty := { s.m_dirty with dataSources := true } }
          s' arg E dn hdn hE harg hfresh hfind1 hrest
        refine ⟨s', (addDataSource_live h fuel s _ arg E n dn true hlive hn hm hdn).trans hrun,
          ?_, r2, ?_, fun hx => absurd hx hnm, ?_, ?_⟩
        · rw [hdk] at r1
          exact r1
        · intro hty
          exact table_of_rest h
            { s with
              nodes := setParent s.nodes E n.parent,
              m_dirty := { s.m_dirty with dataSources := true } }
            s' E dn _ hdn (by rw [hdtype]; exact hty) hrun
        · intro _ _ _
          refine ⟨e', r3, ?_⟩
          cases hP : n.parent with
          | none => exact absurd hP hpar
          | some P => exact r5 P (by rw [hdpar, hP])
        · intro _ hx
          rcases hx with hx | hx
          · exact absurd hx hpar
          · exact absurd hep hx
      · refine ⟨s, addDataSource_early h fuel s arg n hn (Or.inr hm), hfind, hfresh,
          fun _ => rfl, fun hx => absurd hx hnm, ?_, fun _ _ => rfl⟩
        intro _ hpn hep
        rcases hor with hx | hx
        · exact absurd hx hpn
        · exact absurd hep hx

theorem exampleAgain_sound : Sound exampleAgain where
  keyed := by
    intro e he
    simp only [exampleAgain, newNode, exampleTree, List.mem_cons, List.mem_singleton,
      List.not_mem_nil, or_false] at he
    rcases he with rfl | rfl | rfl | rfl <;> exact ⟨_, rfl, rfl⟩
  nodupKeys := by decide
  below := by
    intro e he
    simp only [exampleAgain, newNode, exampleTree, List.mem_cons, List.mem_singleton,
      List.not_mem_nil, or_false] at he
    rcases he with rfl | rfl | rfl | rfl <;> decide

theorem exampleAgain_fresh : ∀ x ∈ exampleAgain.m_dataSources, x.2 ≠ 4 := by
  intro e he
  simp only [exampleAgain, newNode, exampleTree, List.mem_cons, List.mem_singleton,
    List.not_mem_nil, or_false] at he
  rcases he with rfl | rfl | rfl | rfl <;> decide

theorem exampleHost_fsRanked : FsRanked exampleHost (fun _ => 0) := by
  intro _ _ hf
  cases hf

theorem addDataSource_merges_witness :
    Sound exampleAgain ∧ FsRanked exampleHost (fun _ => 0) ∧
    exampleAgain.nodes 4 = some exampleAgainNode ∧
    mapFind exampleAgainNode.key exampleAgain.m_dataSources = some 3 ∧
    exampleAgain.nodes 3 = some exampleB ∧
    ∃ s', addDataSource exampleHost 1 exampleAgain 4 = some s' ∧
      mapFind exampleAgainNode.key s'.m_dataSources = some 3 ∧
      (∀ x ∈ s'.m_dataSources, x.2 ≠ 4) ∧
      (exampleB.type ≠ SourceType.Folder → s'.m_dataSources = exampleAgain.m_dataSources) ∧
      (exampleAgainNode.origin = DataSourceOrigin.Manual →
        ∃ e', s'.nodes 3 = some e' ∧ e'.origin = DataSourceOrigin.Manual) ∧
      (exampleAgainNode.origin ≠ DataSourceOrigin.Manual → exampleAgainNode.parent ≠ none →
        exampleB.parent = none → ∃ e', s'.nodes 3 = some e' ∧ e'.parent = exampleAgainNode.parent) ∧
      (exampleAgainNode.origin ≠ DataSourceOrigin.Manual →
        (exampleAgainNode.parent = none ∨ exampleB.parent ≠ none) → s' = exampleAgain) :=
  ⟨exampleAgain_sound, exampleHost_fsRanked, rfl, rfl, rfl,
    addDataSource_merges exampleHost (fun _ => 0) exampleHost_fsRanked 1 exampleAgain 4 3
      exampleAgainNode exampleB exampleAgain_sound rfl rfl (by decide) exampleAgain_fresh rfl rfl
      (by decide)⟩

/-- C7 as stated fails on the table size: the table holds the folder `dir` as node 0, the
user adds `dir` again as node 1 after the directory `dir/sub` was made, and the scan of
the merged folder inserts a node for `dir/sub`: the table grows from one entry to two. -/
theorem addDataSource_merge_grows_table :
    exampleRescan.loaderDestroyed = false ∧
    exampleRescan.nodes 1 = some exampleDirNode ∧
    mapFind exampleDirNode.key exampleRescan.m_dataSources = some 0 ∧
    exampleRescan.m_dataSources.length = 1 ∧
    (addDataSource exampleFolderHost 2 exampleRescan 1).map
      (fun s' => (s'.m_dataSources.length, s'.m_dataSources.map Prod.fst)) =
      some (2, [⟨SourceType.Folder, "dir", 0⟩, ⟨SourceType.Folder, "dir/sub", 0⟩]) := by
  refine ⟨rfl, rfl, rfl, rfl, ?_⟩
  rfl

/-! ### A second run -/

theorem settled_congr (h : Host) (s s' : DB W) (f : String) (hs : Sound s)
    (ht : s'.m_dataSources = s.m_dataSources) (hp : Preserved s.nextNode s.nodes s'.nodes)
    (hl : ∀ d, loadable h s' d = loadable h s d) (hset : Settled h s f) : Settled h s' f := by
  rcases hset with ⟨X, xn, hX, hxn, hpar⟩ | ⟨hnone, hdir, hload⟩
  · left
    obtain ⟨xn', hxn', _, _, hpp⟩ := hp X xn (hs.below _ (mapFind_mem _ _ _ hX)) hxn
    refine ⟨X, xn', by rw [ht]; exact hX, hxn', ?_⟩
    cases hP : xn.parent with
    | none => exact absurd hP hpar
    | some P => rw [hpp P hP]; simp
  · right
    exact ⟨by rw [ht]; exact hnone, hdir, by rw [hl]; exact hload⟩

theorem quiet_child (h : Host) (fuel : Nat) (st st1 : DB W) (fld : NodePtr) (f : String)
    (hs : Sound st) (hlive : st.loaderDestroyed = false) (hset : Settled h st f)
    (hrun : addDataSource h (fuel + 1) (newChild h st fld f).1 (newChild h st fld f).2 =
      some st1) :
    st1.m_dataSources = st.m_dataSources := by
  obtain ⟨hc2, _, ht, hfi, hsd, hld, hpres, ⟨cn, hcn, hsrc, _⟩⟩ := newChild_spec h st fld f
  have hcn' : (newChild h st fld f).1.nodes (newChild h st fld f).2 = some cn := by
    rw [hc2]
    exact hcn
  have hkey : cn.key = childKey h f := by
    show cn.toDataSource.key = _
    rw [hsrc]
    rfl
  have horigin : cn.origin = DataSourceOrigin.Autogenerated := by
    show cn.toDataSource.origin = _
    rw [hsrc]
    rfl
  have hlive1 : (newChild h st fld f).1.loaderDestroyed = false := by rw [hld]; exact hlive
  rcases mergeExisting_cases (newChild h st fld f).1 (newChild h st fld f).2 cn
    (sound_newChild h st fld f hs) with ⟨hnone, hm⟩ | ⟨E, e, hfind, he, _, _, hcase⟩
  · rcases hset with ⟨X, xn, hX, _, _⟩ | ⟨_, hdir, hload⟩
    · rw [hkey, ht, hX] at hnone
      cases hnone
    · have hty : cn.type ≠ SourceType.Folder := by
        intro hF
        have h1 : cn.toDataSource.type = SourceType.Folder := hF
        rw [hsrc] at h1
        simp only [childSource, hdir, Bool.false_eq_true, if_false] at h1
        cases h1
      rw [addDataSource_live h fuel _ _ _ _ cn cn false hlive1 hcn' hm hcn', if_neg hty] at hrun
      cases hrun
      rw [(addLoaded_effect h _ _ cn false hcn').1, if_neg, ht]
      rintro ⟨_, hor | hor⟩
      · rw [horigin] at hor
        cases hor
      · rw [loadable_congr h st _ _ hfi hsd, hsrc, hload] at hor
        cases hor
  · rcases hset with ⟨X, xn, hX, hxn, hxp⟩ | ⟨hnone, _, _⟩
    · rw [hkey, ht, hX] at hfind
      have hXE : E = X := (Option.some.inj hfind).symm
      rw [hXE] at he
      obtain ⟨n', hn', _, _, hpp⟩ := hpres X xn (hs.below _ (mapFind_mem _ _ _ hX)) hxn
      rw [he] at hn'
      cases hn'
      have hep : e.parent ≠ none := by
        cases hP : xn.parent with
        | none => exact absurd hP hxp
        | some P => rw [hpp P hP]; simp
      rcases hcase with ⟨hman, _⟩ | ⟨_, _, hep0, _⟩ | ⟨_, _, hm⟩
      · rw [horigin] at hman
        cases hman
      · exact absurd hep0 hep
      · rw [addDataSource_early h fuel _ _ cn hcn' (Or.inr hm)] at hrun
        cases hrun
        exact ht
    · rw [hkey, ht, hnone] at hfind
      cases hfind

theorem quiet_scan (h : Host) (rank : String → Nat) (hfs : FsRanked h rank) (fuel : Nat)
    (fld : NodePtr) (files : List String) :
    ∀ (st : DB W), Sound st → st.loaderDestroyed = false → (∀ f ∈ files, rank f < fuel) →
      (∀ f ∈ files, Settled h st f) →
      ∃ st', files.foldlM (fun st file =>
          let c := newChild h st fld file
          (addDataSource h fuel c.1 c.2).map (fun st' => release st' c.2)) st = some st' ∧
        st'.m_dataSources = st.m_dataSources ∧ Sound st' := by
  induction files with
  | nil =>
    intro st hs _ _ _
    exact ⟨st, rfl, rfl, hs⟩
  | cons f files ih =>
    intro st hs hlive hfiles hset
    cases fuel with
    | zero => exact absurd (hfiles f (List.mem_cons_self _ _)) (Nat.not_lt_zero _)
    | succ F =>
      obtain ⟨hc2, hnx, _, _, _, _, _, ⟨cn, hcn, hsrc, hpar⟩⟩ := newChild_spec h st fld f
      have hcn' : (newChild h st fld f).1.nodes (newChild h st fld f).2 = some cn := by
        rw [hc2]
        exact hcn
      have hname : cn.name = f := by
        show cn.toDataSource.name = _
        rw [hsrc]
        rfl
      obtain ⟨st1, hrun, hadd, hs1, _⟩ := addDataSource_added h rank hfs (F + 1)
        (newChild h st fld f).1 (newChild h st fld f).2 cn (sound_newChild h st fld f hs) hcn'
        (by rw [hc2, hnx]; exact Nat.lt_succ_self _)
        (by rw [hname]; exact hfiles f (List.mem_cons_self _ _))
      have htab := quiet_child h F st st1 fld f hs hlive (hset f (List.mem_cons_self _ _)) hrun
      obtain ⟨hsc, _⟩ := scan_step h st st1 fld f cn hs hcn' hsrc hpar hadd
      have hs2 := sound_release st1 (newChild h st fld f).2 hs1
      obtain ⟨rt, _⟩ := release_spec st1 (newChild h st fld f).2
      obtain ⟨st', hfold, htab', hs'⟩ := ih (release st1 (newChild h st fld f).2) hs2
        (by rw [hsc.loaderDestroyed]; exact hlive)
        (fun g hg => hfiles g (List.mem_cons_of_mem _ hg))
        (fun g hg => settled_of_scanned h st _ g hs (hset g (List.mem_cons_of_mem _ hg)) hsc)
      refine ⟨st', ?_, by rw [htab', rt, htab], hs'⟩
      rw [List.foldlM_cons]
      dsimp only
      rw [hrun]
      exact hfold

theorem addDataSource_quiet (h : Host) (rank : String → Nat) (hfs : FsRanked h rank)
    (fuel : Nat) (s s' : DB W) (arg : NodePtr) (n : DataSourceNode) (hs : Sound s)
    (hn : s.nodes arg = some n) (hr : rank n.name < fuel) (hpar : n.parent = none)
    (hsettled : s.loaderDestroyed = false → n.type = SourceType.Folder →
      n.origin = DataSourceOrigin.Manual → ∀ f ∈ h.findFiles n.name, Settled h s f)
    (hin : s.loaderDestroyed = false → mapFind n.key s.m_dataSources = none →
      n.type ≠ SourceType.Folder ∧ n.origin ≠ DataSourceOrigin.Manual ∧
        loadable h s n.toDataSource = false)
    (hrun : addDataSource h fuel s arg = some s') :
    s'.m_dataSources = s.m_dataSources := by
  cases fuel with
  | zero => exact absurd hr (Nat.not_lt_zero _)
  | succ F =>
    cases hlive : s.loaderDestroyed with
    | true =>
      rw [addDataSource_early h F s arg n hn (Or.inl hlive)] at hrun
      cases hrun
      rfl
    | false =>
      rcases mergeExisting_cases s arg n hs with ⟨hnone, hm⟩ | ⟨E, e, hfind, he, hke, hE, hcase⟩
      · obtain ⟨hty, hnm, hload⟩ := hin hlive hnone
        rw [addDataSource_live h F s s arg arg n n false hlive hn hm hn, if_neg hty] at hrun
        cases hrun
        rw [(addLoaded_effect h s arg n false hn).1, if_neg]
        rintro ⟨_, hor | hor⟩
        · exact hnm hor
        · rw [hload] at hor
          cases hor
      · have hname : e.name = n.name := congrArg DataSourceKey.name hke
        have htype : e.type = n.type := congrArg DataSourceKey.type hke
        rcases hcase with ⟨hman, hm⟩ | ⟨_, hpn, _, _⟩ | ⟨_, _, hm⟩
        · have hp := preserved_update_origin s.nextNode s.nodes E e he
          have hdn : update s.nodes E { e with origin := DataSourceOrigin.Manual } E =
              some { e with origin := DataSourceOrigin.Manual } := by
            simp [update]
          have hs1 := sound_of_preserved s
            { s with
              nodes := update s.nodes E { e with origin := DataSourceOrigin.Manual },
              m_dirty := { s.m_dirty with dataSources := true } } hs rfl rfl hp
          rw [addDataSource_live h F s _ arg E n _ true hlive hn hm hdn] at hrun
          by_cases hty : e.type = SourceType.Folder
          · obtain ⟨st', hfold, htab, _⟩ := quiet_scan h rank hfs F E (h.findFiles e.name)
              { s with
                nodes := update s.nodes E { e with origin := DataSourceOrigin.Manual },
                m_dirty := { s.m_dirty with dataSources := true } } hs1 hlive
              (fun f hf => by
                have h1 := hfs e.name f hf
                rw [hname] at h1
                exact Nat.lt_of_lt_of_le h1 (Nat.le_of_lt_succ hr))
              (fun f hf => settled_congr h s _ f hs rfl hp
                (fun d => loadable_congr h s _ d rfl rfl)
                (hsettled hlive (htype.symm.trans hty) hman f (by rw [← hname]; exact hf)))
            have hrun' : (h.findFiles e.name).foldlM (fun st file =>
                let c := newChild h st E file
                (addDataSource h F c.1 c.2).map (fun st' => release st' c.2))
                { s with
                  nodes := update s.nodes E { e with origin := DataSourceOrigin.Manual },
                  m_dirty := { s.m_dirty with dataSources := true } } = some s' := by
              have h2 := hrun
              rw [if_pos hty] at h2
              exact h2
            rw [hfold] at hrun'
            cases hrun'
            exact htab
          · exact table_of_rest h
              { s with
                nodes := update s.nodes E { e with origin := DataSourceOrigin.Manual },
                m_dirty := { s.m_dirty with dataSources := true } }
              s' E _ _ hdn hty hrun
        · exact absurd hpar hpn
        · rw [addDataSource_early h F s arg n hn (Or.inr hm)] at hrun
          cases hrun
          rfl

theorem mergeExisting_manual (s : DB W) (arg : NodePtr) (n : DataSourceNode) (hs : Sound s)
    (hman : n.origin = DataSourceOrigin.Manual) : mergeExisting s arg n ≠ none := by
  rcases mergeExisting_cases s arg n hs with ⟨_, hm⟩ | ⟨E, e, _, _, _, _, hcase⟩
  · rw [hm]
    simp
  · rcases hcase with ⟨_, hm⟩ | ⟨_, _, _, hm⟩ | ⟨hnm, _, _⟩
    · rw [hm]
      simp
    · rw [hm]
      simp
    · exact absurd hman hnm

theorem preserved_newNode (s : DB W) (n : DataSourceNode) :
    Preserved s.nextNode s.nodes (newNode s n).1.nodes := by
  intro q m hq hm
  refine ⟨m, ?_, rfl, fun hh => hh, fun _ hh => hh⟩
  show update s.nodes s.nextNode n q = some m
  unfold update
  rw [if_neg (Nat.ne_of_lt hq)]
  exact hm

theorem sound_newNode (s : DB W) (n : DataSourceNode) (hs : Sound s) :
    Sound (newNode s n).1 := by
  refine ⟨?_, hs.nodupKeys, ?_⟩
  · intro e he
    obtain ⟨m, hm, hk⟩ := hs.keyed e he
    obtain ⟨m', hm', hk', _⟩ := preserved_newNode s n e.2 m (hs.below e he) hm
    exact ⟨m', hm', hk'.trans hk⟩
  · intro e he
    exact Nat.lt_succ_of_lt (hs.below e he)

theorem sound_of_sameCatalog (s s' : DB W) (hs : Sound s) (hc : SameCatalog s s') :
    Sound s' := by
  refine ⟨?_, ?_, ?_⟩
  · intro e he
    rw [hc.m_dataSources] at he
    rw [hc.nodes]
    exact hs.keyed e he
  · rw [hc.m_dataSources]
    exact hs.nodupKeys
  · intro e he
    rw [hc.m_dataSources] at he
    rw [hc.nextNode]
    exact hs.below e he

/-! ### C6 -/

theorem loadable_of_loadData (h : Host) (s t : DB W)
    (hd : ∀ d, loadData h t d = loadData h s d) (d : DataSource) :
    loadable h t d = loadable h s d := by
  unfold loadable
  rw [hd]

theorem sameCatalog_save (h : Host) (b : Bool) (t : DB W) :
    SameCatalog t (if b = true then (saveJson h t).1 else t) := by
  split
  · exact sameCatalog_saveJson h t
  · exact sameCatalog_refl t

/-- C6, as the code has it: the task of `addDataSource` for `D` returns both times it is
run; run twice in a row against the same underlying data it leaves the same node table as
run once; the table never holds more than one node equal to `D`, and it holds exactly one
when the loader runs and `D` is a folder, is Manual or loads at least one valid patch. -/
theorem addDataSourceTask_twice (h : Host) (rank : String → Nat) (hfs : FsRanked h rank)
    (fuel : Nat) (s : DB W) (D : DataSource) (_save : Bool) (hs : Sound s)
    (hr : rank D.name < fuel) :
    ∃ s1 a1 s2 a2, addDataSourceTask h fuel s D _save = some (s1, a1) ∧
      addDataSourceTask h fuel s1 D _save = some (s2, a2) ∧
      ((∀ d, loadData h s1 d = loadData h s d) → s2.m_dataSources = s1.m_dataSources) ∧
      (s2.m_dataSources.map Prod.fst).count D.key ≤ 1 ∧
      (s.loaderDestroyed = false →
        (D.type = SourceType.Folder ∨ D.origin = DataSourceOrigin.Manual ∨
          loadable h s D = true) →
        (s2.m_dataSources.map Prod.fst).count D.key = 1) := by
  obtain ⟨t1, hrun1, hadd1, hst1, hset1⟩ := addDataSource_added h rank hfs fuel
    (newNode s ⟨D, [], none, []⟩).1 (newNode s ⟨D, [], none, []⟩).2 ⟨D, [], none, []⟩
    (sound_newNode s _ hs) (by simp [newNode, update]) (Nat.lt_succ_self _) hr
  have hc1 := sameCatalog_save h
    (_save && decide (D.origin = DataSourceOrigin.Manual) && decide (D.type ≠ SourceType.Rom)) t1
  have hs1 := sound_of_sameCatalog _ _ hst1 hc1
  obtain ⟨t2, hrun2, hadd2, hst2, _⟩ := addDataSource_added h rank hfs fuel
    (newNode (if (_save && decide (D.origin = DataSourceOrigin.Manual) &&
        decide (D.type ≠ SourceType.Rom)) = true then (saveJson h t1).1 else t1)
      ⟨D, [], none, []⟩).1
    (newNode (if (_save && decide (D.origin = DataSourceOrigin.Manual) &&
        decide (D.type ≠ SourceType.Rom)) = true then (saveJson h t1).1 else t1)
      ⟨D, [], none, []⟩).2 ⟨D, [], none, []⟩
    (sound_newNode _ _ hs1) (by simp [newNode, update]) (Nat.lt_succ_self _) hr
  have hc2 := sameCatalog_save h
    (_save && decide (D.origin = DataSourceOrigin.Manual) && decide (D.type ≠ SourceType.Rom)) t2
  have hnodup := (sound_of_sameCatalog _ _ hst2 hc2).nodupKeys
  have hlive1 : t1.loaderDestroyed = s.loaderDestroyed := hadd1.loaderDestroyed
  refine ⟨if (_save && decide (D.origin = DataSourceOrigin.Manual) &&
        decide (D.type ≠ SourceType.Rom)) = true then (saveJson h t1).1 else t1,
    (newNode s ⟨D, [], none, []⟩).2,
    if (_save && decide (D.origin = DataSourceOrigin.Manual) &&
        decide (D.type ≠ SourceType.Rom)) = true then (saveJson h t2).1 else t2,
    (newNode (if (_save && decide (D.origin = DataSourceOrigin.Manual) &&
        decide (D.type ≠ SourceType.Rom)) = true then (saveJson h t1).1 else t1)
      ⟨D, [], none, []⟩).2,
    ?_, ?_, ?_, List.nodup_iff_count_le_one.1 hnodup _, ?_⟩
  · unfold addDataSourceTask
    dsimp only
    rw [hrun1]
  · unfold addDataSourceTask
    dsimp only
    rw [hrun2]
  · intro hdata
    rw [hc2.m_dataSources]
    have hload : ∀ d, loadable h
        (newNode (if (_save && decide (D.origin = DataSourceOrigin.Manual) &&
          decide (D.type ≠ SourceType.Rom)) = true then (saveJson h t1).1 else t1)
          ⟨D, [], none, []⟩).1 d = loadable h t1 d := by
      intro d
      exact ((loadable_congr h _ (newNode _ ⟨D, [], none, []⟩).1 d rfl rfl).trans
        (loadable_of_loadData h s _ hdata d)).trans
        ((loadable_congr h s (newNode s ⟨D, [], none, []⟩).1 d rfl rfl).symm.trans
          (loadable_congr h (newNode s ⟨D, [], none, []⟩).1 t1 d hadd1.files
            hadd1.m_settingsDir).symm)
    have hpres : Preserved t1.nextNode t1.nodes
        (newNode (if (_save && decide (D.origin = DataSourceOrigin.Manual) &&
          decide (D.type ≠ SourceType.Rom)) = true then (saveJson h t1).1 else t1)
          ⟨D, [], none, []⟩).1.nodes := by
      have := preserved_newNode
        (if (_save && decide (D.origin = DataSourceOrigin.Manual) &&
          decide (D.type ≠ SourceType.Rom)) = true then (saveJson h t1).1 else t1)
        ⟨D, [], none, []⟩
      rw [hc1.nextNode, hc1.nodes] at this
      exact this
    have htab : (newNode (if (_save && decide (D.origin = DataSourceOrigin.Manual) &&
          decide (D.type ≠ SourceType.Rom)) = true then (saveJson h t1).1 else t1)
          ⟨D, [], none, []⟩).1.m_dataSources = t1.m_dataSources := hc1.m_dataSources
    have hld : (newNode (if (_save && decide (D.origin = DataSourceOrigin.Manual) &&
          decide (D.type ≠ SourceType.Rom)) = true then (saveJson h t1).1 else t1)
          ⟨D, [], none, []⟩).1.loaderDestroyed = s.loaderDestroyed :=
      hc1.loaderDestroyed.trans hlive1
    have := addDataSource_quiet h rank hfs fuel _ t2 _ ⟨D, [], none, []⟩
      (sound_newNode _ _ hs1) (by simp [newNode, update]) hr rfl
      (fun hl hty hman f hf => settled_congr h t1 _ f hst1 htab hpres hload
        (hset1 (hld.symm.trans hl) hty
          (mergeExisting_manual _ _ _ (sound_newNode s _ hs) hman) f hf))
      (fun hl hnone => by
        have hno : ¬ (D.type = SourceType.Folder ∨ D.origin = DataSourceOrigin.Manual ∨
            loadable h (newNode s ⟨D, [], none, []⟩).1 D = true) := by
          intro hor
          have hp := hadd1.present (hld.symm.trans hl) hor
          rw [htab] at hnone
          rw [hnone] at hp
          cases hp
        refine ⟨fun hx => hno (Or.inl hx), fun hx => hno (Or.inr (Or.inl hx)), ?_⟩
        rw [hload D, loadable_congr h (newNode s ⟨D, [], none, []⟩).1 t1 D hadd1.files
          hadd1.m_settingsDir]
        exact Bool.eq_false_iff.2 (fun hx => hno (Or.inr (Or.inr hx))))
      hrun2
    rw [this]
    exact hc1.m_dataSources.symm ▸ rfl
  · intro hlive hor
    apply List.count_eq_one_of_mem hnodup
    have hp := hadd1.present hlive
      (by rw [loadable_congr h s (newNode s ⟨D, [], none, []⟩).1 D rfl rfl]; exact hor)
    obtain ⟨v, hv⟩ := Option.isSome_iff_exists.1 hp
    have h2 := hadd2.found D.key v (by
      show mapFind D.key (if (_save && decide (D.origin = DataSourceOrigin.Manual) &&
        decide (D.type ≠ SourceType.Rom)) = true then (saveJson h t1).1 else t1).m_dataSources = _
      rw [hc1.m_dataSources]
      exact hv)
    rw [hc2.m_dataSources]
    exact List.mem_map.2 ⟨_, mapFind_mem _ _ _ h2, rfl⟩

theorem exampleBank_sound : Sound exampleBank where
  keyed := by
    intro e he
    cases he
  nodupKeys := by decide
  below := by
    intro e he
    cases he

theorem exampleLoader_fsRanked : FsRanked exampleLoader (fun _ => 0) := by
  intro _ _ hf
  cases hf

theorem addDataSourceTask_twice_witness :
    Sound exampleBank ∧ (fun (_ : String) => 0) exampleBankNode.name < 1 ∧
    ∃ s1 a1 s2 a2,
      addDataSourceTask exampleLoader 1 exampleBank exampleBankNode.toDataSource false =
        some (s1, a1) ∧
      addDataSourceTask exampleLoader 1 s1 exampleBankNode.toDataSource false = some (s2, a2) ∧
      ((∀ d, loadData exampleLoader s1 d = loadData exampleLoader exampleBank d) →
        s2.m_dataSources = s1.m_dataSources) ∧
      (s2.m_dataSources.map Prod.fst).count exampleBankNode.toDataSource.key ≤ 1 ∧
      (exampleBank.loaderDestroyed = false →
        (exampleBankNode.toDataSource.type = SourceType.Folder ∨
          exampleBankNode.toDataSource.origin = DataSourceOrigin.Manual ∨
          loadable exampleLoader exampleBank exampleBankNode.toDataSource = true) →
        (s2.m_dataSources.map Prod.fst).count exampleBankNode.toDataSource.key = 1) :=
  ⟨exampleBank_sound, by decide,
    addDataSourceTask_twice exampleLoader (fun _ => 0) exampleLoader_fsRanked 1 exampleBank
      exampleBankNode.toDataSource false exampleBank_sound (by decide)⟩

/-- C6 as stated fails on the count of nodes: the file `missing` is Autogenerated and
cannot be read, so neither run of the task inserts a node for it, and after two runs the
table holds no node equal to it. -/
theorem addDataSourceTask_twice_leaves_out :
    exampleEmpty.loaderDestroyed = false ∧
    ((addDataSourceTask exampleHost 1 exampleEmpty exampleMissing true).bind
      (fun r => addDataSourceTask exampleHost 1 r.1 exampleMissing true)).map
      (fun r => (r.1.m_dataSources.map Prod.fst).count exampleMissing.key) = some 0 := by
  refine ⟨rfl, ?_⟩
  rfl

/-- The file `bank` added twice by the user: the table holds the node 1 for it after
either run, with the data of the file unchanged in between, and the second run loads the
file again and gives the node a second patch object for the same message. -/
theorem addDataSourceTask_twice_reloads :
    (addDataSourceTask exampleLoader 1 exampleBank exampleBankNode.toDataSource false).map
      (fun r => (r.1.m_dataSources.map Prod.snd, (r.1.nodes 1).map (fun n => n.patches),
        r.1.files)) =
      some ([1], some [1], exampleBank.files) ∧
    ((addDataSourceTask exampleLoader 1 exampleBank exampleBankNode.toDataSource false).bind
      (fun r => addDataSourceTask exampleLoader 1 r.1 exampleBankNode.toDataSource false)).map
      (fun r => (r.1.m_dataSources.map Prod.snd, (r.1.nodes 1).map (fun n => n.patches),
        (r.1.patchHeap 1).map (fun p => p.sysex), (r.1.patchHeap 3).map (fun p => p.sysex))) =
      some ([1], some [1, 3], some [0xf0, 1, 0xf7], some [0xf0, 1, 0xf7]) := by
  constructor
  · rfl
  · rfl

/-! ### Searches -/

theorem mem_foldl_setInsert (f : Nat → Bool) (ps : List Nat) :
    ∀ (r : List Nat) (x : Nat),
      x ∈ ps.foldl (fun r ptr => if f ptr = true then setInsert ptr r else r) r ↔
        x ∈ r ∨ (x ∈ ps ∧ f x = true) := by
  induction ps with
  | nil => intro r x; simp
  | cons a ps ih =>
    intro r x
    rw [List.foldl_cons, ih]
    by_cases hf : f a = true
    · rw [if_pos hf, mem_setInsert]
      constructor
      · rintro ((rfl | h1) | ⟨h1, h2⟩)
        · exact Or.inr ⟨List.mem_cons_self _ _, hf⟩
        · exact Or.inl h1
        · exact Or.inr ⟨List.mem_cons_of_mem _ h1, h2⟩
      · rintro (h1 | ⟨h1, h2⟩)
        · exact Or.inl (Or.inr h1)
        · rcases List.mem_cons.1 h1 with rfl | h3
          · exact Or.inl (Or.inl rfl)
          · exact Or.inr ⟨h3, h2⟩
    · rw [if_neg hf]
      constructor
      · rintro (h1 | ⟨h1, h2⟩)
        · exact Or.inl h1
        · exact Or.inr ⟨List.mem_cons_of_mem _ h1, h2⟩
      · rintro (h1 | ⟨h1, h2⟩)
        · exact Or.inl h1
        · rcases List.mem_cons.1 h1 with rfl | h3
          · exact absurd h2 hf
          · exact Or.inr ⟨h3, h2⟩

theorem mem_foldl_of_step {ε : Type} (g : List Nat → ε → List Nat) (Q : ε → Nat → Prop)
    (hg : ∀ r e x, x ∈ g r e ↔ x ∈ r ∨ Q e x) (es : List ε) :
    ∀ (r : List Nat) (x : Nat), x ∈ es.foldl g r ↔ x ∈ r ∨ ∃ e ∈ es, Q e x := by
  induction es with
  | nil => intro r x; simp
  | cons a es ih =>
    intro r x
    rw [List.foldl_cons, ih, hg]
    constructor
    · rintro ((h1 | h1) | ⟨e, he, h1⟩)
      · exact Or.inl h1
      · exact Or.inr ⟨a, List.mem_cons_self _ _, h1⟩
      · exact Or.inr ⟨e, List.mem_cons_of_mem _ he, h1⟩
    · rintro (h1 | ⟨e, he, h1⟩)
      · exact Or.inl (Or.inl h1)
      · rcases List.mem_cons.1 he with rfl | h3
        · exact Or.inl (Or.inr h1)
        · exact Or.inr ⟨e, h3, h1⟩

theorem contentMatch_iff (h : Host) (patch T : Patch) :
    contentMatch h patch T = true ↔
      (patch.hash = T.hash ∨
        (patch.sysex.length = T.sysex.length ∧ patch.getName = T.getName ∧
          h.equals patch T = true)) := by
  unfold contentMatch
  split
  · rename_i hh
    simp [hh]
  · rename_i hh
    split
    · rename_i hl
      simp [hh, hl.1, hl.2]
    · rename_i hl
      constructor
      · intro hx
        cases hx
      · rintro (h1 | ⟨h1, h2, _⟩)
        · exact absurd h1 hh
        · exact absurd ⟨h1, h2⟩ hl

theorem mem_contentResults (h : Host) (s : DB W) (T : Patch) (p : PatchPtr) :
    p ∈ contentResults h s T ↔ ContentHit h s T p := by
  unfold contentResults ContentHit
  have hinner : ∀ (patches : List PatchPtr) (r : List PatchPtr) (x : PatchPtr),
      x ∈ patches.foldl (fun results ptr =>
        match s.patchHeap ptr with
        | none => results
        | some patch => if contentMatch h patch T then setInsert ptr results else results) r ↔
      x ∈ r ∨ (x ∈ patches ∧ ∃ patch, s.patchHeap x = some patch ∧
        contentMatch h patch T = true) := by
    intro patches r x
    have hfun : (fun (results : List PatchPtr) (ptr : PatchPtr) =>
        match s.patchHeap ptr with
        | none => results
        | some patch => if contentMatch h patch T then setInsert ptr results else results) =
        (fun r ptr => if (match s.patchHeap ptr with
          | none => false
          | some patch => contentMatch h patch T) = true then setInsert ptr r else r) := by
      funext results ptr
      cases s.patchHeap ptr <;> simp
    rw [hfun, mem_foldl_setInsert]
    cases s.patchHeap x <;> simp
  rw [mem_foldl_of_step _
    (fun (e : DataSourceKey × NodePtr) x => ∃ n, s.nodes e.2 = some n ∧ x ∈ n.patches ∧
      ∃ patch, s.patchHeap x = some patch ∧ contentMatch h patch T = true)]
  · simp only [List.not_mem_nil, false_or, contentMatch_iff]
  · intro r e x
    cases hn : s.nodes e.2 with
    | none => simp
    | some n =>
      simp only [hinner]
      constructor
      · rintro (h1 | ⟨h1, h2⟩)
        · exact Or.inl h1
        · exact Or.inr ⟨n, rfl, h1, h2⟩
      · rintro (h1 | ⟨n', hn', h1, h2⟩)
        · exact Or.inl h1
        · cases hn'
          exact Or.inr ⟨h1, h2⟩

theorem storeSearch_frame (s : DB W) (x : Search) :
    (storeSearch s x).m_dirty = s.m_dirty ∧
      (storeSearch s x).m_cancelledSearches = s.m_cancelledSearches ∧
      (storeSearch s x).nodes = s.nodes ∧ (storeSearch s x).patchHeap = s.patchHeap ∧
      (storeSearch s x).m_dataSources = s.m_dataSources ∧
      ∀ k, (mapFind k (storeSearch s x).m_searches).isSome = (mapFind k s.m_searches).isSome := by
  refine ⟨rfl, rfl, rfl, rfl, rfl, ?_⟩
  intro k
  unfold storeSearch
  dsimp only
  induction s.m_searches with
  | nil => rfl
  | cons e m ih =>
    simp only [List.map_cons, mapFind]
    by_cases he : e.1 = x.handle
    · rw [if_pos he]
      by_cases hk : e.1 = k
      · rw [if_pos hk, if_pos hk]
        rfl
      · rw [if_neg hk, if_neg hk]
        exact ih
    · rw [if_neg he]
      by_cases hk : e.1 = k
      · rw [if_pos hk, if_pos hk]
      · rw [if_neg hk, if_neg hk]
        exact ih

/-! ### C11 -/

/-- C11, as the code has it: a search whose request carries a target patch `T` ends
Completed and returns true whether or not its handle is in the pending-cancellation set,
which it leaves alone; its handle is marked in `dirty.searches`; its result set is the
set of the patches of the nodes of the table that have the hash of `T`, or the length and
the name of `T` and for which `equals` holds, when that set is not empty, and it is left
as it was when no patch is such a hit. -/
theorem executeSearch_content (h : Host) (s : DB W) (x : Search) (t : PatchPtr) (T : Patch)
    (hreq : x.request.patch = some t) (hT : s.patchHeap t = some T) :
    (executeSearch h s x).2.1.state = SearchState.Completed ∧
    (executeSearch h s x).2.2 = true ∧
    x.handle ∈ (executeSearch h s x).1.m_dirty.searches ∧
    (executeSearch h s x).1.m_cancelledSearches = s.m_cancelledSearches ∧
    ∀ p, p ∈ (executeSearch h s x).2.1.results ↔
      (ContentHit h s T p ∨ ((∀ q, ¬ ContentHit h s T q) ∧ p ∈ x.results)) := by
  have hrun : runSearch h s x =
      completeSearch s
        (if contentResults h s T ≠ [] then
          { x with state := SearchState.Running, results := contentResults h s T }
        else { x with state := SearchState.Running }) := by
    unfold runSearch
    simp only [hreq, hT]
  unfold executeSearch
  rw [hrun]
  refine ⟨rfl, rfl, ?_, rfl, ?_⟩
  · show x.handle ∈ setInsert _ s.m_dirty.searches
    rw [mem_setInsert]
    left
    split <;> rfl
  · intro p
    show p ∈ (if contentResults h s T ≠ [] then
          ({ x with state := SearchState.Running, results := contentResults h s T } : Search)
        else { x with state := SearchState.Running }).results ↔ _
    by_cases hne : contentResults h s T ≠ []
    · rw [if_pos hne]
      show p ∈ contentResults h s T ↔ _
      rw [mem_contentResults]
      constructor
      · exact Or.inl
      · rintro (h1 | ⟨h1, _⟩)
        · exact h1
        · obtain ⟨q, hq⟩ := List.exists_mem_of_ne_nil _ hne
          exact absurd ((mem_contentResults h s T q).1 hq) (h1 q)
    · rw [if_neg hne]
      show p ∈ x.results ↔ _
      have hnil : contentResults h s T = [] := not_not.1 hne
      have hno : ∀ q, ¬ ContentHit h s T q := by
        intro q hq
        have := (mem_contentResults h s T q).2 hq
        rw [hnil] at this
        cases this
      constructor
      · exact fun hp => Or.inr ⟨hno, hp⟩
      · rintro (h1 | ⟨_, h1⟩)
        · exact absurd h1 (hno p)
        · exact h1

theorem executeSearch_content_witness :
    exampleTarget.patchHeap 10 = some (examplePatch "a" 0 2) ∧
    (executeSearch exampleHost exampleTarget
      ⟨0, ⟨[], "", none, SourceType.Invalid, some 10⟩, [], SearchState.NotStarted⟩).2.1.state =
      SearchState.Completed ∧
    (executeSearch exampleHost exampleTarget
      ⟨0, ⟨[], "", none, SourceType.Invalid, some 10⟩, [], SearchState.NotStarted⟩).2.2 = true ∧
    0 ∈ (executeSearch exampleHost exampleTarget
      ⟨0, ⟨[], "", none, SourceType.Invalid, some 10⟩, [], SearchState.NotStarted⟩).1.m_dirty.searches ∧
    (executeSearch exampleHost exampleTarget
      ⟨0, ⟨[], "", none, SourceType.Invalid, some 10⟩, [],
        SearchState.NotStarted⟩).1.m_cancelledSearches = exampleTarget.m_cancelledSearches ∧
    ∀ p, p ∈ (executeSearch exampleHost exampleTarget
        ⟨0, ⟨[], "", none, SourceType.Invalid, some 10⟩, [], SearchState.NotStarted⟩).2.1.results ↔
      (ContentHit exampleHost exampleTarget (examplePatch "a" 0 2) p ∨
        ((∀ q, ¬ ContentHit exampleHost exampleTarget (examplePatch "a" 0 2) q) ∧
          p ∈ ([] : List PatchPtr))) :=
  ⟨rfl, executeSearch_content exampleHost exampleTarget
    ⟨0, ⟨[], "", none, SourceType.Invalid, some 10⟩, [], SearchState.NotStarted⟩ 10
    (examplePatch "a" 0 2) rfl rfl⟩

/-- C11 as stated fails on the result set: the search for the patch 12 is registered,
`updateSearches` puts the patch 10 into its results before its task runs, and the task
finds no patch that equals the patch 12 and leaves the results alone: the search ends
Completed with the patch 10 as its result, which is no hit. -/
theorem executeSearch_content_keeps_stale :
    getSearch exampleStale 0 = some ⟨0, exampleStaleRequest, [10], SearchState.NotStarted⟩ ∧
    exampleStale.patchHeap 12 = some ⟨"t", [0xf0, 0xf7], [9], 0, [], none, none⟩ ∧
    (executeSearch exampleMatchAll exampleStale
      ⟨0, exampleStaleRequest, [10], SearchState.NotStarted⟩).2.1 =
      ⟨0, exampleStaleRequest, [10], SearchState.Completed⟩ ∧
    ¬ ContentHit exampleMatchAll exampleStale ⟨"t", [0xf0, 0xf7], [9], 0, [], none, none⟩ 10 := by
  refine ⟨rfl, rfl, rfl, ?_⟩
  rintro ⟨e, _, n, _, _, patch, hpatch, hor⟩
  have h10 : exampleStale.patchHeap 10 = some (examplePatch "a" 0 2) := rfl
  rw [h10] at hpatch
  cases hpatch
  revert hor
  decide

/-! ### The scan of a filter search -/

theorem mapFind_mapErase_self {κ ν : Type} [DecidableEq κ] (k : κ) (m : List (κ × ν)) :
    mapFind k (mapErase k m) = none := by
  rw [mapFind_eq_none_iff]
  intro e he
  exact ((mem_mapErase k m e).1 he).2

theorem mem_scanPatches (h : Host) (s : DB W) (r : SearchRequest) (ps res : List PatchPtr)
    (x : PatchPtr) :
    x ∈ scanPatches h s r ps res ↔
      x ∈ res ∨ (x ∈ ps ∧ ∃ patch, s.patchHeap x = some patch ∧
        h.requestMatch s.nodes r patch = true) := by
  unfold scanPatches
  have hfun : (fun (results : List PatchPtr) (ptr : PatchPtr) =>
      match s.patchHeap ptr with
      | none => results
      | some patch =>
        if h.requestMatch s.nodes r patch then setInsert ptr results else results) =
      (fun res ptr => if (match s.patchHeap ptr with
        | none => false
        | some patch => h.requestMatch s.nodes r patch) = true then setInsert ptr res else res) := by
    funext results ptr
    cases s.patchHeap ptr <;> simp
  rw [hfun, mem_foldl_setInsert]
  cases s.patchHeap x <;> simp

theorem searchInDs_skip (h : Host) (s : DB W) (x : Search) (n : NodePtr)
    (hc : isCandidate h s x.request n = false) : searchInDs h s x n = (s, x, true) := by
  unfold searchInDs
  unfold isCandidate at hc
  cases hn : s.nodes n with
  | none => rfl
  | some ds =>
    rw [hn] at hc
    simp only [decide_eq_false_iff_not, not_or] at hc
    dsimp only
    rw [if_pos ⟨not_not.1 hc.1, hc.2.1, hc.2.2⟩]

theorem searchInDs_found (h : Host) (s : DB W) (x : Search) (n : NodePtr)
    (hc : isCandidate h s x.request n = true) :
    ∃ ds, s.nodes n = some ds ∧
      searchInDs h s x n =
        if x.handle ∈ s.m_cancelledSearches then
          ({ s with
              m_cancelledSearches := setErase x.handle s.m_cancelledSearches,
              m_dirty := { s.m_dirty with searches := setInsert x.handle s.m_dirty.searches } },
            { x with state := SearchState.Cancelled }, false)
        else (s, { x with results := scanPatches h s x.request ds.patches x.results }, true) := by
  unfold isCandidate at hc
  cases hn : s.nodes n with
  | none =>
    rw [hn] at hc
    cases hc
  | some ds =>
    rw [hn] at hc
    simp only [decide_eq_true_eq] at hc
    refine ⟨ds, rfl, ?_⟩
    unfold searchInDs
    rw [hn]
    dsimp only
    rw [if_neg]
    rintro ⟨h1, h2, h3⟩
    rcases hc with h4 | h4 | h4
    · exact h4 h1
    · exact h2 h4
    · exact h3 h4

theorem searchInAll_single (h : Host) (s : DB W) (x : Search) (n : NodePtr) :
    searchInAll h [n] s x = searchInDs h s x n := by
  unfold searchInAll
  dsimp only
  split
  · rename_i hr
    unfold searchInAll
    exact Prod.ext rfl (Prod.ext rfl hr.symm)
  · rfl

theorem searchInAll_cancelled (h : Host) (s : DB W) (x : Search)
    (hx : x.handle ∈ s.m_cancelledSearches) (l : List NodePtr) :
    searchInAll h l s x =
      if l.filter (isCandidate h s x.request) = [] then (s, x, true)
      else
        ({ s with
            m_cancelledSearches := setErase x.handle s.m_cancelledSearches,
            m_dirty := { s.m_dirty with searches := setInsert x.handle s.m_dirty.searches } },
          { x with state := SearchState.Cancelled }, false) := by
  induction l with
  | nil => rfl
  | cons n l ih =>
    unfold searchInAll
    dsimp only
    cases hc : isCandidate h s x.request n with
    | false =>
      rw [searchInDs_skip h s x n hc, List.filter_cons_of_neg (by simp [hc])]
      simp only [if_true]
      exact ih
    | true =>
      obtain ⟨ds, _, hrun⟩ := searchInDs_found h s x n hc
      rw [hrun, if_pos hx, List.filter_cons_of_pos hc]
      simp

theorem searchInAll_live (h : Host) (s : DB W) (l : List NodePtr) :
    ∀ (x : Search), x.handle ∉ s.m_cancelledSearches →
      ∃ res, searchInAll h l s x = (s, { x with results := res }, true) ∧
        ∀ p, p ∈ res ↔ p ∈ x.results ∨
          ∃ n ∈ l.filter (isCandidate h s x.request), ∃ dn, s.nodes n = some dn ∧
            p ∈ dn.patches ∧ ∃ patch, s.patchHeap p = some patch ∧
              h.requestMatch s.nodes x.request patch = true := by
  induction l with
  | nil =>
    intro x _
    exact ⟨x.results, rfl, fun p => by simp⟩
  | cons n l ih =>
    intro x hx
    unfold searchInAll
    dsimp only
    cases hc : isCandidate h s x.request n with
    | false =>
      rw [searchInDs_skip h s x n hc, List.filter_cons_of_neg (by simp [hc])]
      simp only [if_true]
      exact ih x hx
    | true =>
      obtain ⟨ds, hds, hrun⟩ := searchInDs_found h s x n hc
      rw [hrun, if_neg hx, List.filter_cons_of_pos hc]
      simp only [if_true]
      obtain ⟨res, hres, hmem⟩ := ih
        { x with results := scanPatches h s x.request ds.patches x.results } hx
      refine ⟨res, hres, ?_⟩
      intro p
      rw [hmem]
      show p ∈ scanPatches h s x.request ds.patches x.results ∨ _ ↔ _
      rw [mem_scanPatches]
      constructor
      · rintro ((h1 | ⟨h1, h2⟩) | ⟨m, hm, h1⟩)
        · exact Or.inl h1
        · exact Or.inr ⟨n, List.mem_cons_self _ _, ds, hds, h1, h2⟩
        · exact Or.inr ⟨m, List.mem_cons_of_mem _ hm, h1⟩
      · rintro (h1 | ⟨m, hm, dn, hdn, h1, h2⟩)
        · exact Or.inl (Or.inl h1)
        · rcases List.mem_cons.1 hm with rfl | hm'
          · rw [hds] at hdn
            cases hdn
            exact Or.inl (Or.inr ⟨h1, h2⟩)
          · exact Or.inr ⟨m, hm', dn, hdn, h1, h2⟩

theorem runSearch_live (h : Host) (s : DB W) (x : Search) (hreq : x.request.patch = none)
    (hx : x.handle ∉ s.m_cancelledSearches) :
    (runSearch h s x).2.1.state = SearchState.Completed ∧
      (runSearch h s x).2.1.handle = x.handle ∧
      (runSearch h s x).1.m_cancelledSearches = s.m_cancelledSearches ∧
      ∀ p, p ∈ (runSearch h s x).2.1.results ↔ p ∈ x.results ∨ FilterHit h s x.request p := by
  unfold runSearch FilterHit candidateNodes
  simp only [hreq]
  by_cases hA : x.request.sourceNode ≠ none ∧
      (h.getSourceType s.nodes x.request = SourceType.File ∨
        h.getSourceType s.nodes x.request = SourceType.LocalStorage)
  · rw [if_pos hA, if_pos hA]
    cases hl : (x.request.sourceNode.bind s.nodes).bind
        (fun n => mapFind n.key s.m_dataSources) with
    | none =>
      refine ⟨rfl, rfl, rfl, ?_⟩
      intro p
      simp
    | some it =>
      obtain ⟨res, hres, hmem⟩ := searchInAll_live h s [it]
        { x with state := SearchState.Running } hx
      rw [searchInAll_single] at hres
      dsimp only
      rw [hres]
      refine ⟨rfl, rfl, rfl, ?_⟩
      intro p
      exact hmem p
  · rw [if_neg hA, if_neg hA]
    obtain ⟨res, hres, hmem⟩ := searchInAll_live h s (s.m_dataSources.map Prod.snd)
      { x with state := SearchState.Running } hx
    rw [hres]
    refine ⟨rfl, rfl, rfl, ?_⟩
    intro p
    exact hmem p

theorem searchInAll_none (h : Host) (s : DB W) (x : Search)
    (hx : x.handle ∈ s.m_cancelledSearches) (l : List NodePtr)
    (hnil : l.filter (isCandidate h s x.request) = []) : searchInAll h l s x = (s, x, true) := by
  rw [searchInAll_cancelled h s x hx l, if_pos hnil]

theorem searchInAll_some (h : Host) (s : DB W) (x : Search)
    (hx : x.handle ∈ s.m_cancelledSearches) (l : List NodePtr)
    (hne : l.filter (isCandidate h s x.request) ≠ []) :
    searchInAll h l s x =
      ({ s with
          m_cancelledSearches := setErase x.handle s.m_cancelledSearches,
          m_dirty := { s.m_dirty with searches := setInsert x.handle s.m_dirty.searches } },
        { x with state := SearchState.Cancelled }, false) := by
  rw [searchInAll_cancelled h s x hx l, if_neg hne]

theorem runSearch_cancelled (h : Host) (s : DB W) (x : Search)
    (hreq : x.request.patch = none) (hx : x.handle ∈ s.m_cancelledSearches) :
    (candidateNodes h s x.request ≠ [] →
      runSearch h s x =
        ({ s with
            m_cancelledSearches := setErase x.handle s.m_cancelledSearches,
            m_dirty := { s.m_dirty with searches := setInsert x.handle s.m_dirty.searches } },
          { x with state := SearchState.Cancelled }, false)) ∧
    (candidateNodes h s x.request = [] →
      (runSearch h s x).2.1 = { x with state := SearchState.Completed } ∧
        (runSearch h s x).1.m_cancelledSearches = s.m_cancelledSearches) := by
  unfold runSearch candidateNodes
  simp only [hreq]
  by_cases hA : x.request.sourceNode ≠ none ∧
      (h.getSourceType s.nodes x.request = SourceType.File ∨
        h.getSourceType s.nodes x.request = SourceType.LocalStorage)
  · rw [if_pos hA, if_pos hA]
    cases hl : (x.request.sourceNode.bind s.nodes).bind
        (fun n => mapFind n.key s.m_dataSources) with
    | none =>
      constructor
      · intro hne
        exact absurd rfl hne
      · intro _
        exact ⟨rfl, rfl⟩
    | some it =>
      by_cases hnil : List.filter (isCandidate h s x.request) [it] = []
      · have hrun := searchInAll_none h s { x with state := SearchState.Running } hx [it] hnil
        rw [searchInAll_single] at hrun
        dsimp only
        rw [hrun]
        exact ⟨fun hne => absurd hnil hne, fun _ => ⟨rfl, rfl⟩⟩
      · have hrun := searchInAll_some h s { x with state := SearchState.Running } hx [it] hnil
        rw [searchInAll_single] at hrun
        dsimp only
        rw [hrun]
        exact ⟨fun _ => rfl, fun hh => absurd hh hnil⟩
  · rw [if_neg hA, if_neg hA]
    by_cases hnil : List.filter (isCandidate h s x.request) (s.m_dataSources.map Prod.snd) = []
    · rw [searchInAll_none h s { x with state := SearchState.Running } hx _ hnil]
      exact ⟨fun hne => absurd hnil hne, fun _ => ⟨rfl, rfl⟩⟩
    · rw [searchInAll_some h s { x with state := SearchState.Running } hx _ hnil]
      exact ⟨fun _ => rfl, fun hh => absurd hh hnil⟩

theorem searchInDs_frame (h : Host) (s : DB W) (x : Search) (n : NodePtr) :
    (searchInDs h s x n).1.m_searches = s.m_searches ∧
      (searchInDs h s x n).1.nodes = s.nodes ∧
      (searchInDs h s x n).1.patchHeap = s.patchHeap ∧
      (searchInDs h s x n).1.m_dataSources = s.m_dataSources := by
  unfold searchInDs
  repeat' split
  all_goals exact ⟨rfl, rfl, rfl, rfl⟩

theorem searchInAll_frame (h : Host) (l : List NodePtr) :
    ∀ (s : DB W) (x : Search), (searchInAll h l s x).1.m_searches = s.m_searches := by
  induction l with
  | nil => intro s x; rfl
  | cons n l ih =>
    intro s x
    unfold searchInAll
    dsimp only
    split
    · rw [ih]
      exact (searchInDs_frame h s x n).1
    · exact (searchInDs_frame h s x n).1

theorem runSearch_frame (h : Host) (s : DB W) (x : Search) :
    (runSearch h s x).1.m_searches = s.m_searches := by
  unfold runSearch
  dsimp only
  split
  · rfl
  · split
    · split
      · rfl
      · split
        · exact (searchInDs_frame h s _ _).1
        · exact (searchInDs_frame h s _ _).1
    · split
      · exact searchInAll_frame h _ s _
      · exact searchInAll_frame h _ s _

/-! ### C12 and C13 -/

/-- C12, as the code has it: a filter search whose handle `cancelSearch` has put into the
pending-cancellation set ends Cancelled, returns false and has its handle in
`dirty.searches` when it has a candidate node, a node whose patch set it would scan; the
set is looked at only there, and a search without a candidate node ends Completed.  In
both cases `getSearch` returns no search for the handle. -/
theorem executeSearch_cancelled (h : Host) (s0 : DB W) (x : Search)
    (hreq : x.request.patch = none) :
    (candidateNodes h (cancelSearch s0 x.handle) x.request ≠ [] →
      (executeSearch h (cancelSearch s0 x.handle) x).2.1.state = SearchState.Cancelled ∧
      (executeSearch h (cancelSearch s0 x.handle) x).2.2 = false ∧
      x.handle ∈ (executeSearch h (cancelSearch s0 x.handle) x).1.m_dirty.searches) ∧
    (candidateNodes h (cancelSearch s0 x.handle) x.request = [] →
      (executeSearch h (cancelSearch s0 x.handle) x).2.1.state = SearchState.Completed) ∧
    getSearch (executeSearch h (cancelSearch s0 x.handle) x).1 x.handle = none := by
  have hx : x.handle ∈ (cancelSearch s0 x.handle).m_cancelledSearches := by
    show x.handle ∈ setInsert x.handle s0.m_cancelledSearches
    rw [mem_setInsert]
    exact Or.inl rfl
  obtain ⟨hsome, hnone⟩ := runSearch_cancelled h (cancelSearch s0 x.handle) x hreq hx
  refine ⟨?_, ?_, ?_⟩
  · intro hne
    unfold executeSearch
    rw [hsome hne]
    refine ⟨rfl, rfl, ?_⟩
    show x.handle ∈ setInsert x.handle _
    rw [mem_setInsert]
    exact Or.inl rfl
  · intro hnil
    unfold executeSearch
    exact congrArg Search.state (hnone hnil).1
  · unfold executeSearch getSearch
    have hfr := (storeSearch_frame (runSearch h (cancelSearch s0 x.handle) x).1
      (runSearch h (cancelSearch s0 x.handle) x).2.1).2.2.2.2.2 x.handle
    have hreg : (runSearch h (cancelSearch s0 x.handle) x).1.m_searches =
        mapErase x.handle s0.m_searches := runSearch_frame h (cancelSearch s0 x.handle) x
    rw [hreg, mapFind_mapErase_self] at hfr
    cases hf : mapFind x.handle
        (storeSearch (runSearch h (cancelSearch s0 x.handle) x).1
          (runSearch h (cancelSearch s0 x.handle) x).2.1).m_searches with
    | none => rfl
    | some v =>
      rw [hf] at hfr
      cases hfr

theorem executeSearch_cancelled_witness :
    exampleFilter.patch = none ∧
    candidateNodes exampleHost (cancelSearch exampleTree 0) exampleFilter = [0, 1, 2, 3] ∧
    ((candidateNodes exampleHost (cancelSearch exampleTree 0) exampleFilter ≠ [] →
      (executeSearch exampleHost (cancelSearch exampleTree 0)
        ⟨0, exampleFilter, [], SearchState.NotStarted⟩).2.1.state = SearchState.Cancelled ∧
      (executeSearch exampleHost (cancelSearch exampleTree 0)
        ⟨0, exampleFilter, [], SearchState.NotStarted⟩).2.2 = false ∧
      0 ∈ (executeSearch exampleHost (cancelSearch exampleTree 0)
        ⟨0, exampleFilter, [], SearchState.NotStarted⟩).1.m_dirty.searches) ∧
    (candidateNodes exampleHost (cancelSearch exampleTree 0) exampleFilter = [] →
      (executeSearch exampleHost (cancelSearch exampleTree 0)
        ⟨0, exampleFilter, [], SearchState.NotStarted⟩).2.1.state = SearchState.Completed) ∧
    getSearch (executeSearch exampleHost (cancelSearch exampleTree 0)
      ⟨0, exampleFilter, [], SearchState.NotStarted⟩).1 0 = none) :=
  ⟨rfl, rfl, executeSearch_cancelled exampleHost exampleTree
    ⟨0, exampleFilter, [], SearchState.NotStarted⟩ rfl⟩

/-- C12 as stated fails for a search that scans no node: with an empty table, and with a
table that holds no node of the requested type, the cancelled filter search ends
Completed, although its handle is in the pending-cancellation set when it runs. -/
theorem executeSearch_cancelled_completes :
    0 ∈ (cancelSearch exampleEmpty 0).m_cancelledSearches ∧
    (executeSearch exampleHost (cancelSearch exampleEmpty 0)
      ⟨0, exampleFilter, [], SearchState.NotStarted⟩).2.1.state = SearchState.Completed ∧
    0 ∈ (cancelSearch exampleTree 0).m_cancelledSearches ∧
    (executeSearch exampleHost (cancelSearch exampleTree 0)
      ⟨0, ⟨[], "", none, SourceType.Rom, none⟩, [], SearchState.NotStarted⟩).2.1.state =
      SearchState.Completed := by
  decide

/-- C13, as the code has it: a filter search that starts with an empty result set and
whose handle is not in the pending-cancellation set ends Completed, and its result set is
the set of the patches of the candidate nodes that the request matches.  The candidate
nodes are the node that the table holds for the identity of the requested node when the
request names a node of type File or LocalStorage; else they are the nodes of the table,
restricted to those of the requested type when no node is named and a type is given. -/
theorem executeSearch_filter (h : Host) (s : DB W) (x : Search)
    (hreq : x.request.patch = none) (hx : x.handle ∉ s.m_cancelledSearches)
    (hempty : x.results = []) :
    (executeSearch h s x).2.1.state = SearchState.Completed ∧
    ∀ p, p ∈ (executeSearch h s x).2.1.results ↔ FilterHit h s x.request p := by
  obtain ⟨h1, _, _, h4⟩ := runSearch_live h s x hreq hx
  unfold executeSearch
  refine ⟨h1, ?_⟩
  intro p
  rw [h4 p, hempty]
  simp

theorem executeSearch_filter_witness :
    exampleFilter.patch = none ∧ 0 ∉ exampleTarget.m_cancelledSearches ∧
    (executeSearch exampleMatchAll exampleTarget
      ⟨0, exampleFilter, [], SearchState.NotStarted⟩).2.1.state = SearchState.Completed ∧
    ∀ p, p ∈ (executeSearch exampleMatchAll exampleTarget
        ⟨0, exampleFilter, [], SearchState.NotStarted⟩).2.1.results ↔
      FilterHit exampleMatchAll exampleTarget exampleFilter p :=
  ⟨rfl, by decide, executeSearch_filter exampleMatchAll exampleTarget
    ⟨0, exampleFilter, [], SearchState.NotStarted⟩ rfl (by decide) rfl⟩

/-- C13 as stated fails on the candidate nodes: the request names the folder `d`, node 0,
which holds no patch itself, and the search scans every node of the table: it ends with
the patches 10 and 11 of the nodes 2 and 3, which the request matches. -/
theorem executeSearch_filter_scans_table :
    exampleTarget.nodes 0 = some exampleD ∧ exampleD.patches = [] ∧
    0 ∉ exampleTarget.m_cancelledSearches ∧
    (executeSearch exampleMatchAll exampleTarget
      ⟨0, exampleFolderFilter, [], SearchState.NotStarted⟩).2.1 =
      ⟨0, exampleFolderFilter, [10, 11], SearchState.Completed⟩ := by
  refine ⟨rfl, rfl, by decide, ?_⟩
  rfl

/-! ### Searches after a change of patches -/

theorem mem_updateResults_iff (h : Host) (s : DB W) (req : SearchRequest)
    (ps : List PatchPtr) :
    ∀ (r : List PatchPtr) (x : PatchPtr),
      x ∈ updateResults h s req ps r ↔
        ((x ∈ ps ∧ ∃ patch, s.patchHeap x = some patch ∧
            h.requestMatch s.nodes req patch = true) ∨
          (x ∈ r ∧ ¬ (x ∈ ps ∧ ∃ patch, s.patchHeap x = some patch ∧
            h.requestMatch s.nodes req patch = false))) := by
  induction ps with
  | nil =>
    intro r x
    simp [updateResults]
  | cons a ps ih =>
    intro r x
    have hstep : updateResults h s req (a :: ps) r =
        updateResults h s req ps
          (match s.patchHeap a with
          | none => r
          | some patch =>
            if h.requestMatch s.nodes req patch then setInsert a r else setErase a r) := rfl
    rw [hstep, ih]
    cases ha : s.patchHeap a with
    | none =>
      dsimp only
      by_cases hxa : x = a
      · subst hxa
        simp [ha]
      · simp [hxa]
    | some pa =>
      dsimp only
      by_cases hm : h.requestMatch s.nodes req pa = true
      · rw [if_pos hm, mem_setInsert]
        by_cases hxa : x = a
        · subst hxa
          simp [ha, hm]
        · simp [hxa]
      · rw [if_neg hm, mem_setErase]
        have hm' : h.requestMatch s.nodes req pa = false := Bool.eq_false_iff.2 hm
        by_cases hxa : x = a
        · subst hxa
          simp [ha, hm']
        · simp [hxa]

theorem updateSearches_consistent (h : Host) (s : DB W) (ps : List PatchPtr) :
    (updateSearches h s ps).patchHeap = s.patchHeap ∧
      (updateSearches h s ps).nodes = s.nodes ∧
      ∀ e ∈ (updateSearches h s ps).m_searches, ∀ p ∈ ps, ∀ patch,
        s.patchHeap p = some patch →
        (p ∈ e.2.results ↔ h.requestMatch s.nodes e.2.request patch = true) := by
  refine ⟨rfl, rfl, ?_⟩
  intro e he p hp patch hpatch
  unfold updateSearches at he
  obtain ⟨e0, _, rfl⟩ := List.mem_map.1 he
  show p ∈ updateResults h s e0.2.request ps e0.2.results ↔ _
  rw [mem_updateResults_iff]
  constructor
  · rintro (⟨_, q, hq, hm⟩ | ⟨_, hn⟩)
    · rw [hpatch] at hq
      cases hq
      exact hm
    · by_contra hm
      exact hn ⟨hp, patch, hpatch, Bool.eq_false_iff.2 hm⟩
  · intro hm
    exact Or.inl ⟨hp, patch, hpatch, hm⟩

theorem modifyTagsStep_frame (h : Host) (tags : TypedTags) (acc : DB W × List PatchPtr)
    (ptr : PatchPtr) :
    (modifyTagsStep h tags acc ptr).1.nodes = acc.1.nodes ∧
      (∀ q, q ≠ ptr → (modifyTagsStep h tags acc ptr).1.patchHeap q = acc.1.patchHeap q) ∧
      (∀ x, x ∈ acc.2 → x ∈ (modifyTagsStep h tags acc ptr).2) := by
  unfold modifyTagsStep
  cases hp : acc.1.patchHeap ptr with
  | none => exact ⟨rfl, fun _ _ => rfl, fun _ hx => hx⟩
  | some patch =>
    dsimp only
    split
    · exact ⟨rfl, fun _ _ => rfl, fun _ hx => hx⟩
    · split
      · exact ⟨rfl, fun q hq => by simp [update, hq], fun _ hx => hx⟩
      · exact ⟨rfl, fun q hq => by simp [update, hq],
          fun _ hx => List.mem_append_left _ hx⟩

theorem modifyTagsFold_mono (h : Host) (tags : TypedTags) (ps : List PatchPtr) :
    ∀ (acc : DB W × List PatchPtr) (x : PatchPtr), x ∈ acc.2 →
      x ∈ (ps.foldl (modifyTagsStep h tags) acc).2 := by
  induction ps with
  | nil => intro acc x hx; exact hx
  | cons a ps ih =>
    intro acc x hx
    rw [List.foldl_cons]
    exact ih _ x ((modifyTagsStep_frame h tags acc a).2.2 x hx)

theorem modifyTagsStep_changed (h : Host) (tags : TypedTags) (acc : DB W × List PatchPtr)
    (ptr : PatchPtr) (patch : Patch) (hp : acc.1.patchHeap ptr = some patch)
    (hsrc : (patch.source.bind acc.1.nodes).isSome = true)
    (hch : (h.modifyTags (overlayOf ptr patch) tags).2 = true) :
    ptr ∈ (modifyTagsStep h tags acc ptr).2 := by
  unfold modifyTagsStep
  rw [hp]
  dsimp only
  rw [if_neg (by
    cases hs : patch.source.bind acc.1.nodes with
    | none => rw [hs] at hsrc; cases hsrc
    | some v => simp)]
  rw [hch]
  simp

theorem modifyTagsFold_changed (h : Host) (tags : TypedTags) (p : PatchPtr) (patch : Patch)
    (hch : (h.modifyTags (overlayOf p patch) tags).2 = true) (ps : List PatchPtr) :
    ∀ (acc : DB W × List PatchPtr), p ∈ ps → acc.1.patchHeap p = some patch →
      (patch.source.bind acc.1.nodes).isSome = true →
      p ∈ (ps.foldl (modifyTagsStep h tags) acc).2 := by
  induction ps with
  | nil => intro acc hp; cases hp
  | cons a ps ih =>
    intro acc hp hheap hsrc
    rw [List.foldl_cons]
    by_cases hap : a = p
    · subst hap
      exact modifyTagsFold_mono h tags ps _ a (modifyTagsStep_changed h tags acc a patch hheap hsrc hch)
    · have hp' : p ∈ ps := by
        rcases List.mem_cons.1 hp with h1 | h1
        · exact absurd h1.symm hap
        · exact h1
      obtain ⟨hn, hq, _⟩ := modifyTagsStep_frame h tags acc a
      exact ih _ hp' (by rw [hq p (fun hh => hap hh.symm)]; exact hheap) (by rw [hn]; exact hsrc)

/-! ### C14 -/

/-- C14, as the code has it: `modifyTags` with a diff that is not empty returns true, and
afterwards, for every search of the registry and every patch that the call changed (a
patch of the list goes into `changed` when its source is alive and
`PatchModifications::modifyTags` reports a change), the patch is in the results of the
search if and only if the request matches the patch as it is after the call.  A patch of
the list whose source is alive and for whose overlay the diff is a change is such a
patch. -/
theorem modifyTags_consistent (h : Host) (s : DB W) (patches : List PatchPtr)
    (tags : TypedTags) (hne : typedTagsEmpty tags = false) :
    (modifyTags h s patches tags).2 = true ∧
    (∀ e ∈ (modifyTags h s patches tags).1.m_searches,
      ∀ p ∈ changedPatches h s patches tags, ∀ patch,
        (modifyTags h s patches tags).1.patchHeap p = some patch →
        (p ∈ e.2.results ↔
          h.requestMatch (modifyTags h s patches tags).1.nodes e.2.request patch = true)) ∧
    (∀ p ∈ patches, ∀ patch, s.patchHeap p = some patch →
      (patch.source.bind s.nodes).isSome = true →
      (h.modifyTags (overlayOf p patch) tags).2 = true →
      p ∈ changedPatches h s patches tags) := by
  refine ⟨?_, ?_, ?_⟩
  · unfold modifyTags
    rw [hne]
    rfl
  · intro e he p hp patch hpatch
    unfold modifyTags at he hpatch ⊢
    rw [hne] at he hpatch ⊢
    simp only [Bool.false_eq_true, if_false] at he hpatch ⊢
    have hne' : (patches.foldl (modifyTagsStep h tags) (s, [])).2 ≠ [] := by
      intro hnil
      unfold changedPatches at hp
      rw [hnil] at hp
      cases hp
    rw [if_pos hne', if_pos hne'] at he hpatch
    rw [if_pos hne', if_pos hne']
    have hc := sameCatalog_saveJson h
      (updateSearches h (patches.foldl (modifyTagsStep h tags) (s, [])).1
        (patches.foldl (modifyTagsStep h tags) (s, [])).2)
    rw [hc.m_searches] at he
    rw [hc.patchHeap] at hpatch
    rw [hc.nodes]
    exact (updateSearches_consistent h _ _).2.2 e he p hp patch hpatch
  · intro p hp patch hpatch hsrc hch
    exact modifyTagsFold_changed h tags p patch hch patches (s, []) hp hpatch hsrc

theorem modifyTags_consistent_witness :
    typedTagsEmpty exampleBass = false ∧
    (modifyTags exampleMatchAll exampleTarget [10] exampleBass).2 = true ∧
    (∀ e ∈ (modifyTags exampleMatchAll exampleTarget [10] exampleBass).1.m_searches,
      ∀ p ∈ changedPatches exampleMatchAll exampleTarget [10] exampleBass, ∀ patch,
        (modifyTags exampleMatchAll exampleTarget [10] exampleBass).1.patchHeap p = some patch →
        (p ∈ e.2.results ↔
          exampleMatchAll.requestMatch
            (modifyTags exampleMatchAll exampleTarget [10] exampleBass).1.nodes
            e.2.request patch = true)) ∧
    (∀ p ∈ [10], ∀ patch, exampleTarget.patchHeap p = some patch →
      (patch.source.bind exampleTarget.nodes).isSome = true →
      (exampleMatchAll.modifyTags (overlayOf p patch) exampleBass).2 = true →
      p ∈ changedPatches exampleMatchAll exampleTarget [10] exampleBass) :=
  ⟨rfl, modifyTags_consistent exampleMatchAll exampleTarget [10] exampleBass rfl⟩

/-- C14 as stated fails for a patch that the call does not change: the patch 10 has the
tag `Bass` already and a search that matches every patch waits in the registry with an
empty result set; `modifyTags` with the same diff returns true and does not look at the
searches, so the patch 10 is not in the results although the request matches it. -/
theorem modifyTags_skips_unchanged :
    typedTagsEmpty exampleBass = false ∧
    (modifyTags exampleMatchAll exampleTagged [10] exampleBass).2 = true ∧
    (getSearch (modifyTags exampleMatchAll exampleTagged [10] exampleBass).1 0).map
      (fun x => (x.request, x.results)) = some (exampleFilter, []) ∧
    ((modifyTags exampleMatchAll exampleTagged [10] exampleBass).1.patchHeap 10).map
      (fun patch => exampleMatchAll.requestMatch
        (modifyTags exampleMatchAll exampleTagged [10] exampleBass).1.nodes exampleFilter patch) =
      some true := by
  refine ⟨rfl, rfl, ?_, ?_⟩
  · rfl
  · rfl

/-! ### C15 -/

theorem removePatchesFromSearches_results (s : DB W) (ks : List PatchPtr) :
    (removePatchesFromSearches s ks).1.nodes = s.nodes ∧
      (removePatchesFromSearches s ks).1.patchHeap = s.patchHeap ∧
      (removePatchesFromSearches s ks).1.m_patchModifications = s.m_patchModifications ∧
      (removePatchesFromSearches s ks).1.m_dirty.patches = s.m_dirty.patches ∧
      ∀ e ∈ (removePatchesFromSearches s ks).1.m_searches, ∀ k ∈ ks, k ∉ e.2.results := by
  refine ⟨rfl, rfl, rfl, rfl, ?_⟩
  intro e he k hk
  unfold removePatchesFromSearches at he
  obtain ⟨e0, _, rfl⟩ := List.mem_map.1 he
  show k ∉ eraseKeys ks e0.2.results
  rw [mem_eraseKeys]
  exact fun hh => hh.2 hk

theorem retainOverlay_frame (s : DB W) (p : PatchPtr) (patch : Patch) :
    (retainOverlay s p patch).nodes = s.nodes ∧
      (retainOverlay s p patch).m_searches = s.m_searches ∧
      (retainOverlay s p patch).m_dataSources = s.m_dataSources ∧
      (retainOverlay s p patch).m_dirty = s.m_dirty := by
  unfold retainOverlay
  repeat' split
  all_goals exact ⟨rfl, rfl, rfl, rfl⟩

theorem removePatch_found (s : DB W) (p : PatchPtr) (patch : Patch) (N : NodePtr)
    (n : DataSourceNode) (hp : s.patchHeap p = some patch) (hsrc : patch.source = some N)
    (hn : s.nodes N = some n) (htab : mapFind n.key s.m_dataSources = some N)
    (hmem : p ∈ n.patches) :
    removePatch s p =
      some ({ (removePatchesFromSearches
            { retainOverlay s p patch with
              nodes := modify (retainOverlay s p patch).nodes N
                (fun n => { n with patches := setErase p n.patches }) } [p]).1 with
          m_dirty :=
            { (removePatchesFromSearches
                { retainOverlay s p patch with
                  nodes := modify (retainOverlay s p patch).nodes N
                    (fun n => { n with patches := setErase p n.patches }) } [p]).1.m_dirty with
              patches := true } }, true) := by
  unfold removePatch
  simp only [hp, hsrc, Option.bind_some, Option.some_bind, hn, htab]
  rw [if_neg (not_not.2 hmem)]

/-- C15, as the code has it: for a patch `p` that is in the patch set of its source node
`N`, which the table holds, `removePatch` returns true; `p` leaves the patch set of `N`
and the results of every search of the registry; `dirty.patches` is set; an overlay of
`p` that is not empty is handed, with its back-reference cleared, to `insert` of the
pending map under `PatchKey(p)`: it is the entry of that key afterwards when the map held
no entry under the key, and an entry that the map held under the key stays; an absent or
empty overlay leaves the map as it was. -/
theorem removePatch_retains (s : DB W) (p : PatchPtr) (patch : Patch) (N : NodePtr)
    (n : DataSourceNode) (hp : s.patchHeap p = some patch) (hsrc : patch.source = some N)
    (hn : s.nodes N = some n) (htab : mapFind n.key s.m_dataSources = some N)
    (hmem : p ∈ n.patches) :
    ∃ r, removePatch s p = some r ∧
    r.2 = true ∧
    (∃ n', r.1.nodes N = some n' ∧ n'.patches = setErase p n.patches ∧
      p ∉ n'.patches) ∧
    (∀ e ∈ r.1.m_searches, p ∉ e.2.results) ∧
    r.1.m_dirty.patches = true ∧
    (∀ mods, patch.modifications = some mods → mods.empty = false →
      r.1.m_patchModifications =
        mapInsert s.m_patchModifications (PatchKey.ofPatch s.nodes patch)
          { mods with patch := none } ∧
      (mapFind (PatchKey.ofPatch s.nodes patch) s.m_patchModifications = none →
        mapFind (PatchKey.ofPatch s.nodes patch) r.1.m_patchModifications =
          some { mods with patch := none }) ∧
      (∀ v, mapFind (PatchKey.ofPatch s.nodes patch) s.m_patchModifications = some v →
        r.1.m_patchModifications = s.m_patchModifications)) ∧
    ((patch.modifications = none ∨ ∃ mods, patch.modifications = some mods ∧ mods.empty = true) →
      r.1.m_patchModifications = s.m_patchModifications) := by
  refine ⟨_, removePatch_found s p patch N n hp hsrc hn htab hmem, ?_⟩
  obtain ⟨f1, f2, f3, f4⟩ := retainOverlay_frame s p patch
  refine ⟨rfl, ?_, ?_, rfl, ?_, ?_⟩
  · refine ⟨{ n with patches := setErase p n.patches }, ?_, rfl, ?_⟩
    · show modify (retainOverlay s p patch).nodes N _ N = _
      rw [modify_apply, if_pos rfl, f1, hn]
      rfl
    · show p ∉ setErase p n.patches
      rw [mem_setErase]
      exact fun hh => hh.2 rfl
  · intro e he
    exact (removePatchesFromSearches_results _ [p]).2.2.2.2 e he p (List.mem_singleton.2 rfl)
  · intro mods hm hem
    have hmap : (retainOverlay s p patch).m_patchModifications =
        mapInsert s.m_patchModifications (PatchKey.ofPatch s.nodes patch)
          { mods with patch := none } := by
      unfold retainOverlay
      rw [hm]
      simp [hem]
    refine ⟨hmap, ?_, ?_⟩
    · intro hnone
      show mapFind _ (retainOverlay s p patch).m_patchModifications = _
      rw [hmap]
      exact mapFind_mapInsert_self _ _ _ hnone
    · intro v hv
      show (retainOverlay s p patch).m_patchModifications = _
      rw [hmap]
      unfold mapInsert
      rw [hv]
      rfl
  · intro hor
    show (retainOverlay s p patch).m_patchModifications = _
    unfold retainOverlay
    rcases hor with hnone | ⟨mods, hm, hem⟩
    · rw [hnone]
    · rw [hm]
      simp [hem]

theorem removePatch_retains_witness :
    exampleTwins.patchHeap 1 =
      some ⟨"p", [0xf0, 1, 0xf7], [0xf0, 1, 0xf7], 1, [], some 1, some ⟨[], "A", some 1⟩⟩ ∧
    exampleTwins.nodes 1 = some ⟨exampleBankNode.toDataSource, [1, 3], none, []⟩ ∧
    mapFind exampleBankNode.key exampleTwins.m_dataSources = some 1 ∧
    ∃ r, removePatch exampleTwins 1 = some r ∧ r.2 = true ∧
      r.1.m_dirty.patches = true ∧
      (∀ e ∈ r.1.m_searches, 1 ∉ e.2.results) :=
  have t := removePatch_retains exampleTwins 1
    ⟨"p", [0xf0, 1, 0xf7], [0xf0, 1, 0xf7], 1, [], some 1, some ⟨[], "A", some 1⟩⟩ 1
    ⟨exampleBankNode.toDataSource, [1, 3], none, []⟩ rfl rfl rfl rfl (by decide)
  ⟨rfl, rfl, rfl, t.elim (fun r hr => ⟨r, hr.1, hr.2.1, hr.2.2.2.2.1, hr.2.2.2.1⟩)⟩

/-- C15 as stated fails on the pending map when it holds an entry under the key already:
the patches 1 and 3 have the same key, the overlay of the removed patch 1 waits under it,
and `removePatch` for the patch 3, whose overlay is the name `B`, returns true and leaves
the entry of the patch 1 under the key. -/
theorem removePatch_keeps_older_overlay :
    exampleTwinLeft.patchHeap 3 =
      some ⟨"p", [0xf0, 1, 0xf7], [0xf0, 1, 0xf7], 1, [], some 1, some ⟨[], "B", some 3⟩⟩ ∧
    exampleTwinLeft.nodes 1 = some ⟨exampleBankNode.toDataSource, [3], none, []⟩ ∧
    mapFind exampleBankNode.key exampleTwinLeft.m_dataSources = some 1 ∧
    PatchModifications.empty ⟨[], "B", some 3⟩ = false ∧
    (removePatch exampleTwinLeft 3).map (fun r => r.2) = some true ∧
    (removePatch exampleTwinLeft 3).map (fun r =>
      mapFind ⟨some exampleBankNode.key, [0xf0, 1, 0xf7], 1⟩ r.1.m_patchModifications) =
        some (some ⟨[], "A", none⟩) := by
  refine ⟨rfl, rfl, rfl, rfl, rfl, ?_⟩
  rfl

/-! ### C16 -/

theorem removePatches_pending (h : Host) (s : DB W) (ds : NodePtr) (ps : List PatchPtr) :
    (removePatches h s ds ps).m_patchModifications = s.m_patchModifications := by
  unfold removePatches
  repeat' (first | split | dsimp only)
  all_goals first
    | rfl
    | exact (sameCatalog_saveJson h _).m_patchModifications

theorem removeDataSource_pending (h : Host) (fuel : Nat) (s s' : DB W) (D : DataSource)
    (save : Bool) (hrun : removeDataSource h fuel s D save = some s') :
    s'.m_patchModifications = s.m_patchModifications := by
  unfold removeDataSource at hrun
  repeat' (first | split at hrun | dsimp only at hrun)
  all_goals cases hrun
  all_goals first
    | rfl
    | exact (sameCatalog_saveJson h _).m_patchModifications

/-- C16 fails on both paths.  The patch 5 of the local store `A` carries the name `Lead`
as its overlay, which is not empty: the task of `removePatches` takes the patch out of
the store and leaves the pending map empty.  The patches 1 and 3 of the file `bank` carry
the names `A` and `B`: `removeDataSource` deletes the node and clears its patch set, and
the pending map is empty afterwards. -/
theorem removePatches_drops_overlay :
    (exampleFavorites.patchHeap 5).map (fun p => p.modifications) =
      some (some ⟨[], "Lead", some 5⟩) ∧
    PatchModifications.empty ⟨[], "Lead", some 5⟩ = false ∧
    (exampleFavorites.nodes 0).map (fun n => (n.type, n.patches)) =
      some (SourceType.LocalStorage, [5]) ∧
    ((removePatches exampleHost exampleFavorites 0 [5]).nodes 0).map (fun n => n.patches) =
      some [] ∧
    (removePatches exampleHost exampleFavorites 0 [5]).m_patchModifications = [] ∧
    (exampleTwins.nodes 1).map (fun n => n.patches) = some [1, 3] ∧
    (exampleTwins.patchHeap 1).map (fun p => p.modifications) = some (some ⟨[], "A", some 1⟩) ∧
    (removeDataSource exampleLoader 1 exampleTwins exampleBankNode.toDataSource false).map
      (fun s' => (s'.m_dataSources, (s'.nodes 1).map (fun n => n.patches),
        s'.m_patchModifications)) = some ([], some [], []) := by
  refine ⟨rfl, rfl, rfl, ?_, ?_, rfl, rfl, ?_⟩
  · rfl
  · rfl
  · rfl

/-! ### Re-attachment of pending overlays -/

theorem foldl_invariant {α β : Type} (f : β → α → β) (P : β → Prop)
    (hf : ∀ b a, P b → P (f b a)) (l : List α) : ∀ b, P b → P (l.foldl f b) := by
  induction l with
  | nil => intro b hb; exact hb
  | cons a l ih => intro b hb; exact ih _ (hf b a hb)

theorem registerTags_pending (tags : TypedTags) (s : DB W) :
    (registerTags s tags).m_patchModifications = s.m_patchModifications ∧
      (registerTags s tags).patchHeap = s.patchHeap := by
  unfold registerTags
  refine foldl_invariant _
    (fun (st : DB W) => st.m_patchModifications = s.m_patchModifications ∧
      st.patchHeap = s.patchHeap) ?_ tags s ⟨rfl, rfl⟩
  intro b it hb
  refine foldl_invariant _
    (fun (st : DB W) => st.m_patchModifications = s.m_patchModifications ∧
      st.patchHeap = s.patchHeap) ?_ it.2.added b hb
  intro c tag hc
  obtain ⟨_, h2, _, h4⟩ := sameNodes_internalAddTag c it.1 tag
  exact ⟨h4.trans hc.1, h2.trans hc.2⟩

theorem mapFind_mapErase_of_ne {κ ν : Type} [DecidableEq κ] (k k' : κ) (m : List (κ × ν))
    (hne : k' ≠ k) : mapFind k (mapErase k' m) = mapFind k m := by
  induction m with
  | nil => rfl
  | cons e m ih =>
    unfold mapErase at ih ⊢
    by_cases he : e.1 = k'
    · rw [List.filter_cons_of_neg (by simp [he])]
      rw [ih]
      exact (if_neg (by rw [he]; exact hne)).symm
    · rw [List.filter_cons_of_pos (by simp [he])]
      show (if e.1 = k then some e.2 else mapFind k (m.filter (fun e => decide (e.1 ≠ k')))) =
        (if e.1 = k then some e.2 else mapFind k m)
      rw [ih]

theorem mapFind_mapErase_none {κ ν : Type} [DecidableEq κ] (k k' : κ) (m : List (κ × ν))
    (hk : mapFind k m = none) : mapFind k (mapErase k' m) = none := by
  rw [mapFind_eq_none_iff] at hk ⊢
  intro e he
  exact hk e ((mem_mapErase k' m e).1 he).1

theorem addPatchesStep_none (h : Host) (s : DB W) (ptr : PatchPtr)
    (hp : s.patchHeap ptr = none) : addPatchesStep h s ptr = s := by
  unfold addPatchesStep
  rw [hp]

theorem addPatchesStep_miss (h : Host) (s : DB W) (ptr : PatchPtr) (patch : Patch)
    (hp : s.patchHeap ptr = some patch)
    (hk : mapFind (PatchKey.ofPatch s.nodes patch) s.m_patchModifications = none) :
    (addPatchesStep h s ptr).patchHeap = s.patchHeap ∧
      (addPatchesStep h s ptr).m_patchModifications = s.m_patchModifications := by
  have ha : attachPending s ptr patch = s := by
    unfold attachPending
    rw [hk]
  unfold addPatchesStep
  rw [hp]
  dsimp only
  rw [ha, hp]
  dsimp only
  obtain ⟨h1, h2⟩ := registerTags_pending (h.getTags patch) s
  exact ⟨h2, h1⟩

theorem addPatchesStep_hit (h : Host) (s : DB W) (ptr : PatchPtr) (patch : Patch)
    (mods : PatchModifications) (hp : s.patchHeap ptr = some patch)
    (hk : mapFind (PatchKey.ofPatch s.nodes patch) s.m_patchModifications = some mods) :
    (addPatchesStep h s ptr).patchHeap =
        update s.patchHeap ptr
          { patch with modifications := some { mods with patch := some ptr } } ∧
      (addPatchesStep h s ptr).m_patchModifications =
        mapErase (PatchKey.ofPatch s.nodes patch) s.m_patchModifications := by
  have ha : attachPending s ptr patch =
      { s with
        patchHeap :=
          update s.patchHeap ptr { patch with modifications := some { mods with patch := some ptr } },
        m_patchModifications :=
          mapErase (PatchKey.ofPatch s.nodes patch) s.m_patchModifications } := by
    unfold attachPending
    rw [hk]
  unfold addPatchesStep
  rw [hp]
  dsimp only
  rw [ha]
  have hcell : update s.patchHeap ptr
      { patch with modifications := some { mods with patch := some ptr } } ptr =
      some { patch with modifications := some { mods with patch := some ptr } } := by
    simp [update]
  dsimp only
  rw [hcell]
  dsimp only
  obtain ⟨h1, h2⟩ := registerTags_pending
    (h.getTags { patch with modifications := some { mods with patch := some ptr } })
    ({ s with
        patchHeap :=
          update s.patchHeap ptr { patch with modifications := some { mods with patch := some ptr } },
        m_patchModifications :=
          mapErase (PatchKey.ofPatch s.nodes patch) s.m_patchModifications } : DB W)
  exact ⟨h2, h1⟩

theorem addPatchesFold_settled (h : Host) (p : PatchPtr) (v : Patch) (ps : List PatchPtr) :
    ∀ (s : DB W), s.patchHeap p = some v →
      mapFind (PatchKey.ofPatch s.nodes v) s.m_patchModifications = none →
      (ps.foldl (addPatchesStep h) s).patchHeap p = some v ∧
        mapFind (PatchKey.ofPatch s.nodes v)
          (ps.foldl (addPatchesStep h) s).m_patchModifications = none ∧
        (ps.foldl (addPatchesStep h) s).nodes = s.nodes := by
  induction ps with
  | nil => intro s hp hk; exact ⟨hp, hk, rfl⟩
  | cons a ps ih =>
    intro s hp hk
    rw [List.foldl_cons]
    have hn : (addPatchesStep h s a).nodes = s.nodes := (addPatchesStep_frame h s a).1.nodes
    have hstep : (addPatchesStep h s a).patchHeap p = some v ∧
        mapFind (PatchKey.ofPatch s.nodes v) (addPatchesStep h s a).m_patchModifications =
          none := by
      cases ha : s.patchHeap a with
      | none =>
        rw [addPatchesStep_none h s a ha]
        exact ⟨hp, hk⟩
      | some q =>
        cases hq : mapFind (PatchKey.ofPatch s.nodes q) s.m_patchModifications with
        | none =>
          obtain ⟨h1, h2⟩ := addPatchesStep_miss h s a q ha hq
          rw [h1, h2]
          exact ⟨hp, hk⟩
        | some m2 =>
          obtain ⟨h1, h2⟩ := addPatchesStep_hit h s a q m2 ha hq
          rw [h1, h2]
          have hne : p ≠ a := by
            intro hpa
            rw [hpa, ha] at hp
            cases hp
            rw [hk] at hq
            cases hq
          exact ⟨by simp [update, hne, hp], mapFind_mapErase_none _ _ _ hk⟩
    obtain ⟨r1, r2, r3⟩ := ih (addPatchesStep h s a) hstep.1 (by rw [hn]; exact hstep.2)
    rw [hn] at r2
    exact ⟨r1, r2, r3.trans hn⟩

theorem addPatchesFold_waiting (h : Host) (p : PatchPtr) (patch : Patch)
    (mods : PatchModifications) (l : List PatchPtr) :
    ∀ (s : DB W), s.patchHeap p = some patch →
      mapFind (PatchKey.ofPatch s.nodes patch) s.m_patchModifications = some mods →
      (∀ q ∈ l, ∀ qp, s.patchHeap q = some qp →
        PatchKey.ofPatch s.nodes qp ≠ PatchKey.ofPatch s.nodes patch) →
      (l.foldl (addPatchesStep h) s).patchHeap p = some patch ∧
        mapFind (PatchKey.ofPatch s.nodes patch)
          (l.foldl (addPatchesStep h) s).m_patchModifications = some mods ∧
        (l.foldl (addPatchesStep h) s).nodes = s.nodes := by
  induction l with
  | nil => intro s hp hk _; exact ⟨hp, hk, rfl⟩
  | cons a l ih =>
    intro s hp hk hl
    rw [List.foldl_cons]
    have hn : (addPatchesStep h s a).nodes = s.nodes := (addPatchesStep_frame h s a).1.nodes
    have hstep : (addPatchesStep h s a).patchHeap p = some patch ∧
        mapFind (PatchKey.ofPatch s.nodes patch) (addPatchesStep h s a).m_patchModifications =
          some mods ∧
        (∀ q ∈ l, ∀ qp, (addPatchesStep h s a).patchHeap q = some qp →
          PatchKey.ofPatch s.nodes qp ≠ PatchKey.ofPatch s.nodes patch) := by
      cases ha : s.patchHeap a with
      | none =>
        rw [addPatchesStep_none h s a ha]
        exact ⟨hp, hk, fun q hq => hl q (List.mem_cons_of_mem _ hq)⟩
      | some q =>
        have hqk := hl a (List.mem_cons_self _ _) q ha
        cases hq : mapFind (PatchKey.ofPatch s.nodes q) s.m_patchModifications with
        | none =>
          obtain ⟨h1, h2⟩ := addPatchesStep_miss h s a q ha hq
          rw [h1, h2]
          exact ⟨hp, hk, fun q hq => hl q (List.mem_cons_of_mem _ hq)⟩
        | some m2 =>
          obtain ⟨h1, h2⟩ := addPatchesStep_hit h s a q m2 ha hq
          rw [h1, h2]
          have hne : p ≠ a := by
            intro hpa
            rw [hpa, ha] at hp
            cases hp
            exact hqk rfl
          refine ⟨by simp [update, hne, hp], ?_, ?_⟩
          · rw [mapFind_mapErase_of_ne _ _ _ hqk]
            exact hk
          · intro q' hq' qp' hqp'
            by_cases hqa : q' = a
            · rw [hqa] at hqp'
              simp only [update, if_true] at hqp'
              cases hqp'
              exact hqk
            · simp only [update, if_neg hqa] at hqp'
              exact hl q' (List.mem_cons_of_mem _ hq') qp' hqp'
    obtain ⟨r1, r2, r3⟩ := ih (addPatchesStep h s a) hstep.1 (by rw [hn]; exact hstep.2.1)
      (by rw [hn]; exact hstep.2.2)
    rw [hn] at r2
    exact ⟨r1, r2, r3.trans hn⟩

/-! ### C17 -/

/-- C17, as the code has it: `addPatches` returns false exactly when the list is empty,
and then nothing changes.  For a list that is not empty, a patch `p` of the list whose
key is a key of the pending map and that is the first patch of the list with that key
has the overlay of that key as its modifications afterwards, with the back-reference set
to `p`, and the key is no longer in the map; a patch whose key is not in the map keeps
its modifications. -/
theorem addPatches_reattaches (h : Host) (s : DB W) (ps : List PatchPtr) :
    ((addPatches h s ps).2 = false ↔ ps = []) ∧
    (ps = [] → (addPatches h s ps).1 = s) ∧
    (∀ l1 p l2 patch mods, ps = l1 ++ p :: l2 → s.patchHeap p = some patch →
      mapFind (PatchKey.ofPatch s.nodes patch) s.m_patchModifications = some mods →
      (∀ q ∈ l1, ∀ qp, s.patchHeap q = some qp →
        PatchKey.ofPatch s.nodes qp ≠ PatchKey.ofPatch s.nodes patch) →
      (addPatches h s ps).1.patchHeap p =
          some { patch with modifications := some { mods with patch := some p } } ∧
        mapFind (PatchKey.ofPatch s.nodes patch) (addPatches h s ps).1.m_patchModifications =
          none) ∧
    (∀ p patch, s.patchHeap p = some patch →
      mapFind (PatchKey.ofPatch s.nodes patch) s.m_patchModifications = none →
      (addPatches h s ps).1.patchHeap p = some patch) := by
  refine ⟨?_, ?_, ?_, ?_⟩
  · unfold addPatches
    by_cases hnil : ps = []
    · rw [if_pos hnil]
      simp [hnil]
    · rw [if_neg hnil]
      simp [hnil]
  · intro hnil
    unfold addPatches
    rw [if_pos hnil]
  · intro l1 p l2 patch mods hps hp hk hl
    have hne : ps ≠ [] := by
      rw [hps]
      simp
    unfold addPatches
    rw [if_neg hne]
    show (ps.foldl (addPatchesStep h) s).patchHeap p = _ ∧
      mapFind _ (ps.foldl (addPatchesStep h) s).m_patchModifications = none
    rw [hps, List.foldl_append, List.foldl_cons]
    obtain ⟨w1, w2, w3⟩ := addPatchesFold_waiting h p patch mods l1 s hp hk hl
    obtain ⟨t1, t2⟩ := addPatchesStep_hit h (l1.foldl (addPatchesStep h) s) p patch mods w1
      (by rw [w3]; exact w2)
    have hn : (addPatchesStep h (l1.foldl (addPatchesStep h) s) p).nodes = s.nodes :=
      ((addPatchesStep_frame h _ p).1.nodes).trans w3
    obtain ⟨r1, r2, _⟩ := addPatchesFold_settled h p
      { patch with modifications := some { mods with patch := some p } } l2
      (addPatchesStep h (l1.foldl (addPatchesStep h) s) p)
      (by rw [t1]; simp [update])
      (by
        rw [hn, t2, w3]
        exact mapFind_mapErase_self _ _)
    rw [hn] at r2
    exact ⟨r1, r2⟩
  · intro p patch hp hk
    unfold addPatches
    by_cases hnil : ps = []
    · rw [if_pos hnil]
      exact hp
    · rw [if_neg hnil]
      exact (addPatchesFold_settled h p patch ps s hp hk).1

theorem addPatches_reattaches_witness :
    exampleTwinLeft.patchHeap 3 =
      some ⟨"p", [0xf0, 1, 0xf7], [0xf0, 1, 0xf7], 1, [], some 1, some ⟨[], "B", some 3⟩⟩ ∧
    mapFind ⟨some exampleBankNode.key, [0xf0, 1, 0xf7], 1⟩ exampleTwinLeft.m_patchModifications =
      some ⟨[], "A", none⟩ ∧
    (addPatches exampleLoader exampleTwinLeft [3]).1.patchHeap 3 =
      some ⟨"p", [0xf0, 1, 0xf7], [0xf0, 1, 0xf7], 1, [], some 1, some ⟨[], "A", some 3⟩⟩ ∧
    mapFind ⟨some exampleBankNode.key, [0xf0, 1, 0xf7], 1⟩
      (addPatches exampleLoader exampleTwinLeft [3]).1.m_patchModifications = none :=
  ⟨rfl, rfl,
    (addPatches_reattaches exampleLoader exampleTwinLeft [3]).2.2.1 [] 3 []
      ⟨"p", [0xf0, 1, 0xf7], [0xf0, 1, 0xf7], 1, [], some 1, some ⟨[], "B", some 3⟩⟩
      ⟨[], "A", none⟩ rfl rfl rfl (fun _ hq => by cases hq)⟩

/-- C17 as stated fails for the second of two patches with one key: the patches 1 and 3
have the same key, under which the pending map holds an overlay; `addPatches` for the
list of both gives the overlay to the patch 1 and erases the key, and the patch 3 keeps
the modifications it had. -/
theorem addPatches_second_twin_misses :
    PatchKey.ofPatch exampleTwinLeft.nodes
        ⟨"p", [0xf0, 1, 0xf7], [0xf0, 1, 0xf7], 1, [], some 1, some ⟨[], "A", none⟩⟩ =
      ⟨some exampleBankNode.key, [0xf0, 1, 0xf7], 1⟩ ∧
    exampleTwinLeft.patchHeap 1 =
      some ⟨"p", [0xf0, 1, 0xf7], [0xf0, 1, 0xf7], 1, [], some 1, some ⟨[], "A", none⟩⟩ ∧
    exampleTwinLeft.patchHeap 3 =
      some ⟨"p", [0xf0, 1, 0xf7], [0xf0, 1, 0xf7], 1, [], some 1, some ⟨[], "B", some 3⟩⟩ ∧
    mapFind ⟨some exampleBankNode.key, [0xf0, 1, 0xf7], 1⟩ exampleTwinLeft.m_patchModifications =
      some ⟨[], "A", none⟩ ∧
    (addPatches exampleLoader exampleTwinLeft [1, 3]).2 = true ∧
    (addPatches exampleLoader exampleTwinLeft [1, 3]).1.patchHeap 1 =
      some ⟨"p", [0xf0, 1, 0xf7], [0xf0, 1, 0xf7], 1, [], some 1, some ⟨[], "A", some 1⟩⟩ ∧
    (addPatches exampleLoader exampleTwinLeft [1, 3]).1.patchHeap 3 =
      some ⟨"p", [0xf0, 1, 0xf7], [0xf0, 1, 0xf7], 1, [], some 1, some ⟨[], "B", some 3⟩⟩ := by
  refine ⟨rfl, rfl, rfl, rfl, rfl, ?_, ?_⟩
  · rfl
  · rfl

/-! ### C19 -/

/-- C19: `renamePatch` returns false and changes nothing when the name is empty, is the
current name of the patch, or the source node of the patch is gone; otherwise it returns
true, the patch has an overlay whose name is the new name, so that `getName` gives the new
name, the bytes, the hash and the program of the patch are as before, and the patch is in
the results of a search of the registry exactly when the request matches it. -/
theorem renamePatch_law (h : Host) (s : DB W) (p : PatchPtr) (patch : Patch) (name : String)
    (hp : s.patchHeap p = some patch) :
    ((name = "" ∨ patch.getName = name ∨ patch.source.bind s.nodes = none) →
      renamePatch h s p name = (s, false)) ∧
    (name ≠ "" → patch.getName ≠ name → patch.source.bind s.nodes ≠ none →
      (renamePatch h s p name).2 = true ∧
      ∃ patch', (renamePatch h s p name).1.patchHeap p = some patch' ∧
        (∃ m, patch'.modifications = some m ∧ m.name = name) ∧
        patch'.getName = name ∧ patch'.sysex = patch.sysex ∧ patch'.hash = patch.hash ∧
        patch'.program = patch.program ∧
        ∀ e ∈ (renamePatch h s p name).1.m_searches,
          (p ∈ e.2.results ↔
            h.requestMatch (renamePatch h s p name).1.nodes e.2.request patch' = true)) := by
  constructor
  · intro hor
    unfold renamePatch
    rw [hp]
    dsimp only
    by_cases h1 : patch.getName = name
    · rw [if_pos h1]
    · rw [if_neg h1]
      by_cases h2 : name = ""
      · rw [if_pos h2]
      · rw [if_neg h2]
        rcases hor with h3 | h3 | h3
        · exact absurd h3 h2
        · exact absurd h3 h1
        · rw [h3]
          rfl
  · intro h2 h1 h3
    have hsome : (patch.source.bind s.nodes).isNone = false := by
      cases hb : patch.source.bind s.nodes with
      | none => exact absurd hb h3
      | some v => rfl
    have hrun : renamePatch h s p name =
        ((saveJson h (updateSearches h
          { s with
            patchHeap := update s.patchHeap p
              { patch with modifications := some { overlayOf p patch with name := name } } }
          [p])).1, true) := by
      unfold renamePatch
      rw [hp]
      dsimp only
      rw [if_neg h1, if_neg h2, hsome]
      rfl
    rw [hrun]
    have hc := sameCatalog_saveJson h (updateSearches h
      { s with
        patchHeap := update s.patchHeap p
          { patch with modifications := some { overlayOf p patch with name := name } } }
      [p])
    have hcell : update s.patchHeap p
        { patch with modifications := some { overlayOf p patch with name := name } } p =
        some { patch with modifications := some { overlayOf p patch with name := name } } := by
      simp [update]
    refine ⟨rfl, { patch with modifications := some { overlayOf p patch with name := name } },
      ?_, ⟨_, rfl, rfl⟩, ?_, rfl, rfl, rfl, ?_⟩
    · show (saveJson h _).1.patchHeap p = _
      rw [hc.patchHeap]
      exact hcell
    · show (if name = "" then patch.name else name) = name
      rw [if_neg h2]
    · intro e he
      rw [hc.m_searches] at he
      show _ ↔ h.requestMatch (saveJson h _).1.nodes _ _ = true
      rw [hc.nodes]
      exact (updateSearches_consistent h _ [p]).2.2 e he p (List.mem_singleton.2 rfl) _ hcell

theorem renamePatch_law_witness :
    exampleTree.patchHeap 10 = some (examplePatch "a" 0 2) ∧
    ((("New" : String) = "" ∨ (examplePatch "a" 0 2).getName = "New" ∨
        (examplePatch "a" 0 2).source.bind exampleTree.nodes = none) →
      renamePatch exampleHost exampleTree 10 "New" = (exampleTree, false)) ∧
    (("New" : String) ≠ "" → (examplePatch "a" 0 2).getName ≠ "New" →
      (examplePatch "a" 0 2).source.bind exampleTree.nodes ≠ none →
      (renamePatch exampleHost exampleTree 10 "New").2 = true ∧
      ∃ patch', (renamePatch exampleHost exampleTree 10 "New").1.patchHeap 10 = some patch' ∧
        (∃ m, patch'.modifications = some m ∧ m.name = "New") ∧
        patch'.getName = "New" ∧ patch'.sysex = (examplePatch "a" 0 2).sysex ∧
        patch'.hash = (examplePatch "a" 0 2).hash ∧
        patch'.program = (examplePatch "a" 0 2).program ∧
        ∀ e ∈ (renamePatch exampleHost exampleTree 10 "New").1.m_searches,
          (10 ∈ e.2.results ↔
            exampleHost.requestMatch (renamePatch exampleHost exampleTree 10 "New").1.nodes
              e.2.request patch' = true)) :=
  ⟨rfl, renamePatch_law exampleHost exampleTree 10 (examplePatch "a" 0 2) "New" rfl⟩

/-- The catalog of the examples holds a search with the patches 10 and 11 as results and
the host matches no patch: after the patch 10 got the name `New` it reads `New`, and the
search has lost it. -/
theorem renamePatch_law_example :
    ((renamePatch exampleHost exampleTree 10 "New").1.patchHeap 10).map
      (fun p => (p.getName, p.name, p.sysex)) = some ("New", "a", [0xf0, 0, 0xf7]) ∧
    (renamePatch exampleHost exampleTree 10 "New").1.m_searches.map (fun e => e.2.results) =
      [[11]] := by
  constructor
  · rfl
  · rfl

/-! ### C20 -/

theorem mapFind_map_set {κ ν : Type} [DecidableEq κ] (k k' : κ) (v : ν) (m : List (κ × ν)) :
    mapFind k (m.map (fun e => if e.1 = k' then (k', v) else e)) =
      if k = k' then (mapFind k m).map (fun _ => v) else mapFind k m := by
  induction m with
  | nil => simp [mapFind]
  | cons e m ih =>
    simp only [List.map_cons, mapFind]
    by_cases he : e.1 = k'
    · by_cases hk : k = k'
      · subst hk
        simp [he]
      · have hek : ¬ e.1 = k := fun hh => hk (hh.symm.trans he)
        have hkk : ¬ k' = k := fun hh => hk hh.symm
        rw [ih]
        simp [he, hk, hek, hkk]
    · by_cases hk : k = k'
      · subst hk
        rw [ih]
        simp [he]
      · rw [ih]
        simp [he, hk]

theorem mapFind_mapSet_self {κ ν : Type} [DecidableEq κ] (k : κ) (v : ν) (m : List (κ × ν)) :
    mapFind k (mapSet m k v) = some v := by
  unfold mapSet
  cases hk : mapFind k m with
  | none =>
    simp only [Option.isSome_none, Bool.false_eq_true, if_false]
    rw [mapFind_append, hk]
    simp [mapFind]
  | some w =>
    simp only [Option.isSome_some, if_true]
    rw [mapFind_map_set, if_pos rfl, hk]
    rfl

theorem mapFind_mapSet_of_ne {κ ν : Type} [DecidableEq κ] (k k' : κ) (v : ν)
    (m : List (κ × ν)) (hne : k ≠ k') : mapFind k (mapSet m k' v) = mapFind k m := by
  unfold mapSet
  split
  · rw [mapFind_map_set, if_neg hne]
  · rw [mapFind_append]
    cases mapFind k m with
    | some w => rfl
    | none =>
      show (if k' = k then some v else none) = none
      rw [if_neg (fun hh => hne hh.symm)]

theorem length_setInsert (a : Nat) (l : List Nat) (ha : a ∉ l) :
    (setInsert a l).length = l.length + 1 := by
  induction l with
  | nil => rfl
  | cons b l ih =>
    have hab : a ≠ b := fun hh => ha (hh ▸ List.mem_cons_self _ _)
    have hal : a ∉ l := fun hh => ha (List.mem_cons_of_mem _ hh)
    unfold setInsert
    by_cases hlt : a < b
    · rw [if_pos hlt]
      rfl
    · rw [if_neg hlt, if_neg hab]
      simp [ih hal]

theorem nodup_setInsert (a : Nat) (l : List Nat) (ha : a ∉ l) (hl : l.Nodup) :
    (setInsert a l).Nodup := by
  induction l with
  | nil => simp [setInsert]
  | cons b l ih =>
    have hab : a ≠ b := fun hh => ha (hh ▸ List.mem_cons_self _ _)
    have hal : a ∉ l := fun hh => ha (List.mem_cons_of_mem _ hh)
    unfold setInsert
    by_cases hlt : a < b
    · rw [if_pos hlt]
      exact List.nodup_cons.2 ⟨ha, hl⟩
    · rw [if_neg hlt, if_neg hab]
      have hl' := List.nodup_cons.1 hl
      refine List.nodup_cons.2 ⟨?_, ih hal hl'.2⟩
      rw [mem_setInsert]
      rintro (h1 | h1)
      · exact hab h1.symm
      · exact hl'.1 h1

theorem foldl_max_spec (f : Nat → Nat) (l : List Nat) :
    ∀ (m0 : Nat), m0 ≤ l.foldl (fun m q => max m (f q)) m0 ∧
      (∀ q ∈ l, f q ≤ l.foldl (fun m q => max m (f q)) m0) ∧
      (l.foldl (fun m q => max m (f q)) m0 = m0 ∨
        ∃ q ∈ l, l.foldl (fun m q => max m (f q)) m0 = f q) := by
  induction l with
  | nil => intro m0; simp
  | cons a l ih =>
    intro m0
    rw [List.foldl_cons]
    obtain ⟨h1, h2, h3⟩ := ih (max m0 (f a))
    refine ⟨le_trans (le_max_left _ _) h1, ?_, ?_⟩
    · intro q hq
      rcases List.mem_cons.1 hq with rfl | hq'
      · exact le_trans (le_max_right _ _) h1
      · exact h2 q hq'
    · rcases h3 with h3 | ⟨q, hq, h3⟩
      · rcases max_choice m0 (f a) with hm | hm
        · left
          rw [h3, hm]
        · right
          exact ⟨a, List.mem_cons_self _ _, by rw [h3, hm]⟩
      · right
        exact ⟨q, List.mem_cons_of_mem _ hq, h3⟩

theorem modify_same {α : Type} (heap : Nat → Option α) (p : Nat) (f : α → α)
    (hf : ∀ v, heap p = some v → f v = v) : modify heap p f = heap := by
  funext q
  rw [modify_apply]
  by_cases hq : q = p
  · rw [if_pos hq, hq]
    cases hv : heap p with
    | none => rfl
    | some v =>
      show some (f v) = some v
      rw [hf v hv]
  · rw [if_neg hq]

theorem renumber_same (heap : PatchPtr → Option Patch) (l : List PatchPtr) :
    ∀ (i : Nat), (∀ j q, l[j]? = some q → ∀ v, heap q = some v → v.program = i + j) →
      renumber heap i l = heap := by
  induction l with
  | nil => intro i _; rfl
  | cons a l ih =>
    intro i hl
    unfold renumber
    have hsame : modify heap a (fun p => { p with program := i }) = heap := by
      apply modify_same
      intro v hv
      have := hl 0 a (by simp) v hv
      rw [Nat.add_zero] at this
      rw [← this]
    rw [hsame]
    apply ih
    intro j q hj v hv
    have := hl (j + 1) q (by simpa using hj) v hv
    rw [this]
    omega

theorem sorted_programs (s : DB W) (P : List PatchPtr) (N : Nat)
    (hperm : (P.map (programOf s)).Perm (List.range N)) :
    (sortByProgram s P).map (programOf s) = List.range N := by
  unfold sortByProgram
  haveI : IsTotal PatchPtr (fun a b => programOf s a ≤ programOf s b) :=
    ⟨fun a b => Nat.le_total _ _⟩
  haveI : IsTrans PatchPtr (fun a b => programOf s a ≤ programOf s b) :=
    ⟨fun _ _ _ hab hbc => Nat.le_trans hab hbc⟩
  have hsorted := List.sorted_insertionSort (fun a b => programOf s a ≤ programOf s b) P
  have hmap : ((P.insertionSort (fun a b => programOf s a ≤ programOf s b)).map
      (programOf s)).Sorted (· ≤ ·) := List.pairwise_map.2 hsorted
  have hp : ((P.insertionSort (fun a b => programOf s a ≤ programOf s b)).map
      (programOf s)).Perm (List.range N) :=
    ((List.perm_insertionSort _ P).map _).trans hperm
  exact List.eq_of_perm_of_sorted hp hmap (List.sorted_le_range N)

theorem createConsecutiveProgramNumbers_same (s : DB W) (ds : NodePtr) (n : DataSourceNode)
    (N : Nat) (hn : s.nodes ds = some n)
    (hperm : (n.patches.map (programOf s)).Perm (List.range N)) :
    (createConsecutiveProgramNumbers s ds).1 = s := by
  unfold createConsecutiveProgramNumbers
  rw [hn]
  dsimp only
  split
  · rfl
  · have hsame : renumber s.patchHeap 0 (sortByProgram s n.patches) = s.patchHeap := by
      apply renumber_same
      intro j q hj v hv
      have h1 : ((sortByProgram s n.patches).map (programOf s))[j]? = some (programOf s q) := by
        rw [List.getElem?_map, hj]
        rfl
      rw [sorted_programs s n.patches N hperm] at h1
      have h2 : j = programOf s q := by
        have hlt : j < N := by
          by_contra hge
          rw [List.getElem?_eq_none (by simpa using Nat.le_of_not_lt hge)] at h1
          cases h1
        rw [List.getElem?_range hlt] at h1
        exact Option.some.inj h1
      have h3 : programOf s q = v.program := by
        unfold programOf
        rw [hv]
      rw [h3] at h2
      omega
    show ({ s with patchHeap := renumber s.patchHeap 0 (sortByProgram s n.patches) } : DB W) = s
    rw [hsame]

theorem copyStep_spec (ds : NodePtr) (a : DB W) (c : Nat) (new : List PatchPtr) (q : Nat)
    (src : Patch) (na : DataSourceNode) (np : Nat) (hnp : a.nextPatch = np)
    (hsrc : a.patchHeap q = some src) (hna : a.nodes ds = some na) :
    (copyStep ds (a, c, new) q).1.nextPatch = np + 1 ∧
      (copyStep ds (a, c, new) q).1.nodes ds =
        some { na with patches := setInsert np na.patches } ∧
      (∀ x : Nat, x ≠ np → (copyStep ds (a, c, new) q).1.patchHeap x = a.patchHeap x) ∧
      (copyStep ds (a, c, new) q).1.patchHeap np =
        some { src with
          program := c,
          source := some ds,
          modifications := src.modifications.map (fun m => { m with patch := some np }) } ∧
      (copyStep ds (a, c, new) q).2.1 = (c + 1) % 2 ^ 32 ∧
      (copyStep ds (a, c, new) q).2.2 = new ++ [np] ∧
      (copyStep ds (a, c, new) q).1.m_dataSources = a.m_dataSources := by
  subst hnp
  unfold copyStep
  rw [hsrc]
  dsimp only [createCopy]
  refine ⟨rfl, ?_, ?_, ?_, rfl, rfl, rfl⟩
  · rw [modify_apply, if_pos rfl, hna]
    rfl
  · intro x hx
    rw [modify_apply, if_neg hx]
    simp [update, hx]
  · rw [modify_apply, if_pos rfl]
    simp [update]

theorem copyFold_spec (ds : NodePtr) (l : List Nat) :
    ∀ (a : DB W) (c : Nat) (new : List PatchPtr) (na : DataSourceNode) (np : Nat),
      a.nextPatch = np → a.nodes ds = some na →
      (∀ q : Nat, q ∈ l → q < np ∧ ∃ p, a.patchHeap q = some p) →
      (∀ x : Nat, x ∈ na.patches → x < np) → na.patches.Nodup → c + l.length < 2 ^ 32 →
      ∃ nr, (l.foldl (copyStep ds) (a, c, new)).1.nodes ds = some nr ∧
        nr.patches.Nodup ∧ nr.patches.length = na.patches.length + l.length ∧
        (∀ x : Nat, x ∈ nr.patches ↔ x ∈ na.patches ∨ (np ≤ x ∧ x < np + l.length)) ∧
        (∀ x : Nat, x < np →
          (l.foldl (copyStep ds) (a, c, new)).1.patchHeap x = a.patchHeap x) ∧
        (∀ (i : Nat) (q : Nat), l[i]? = some q → ∃ src cp, a.patchHeap q = some src ∧
          (l.foldl (copyStep ds) (a, c, new)).1.patchHeap (np + i) = some cp ∧
          cp.program = c + i ∧ cp.sysex = src.sysex ∧ cp.hash = src.hash ∧
          cp.name = src.name ∧ cp.source = some ds) ∧
        (l.foldl (copyStep ds) (a, c, new)).2.2 = new ++ List.range' np l.length ∧
        (l.foldl (copyStep ds) (a, c, new)).1.m_dataSources = a.m_dataSources := by
  induction l with
  | nil =>
    intro a c new na np _ hna _ _ hnd _
    refine ⟨na, hna, hnd, rfl, ?_, fun _ _ => rfl, ?_, by simp, rfl⟩
    · intro x
      constructor
      · exact Or.inl
      · rintro (h1 | ⟨h1, h2⟩)
        · exact h1
        · simp only [List.length_nil, Nat.add_zero] at h2
          omega
    · intro i q hi
      simp at hi
  | cons q l ih =>
    intro a c new na np hnp hna hl hlt hnd hc
    obtain ⟨hq, src, hsrc⟩ := hl q (List.mem_cons_self _ _)
    obtain ⟨s1, s2, s3, s4, s5, s6, s7⟩ := copyStep_spec ds a c new q src na np hnp hsrc hna
    have hlen : (q :: l).length = l.length + 1 := rfl
    rw [hlen] at hc
    have hc1 : (c + 1) % 2 ^ 32 = c + 1 := Nat.mod_eq_of_lt (by omega)
    have hfresh : np ∉ na.patches := fun hh => Nat.lt_irrefl _ (hlt np hh)
    rw [List.foldl_cons]
    have heta : copyStep ds (a, c, new) q =
        ((copyStep ds (a, c, new) q).1, c + 1, new ++ [np]) := by
      refine Prod.ext rfl (Prod.ext ?_ ?_)
      · exact s5.trans hc1
      · exact s6
    rw [heta]
    obtain ⟨nr, r1, r2, r3, r4, r5, r6, r7, r8⟩ := ih (copyStep ds (a, c, new) q).1 (c + 1)
      (new ++ [np]) { na with patches := setInsert np na.patches } (np + 1) s1 s2
      (fun q' hq' => by
        obtain ⟨h1, p, hp⟩ := hl q' (List.mem_cons_of_mem _ hq')
        refine ⟨by omega, p, ?_⟩
        rw [s3 q' (by omega)]
        exact hp)
      (fun x hx => by
        rcases (mem_setInsert np x na.patches).1 hx with h1 | h1
        · omega
        · have := hlt x h1
          omega)
      (nodup_setInsert np na.patches hfresh hnd) (by omega)
    refine ⟨nr, r1, r2, ?_, ?_, ?_, ?_, ?_, r8.trans s7⟩
    · rw [r3]
      show (setInsert np na.patches).length + l.length = _
      rw [length_setInsert np na.patches hfresh, hlen]
      omega
    · intro x
      rw [r4 x]
      show x ∈ setInsert np na.patches ∨ _ ↔ _
      rw [mem_setInsert, hlen]
      constructor
      · rintro ((h1 | h1) | ⟨h1, h2⟩)
        · exact Or.inr ⟨by omega, by omega⟩
        · exact Or.inl h1
        · exact Or.inr ⟨by omega, by omega⟩
      · rintro (h1 | ⟨h1, h2⟩)
        · exact Or.inl (Or.inr h1)
        · by_cases hx : x = np
          · exact Or.inl (Or.inl hx)
          · exact Or.inr ⟨by omega, by omega⟩
    · intro x hx
      rw [r5 x (by omega)]
      exact s3 x (by omega)
    · intro i q' hi
      cases i with
      | zero =>
        simp only [List.getElem?_cons_zero, Option.some.injEq] at hi
        subst hi
        refine ⟨src,
          { src with
            program := c,
            source := some ds,
            modifications := src.modifications.map (fun m => { m with patch := some np }) },
          hsrc, ?_, rfl, rfl, rfl, rfl, rfl⟩
        have h5 := r5 np (by omega)
        show (l.foldl (copyStep ds) ((copyStep ds (a, c, new) q).1, c + 1, new ++ [np])).1.patchHeap
          np = _
        rw [h5]
        exact s4
      | succ j =>
        simp only [List.getElem?_cons_succ] at hi
        obtain ⟨src', cp, h1, h2, h3, h4, h5, h6, h7⟩ := r6 j q' hi
        have hq'lt : q' < np := (hl q' (List.mem_cons_of_mem _ (List.mem_iff_getElem?.2 ⟨j, hi⟩))).1
        rw [s3 q' (by omega)] at h1
        refine ⟨src', cp, h1, ?_, by rw [h3]; omega, h4, h5, h6, h7⟩
        rw [show np + (j + 1) = np + 1 + j by omega]
        exact h2
    · rw [r7, hlen, List.range'_succ]
      simp

theorem nextProgram_eq (s : DB W) (n : DataSourceNode)
    (hperm : (n.patches.map (programOf s)).Perm (List.range n.patches.length))
    (hsz : n.patches.length < 2 ^ 32) :
    (getMaxProgramNumber s n + 1) % 2 ^ 32 = n.patches.length := by
  unfold getMaxProgramNumber
  by_cases hnil : n.patches = []
  · rw [if_pos hnil, hnil]
    unfold invalidProgram
    norm_num
  · rw [if_neg hnil]
    obtain ⟨_, h2, h3⟩ := foldl_max_spec (programOf s) n.patches 0
    have hpos : 0 < n.patches.length := List.length_pos.2 hnil
    have hlt : ∀ q : Nat, q ∈ n.patches → programOf s q < n.patches.length := by
      intro q hq
      have : programOf s q ∈ n.patches.map (programOf s) := List.mem_map.2 ⟨q, hq, rfl⟩
      exact List.mem_range.1 ((hperm.mem_iff).1 this)
    have htop : n.patches.length - 1 ∈ n.patches.map (programOf s) :=
      (hperm.mem_iff).2 (List.mem_range.2 (by omega))
    obtain ⟨q, hq, hqv⟩ := List.mem_map.1 htop
    have hge := h2 q hq
    have hle : n.patches.foldl (fun m q => max m (programOf s q)) 0 < n.patches.length := by
      rcases h3 with h3 | ⟨q', hq', h3⟩
      · rw [h3]
        exact hpos
      · rw [h3]
        exact hlt q' hq'
    have hge' : n.patches.length - 1 ≤
        n.patches.foldl (fun m q => max m (programOf s q)) 0 := by
      rw [← hqv]
      exact hge
    generalize n.patches.foldl (fun m q => max m (programOf s q)) 0 = R at hle hge'
    rw [Nat.mod_eq_of_lt (by omega)]
    omega

theorem programs_perm (P P0 : List Nat) (f0 f2 : Nat → Nat) (k st np : Nat)
    (hperm0 : (P0.map f0).Perm (List.range P0.length))
    (hPnd : P.Nodup) (hPlen : P.length = P0.length + k)
    (hmem : ∀ x : Nat, x ∈ P ↔ x ∈ P0 ∨ (np ≤ x ∧ x < np + k)) (hst : st ≤ P0.length)
    (hold : ∀ x : Nat, x ∈ P0 → f2 x = if st ≤ f0 x then f0 x + k else f0 x)
    (hnew : ∀ i : Nat, i < k → f2 (np + i) = st + i) :
    (P.map f2).Perm (List.range (P0.length + k)) := by
  have hlt0 : ∀ x : Nat, x ∈ P0 → f0 x < P0.length := by
    intro x hx
    have : f0 x ∈ P0.map f0 := List.mem_map.2 ⟨x, hx, rfl⟩
    exact List.mem_range.1 ((hperm0.mem_iff).1 this)
  have hinj0 : ∀ x : Nat, x ∈ P0 → ∀ y : Nat, y ∈ P0 → f0 x = f0 y → x = y := by
    have hnd : (P0.map f0).Nodup := (hperm0.nodup_iff).2 (List.nodup_range _)
    exact fun x hx y hy hxy => List.inj_on_of_nodup_map hnd hx hy hxy
  have hnewx : ∀ x : Nat, np ≤ x → x < np + k → f2 x = st + (x - np) := by
    intro x h1 h2
    have := hnew (x - np) (by omega)
    rw [show np + (x - np) = x by omega] at this
    exact this
  have hnd : (P.map f2).Nodup := by
    refine List.Nodup.map_on ?_ hPnd
    intro x hx y hy hxy
    rcases (hmem x).1 hx with hx0 | ⟨hx1, hx2⟩
    · rcases (hmem y).1 hy with hy0 | ⟨hy1, hy2⟩
      · rw [hold x hx0, hold y hy0] at hxy
        apply hinj0 x hx0 y hy0
        split at hxy <;> split at hxy <;> omega
      · rw [hold x hx0, hnewx y hy1 hy2] at hxy
        exfalso
        split at hxy <;> omega
    · rcases (hmem y).1 hy with hy0 | ⟨hy1, hy2⟩
      · rw [hnewx x hx1 hx2, hold y hy0] at hxy
        exfalso
        split at hxy <;> omega
      · rw [hnewx x hx1 hx2, hnewx y hy1 hy2] at hxy
        omega
  have hsub : P.map f2 ⊆ List.range (P0.length + k) := by
    intro v hv
    obtain ⟨x, hx, rfl⟩ := List.mem_map.1 hv
    rw [List.mem_range]
    rcases (hmem x).1 hx with hx0 | ⟨hx1, hx2⟩
    · rw [hold x hx0]
      have := hlt0 x hx0
      split <;> omega
    · rw [hnewx x hx1 hx2]
      omega
  exact (List.subperm_of_subset hnd hsub).perm_of_length_le (by simp [hPlen])

theorem programOf_of_strip (s t : DB W) (x : Nat)
    (hx : (t.patchHeap x).map stripMods = (s.patchHeap x).map stripMods) :
    programOf t x = programOf s x := by
  unfold programOf
  cases ht : t.patchHeap x with
  | none =>
    rw [ht] at hx
    cases hs : s.patchHeap x with
    | none => rfl
    | some v => rw [hs] at hx; cases hx
  | some w =>
    rw [ht] at hx
    cases hs : s.patchHeap x with
    | none => rw [hs] at hx; cases hx
    | some v =>
      rw [hs] at hx
      have := congrArg Patch.program (Option.some.inj hx)
      exact this

theorem copyPatchesTo_run (h : Host) (s : DB W) (ds : NodePtr) (n : DataSourceNode)
    (patches : List Nat) (insertRow : Int)
    (hn : s.nodes ds = some n) (hty : n.type = SourceType.LocalStorage)
    (htab : mapFind n.key s.m_dataSources = some ds)
    (hprog : (n.patches.map (programOf s)).Perm (List.range n.patches.length))
    (hnew : ∀ q : Nat, q ∈ patches → q ∉ n.patches)
    (hne : patches ≠ [])
    (hsize : n.patches.length + patches.length < 2 ^ 32) (hrow : insertRow < 2 ^ 31) :
    copyPatchesTo h s ds patches insertRow =
      (saveJson h (createConsecutiveProgramNumbers
        (addPatches h
          (patches.foldl (copyStep ds)
            (makeSpaceForNewPatches s n
              (if 0 ≤ insertRow then min insertRow.toNat n.patches.length
                else n.patches.length) patches.length,
              if 0 ≤ insertRow then min insertRow.toNat n.patches.length
                else n.patches.length, [])).1
          (patches.foldl (copyStep ds)
            (makeSpaceForNewPatches s n
              (if 0 ≤ insertRow then min insertRow.toNat n.patches.length
                else n.patches.length) patches.length,
              if 0 ≤ insertRow then min insertRow.toNat n.patches.length
                else n.patches.length, [])).2.2).1 ds).1).1 := by
  have hfilter : patches.filter (fun patch => !n.contains patch) = patches := by
    rw [List.filter_eq_self]
    intro q hq
    simp [DataSourceNode.contains, hnew q hq]
  have hnext := nextProgram_eq s n hprog (by omega)
  have hlen : patches.length % 2 ^ 32 = patches.length := Nat.mod_eq_of_lt (by omega)
  have hstart : (if (getMaxProgramNumber s n + 1) % 2 ^ 32 <
        (if 0 ≤ insertRow then (insertRow % 2 ^ 32).toNat
          else (getMaxProgramNumber s n + 1) % 2 ^ 32)
      then (getMaxProgramNumber s n + 1) % 2 ^ 32
      else (if 0 ≤ insertRow then (insertRow % 2 ^ 32).toNat
        else (getMaxProgramNumber s n + 1) % 2 ^ 32)) =
      (if 0 ≤ insertRow then min insertRow.toNat n.patches.length else n.patches.length) := by
    rw [hnext]
    by_cases h0 : 0 ≤ insertRow
    · rw [if_pos h0, if_pos h0]
      have hmod : insertRow % 2 ^ 32 = insertRow := Int.emod_eq_of_lt h0 (by omega)
      rw [hmod]
      by_cases hlt : n.patches.length < insertRow.toNat
      · rw [if_pos hlt]
        omega
      · rw [if_neg hlt]
        omega
    · rw [if_neg h0, if_neg h0, if_neg (Nat.lt_irrefl _)]
  unfold copyPatchesTo
  rw [hn]
  dsimp only
  rw [if_neg (not_not.2 hty), htab]
  dsimp only
  rw [hfilter, if_neg hne, hstart, hlen]

theorem programOf_congr (s t : DB W) (hheap : t.patchHeap = s.patchHeap) :
    programOf t = programOf s := by
  funext x
  unfold programOf
  rw [hheap]

/-- C18: `copyPatchesTo` assigns consecutive programs.  For a LocalStorage node of the
table whose `n` live patches carry the programs `0..n-1`, and a list of `k` live patches
none of which the node contains (with `n + k` below `2^32` and the row in the range of an
`int`), after the task the node has `n + k` distinct patches whose programs are exactly
`0..n+k-1`, and the `k` copies, in the order of the input list, carry the payload and hash
of their originals and the consecutive programs that start at `min insertRow n` when the
row is not negative and at `n` otherwise. -/
theorem copyPatchesTo_programs (h : Host) (s : DB W) (ds : NodePtr) (n : DataSourceNode)
    (patches : List Nat) (insertRow : Int)
    (hn : s.nodes ds = some n) (hty : n.type = SourceType.LocalStorage)
    (htab : mapFind n.key s.m_dataSources = some ds)
    (hnd : n.patches.Nodup)
    (hlive : ∀ q : Nat, q ∈ n.patches → ∃ p, s.patchHeap q = some p)
    (hprog : (n.patches.map (programOf s)).Perm (List.range n.patches.length))
    (hheap : ∀ q : Nat, s.nextPatch ≤ q → s.patchHeap q = none)
    (hnew : ∀ q : Nat, q ∈ patches → q ∉ n.patches ∧ ∃ p, s.patchHeap q = some p)
    (hsize : n.patches.length + patches.length < 2 ^ 32)
    (hrow : insertRow < 2 ^ 31) :
    ∃ n', (copyPatchesTo h s ds patches insertRow).nodes ds = some n' ∧
      n'.patches.length = n.patches.length + patches.length ∧
      n'.patches.Nodup ∧
      (n'.patches.map (programOf (copyPatchesTo h s ds patches insertRow))).Perm
        (List.range (n.patches.length + patches.length)) ∧
      (∀ x : Nat, x ∈ n'.patches ↔
        x ∈ n.patches ∨ (s.nextPatch ≤ x ∧ x < s.nextPatch + patches.length)) ∧
      ∀ (i q : Nat), patches[i]? = some q →
        ∃ src cp, s.patchHeap q = some src ∧
          (copyPatchesTo h s ds patches insertRow).patchHeap (s.nextPatch + i) = some cp ∧
          cp.sysex = src.sysex ∧ cp.hash = src.hash ∧ cp.source = some ds ∧
          cp.program =
            (if 0 ≤ insertRow then min insertRow.toNat n.patches.length
              else n.patches.length) + i := by
  by_cases hne : patches = []
  · subst hne
    have hrun : copyPatchesTo h s ds [] insertRow = s := by
      unfold copyPatchesTo
      rw [hn]
      dsimp only
      rw [if_neg (not_not.2 hty), htab]
      rfl
    rw [hrun]
    refine ⟨n, hn, rfl, hnd, hprog, ?_, ?_⟩
    · intro x
      constructor
      · intro hx
        exact Or.inl hx
      · intro hx
        rcases hx with hx | ⟨hx1, hx2⟩
        · exact hx
        · exact absurd hx1 (Nat.not_le_of_lt hx2)
    · intro i q hq
      simp at hq
  · rw [copyPatchesTo_run h s ds n patches insertRow hn hty htab hprog
      (fun q hq => (hnew q hq).1) hne hsize hrow]
    generalize hst : (if 0 ≤ insertRow then min insertRow.toNat n.patches.length
      else n.patches.length) = st
    have hstle : st ≤ n.patches.length := by
      rw [← hst]
      split <;> omega
    have hlt : ∀ q : Nat, (∃ p, s.patchHeap q = some p) → q < s.nextPatch := by
      intro q hq
      obtain ⟨p, hp⟩ := hq
      by_contra hc
      rw [hheap q (Nat.le_of_not_lt hc)] at hp
      cases hp
    have hs1 : ∀ q : Nat, q ∉ n.patches →
        (makeSpaceForNewPatches s n st patches.length).patchHeap q = s.patchHeap q := by
      intro q hq
      show (if q ∈ n.patches then _ else s.patchHeap q) = _
      rw [if_neg hq]
    have hq1 : ∀ q : Nat, q ∈ patches → q < s.nextPatch ∧
        ∃ p, (makeSpaceForNewPatches s n st patches.length).patchHeap q = some p := by
      intro q hq
      obtain ⟨a1, a2⟩ := hnew q hq
      refine ⟨hlt q a2, ?_⟩
      rw [hs1 q a1]
      exact a2
    have hq2 : ∀ x : Nat, x ∈ n.patches → x < s.nextPatch := fun x hx => hlt x (hlive x hx)
    obtain ⟨nr, f1, f2, f3, f4, f5, f6, _, _⟩ :=
      copyFold_spec ds patches (makeSpaceForNewPatches s n st patches.length) st []
        n s.nextPatch rfl hn hq1 hq2 hnd (by omega)
    generalize hr : patches.foldl (copyStep ds)
      (makeSpaceForNewPatches s n st patches.length, st, []) = r at f1 f5 f6 ⊢
    obtain ⟨g1, g2, _⟩ := addPatches_frame h r.1 r.2.2
    have hn2 : (addPatches h r.1 r.2.2).1.nodes ds = some nr := by
      rw [g1.nodes]
      exact f1
    have hstrip : ∀ x : Nat, programOf (addPatches h r.1 r.2.2).1 x = programOf r.1 x :=
      fun x => programOf_of_strip _ _ x (g2 x).1
    have hold : ∀ x : Nat, x ∈ n.patches →
        programOf (addPatches h r.1 r.2.2).1 x =
          if st ≤ programOf s x then programOf s x + patches.length else programOf s x := by
      intro x hx
      rw [hstrip x]
      obtain ⟨v, hv⟩ := hlive x hx
      have hpv : programOf s x = v.program := by
        unfold programOf
        rw [hv]
      have hin : programOf s x ∈ List.range n.patches.length :=
        (hprog.mem_iff).1 (List.mem_map_of_mem _ hx)
      rw [List.mem_range] at hin
      rw [hpv] at hin ⊢
      have hrx : r.1.patchHeap x = (s.patchHeap x).map (fun p =>
          if st ≤ p.program then
            { p with program := (p.program + patches.length) % 2 ^ 32 }
          else p) := by
        rw [f5 x (hq2 x hx)]
        show (if x ∈ n.patches then _ else s.patchHeap x) = _
        rw [if_pos hx]
      unfold programOf
      rw [hrx, hv]
      by_cases hc : st ≤ v.program
      · rw [if_pos hc]
        show (if st ≤ v.program then _ else v : Patch).program = _
        rw [if_pos hc]
        exact Nat.mod_eq_of_lt (by omega)
      · rw [if_neg hc]
        show (if st ≤ v.program then _ else v : Patch).program = _
        rw [if_neg hc]
    have hnewp : ∀ i : Nat, i < patches.length →
        programOf (addPatches h r.1 r.2.2).1 (s.nextPatch + i) = st + i := by
      intro i hi
      rw [hstrip]
      obtain ⟨src, cp, _, e2, e3, _⟩ := f6 i patches[i] (List.getElem?_eq_getElem hi)
      unfold programOf
      rw [e2]
      exact e3
    have hprog2 := programs_perm nr.patches n.patches (programOf s)
      (programOf (addPatches h r.1 r.2.2).1) patches.length st s.nextPatch
      hprog f2 f3 f4 hstle hold hnewp
    rw [createConsecutiveProgramNumbers_same _ ds nr _ hn2 hprog2]
    have hc := sameCatalog_saveJson h (addPatches h r.1 r.2.2).1
    refine ⟨nr, by rw [hc.nodes]; exact hn2, f3, f2, ?_, f4, ?_⟩
    · rw [programOf_congr _ _ hc.patchHeap]
      exact hprog2
    · intro i q hq
      obtain ⟨src, cp, e1, e2, e3, e4, e5, _, e7⟩ := f6 i q hq
      have hqm : q ∈ patches := List.mem_iff_getElem?.2 ⟨i, hq⟩
      rw [hs1 q (hnew q hqm).1] at e1
      have hs := (g2 (s.nextPatch + i)).1
      rw [e2] at hs
      rw [hc.patchHeap]
      cases hcp : (addPatches h r.1 r.2.2).1.patchHeap (s.nextPatch + i) with
      | none => rw [hcp] at hs; cases hs
      | some cp2 =>
        rw [hcp] at hs
        have heq : stripMods cp2 = stripMods cp := Option.some.inj hs
        refine ⟨src, cp2, e1, rfl, ?_, ?_, ?_, ?_⟩
        · exact (congrArg Patch.sysex heq).trans e4
        · exact (congrArg Patch.hash heq).trans e5
        · exact (congrArg Patch.source heq).trans e7
        · exact (congrArg Patch.program heq).trans e3

theorem exampleShelf_free (q : Nat) (hq : exampleShelf.nextPatch ≤ q) :
    exampleShelf.patchHeap q = none := by
  have h7 : 7 ≤ q := hq
  show (if q = 4 then _ else if q = 5 then _ else if q = 6 then _ else none) = none
  rw [if_neg (by omega), if_neg (by omega), if_neg (by omega)]

theorem copyPatchesTo_programs_witness :
    ∃ n', (copyPatchesTo exampleHost exampleShelf 0 [5, 6] 0).nodes 0 = some n' ∧
      n'.patches.length = 1 + 2 ∧
      n'.patches.Nodup ∧
      (n'.patches.map (programOf (copyPatchesTo exampleHost exampleShelf 0 [5, 6] 0))).Perm
        (List.range (1 + 2)) ∧
      (∀ x : Nat, x ∈ n'.patches ↔
        x ∈ [4] ∨ (exampleShelf.nextPatch ≤ x ∧ x < exampleShelf.nextPatch + 2)) ∧
      ∀ (i q : Nat), [5, 6][i]? = some q →
        ∃ src cp, exampleShelf.patchHeap q = some src ∧
          (copyPatchesTo exampleHost exampleShelf 0 [5, 6] 0).patchHeap
            (exampleShelf.nextPatch + i) = some cp ∧
          cp.sysex = src.sysex ∧ cp.hash = src.hash ∧ cp.source = some 0 ∧
          cp.program = (if (0 : Int) ≤ 0 then min (0 : Int).toNat 1 else 1) + i :=
  copyPatchesTo_programs exampleHost exampleShelf 0
    ⟨⟨SourceType.LocalStorage, "A", DataSourceOrigin.Manual, 0⟩, [4], none, []⟩ [5, 6] 0
    rfl rfl rfl (by decide)
    (fun q hq => by
      rw [List.mem_singleton.1 hq]
      exact ⟨_, rfl⟩)
    (List.Perm.refl [0])
    exampleShelf_free
    (fun q hq => by
      have hq2 : q = 5 ∨ q = 6 := by simpa using hq
      rcases hq2 with hq2 | hq2
      · rw [hq2]
        exact ⟨by decide, _, rfl⟩
      · rw [hq2]
        exact ⟨by decide, _, rfl⟩)
    (by decide) (by decide)

/-- The empty store `Favorites` and the patches 5 and 6: the store holds the two copies 7
and 8, which carry the payloads of the patches 5 and 6 and the programs 0 and 1.  With the
row 0 the store `A` gets the copies at the programs 0 and 1 and its patch 4 moves to the
program 2. -/
theorem copyPatchesTo_example :
    ((copyPatchesTo exampleHost exampleShelf 2 [5, 6] (-1)).nodes 2).map
      (fun n => n.patches) = some [7, 8] ∧
    [7, 8].map (fun q => ((copyPatchesTo exampleHost exampleShelf 2 [5, 6] (-1)).patchHeap q).map
      (fun p => (p.sysex, p.program))) =
      [some ([0xf0, 0, 0xf7], 0), some ([0xf0, 1, 0xf7], 1)] ∧
    [4, 7, 8].map (programOf (copyPatchesTo exampleHost exampleShelf 0 [5, 6] 0)) =
      [2, 0, 1] := by
  refine ⟨?_, ?_, ?_⟩
  · rfl
  · rfl
  · rfl

/-! ### C30 -/

theorem paramIndex_lt_iff (a b : ParamIndex) :
    a.lt b = true ↔
      a.page < b.page ∨ (a.page = b.page ∧ (a.partNum < b.partNum ∨
        (a.partNum = b.partNum ∧ a.paramNum < b.paramNum))) := by
  unfold ParamIndex.lt
  repeat' split
  all_goals simp only [Bool.false_eq_true, false_iff, true_iff]
  all_goals omega

theorem paramIndex_incomparable_iff (a b : ParamIndex) :
    (a.lt b = false ∧ b.lt a = false) ↔ a = b := by
  have h1 := paramIndex_lt_iff a b
  have h2 := paramIndex_lt_iff b a
  constructor
  · intro hh
    obtain ⟨ha, hb⟩ := hh
    rw [ha] at h1
    rw [hb] at h2
    cases a with
    | mk p1 q1 r1 =>
      cases b with
      | mk p2 q2 r2 =>
        simp only [Bool.false_eq_true, false_iff] at h1 h2
        simp only [ParamIndex.mk.injEq]
        omega
  · intro hh
    subst hh
    constructor
    · cases hc : a.lt a with
      | false => rfl
      | true =>
        have := (paramIndex_lt_iff a a).1 hc
        omega
    · cases hc : a.lt a with
      | false => rfl
      | true =>
        have := (paramIndex_lt_iff a a).1 hc
        omega

theorem paramIndex_eq_iff (a b : ParamIndex) :
    a.eq b = true ↔
      a.page = b.page ∧ a.partNum = b.partNum ∧ a.paramNum ≠ 0 ∧ b.paramNum ≠ 0 := by
  unfold ParamIndex.eq
  simp only [Bool.and_eq_true, decide_eq_true_eq, and_assoc]

/-- C30 fails on the code: `operator==` of `Controller::ParamIndex` tests the two
parameter numbers for being non-zero instead of comparing them.  The indices `(0, 0, 1)`
and `(0, 0, 2)` are equal for `operator==` although they differ and `operator<` orders
them, and the index `(0, 0, 0)` is not equal to itself although `operator<` orders it
neither before nor after itself. -/
theorem paramIndex_eq_not_structural :
    ParamIndex.eq ⟨0, 0, 1⟩ ⟨0, 0, 2⟩ = true ∧
    ParamIndex.lt ⟨0, 0, 1⟩ ⟨0, 0, 2⟩ = true ∧
    ParamIndex.eq ⟨0, 0, 0⟩ ⟨0, 0, 0⟩ = false ∧
    ParamIndex.lt ⟨0, 0, 0⟩ ⟨0, 0, 0⟩ = false := by
  refine ⟨?_, ?_, ?_, ?_⟩
  · rfl
  · rfl
  · rfl
  · rfl

/-! ### C21 -/

theorem createValidFilename_data (name : String) :
    (createValidFilename name).data =
      name.data.map (fun c => if isFilenameChar c then c else '_') := by
  unfold createValidFilename isFilenameChar
  simp only [decide_eq_true_eq]

theorem sanitized_char (c : Char) :
    isFilenameChar (if isFilenameChar c then c else '_') = isFilenameChar c := by
  by_cases hc : isFilenameChar c = true
  · rw [if_pos hc]
  · rw [if_neg hc]
    have h1 : isFilenameChar '_' = false := by decide
    rw [h1]
    exact (Bool.eq_false_iff.2 hc).symm

/-- C21: `createValidFilename` keeps the length of the name; at every position it holds
the character of the name when that is an ASCII digit or letter and `_` otherwise; its
result consists of digits, letters and `_`; it is idempotent; and `getLocalStorageFile`
names the child `createValidFilename(name) + ".syx"` of the settings directory. -/
theorem createValidFilename_law (name : String) :
    (createValidFilename name).length = name.length ∧
    (∀ i : Nat, (createValidFilename name).data[i]? =
      (name.data[i]?).map (fun c => if isFilenameChar c then c else '_')) ∧
    (createValidFilename name).data.all (fun c => isFilenameChar c || c == '_') = true ∧
    createValidFilename (createValidFilename name) = createValidFilename name ∧
    ∀ (h : Host) (s : DB W) (ds : DataSource), getLocalStorageFile h s ds =
      h.getChildFile s.m_settingsDir (createValidFilename ds.name ++ ".syx") := by
  refine ⟨?_, ?_, ?_, ?_, ?_⟩
  · show (createValidFilename name).data.length = name.data.length
    rw [createValidFilename_data, List.length_map]
  · intro i
    rw [createValidFilename_data, List.getElem?_map]
  · rw [createValidFilename_data, List.all_eq_true]
    intro c hc
    obtain ⟨c0, _, rfl⟩ := List.mem_map.1 hc
    by_cases h0 : isFilenameChar c0 = true
    · rw [if_pos h0, h0]
      rfl
    · rw [if_neg h0]
      decide
  · apply String.ext
    rw [createValidFilename_data, createValidFilename_data, List.map_map]
    apply List.map_congr_left
    intro c _
    show (if isFilenameChar (if isFilenameChar c then c else '_') then _ else '_') = _
    rw [sanitized_char]
    by_cases h0 : isFilenameChar c = true
    · rw [if_pos h0, if_pos h0]
    · rw [if_neg h0, if_neg h0]
  · intro h s ds
    rfl

/-- The name `My Bank #1` becomes `My_Bank__1`. -/
theorem createValidFilename_example :
    createValidFilename "My Bank #1" = "My_Bank__1" := by
  decide

/-! ### C26 -/

theorem searchAll_spec (rs : List SearchRequest) :
    ∀ (s : DB W) (n : Nat), s.m_nextSearchHandle = n → n < 2 ^ 32 → rs.length < 2 ^ 32 →
      (∀ i : Nat, i < rs.length → mapFind ((n + i) % 2 ^ 32) s.m_searches = none) →
      (∀ (i : Nat) (r : SearchRequest), rs[i]? = some r →
        (searchAll s rs).2[i]? =
          some ⟨(n + i) % 2 ^ 32, r, [], SearchState.NotStarted⟩) ∧
      (searchAll s rs).2.length = rs.length ∧
      (∀ (i : Nat) (x : Search), (searchAll s rs).2[i]? = some x →
        mapFind x.handle (searchAll s rs).1.m_searches = some x) ∧
      (∀ k : Nat, (∀ i : Nat, i < rs.length → k ≠ (n + i) % 2 ^ 32) →
        mapFind k (searchAll s rs).1.m_searches = mapFind k s.m_searches) := by
  induction rs with
  | nil =>
    intro s n _ _ _ _
    refine ⟨?_, rfl, ?_, ?_⟩
    · intro i r hr
      simp at hr
    · intro i x hx
      simp [searchAll] at hx
    · intro k _
      rfl
  | cons r rest ih =>
    intro s n hn hlt hlen hfresh
    have hlen1 : rest.length + 1 < 2 ^ 32 := by simpa using hlen
    have hnext : (search s r).1.m_nextSearchHandle = (n + 1) % 2 ^ 32 := by
      show (s.m_nextSearchHandle + 1) % 2 ^ 32 = _
      rw [hn]
    have hobj : (search s r).2 = ⟨n, r, [], SearchState.NotStarted⟩ := by
      show (⟨s.m_nextSearchHandle, r, [], SearchState.NotStarted⟩ : Search) = _
      rw [hn]
    have hreg : (search s r).1.m_searches =
        mapInsert s.m_searches n ⟨n, r, [], SearchState.NotStarted⟩ := by
      show mapInsert s.m_searches s.m_nextSearchHandle _ = _
      rw [hn]
    have h0 : mapFind n s.m_searches = none := by
      have := hfresh 0 (by simp)
      rwa [Nat.add_zero, Nat.mod_eq_of_lt hlt] at this
    have hidx : ∀ i : Nat, ((n + 1) % 2 ^ 32 + i) % 2 ^ 32 = (n + (i + 1)) % 2 ^ 32 := by
      intro i
      omega
    have hne : ∀ i : Nat, i < rest.length → (n + (i + 1)) % 2 ^ 32 ≠ n := by
      intro i hi
      omega
    have hfresh1 : ∀ i : Nat, i < rest.length →
        mapFind (((n + 1) % 2 ^ 32 + i) % 2 ^ 32) (search s r).1.m_searches = none := by
      intro i hi
      rw [hreg, hidx, mapFind_mapInsert_of_ne _ _ _ _ (hne i hi).symm]
      exact hfresh (i + 1) (by simpa using hi)
    obtain ⟨a1, a2, a3, a4⟩ := ih (search s r).1 ((n + 1) % 2 ^ 32) hnext
      (Nat.mod_lt _ (by norm_num)) (by omega) hfresh1
    have hkeep : mapFind n (searchAll (search s r).1 rest).1.m_searches =
        some ⟨n, r, [], SearchState.NotStarted⟩ := by
      rw [a4 n (fun i hi => by rw [hidx]; exact (hne i hi).symm), hreg]
      exact mapFind_mapInsert_self _ _ _ h0
    refine ⟨?_, ?_, ?_, ?_⟩
    · intro i r' hr
      cases i with
      | zero =>
        simp only [List.getElem?_cons_zero, Option.some.injEq] at hr
        subst hr
        simp only [searchAll, List.getElem?_cons_zero]
        rw [hobj, Nat.add_zero, Nat.mod_eq_of_lt hlt]
      | succ j =>
        simp only [List.getElem?_cons_succ] at hr
        simp only [searchAll, List.getElem?_cons_succ]
        rw [a1 j r' hr, hidx]
    · show (searchAll (search s r).1 rest).2.length + 1 = rest.length + 1
      rw [a2]
    · intro i x hx
      cases i with
      | zero =>
        have hx0 : (search s r).2 = x := by
          simpa [searchAll] using hx
        rw [← hx0, hobj]
        exact hkeep
      | succ j =>
        have hxj : (searchAll (search s r).1 rest).2[j]? = some x := by
          simpa [searchAll] using hx
        exact a3 j x hxj
    · intro k hk
      show mapFind k (searchAll (search s r).1 rest).1.m_searches = _
      have hk0 : k ≠ n := by
        have := hk 0 (by simp)
        rwa [Nat.add_zero, Nat.mod_eq_of_lt hlt] at this
      rw [a4 k (fun i hi => by rw [hidx]; exact hk (i + 1) (by simpa using hi)), hreg]
      exact mapFind_mapInsert_of_ne _ _ _ _ (Ne.symm hk0)

/-- C26: a sequence of fewer than `2^32` calls of `search`, started when the counter is
`n` and the registry holds none of the handles that the calls will take.  The calls return
the handles `n`, `n + 1` and so on (modulo `2^32`): each call returns the handle of the
call before it plus one, no handle is returned twice, and right after the call for the
request `r` returned the handle, `getSearch` of that handle is the search that was created
with `r` and the handle. -/
theorem search_handles_unique (s : DB W) (rs : List SearchRequest) (n : Nat)
    (hn : s.m_nextSearchHandle = n) (hlt : n < 2 ^ 32) (hcount : rs.length < 2 ^ 32)
    (hfresh : ∀ i : Nat, i < rs.length → mapFind ((n + i) % 2 ^ 32) s.m_searches = none) :
    (searchAll s rs).2.map Search.handle =
      (List.range rs.length).map (fun i => (n + i) % 2 ^ 32) ∧
    (∀ (i : Nat) (x y : Search), (searchAll s rs).2[i]? = some x →
      (searchAll s rs).2[i + 1]? = some y → y.handle = (x.handle + 1) % 2 ^ 32) ∧
    ((searchAll s rs).2.map Search.handle).Nodup ∧
    (∀ (i : Nat) (r : SearchRequest), rs[i]? = some r →
      (searchAll s rs).2[i]? = some ⟨(n + i) % 2 ^ 32, r, [], SearchState.NotStarted⟩ ∧
      getSearch (searchAll s (rs.take (i + 1))).1 ((n + i) % 2 ^ 32) =
        some ⟨(n + i) % 2 ^ 32, r, [], SearchState.NotStarted⟩) := by
  obtain ⟨a1, a2, _, _⟩ := searchAll_spec rs s n hn hlt hcount hfresh
  have hmap : (searchAll s rs).2.map Search.handle =
      (List.range rs.length).map (fun i => (n + i) % 2 ^ 32) := by
    apply List.ext_getElem?
    intro i
    rw [List.getElem?_map, List.getElem?_map]
    by_cases hi : i < rs.length
    · rw [a1 i rs[i] (List.getElem?_eq_getElem hi), List.getElem?_range hi]
      rfl
    · rw [List.getElem?_eq_none (by omega), List.getElem?_eq_none (by simpa using hi)]
      rfl
  refine ⟨hmap, ?_, ?_, ?_⟩
  · intro i x y hx hy
    have hi1 : i + 1 < rs.length := by
      rw [← a2]
      exact (List.getElem?_eq_some.1 hy).1
    have e1 := a1 i rs[i] (List.getElem?_eq_getElem (by omega))
    have e2 := a1 (i + 1) rs[i + 1] (List.getElem?_eq_getElem hi1)
    rw [hx] at e1
    rw [hy] at e2
    rw [Option.some.inj e1, Option.some.inj e2]
    have hstep : (n + (i + 1)) % 2 ^ 32 = ((n + i) % 2 ^ 32 + 1) % 2 ^ 32 := by
      omega
    exact hstep
  · rw [hmap]
    apply List.Nodup.map_on _ (List.nodup_range _)
    intro i hi j hj hij
    rw [List.mem_range] at hi hj
    have hij1 : (n + i) % 2 ^ 32 = (n + j) % 2 ^ 32 := hij
    omega
  · intro i r hr
    refine ⟨a1 i r hr, ?_⟩
    have hi : i < rs.length := (List.getElem?_eq_some.1 hr).1
    have hlen : (rs.take (i + 1)).length = i + 1 := by
      rw [List.length_take]
      omega
    obtain ⟨b1, _, b3, _⟩ := searchAll_spec (rs.take (i + 1)) s n hn hlt (by omega)
      (fun j hj => hfresh j (by omega))
    have hr1 : (rs.take (i + 1))[i]? = some r := by
      rw [List.getElem?_take_of_lt (by omega)]
      exact hr
    exact b3 i _ (b1 i r hr1)

theorem search_handles_unique_witness :
    (searchAll exampleStores [exampleFilter, exampleFolderFilter]).2.map Search.handle =
      (List.range 2).map (fun i => (1 + i) % 2 ^ 32) ∧
    (∀ (i : Nat) (x y : Search),
      (searchAll exampleStores [exampleFilter, exampleFolderFilter]).2[i]? = some x →
      (searchAll exampleStores [exampleFilter, exampleFolderFilter]).2[i + 1]? = some y →
      y.handle = (x.handle + 1) % 2 ^ 32) ∧
    ((searchAll exampleStores [exampleFilter, exampleFolderFilter]).2.map Search.handle).Nodup ∧
    (∀ (i : Nat) (r : SearchRequest), [exampleFilter, exampleFolderFilter][i]? = some r →
      (searchAll exampleStores [exampleFilter, exampleFolderFilter]).2[i]? =
        some ⟨(1 + i) % 2 ^ 32, r, [], SearchState.NotStarted⟩ ∧
      getSearch (searchAll exampleStores
        ([exampleFilter, exampleFolderFilter].take (i + 1))).1 ((1 + i) % 2 ^ 32) =
        some ⟨(1 + i) % 2 ^ 32, r, [], SearchState.NotStarted⟩) :=
  search_handles_unique exampleStores [exampleFilter, exampleFolderFilter] 1 rfl
    (by norm_num) (by simp) (fun _ _ => rfl)

/-- The counter is a `uint32_t`: the call that takes the handle `2^32 - 1` sets the counter
to 0, and two calls for the catalog of the examples return the handles 1 and 2. -/
theorem search_handles_example :
    (search { exampleStores with m_nextSearchHandle := 2 ^ 32 - 1 }
      exampleFilter).1.m_nextSearchHandle = 0 ∧
    (searchAll exampleStores [exampleFilter, exampleFolderFilter]).2.map Search.handle =
      [1, 2] := by
  constructor
  · rfl
  · rfl

/-! ### C29 -/

theorem getTagColor_eq (s : DB W) (t : TagType) (g : Tag) :
    getTagColor s t g = (mapFind g ((mapFind t s.m_tagColors).getD [])).getD 0 := by
  unfold getTagColor getTagColorInternal
  cases mapFind t s.m_tagColors with
  | none => rfl
  | some tags =>
    show (match mapFind g tags with
      | none => 0
      | some c => c) = (mapFind g tags).getD 0
    cases mapFind g tags with
    | none => rfl
    | some c => rfl

theorem getTagColor_mapSet (s s' : DB W) (t : TagType) (inner : List (Tag × Color))
    (hs' : s'.m_tagColors = mapSet s.m_tagColors t inner) (t' : TagType) (g' : Tag) :
    getTagColor s' t' g' =
      if t' = t then (mapFind g' inner).getD 0 else getTagColor s t' g' := by
  rw [getTagColor_eq, getTagColor_eq, hs']
  by_cases ht : t' = t
  · rw [if_pos ht, ht, mapFind_mapSet_self]
    rfl
  · rw [if_neg ht, mapFind_mapSet_of_ne _ _ _ _ ht]

theorem mapFind_default (tags : List (Tag × Color)) (g g' : Tag) :
    (mapFind g' (mapInsert tags g 0)).getD 0 = (mapFind g' tags).getD 0 := by
  by_cases hg : g = g'
  · subst hg
    cases hf : mapFind g tags with
    | none => rw [mapFind_mapInsert_self _ _ _ hf]
              rfl
    | some v => rw [mapFind_mapInsert_of_some _ _ _ _ _ hf]
  · rw [mapFind_mapInsert_of_ne _ _ _ _ hg]

theorem setTagColor_cases (h : Host) (s : DB W) (t : TagType) (g : Tag) (c : Color) :
    (c = h.invalidColor ∧
      (mapFind g ((mapFind t s.m_tagColors).getD [])) = none ∧
      setTagColor h s t g c = (s, false)) ∨
    (c = h.invalidColor ∧
      (∃ tags v, mapFind t s.m_tagColors = some tags ∧ mapFind g tags = some v ∧
        (setTagColor h s t g c).1.m_tagColors = mapSet s.m_tagColors t (mapErase g tags)) ∧
      (setTagColor h s t g c).2 = true ∧
      (setTagColor h s t g c).1.m_dirty.tags = setInsert t s.m_dirty.tags) ∨
    (c ≠ h.invalidColor ∧ getTagColor s t g = c ∧
      (setTagColor h s t g c).2 = false ∧
      (setTagColor h s t g c).1.m_tagColors =
        mapSet s.m_tagColors t (mapInsert ((mapFind t s.m_tagColors).getD []) g 0) ∧
      (setTagColor h s t g c).1.m_dirty = s.m_dirty) ∨
    (c ≠ h.invalidColor ∧ getTagColor s t g ≠ c ∧
      (setTagColor h s t g c).2 = true ∧
      (∃ mid, mid = mapSet s.m_tagColors t (mapInsert ((mapFind t s.m_tagColors).getD []) g 0) ∧
        (setTagColor h s t g c).1.m_tagColors =
          mapSet mid t (mapSet (mapInsert ((mapFind t s.m_tagColors).getD []) g 0) g c)) ∧
      (setTagColor h s t g c).1.m_dirty.tags = setInsert t s.m_dirty.tags) := by
  have hcur : (mapFind g (mapInsert ((mapFind t s.m_tagColors).getD []) g 0)).getD 0 =
      getTagColor s t g := by
    rw [mapFind_default, getTagColor_eq]
  unfold setTagColor
  by_cases hc : c = h.invalidColor
  · rw [if_pos hc]
    cases ht : mapFind t s.m_tagColors with
    | none => exact Or.inl ⟨hc, rfl, rfl⟩
    | some tags =>
      dsimp only
      cases hg : mapFind g tags with
      | none => exact Or.inl ⟨hc, hg, rfl⟩
      | some v =>
        refine Or.inr (Or.inl ⟨hc, ⟨tags, v, rfl, hg, ?_⟩, rfl, ?_⟩)
        · exact (sameCatalog_saveJson h _).m_tagColors
        · exact (sameCatalog_saveJson h _).dirty_tags
  · rw [if_neg hc]
    dsimp only
    rw [hcur]
    by_cases heq : getTagColor s t g = c
    · rw [if_pos heq]
      exact Or.inr (Or.inr (Or.inl ⟨hc, heq, rfl, rfl, rfl⟩))
    · rw [if_neg heq]
      refine Or.inr (Or.inr (Or.inr ⟨hc, heq, rfl, ⟨_, rfl, ?_⟩, ?_⟩))
      · exact (sameCatalog_saveJson h _).m_tagColors
      · exact (sameCatalog_saveJson h _).dirty_tags

theorem setTagColor_lookup (h : Host) (s : DB W) (t : TagType) (g : Tag) (c : Color)
    (t' : TagType) (g' : Tag) :
    getTagColor (setTagColor h s t g c).1 t' g' =
      if t' = t ∧ g' = g then (if c = h.invalidColor then 0 else c)
      else getTagColor s t' g' := by
  rcases setTagColor_cases h s t g c with
    ⟨hc, hnone, hrun⟩ | ⟨hc, ⟨tags, v, ht, _, hm⟩, _, _⟩ | ⟨hc, hcur, _, hm, _⟩ |
    ⟨hc, _, _, ⟨mid, hmid, hm⟩, _⟩
  · rw [hrun]
    by_cases hp : t' = t ∧ g' = g
    · rw [if_pos hp, if_pos hc, hp.1, hp.2, getTagColor_eq, hnone]
      rfl
    · rw [if_neg hp]
  · rw [getTagColor_mapSet s _ t _ hm]
    by_cases ht' : t' = t
    · rw [if_pos ht']
      by_cases hg' : g' = g
      · rw [if_pos ⟨ht', hg'⟩, if_pos hc, hg', mapFind_mapErase_self]
        rfl
      · rw [if_neg (fun hh => hg' hh.2), mapFind_mapErase_of_ne _ _ _ (Ne.symm hg'), ht',
          getTagColor_eq, ht]
        rfl
    · rw [if_neg ht', if_neg (fun hh => ht' hh.1)]
  · rw [getTagColor_mapSet s _ t _ hm]
    by_cases ht' : t' = t
    · rw [if_pos ht', mapFind_default, ← getTagColor_eq, ht']
      by_cases hg' : g' = g
      · rw [if_pos ⟨rfl, hg'⟩, if_neg hc, hg']
        exact hcur
      · rw [if_neg (fun hh => hg' hh.2)]
    · rw [if_neg ht', if_neg (fun hh => ht' hh.1)]
  · rw [getTagColor_mapSet { s with m_tagColors := mid } _ t _ hm]
    by_cases ht' : t' = t
    · rw [if_pos ht']
      by_cases hg' : g' = g
      · rw [if_pos ⟨ht', hg'⟩, if_neg hc, hg', mapFind_mapSet_self]
        rfl
      · rw [if_neg (fun hh => hg' hh.2), mapFind_mapSet_of_ne _ _ _ _ hg', mapFind_default,
          ← getTagColor_eq, ht']
    · rw [if_neg ht', if_neg (fun hh => ht' hh.1),
        getTagColor_mapSet s { s with m_tagColors := mid } t _ hmid, if_neg ht']

/-- C29: the colour of a pair without an entry is 0.  For a colour `c` other than the
invalid colour, `setTagColor(t, g, c)` returns true exactly when `getTagColor(t, g)` was
not `c` already, and `getTagColor(t, g)` is `c` afterwards.  For the invalid colour it
returns true exactly when the pair had an entry, and `getTagColor(t, g)` is 0 afterwards.
The colour of every other pair stays as it was, a call that returns true inserts `t` into
`dirty.tags`, and a call that returns false leaves the dirty state as it was. -/
theorem setTagColor_law (h : Host) (s : DB W) (t : TagType) (g : Tag) (c : Color) :
    (mapFind g ((mapFind t s.m_tagColors).getD []) = none → getTagColor s t g = 0) ∧
    (c ≠ h.invalidColor →
      ((setTagColor h s t g c).2 = true ↔ getTagColor s t g ≠ c) ∧
      getTagColor (setTagColor h s t g c).1 t g = c) ∧
    (c = h.invalidColor →
      ((setTagColor h s t g c).2 = true ↔
        ∃ tags v, mapFind t s.m_tagColors = some tags ∧ mapFind g tags = some v) ∧
      getTagColor (setTagColor h s t g c).1 t g = 0) ∧
    (∀ (t' : TagType) (g' : Tag), ¬ (t' = t ∧ g' = g) →
      getTagColor (setTagColor h s t g c).1 t' g' = getTagColor s t' g') ∧
    ((setTagColor h s t g c).2 = true →
      (setTagColor h s t g c).1.m_dirty.tags = setInsert t s.m_dirty.tags) ∧
    ((setTagColor h s t g c).2 = false → (setTagColor h s t g c).1.m_dirty = s.m_dirty) := by
  have hlook := setTagColor_lookup h s t g c
  refine ⟨?_, ?_, ?_, ?_, ?_, ?_⟩
  · intro hnone
    rw [getTagColor_eq, hnone]
    rfl
  · intro hc
    refine ⟨?_, ?_⟩
    · rcases setTagColor_cases h s t g c with
        ⟨hc', _, _⟩ | ⟨hc', _, _, _⟩ | ⟨_, hcur, hres, _, _⟩ | ⟨_, hcur, hres, _, _⟩
      · exact absurd hc' hc
      · exact absurd hc' hc
      · rw [hres]
        exact ⟨fun hh => Bool.noConfusion hh, fun hh => absurd hcur hh⟩
      · rw [hres]
        exact ⟨fun _ => hcur, fun _ => rfl⟩
    · rw [hlook t g, if_pos ⟨rfl, rfl⟩, if_neg hc]
  · intro hc
    refine ⟨?_, ?_⟩
    · rcases setTagColor_cases h s t g c with
        ⟨_, hnone, hrun⟩ | ⟨_, ⟨tags, v, ht, hg, _⟩, hres, _⟩ | ⟨hc', _, _, _, _⟩ |
        ⟨hc', _, _, _, _⟩
      · rw [hrun]
        refine ⟨fun hh => Bool.noConfusion hh, ?_⟩
        intro hex
        obtain ⟨tags, v, ht, hg⟩ := hex
        rw [ht] at hnone
        have hnone1 : mapFind g tags = none := hnone
        rw [hg] at hnone1
        cases hnone1
      · rw [hres]
        exact ⟨fun _ => ⟨tags, v, ht, hg⟩, fun _ => rfl⟩
      · exact absurd hc hc'
      · exact absurd hc hc'
    · rw [hlook t g, if_pos ⟨rfl, rfl⟩, if_pos hc]
  · intro t' g' hne
    rw [hlook t' g', if_neg hne]
  · intro htrue
    rcases setTagColor_cases h s t g c with
      ⟨_, _, hrun⟩ | ⟨_, _, _, hd⟩ | ⟨_, _, hres, _, _⟩ | ⟨_, _, _, _, hd⟩
    · rw [hrun] at htrue
      exact Bool.noConfusion htrue
    · exact hd
    · rw [hres] at htrue
      exact Bool.noConfusion htrue
    · exact hd
  · intro hfalse
    rcases setTagColor_cases h s t g c with
      ⟨_, _, hrun⟩ | ⟨_, _, hres, _⟩ | ⟨_, _, _, _, hd⟩ | ⟨_, _, hres, _, _⟩
    · rw [hrun]
    · rw [hres] at hfalse
      exact Bool.noConfusion hfalse
    · exact hd
    · rw [hres] at hfalse
      exact Bool.noConfusion hfalse

/-- The catalog of the examples has no colours.  The colour 7 for the tag `bass` of the
type 1 is new, a second call with the colour 7 returns false, and the invalid colour
(0 for the host of the examples) removes the entry. -/
theorem setTagColor_example :
    getTagColor exampleTree 1 "bass" = 0 ∧
    (setTagColor exampleHost exampleTree 1 "bass" 7).2 = true ∧
    getTagColor (setTagColor exampleHost exampleTree 1 "bass" 7).1 1 "bass" = 7 ∧
    (setTagColor exampleHost (setTagColor exampleHost exampleTree 1 "bass" 7).1
      1 "bass" 7).2 = false ∧
    (setTagColor exampleHost (setTagColor exampleHost exampleTree 1 "bass" 7).1
      1 "bass" 0).2 = true ∧
    getTagColor (setTagColor exampleHost (setTagColor exampleHost exampleTree 1 "bass" 7).1
      1 "bass" 0).1 1 "bass" = 0 := by
  refine ⟨?_, ?_, ?_, ?_, ?_, ?_⟩
  · rfl
  · rfl
  · rfl
  · rfl
  · rfl
  · rfl

/-! ### C25 -/

theorem removePatch_not_in_table (s : DB W) (p : PatchPtr) (patch : Patch)
    (source : DataSourceNode) (hp : s.patchHeap p = some patch)
    (hsrc : patch.source.bind s.nodes = some source)
    (htab : mapFind source.key s.m_dataSources = none) :
    removePatch s p = some (s, false) := by
  unfold removePatch
  rw [hp]
  dsimp only
  rw [hsrc]
  dsimp only
  rw [htab]

theorem removePatch_not_in_set (s : DB W) (p : PatchPtr) (patch : Patch)
    (source : DataSourceNode) (ds : NodePtr) (dn : DataSourceNode)
    (hp : s.patchHeap p = some patch)
    (hsrc : patch.source.bind s.nodes = some source)
    (htab : mapFind source.key s.m_dataSources = some ds) (hdn : s.nodes ds = some dn)
    (hmem : p ∉ dn.patches) :
    removePatch s p = some (s, false) := by
  unfold removePatch
  rw [hp]
  dsimp only
  rw [hsrc]
  dsimp only
  rw [htab]
  dsimp only
  rw [hdn]
  dsimp only
  rw [if_pos hmem]

theorem removePatch_expired (s : DB W) (p : PatchPtr) (patch : Patch)
    (hp : s.patchHeap p = some patch) (hsrc : patch.source.bind s.nodes = none) :
    removePatch s p = none := by
  unfold removePatch
  rw [hp]
  dsimp only
  rw [hsrc]

/-- C25 fails on the code for a patch whose source reference is expired: the patch 10 of
the examples lives on after its source, the node 2, was destroyed, and `removePatch`
dereferences the pointer that `source.lock()` returns for the lookup in the table: the
call has no defined result, where `renamePatch` tests the pointer and returns false with
the state unchanged.  A patch whose source is alive but not in the table (the patch 11
after the table lost the node 3) makes `removePatch` return false with the state
unchanged. -/
theorem removePatch_dereferences_expired_source :
    (exampleOrphan.patchHeap 10).map (fun p => p.source) = some (some 2) ∧
    exampleOrphan.nodes 2 = none ∧
    (removePatch exampleOrphan 10).isNone = true ∧
    (renamePatch exampleHost exampleOrphan 10 "x").2 = false ∧
    (removePatch { exampleOrphan with m_dataSources := [(exampleD.key, 0), (exampleM.key, 1)] }
      11).map (fun r => r.2) = some false := by
  refine ⟨?_, ?_, ?_, ?_, ?_⟩
  · rfl
  · rfl
  · rfl
  · rfl
  · rfl

/-! ### C23 -/

theorem loadPatchModificationsFrom_single (h : Host) (nodes : NodePtr → Option DataSourceNode)
    (m : List (PatchKey × PatchModifications)) (strKey : String) (var : Json)
    (ds : Option NodePtr) :
    loadPatchModificationsFrom h nodes m
        (Json.obj [("patches", Json.obj [(strKey, var)])]) ds =
      match h.deserialize var with
      | none => (m, false)
      | some mods =>
        (mapInsert m (h.patchKeyFromString strKey ((ds.bind nodes).map (fun n => n.key))) mods,
          h.patchKeyIsValid
            (h.patchKeyFromString strKey ((ds.bind nodes).map (fun n => n.key)))) := by
  show (match h.deserialize var with
    | none => (m, false)
    | some mods =>
      (mapInsert m (h.patchKeyFromString strKey
          ((ds.bind nodes).map (fun (n : DataSourceNode) => n.key))) mods,
        if !h.patchKeyIsValid (h.patchKeyFromString strKey
            ((ds.bind nodes).map (fun (n : DataSourceNode) => n.key))) then false
          else true)) = _
  cases h.deserialize var with
  | none => rfl
  | some mods =>
    dsimp only
    cases h.patchKeyIsValid (h.patchKeyFromString strKey ((ds.bind nodes).map (fun n => n.key)))
      <;> rfl

/-- C23 fails on the code for a key that does not parse to a valid `PatchKey`: the
object holds one entry whose value is the overlay with the name `Lead` and whose key
string is empty, which the host reads as a key that is not valid.  The function returns
false and yet inserts the overlay under that key.  An entry whose value cannot be read is
skipped, as the claim says. -/
theorem loadPatchModifications_inserts_invalid_key :
    exampleCodec.patchKeyIsValid (exampleCodec.patchKeyFromString "" none) = false ∧
    loadPatchModificationsFrom exampleCodec exampleNodes []
        (Json.obj [("patches", Json.obj [("", Json.obj [("name", Json.str "Lead")])])]) none =
      ([(⟨none, [], 0⟩, ⟨[], "Lead", none⟩)], false) ∧
    loadPatchModificationsFrom exampleCodec exampleNodes []
        (Json.obj [("patches", Json.obj [("A", Json.null)])]) none = ([], false) := by
  refine ⟨?_, ?_, ?_⟩
  · rfl
  · rfl
  · rfl

/-! ### C28 -/

theorem length_mapErase {κ ν : Type} [DecidableEq κ] (k : κ) (v : ν) (m : List (κ × ν))
    (hn : (m.map Prod.fst).Nodup) (hf : mapFind k m = some v) :
    (mapErase k m).length + 1 = m.length := by
  induction m with
  | nil => simp [mapFind] at hf
  | cons e m ih =>
    rw [List.map_cons, List.nodup_cons] at hn
    unfold mapErase
    by_cases he : e.1 = k
    · have hnone : mapFind k m = none := by
        rw [mapFind_eq_none_iff]
        intro e' he' hk
        apply hn.1
        rw [he, ← hk]
        exact List.mem_map_of_mem _ he'
      have hall : m.filter (fun e => decide (e.1 ≠ k)) = m := by
        rw [List.filter_eq_self]
        intro e' he'
        simp only [decide_eq_true_eq]
        exact (mapFind_eq_none_iff k m).1 hnone e' he'
      rw [List.filter_cons_of_neg (by simp [he]), hall]
      rfl
    · have hf' : mapFind k m = some v := by
        unfold mapFind at hf
        rw [if_neg he] at hf
        exact hf
      rw [List.filter_cons_of_pos (by simp [he])]
      have := ih hn.2 hf'
      unfold mapErase at this
      simp only [List.length_cons]
      omega

theorem renameDataSource_run (h : Host) (s : DB W) (_ds : NodePtr) (n d : DataSourceNode)
    (newName : String) (N : NodePtr) (hn : s.nodes _ds = some n)
    (hty : n.type = SourceType.LocalStorage) (hne : newName ≠ "")
    (htab : mapFind n.key s.m_dataSources = some N) (hd : s.nodes N = some d)
    (hname : d.name ≠ newName)
    (hfree : ∀ e ∈ s.m_dataSources, ∀ d', s.nodes e.2 = some d' →
      d'.type = SourceType.LocalStorage → d'.name ≠ newName) :
    renameDataSource h s _ds newName =
      (saveJson h
        { s with
          nodes := update s.nodes N { d with name := newName },
          m_dataSources :=
            mapInsert (mapErase n.key s.m_dataSources)
              (DataSourceNode.toDataSource { d with name := newName }).key N,
          m_dirty := { s.m_dirty with dataSources := true } }).1 := by
  have hany : s.m_dataSources.any (fun e =>
      match s.nodes e.2 with
      | none => false
      | some d => decide (d.type = SourceType.LocalStorage) && decide (d.name = newName)) =
      false := by
    rw [Bool.eq_false_iff]
    intro hh
    rw [List.any_eq_true] at hh
    obtain ⟨e, he, hm⟩ := hh
    cases hde : s.nodes e.2 with
    | none =>
      rw [hde] at hm
      exact Bool.noConfusion hm
    | some d' =>
      rw [hde] at hm
      simp only [Bool.and_eq_true, decide_eq_true_eq] at hm
      exact hfree e he d' hde hm.1 hm.2
  unfold renameDataSource
  rw [hn]
  dsimp only
  rw [if_neg (not_not.2 hty), if_neg hne, htab]
  dsimp only
  rw [hd]
  dsimp only
  rw [if_neg hname, hany]
  rfl

/-- C28: an accepted `renameDataSource(node, newName)`: the node is a LocalStorage source
whose identity the table holds, the new name is not empty, differs from the current name
and is the name of no LocalStorage node of the table.  Afterwards the lookup of the old
identity finds nothing, the lookup of the new identity (same type and bank, the new name)
finds the node that the table held, now with the new name and with the patch set it had,
the table has as many entries as before, `dirty.dataSources` is set, and no two
LocalStorage nodes of the table have the same name when that was so before. -/
theorem renameDataSource_rekeys (h : Host) (s : DB W) (_ds : NodePtr) (n : DataSourceNode)
    (newName : String) (N : NodePtr) (hn : s.nodes _ds = some n)
    (hkeyed : ∀ e ∈ s.m_dataSources, ∃ d, s.nodes e.2 = some d ∧ d.key = e.1)
    (hnodup : (s.m_dataSources.map Prod.fst).Nodup) (hunique : UniqueStoreNames s)
    (hty : n.type = SourceType.LocalStorage) (hne : newName ≠ "")
    (htab : mapFind n.key s.m_dataSources = some N) (hname : newName ≠ n.name)
    (hfree : ∀ e ∈ s.m_dataSources, ∀ d', s.nodes e.2 = some d' →
      d'.type = SourceType.LocalStorage → d'.name ≠ newName) :
    mapFind n.key (renameDataSource h s _ds newName).m_dataSources = none ∧
    mapFind ⟨n.type, newName, n.bank⟩ (renameDataSource h s _ds newName).m_dataSources =
      some N ∧
    (∃ d d', s.nodes N = some d ∧ (renameDataSource h s _ds newName).nodes N = some d' ∧
      d'.key = ⟨n.type, newName, n.bank⟩ ∧ d'.patches = d.patches) ∧
    (renameDataSource h s _ds newName).m_dataSources.length = s.m_dataSources.length ∧
    (renameDataSource h s _ds newName).m_dirty.dataSources = true ∧
    UniqueStoreNames (renameDataSource h s _ds newName) := by
  obtain ⟨d, hd, hkey⟩ := hkeyed (n.key, N) (mapFind_mem _ _ _ htab)
  have hdname : d.name = n.name := congrArg DataSourceKey.name hkey
  have hdtype : d.type = n.type := congrArg DataSourceKey.type hkey
  have hdbank : d.bank = n.bank := congrArg DataSourceKey.bank hkey
  have hrk : (DataSourceNode.toDataSource { d with name := newName }).key =
      ⟨n.type, newName, n.bank⟩ := by
    show (⟨d.type, newName, d.bank⟩ : DataSourceKey) = _
    rw [hdtype, hdbank]
  have hrkne : (⟨n.type, newName, n.bank⟩ : DataSourceKey) ≠ n.key := by
    intro hh
    exact hname (congrArg DataSourceKey.name hh)
  have hnew : mapFind (⟨n.type, newName, n.bank⟩ : DataSourceKey) s.m_dataSources = none := by
    rw [mapFind_eq_none_iff]
    intro e he hk
    obtain ⟨d', hd', hkey'⟩ := hkeyed e he
    rw [hk] at hkey'
    have ht' : d'.type = SourceType.LocalStorage :=
      (congrArg DataSourceKey.type hkey').trans hty
    exact hfree e he d' hd' ht' (congrArg DataSourceKey.name hkey')
  rw [renameDataSource_run h s _ds n d newName N hn hty hne htab hd
    (fun hh => hname (hh.symm.trans hdname)) hfree, hrk]
  have hc := sameCatalog_saveJson h
    { s with
      nodes := update s.nodes N { d with name := newName },
      m_dataSources :=
        mapInsert (mapErase n.key s.m_dataSources) (⟨n.type, newName, n.bank⟩ : DataSourceKey) N,
      m_dirty := { s.m_dirty with dataSources := true } }
  have hmem : ∀ e ∈ mapInsert (mapErase n.key s.m_dataSources)
      (⟨n.type, newName, n.bank⟩ : DataSourceKey) N,
      (e ∈ s.m_dataSources ∧ update s.nodes N { d with name := newName } e.2 = s.nodes e.2) ∨
        e = (⟨n.type, newName, n.bank⟩, N) := by
    intro e he
    rcases mem_mapInsert _ _ _ e he with h1 | h1
    · obtain ⟨h2, h3⟩ := (mem_mapErase _ _ _).1 h1
      refine Or.inl ⟨h2, ?_⟩
      have hne2 : e.2 ≠ N := by
        intro hh
        obtain ⟨d', hd', hkey'⟩ := hkeyed e h2
        rw [hh, hd] at hd'
        rw [← Option.some.inj hd', hkey] at hkey'
        exact h3 hkey'.symm
      show (if e.2 = N then _ else s.nodes e.2) = _
      rw [if_neg hne2]
    · exact Or.inr h1.1
  have hnodeN : update s.nodes N { d with name := newName } N =
      some { d with name := newName } := by
    show (if N = N then _ else s.nodes N) = _
    rw [if_pos rfl]
  refine ⟨?_, ?_, ?_, ?_, ?_, ?_⟩
  · rw [hc.m_dataSources]
    show mapFind n.key (mapInsert _ _ _) = none
    rw [mapFind_mapInsert_of_ne _ _ _ _ hrkne]
    exact mapFind_mapErase_self _ _
  · rw [hc.m_dataSources]
    exact mapFind_mapInsert_self _ _ _ (mapFind_mapErase_none _ _ _ hnew)
  · refine ⟨d, { d with name := newName }, hd, ?_, ?_, rfl⟩
    · rw [hc.nodes]
      exact hnodeN
    · show (⟨d.type, newName, d.bank⟩ : DataSourceKey) = _
      rw [hdtype, hdbank]
  · rw [hc.m_dataSources]
    show (mapInsert _ _ _).length = _
    unfold mapInsert
    rw [mapFind_mapErase_none _ _ _ hnew]
    simp only [Option.isSome_none, Bool.false_eq_true, if_false, List.length_append,
      List.length_singleton]
    exact length_mapErase _ _ _ hnodup htab
  · rw [hc.dirty_dataSources]
  · intro e1 he1 e2 he2 d1 d2 h1 h2 t1 t2 hnm
    rw [hc.m_dataSources] at he1 he2
    rw [hc.nodes] at h1 h2
    rcases hmem e1 he1 with ⟨m1, n1⟩ | r1 <;> rcases hmem e2 he2 with ⟨m2, n2⟩ | r2
    · have h1' : s.nodes e1.2 = some d1 := n1 ▸ h1
      have h2' : s.nodes e2.2 = some d2 := n2 ▸ h2
      exact hunique e1 m1 e2 m2 d1 d2 h1' h2' t1 t2 hnm
    · exfalso
      have h1' : s.nodes e1.2 = some d1 := n1 ▸ h1
      rw [r2] at h2
      have h2' : some { d with name := newName } = some d2 := hnodeN ▸ h2
      have hd2 : d2.name = newName := by
        rw [← Option.some.inj h2']
      exact hfree e1 m1 d1 h1' t1 (hnm.trans hd2)
    · exfalso
      have h2' : s.nodes e2.2 = some d2 := n2 ▸ h2
      rw [r1] at h1
      have h1' : some { d with name := newName } = some d1 := hnodeN ▸ h1
      have hd1 : d1.name = newName := by
        rw [← Option.some.inj h1']
      exact hfree e2 m2 d2 h2' t2 (hnm.symm.trans hd1)
    · rw [r1, r2]

theorem exampleStores_entries (e : DataSourceKey × NodePtr) (he : e ∈ exampleStores.m_dataSources) :
    (e = (⟨SourceType.LocalStorage, "A", 0⟩, 0) ∧ exampleStores.nodes e.2 =
        some ⟨⟨SourceType.LocalStorage, "A", DataSourceOrigin.Manual, 0⟩, [], none, []⟩) ∨
      (e = (⟨SourceType.LocalStorage, "B", 0⟩, 1) ∧ exampleStores.nodes e.2 =
        some ⟨⟨SourceType.LocalStorage, "B", DataSourceOrigin.Manual, 0⟩, [], none, []⟩) := by
  simp only [exampleStores, List.mem_cons, List.mem_singleton, List.not_mem_nil,
    or_false] at he
  rcases he with rfl | rfl
  · exact Or.inl ⟨rfl, rfl⟩
  · exact Or.inr ⟨rfl, rfl⟩

theorem exampleStores_unique : UniqueStoreNames exampleStores := by
  intro e1 he1 e2 he2 d1 d2 h1 h2 _ _ hnm
  rcases exampleStores_entries e1 he1 with ⟨r1, n1⟩ | ⟨r1, n1⟩ <;>
    rcases exampleStores_entries e2 he2 with ⟨r2, n2⟩ | ⟨r2, n2⟩
  · rw [r1, r2]
  · rw [n1] at h1
    rw [n2] at h2
    rw [← Option.some.inj h1, ← Option.some.inj h2] at hnm
    exact absurd hnm (by decide)
  · rw [n1] at h1
    rw [n2] at h2
    rw [← Option.some.inj h1, ← Option.some.inj h2] at hnm
    exact absurd hnm (by decide)
  · rw [r1, r2]

theorem renameDataSource_rekeys_witness :
    mapFind ⟨SourceType.LocalStorage, "A", 0⟩
      (renameDataSource exampleHost exampleStores 0 "C").m_dataSources = none ∧
    mapFind ⟨SourceType.LocalStorage, "C", 0⟩
      (renameDataSource exampleHost exampleStores 0 "C").m_dataSources = some 0 ∧
    (∃ d d', exampleStores.nodes 0 = some d ∧
      (renameDataSource exampleHost exampleStores 0 "C").nodes 0 = some d' ∧
      d'.key = ⟨SourceType.LocalStorage, "C", 0⟩ ∧ d'.patches = d.patches) ∧
    (renameDataSource exampleHost exampleStores 0 "C").m_dataSources.length =
      exampleStores.m_dataSources.length ∧
    (renameDataSource exampleHost exampleStores 0 "C").m_dirty.dataSources = true ∧
    UniqueStoreNames (renameDataSource exampleHost exampleStores 0 "C") :=
  renameDataSource_rekeys exampleHost exampleStores 0
    ⟨⟨SourceType.LocalStorage, "A", DataSourceOrigin.Manual, 0⟩, [], none, []⟩ "C" 0 rfl
    (fun e he => by
      rcases exampleStores_entries e he with ⟨r1, n1⟩ | ⟨r1, n1⟩
      · exact ⟨_, n1, by rw [r1]; rfl⟩
      · exact ⟨_, n1, by rw [r1]; rfl⟩)
    (by decide) exampleStores_unique rfl (by decide) rfl (by decide)
    (fun e he d' hd' _ => by
      rcases exampleStores_entries e he with ⟨_, n1⟩ | ⟨_, n1⟩
      · rw [n1] at hd'
        rw [← Option.some.inj hd']
        decide
      · rw [n1] at hd'
        rw [← Option.some.inj hd']
        decide)

/-! ### The files of the local stores -/

theorem writeBuffer_eq (s : DB W) (l : List PatchPtr) :
    ∀ buf : Data,
      l.foldl (fun buf ptr =>
        match s.patchHeap ptr with
        | none => buf
        | some patch => if patch.sysex ≠ [] then buf ++ patch.sysex else buf) buf =
      buf ++ payload s l := by
  induction l with
  | nil =>
    intro buf
    simp [payload]
  | cons a l ih =>
    intro buf
    rw [List.foldl_cons, ih]
    unfold payload
    rw [List.filterMap_cons]
    cases ha : s.patchHeap a with
    | none => rfl
    | some patch =>
      dsimp only
      rw [List.map_cons, List.flatten_cons]
      by_cases he : patch.sysex ≠ []
      · rw [if_pos he, List.append_assoc]
      · rw [if_neg he, not_not.1 he, List.nil_append]

theorem writePatchesToFile_eq (h : Host) (s : DB W) (file : String) (l : List PatchPtr) :
    writePatchesToFile h s file l = replaceWith h s file (FileContent.data (payload s l)) := by
  unfold writePatchesToFile
  dsimp only
  rw [writeBuffer_eq, List.nil_append]

theorem length_payload (s : DB W) (l : List PatchPtr) :
    (payload s l).length = ((l.filterMap s.patchHeap).map (fun p => p.sysex.length)).sum := by
  unfold payload
  rw [List.length_flatten, List.map_map]
  rfl

theorem payload_congr (s t : DB W) (hheap : t.patchHeap = s.patchHeap) :
    payload t = payload s := by
  funext l
  unfold payload
  rw [hheap]

theorem sortByProgram_congr (s t : DB W) (hheap : t.patchHeap = s.patchHeap) :
    sortByProgram t = sortByProgram s := by
  funext l
  unfold sortByProgram
  rw [programOf_congr s t hheap]

theorem replaceWith_files (h : Host) (s : DB W) (file : String) (c : FileContent) :
    (h.writeSucceeds file = true →
      mapFind file (replaceWith h s file c).1.files = some c ∧
        (replaceWith h s file c).2 = true) ∧
    ∀ f : String, f ≠ file →
      mapFind f (replaceWith h s file c).1.files = mapFind f s.files := by
  unfold replaceWith
  constructor
  · intro hw
    rw [if_pos hw]
    exact ⟨mapFind_mapSet_self _ _ _, rfl⟩
  · intro f hf
    split
    · exact mapFind_mapSet_of_ne _ _ _ _ hf
    · rfl

theorem saveLocalStorageStep_other (h : Host) (acc : DB W × Bool)
    (it : NodePtr × List PatchPtr) (f : String)
    (hf : ∀ d, acc.1.nodes it.1 = some d → getLocalStorageFile h acc.1 d.toDataSource ≠ f) :
    mapFind f (saveLocalStorageStep h acc it).1.files = mapFind f acc.1.files := by
  unfold saveLocalStorageStep
  cases hd : acc.1.nodes it.1 with
  | none => rfl
  | some d =>
    dsimp only
    by_cases he : it.2 = []
    · rw [if_pos he]
      exact mapFind_mapErase_of_ne _ _ _ (hf d hd)
    · rw [if_neg he, writePatchesToFile_eq]
      exact (replaceWith_files h _ _ _).2 f (Ne.symm (hf d hd))

theorem saveLocalStorageStep_hit (h : Host) (acc : DB W × Bool)
    (it : NodePtr × List PatchPtr) (d : DataSourceNode) (hd : acc.1.nodes it.1 = some d)
    (hw : it.2 ≠ [] → h.writeSucceeds (getLocalStorageFile h acc.1 d.toDataSource) = true) :
    mapFind (getLocalStorageFile h acc.1 d.toDataSource)
        (saveLocalStorageStep h acc it).1.files =
      if it.2 = [] then none
      else some (FileContent.data (payload acc.1 (sortByProgram acc.1 it.2))) := by
  unfold saveLocalStorageStep
  rw [hd]
  dsimp only
  by_cases he : it.2 = []
  · rw [if_pos he, if_pos he]
    exact mapFind_mapErase_self _ _
  · rw [if_neg he, if_neg he, writePatchesToFile_eq]
    exact ((replaceWith_files h _ _ _).1 (hw he)).1

theorem saveLocalStorage_eq (h : Host) (s : DB W) :
    saveLocalStorage h s =
      if localStoragePatches s = [] then (s, false)
      else (localStoragePatches s).foldl (saveLocalStorageStep h) (s, true) :=
  rfl

theorem mem_ptrMapInsert {ν : Type} (k : Nat) (v : ν) (m : List (Nat × ν)) (e : Nat × ν)
    (he : e ∈ ptrMapInsert k v m) : e ∈ m ∨ e = (k, v) := by
  induction m with
  | nil =>
    simp only [ptrMapInsert, List.mem_singleton] at he
    exact Or.inr he
  | cons a m ih =>
    unfold ptrMapInsert at he
    split at he
    · rcases List.mem_cons.1 he with h1 | h1
      · exact Or.inr h1
      · exact Or.inl h1
    · split at he
      · exact Or.inl he
      · rcases List.mem_cons.1 he with h1 | h1
        · exact Or.inl (h1 ▸ List.mem_cons_self _ _)
        · rcases ih h1 with h2 | h2
          · exact Or.inl (List.mem_cons_of_mem _ h2)
          · exact Or.inr h2

theorem ptrMapInsert_keeps {ν : Type} (k : Nat) (v : ν) (m : List (Nat × ν)) (e : Nat × ν)
    (he : e ∈ m) : e ∈ ptrMapInsert k v m := by
  induction m with
  | nil => cases he
  | cons a m ih =>
    unfold ptrMapInsert
    split
    · exact List.mem_cons_of_mem _ he
    · split
      · exact he
      · rcases List.mem_cons.1 he with h1 | h1
        · exact h1 ▸ List.mem_cons_self _ _
        · exact List.mem_cons_of_mem _ (ih h1)

theorem ptrMapInsert_key {ν : Type} (k : Nat) (v : ν) (m : List (Nat × ν)) :
    k ∈ (ptrMapInsert k v m).map Prod.fst := by
  induction m with
  | nil => simp [ptrMapInsert]
  | cons a m ih =>
    unfold ptrMapInsert
    split
    · simp
    · split
      · rename_i hk
        rw [List.map_cons, hk]
        exact List.mem_cons_self _ _
      · rw [List.map_cons]
        exact List.mem_cons_of_mem _ ih

theorem ptrMapInsert_sorted {ν : Type} (k : Nat) (v : ν) (m : List (Nat × ν))
    (hm : (m.map Prod.fst).Pairwise (· < ·)) :
    ((ptrMapInsert k v m).map Prod.fst).Pairwise (· < ·) := by
  induction m with
  | nil => simp [ptrMapInsert]
  | cons a m ih =>
    rw [List.map_cons, List.pairwise_cons] at hm
    unfold ptrMapInsert
    split
    · rename_i hlt
      rw [List.map_cons, List.pairwise_cons]
      refine ⟨?_, ?_⟩
      · intro x hx
        rw [List.map_cons] at hx
        rcases List.mem_cons.1 hx with h1 | h1
        · rw [h1]
          exact hlt
        · exact Nat.lt_trans hlt (hm.1 x h1)
      · rw [List.map_cons, List.pairwise_cons]
        exact hm
    · split
      · rw [List.map_cons, List.pairwise_cons]
        exact hm
      · rename_i hnlt hne
        rw [List.map_cons, List.pairwise_cons]
        refine ⟨?_, ih hm.2⟩
        intro x hx
        obtain ⟨e, he, rfl⟩ := List.mem_map.1 hx
        rcases mem_ptrMapInsert k v m e he with h1 | h1
        · exact hm.1 _ (List.mem_map_of_mem _ h1)
        · rw [h1]
          show a.1 < k
          omega

theorem localStoragePatches_spec (s : DB W) :
    (∀ e ∈ localStoragePatches s, ∃ it ∈ s.m_dataSources, it.2 = e.1 ∧
      ∃ d, s.nodes e.1 = some d ∧ d.type = SourceType.LocalStorage ∧ e.2 = d.patches) ∧
    (∀ it ∈ s.m_dataSources, ∀ d, s.nodes it.2 = some d → d.type = SourceType.LocalStorage →
      it.2 ∈ (localStoragePatches s).map Prod.fst) ∧
    ((localStoragePatches s).map Prod.fst).Pairwise (· < ·) := by
  unfold localStoragePatches
  generalize s.m_dataSources = tbl
  have key : ∀ (l : List (DataSourceKey × NodePtr)) (acc : List (NodePtr × List PatchPtr)),
      (∀ e ∈ acc, ∃ d, s.nodes e.1 = some d ∧ d.type = SourceType.LocalStorage ∧
        e.2 = d.patches) →
      (acc.map Prod.fst).Pairwise (· < ·) →
      (∀ e ∈ l.foldl (fun acc it =>
          match s.nodes it.2 with
          | none => acc
          | some ds =>
            if ds.type = SourceType.LocalStorage then ptrMapInsert it.2 ds.patches acc
            else acc) acc,
        (e ∈ acc ∨ ∃ it ∈ l, it.2 = e.1) ∧
          ∃ d, s.nodes e.1 = some d ∧ d.type = SourceType.LocalStorage ∧ e.2 = d.patches) ∧
      (∀ e ∈ acc, e ∈ l.foldl (fun acc it =>
          match s.nodes it.2 with
          | none => acc
          | some ds =>
            if ds.type = SourceType.LocalStorage then ptrMapInsert it.2 ds.patches acc
            else acc) acc) ∧
      (∀ it ∈ l, ∀ d, s.nodes it.2 = some d → d.type = SourceType.LocalStorage →
        it.2 ∈ (l.foldl (fun acc it =>
          match s.nodes it.2 with
          | none => acc
          | some ds =>
            if ds.type = SourceType.LocalStorage then ptrMapInsert it.2 ds.patches acc
            else acc) acc).map Prod.fst) ∧
      ((l.foldl (fun acc it =>
          match s.nodes it.2 with
          | none => acc
          | some ds =>
            if ds.type = SourceType.LocalStorage then ptrMapInsert it.2 ds.patches acc
            else acc) acc).map Prod.fst).Pairwise (· < ·) := by
    intro l
    induction l with
    | nil =>
      intro acc hacc hs
      exact ⟨fun e he => ⟨Or.inl he, hacc e he⟩, fun e he => he,
        fun it hit => absurd hit (List.not_mem_nil _), hs⟩
    | cons a l ih =>
      intro acc hacc hs
      rw [List.foldl_cons]
      cases hd : s.nodes a.2 with
      | none =>
        dsimp only
        obtain ⟨i1, i2, i3, i4⟩ := ih acc hacc hs
        refine ⟨?_, i2, ?_, i4⟩
        · intro e he
          obtain ⟨j1, j2⟩ := i1 e he
          refine ⟨?_, j2⟩
          rcases j1 with j1 | ⟨it, hit, hk⟩
          · exact Or.inl j1
          · exact Or.inr ⟨it, List.mem_cons_of_mem _ hit, hk⟩
        · intro it hit d hdn hty
          rcases List.mem_cons.1 hit with h1 | h1
          · rw [h1, hd] at hdn
            cases hdn
          · exact i3 it h1 d hdn hty
      | some ds =>
        dsimp only
        by_cases hty : ds.type = SourceType.LocalStorage
        · rw [if_pos hty]
          have hacc1 : ∀ e ∈ ptrMapInsert a.2 ds.patches acc,
              ∃ d, s.nodes e.1 = some d ∧ d.type = SourceType.LocalStorage ∧
                e.2 = d.patches := by
            intro e he
            rcases mem_ptrMapInsert _ _ _ e he with h1 | h1
            · exact hacc e h1
            · rw [h1]
              exact ⟨ds, hd, hty, rfl⟩
          obtain ⟨i1, i2, i3, i4⟩ := ih (ptrMapInsert a.2 ds.patches acc) hacc1
            (ptrMapInsert_sorted _ _ _ hs)
          refine ⟨?_, ?_, ?_, i4⟩
          · intro e he
            obtain ⟨j1, j2⟩ := i1 e he
            refine ⟨?_, j2⟩
            rcases j1 with j1 | ⟨it, hit, hk⟩
            · rcases mem_ptrMapInsert _ _ _ e j1 with h1 | h1
              · exact Or.inl h1
              · exact Or.inr ⟨a, List.mem_cons_self _ _, by rw [h1]⟩
            · exact Or.inr ⟨it, List.mem_cons_of_mem _ hit, hk⟩
          · intro e he
            exact i2 e (ptrMapInsert_keeps _ _ _ e he)
          · intro it hit d hdn hty'
            rcases List.mem_cons.1 hit with h1 | h1
            · rw [h1]
              obtain ⟨e, he, hk⟩ := List.mem_map.1 (ptrMapInsert_key a.2 ds.patches acc)
              exact List.mem_map.2 ⟨e, i2 e he, hk⟩
            · exact i3 it h1 d hdn hty'
        · rw [if_neg hty]
          obtain ⟨i1, i2, i3, i4⟩ := ih acc hacc hs
          refine ⟨?_, i2, ?_, i4⟩
          · intro e he
            obtain ⟨j1, j2⟩ := i1 e he
            refine ⟨?_, j2⟩
            rcases j1 with j1 | ⟨it, hit, hk⟩
            · exact Or.inl j1
            · exact Or.inr ⟨it, List.mem_cons_of_mem _ hit, hk⟩
          · intro it hit d hdn hty'
            rcases List.mem_cons.1 hit with h1 | h1
            · rw [h1, hd] at hdn
              rw [← Option.some.inj hdn] at hty'
              exact absurd hty' hty
            · exact i3 it h1 d hdn hty'
  obtain ⟨k1, _, k3, k4⟩ := key tbl [] (fun e he => absurd he (List.not_mem_nil _))
    List.Pairwise.nil
  refine ⟨?_, k3, k4⟩
  intro e he
  obtain ⟨j1, j2⟩ := k1 e he
  rcases j1 with j1 | ⟨it, hit, hk⟩
  · exact absurd j1 (List.not_mem_nil _)
  · exact ⟨it, hit, hk, j2⟩

theorem saveLocalStorageFold_file (h : Host) (s : DB W) (q : Nat) (d : DataSourceNode)
    (hd : s.nodes q = some d)
    (hw : d.patches ≠ [] → h.writeSucceeds (getLocalStorageFile h s d.toDataSource) = true) :
    ∀ (L : List (NodePtr × List PatchPtr)) (acc : DB W × Bool), SameCatalog s acc.1 →
      (L.map Prod.fst).Nodup →
      (∀ e ∈ L, e.1 = q → e.2 = d.patches) →
      (∀ e ∈ L, e.1 ≠ q → ∀ d', s.nodes e.1 = some d' →
        getLocalStorageFile h s d'.toDataSource ≠ getLocalStorageFile h s d.toDataSource) →
      SameCatalog s (L.foldl (saveLocalStorageStep h) acc).1 ∧
      mapFind (getLocalStorageFile h s d.toDataSource)
          (L.foldl (saveLocalStorageStep h) acc).1.files =
        if q ∈ L.map Prod.fst then
          (if d.patches = [] then none
            else some (FileContent.data (payload s (sortByProgram s d.patches))))
        else mapFind (getLocalStorageFile h s d.toDataSource) acc.1.files := by
  intro L
  induction L with
  | nil =>
    intro acc hc _ _ _
    refine ⟨hc, ?_⟩
    rw [List.map_nil, if_neg (List.not_mem_nil _)]
    rfl
  | cons e rest ih =>
    intro acc hc hnd hq hother
    rw [List.map_cons, List.nodup_cons] at hnd
    have hc1 : SameCatalog s (saveLocalStorageStep h acc e).1 :=
      hc.compose (sameCatalog_saveLocalStorageStep h acc e)
    obtain ⟨i1, i2⟩ := ih (saveLocalStorageStep h acc e) hc1 hnd.2
      (fun e' he' => hq e' (List.mem_cons_of_mem _ he'))
      (fun e' he' => hother e' (List.mem_cons_of_mem _ he'))
    have hfile : ∀ d' : DataSourceNode, getLocalStorageFile h acc.1 d'.toDataSource =
        getLocalStorageFile h s d'.toDataSource := by
      intro d'
      unfold getLocalStorageFile
      rw [hc.m_settingsDir]
    rw [List.foldl_cons]
    refine ⟨i1, ?_⟩
    rw [i2]
    by_cases he : e.1 = q
    · have hnot : q ∉ rest.map Prod.fst := he ▸ hnd.1
      have hin : q ∈ (e :: rest).map Prod.fst := by
        rw [List.map_cons, he]
        exact List.mem_cons_self _ _
      rw [if_neg hnot, if_pos hin]
      have hdacc : acc.1.nodes e.1 = some d := by
        rw [hc.nodes, he]
        exact hd
      have hstep := saveLocalStorageStep_hit h acc e d hdacc (by
        intro hne
        rw [hfile]
        apply hw
        rw [← hq e (List.mem_cons_self _ _) he]
        exact hne)
      rw [hfile, hq e (List.mem_cons_self _ _) he, payload_congr s acc.1 hc.patchHeap,
        sortByProgram_congr s acc.1 hc.patchHeap] at hstep
      exact hstep
    · have hiff : q ∈ (e :: rest).map Prod.fst ↔ q ∈ rest.map Prod.fst := by
        rw [List.map_cons, List.mem_cons]
        constructor
        · intro hh
          rcases hh with hh | hh
          · exact absurd hh.symm he
          · exact hh
        · intro hh
          exact Or.inr hh
      have hstep := saveLocalStorageStep_other h acc e
        (getLocalStorageFile h s d.toDataSource) (by
          intro d' hd'
          rw [hfile]
          rw [hc.nodes] at hd'
          exact hother e (List.mem_cons_self _ _) he d' hd')
      by_cases hin : q ∈ rest.map Prod.fst
      · rw [if_pos hin, if_pos (hiff.2 hin)]
      · rw [if_neg hin, if_neg (fun hh => hin (hiff.1 hh))]
        exact hstep

theorem saveLocalStorage_file (h : Host) (s : DB W) (q : Nat) (d : DataSourceNode)
    (k : DataSourceKey) (hk : (k, q) ∈ s.m_dataSources) (hd : s.nodes q = some d)
    (hty : d.type = SourceType.LocalStorage)
    (hw : d.patches ≠ [] → h.writeSucceeds (getLocalStorageFile h s d.toDataSource) = true)
    (hother : ∀ e ∈ s.m_dataSources, e.2 ≠ q → ∀ d', s.nodes e.2 = some d' →
      d'.type = SourceType.LocalStorage →
      getLocalStorageFile h s d'.toDataSource ≠ getLocalStorageFile h s d.toDataSource) :
    mapFind (getLocalStorageFile h s d.toDataSource) (saveLocalStorage h s).1.files =
      if d.patches = [] then none
      else some (FileContent.data (payload s (sortByProgram s d.patches))) := by
  obtain ⟨a1, a2, a3⟩ := localStoragePatches_spec s
  have hin : q ∈ (localStoragePatches s).map Prod.fst := a2 (k, q) hk d hd hty
  have hne : localStoragePatches s ≠ [] := by
    intro hh
    rw [hh] at hin
    exact absurd hin (List.not_mem_nil _)
  rw [saveLocalStorage_eq, if_neg hne]
  have hnd : ((localStoragePatches s).map Prod.fst).Nodup :=
    a3.imp (fun hab => Nat.ne_of_lt hab)
  obtain ⟨_, b2⟩ := saveLocalStorageFold_file h s q d hd hw (localStoragePatches s) (s, true)
    (sameCatalog_refl s) hnd
    (fun e he heq => by
      obtain ⟨_, _, _, d', hd', _, hp⟩ := a1 e he
      rw [heq, hd] at hd'
      rw [hp, ← Option.some.inj hd'])
    (fun e he hneq d' hd' => by
      obtain ⟨it, hit, hk', d'', hd'', hty'', _⟩ := a1 e he
      rw [hd'] at hd''
      rw [← Option.some.inj hd''] at hty''
      exact hother it hit (by rw [hk']; exact hneq) d' (by rw [hk']; exact hd') hty'')
  rw [b2, if_pos hin]

/-! ### C22 -/

theorem sortByProgram_spec (s : DB W) (l : List PatchPtr) :
    (sortByProgram s l).Perm l ∧
      ((sortByProgram s l).map (programOf s)).Sorted (· ≤ ·) := by
  unfold sortByProgram
  haveI : IsTotal PatchPtr (fun a b => programOf s a ≤ programOf s b) :=
    ⟨fun a b => Nat.le_total _ _⟩
  haveI : IsTrans PatchPtr (fun a b => programOf s a ≤ programOf s b) :=
    ⟨fun _ _ _ hab hbc => Nat.le_trans hab hbc⟩
  exact ⟨List.perm_insertionSort _ l,
    List.pairwise_map.2 (List.sorted_insertionSort (fun a b => programOf s a ≤ programOf s b) l)⟩

theorem sortByProgram_ne_nil (s : DB W) (l : List PatchPtr) (hl : l ≠ []) :
    sortByProgram s l ≠ [] := by
  intro hh
  have hp := (sortByProgram_spec s l).1
  rw [hh] at hp
  exact hl (List.nil_perm.1 hp)

/-- C22, as the code has it.  `writePatchesToFile` hands the payloads of the patches of a
non-empty list, concatenated in the order of the list, to the write of the file, and the
length of the buffer is the sum of the lengths of the payloads.  `saveLocalStorage` sorts
the patches of a LocalStorage node of the table by their program, and when the write
succeeds and no other LocalStorage node of the table has the same file, the file of the
node holds the payloads of its patches in ascending order of the program; the file of a
node without patches is deleted, and the list that `writePatchesToFile` gets is never
empty. -/
theorem saveLocalStorage_blob (h : Host) (s : DB W) (q : Nat) (d : DataSourceNode)
    (k : DataSourceKey) (hk : (k, q) ∈ s.m_dataSources) (hd : s.nodes q = some d)
    (hty : d.type = SourceType.LocalStorage)
    (hw : h.writeSucceeds (getLocalStorageFile h s d.toDataSource) = true)
    (hother : ∀ e ∈ s.m_dataSources, e.2 ≠ q → ∀ d', s.nodes e.2 = some d' →
      d'.type = SourceType.LocalStorage →
      getLocalStorageFile h s d'.toDataSource ≠ getLocalStorageFile h s d.toDataSource) :
    (∀ (t : DB W) (file : String) (patches : List PatchPtr), patches ≠ [] →
      h.writeSucceeds file = true →
      mapFind file (writePatchesToFile h t file patches).1.files =
        some (FileContent.data (payload t patches)) ∧
      (writePatchesToFile h t file patches).2 = true ∧
      (payload t patches).length =
        ((patches.filterMap t.patchHeap).map (fun p => p.sysex.length)).sum) ∧
    (d.patches ≠ [] →
      mapFind (getLocalStorageFile h s d.toDataSource) (saveLocalStorage h s).1.files =
        some (FileContent.data (payload s (sortByProgram s d.patches))) ∧
      (sortByProgram s d.patches).Perm d.patches ∧
      ((sortByProgram s d.patches).map (programOf s)).Sorted (· ≤ ·)) ∧
    (d.patches = [] →
      mapFind (getLocalStorageFile h s d.toDataSource) (saveLocalStorage h s).1.files = none) ∧
    (∀ (acc : DB W × Bool) (it : NodePtr × List PatchPtr) (n : DataSourceNode),
      acc.1.nodes it.1 = some n →
      (it.2 = [] → saveLocalStorageStep h acc it =
        (deleteFile acc.1 (getLocalStorageFile h acc.1 n.toDataSource), acc.2)) ∧
      (it.2 ≠ [] → sortByProgram acc.1 it.2 ≠ [] ∧
        (saveLocalStorageStep h acc it).1 =
          (writePatchesToFile h acc.1 (getLocalStorageFile h acc.1 n.toDataSource)
            (sortByProgram acc.1 it.2)).1)) := by
  have hfile := saveLocalStorage_file h s q d k hk hd hty (fun _ => hw) hother
  refine ⟨?_, ?_, ?_, ?_⟩
  · intro t file patches _ hwf
    rw [writePatchesToFile_eq]
    exact ⟨((replaceWith_files h t file _).1 hwf).1, ((replaceWith_files h t file _).1 hwf).2,
      length_payload t patches⟩
  · intro hne
    rw [hfile, if_neg hne]
    exact ⟨rfl, sortByProgram_spec s d.patches⟩
  · intro he
    rw [hfile, if_pos he]
  · intro acc it n hn
    refine ⟨?_, ?_⟩
    · intro he
      unfold saveLocalStorageStep
      rw [hn]
      dsimp only
      rw [if_pos he]
    · intro hne
      refine ⟨sortByProgram_ne_nil _ _ hne, ?_⟩
      unfold saveLocalStorageStep
      rw [hn]
      dsimp only
      rw [if_neg hne]

theorem exampleShelf_entries (e : DataSourceKey × NodePtr)
    (he : e ∈ exampleShelf.m_dataSources) :
    e = (⟨SourceType.LocalStorage, "A", 0⟩, 0) ∨ e = (⟨SourceType.LocalStorage, "B", 0⟩, 1) ∨
      e = (⟨SourceType.LocalStorage, "Favorites", 0⟩, 2) := by
  simp only [exampleShelf, List.mem_cons, List.mem_singleton, List.not_mem_nil,
    or_false] at he
  exact he

theorem saveLocalStorage_blob_witness :
    (exampleShelf.nodes 1).map (fun n => n.patches) = some [5, 6] ∧
    mapFind "cfg/B.syx" (saveLocalStorage exampleCodec exampleShelf).1.files =
      some (FileContent.data (payload exampleShelf (sortByProgram exampleShelf [5, 6]))) ∧
    payload exampleShelf (sortByProgram exampleShelf [5, 6]) =
      [0xf0, 0, 0xf7, 0xf0, 1, 0xf7] :=
  ⟨rfl,
    ((saveLocalStorage_blob exampleCodec exampleShelf 1
      ⟨⟨SourceType.LocalStorage, "B", DataSourceOrigin.Manual, 0⟩, [5, 6], none, []⟩
      ⟨SourceType.LocalStorage, "B", 0⟩ (by simp [exampleShelf]) rfl rfl rfl
      (fun e he hne d' hd' _ => by
        rcases exampleShelf_entries e he with r | r | r
        · rw [r] at hd'
          rw [← Option.some.inj hd']
          decide
        · rw [r] at hne
          exact absurd rfl hne
        · rw [r] at hd'
          rw [← Option.some.inj hd']
          decide)).2.1 (by decide)).1,
    rfl⟩

/-- C22 as stated fails for two LocalStorage nodes with the same file: the stores `a b`
and `a_b` have the file `cfg/a_b.syx`, both have one patch, every write succeeds, and
after `saveLocalStorage` the file holds the payload of the patch 6 of the store `a_b`
only, not the payload of the patch 5 of the store `a b`. -/
theorem saveLocalStorage_shared_file :
    getLocalStorageFile exampleCodec exampleClash
      ⟨SourceType.LocalStorage, "a b", DataSourceOrigin.Manual, 0⟩ = "cfg/a_b.syx" ∧
    getLocalStorageFile exampleCodec exampleClash
      ⟨SourceType.LocalStorage, "a_b", DataSourceOrigin.Manual, 0⟩ = "cfg/a_b.syx" ∧
    payload exampleClash (sortByProgram exampleClash [5]) = [0xf0, 0, 0xf7] ∧
    (saveLocalStorage exampleCodec exampleClash).2 = true ∧
    mapFind "cfg/a_b.syx" (saveLocalStorage exampleCodec exampleClash).1.files =
      some (FileContent.data [0xf0, 1, 0xf7]) := by
  refine ⟨?_, ?_, ?_, ?_, ?_⟩
  · decide
  · decide
  · rfl
  · rfl
  · rfl

/-! ### C27 -/

theorem append_right_cancel (x y z : String) (hxy : x ++ z = y ++ z) : x = y := by
  apply String.ext
  have hd := congrArg String.data hxy
  rw [String.data_append, String.data_append] at hd
  exact List.append_cancel_right hd

theorem append_left_cancel (x y z : String) (hxy : z ++ x = z ++ y) : x = y := by
  apply String.ext
  have hd := congrArg String.data hxy
  rw [String.data_append, String.data_append] at hd
  exact List.append_cancel_left hd

theorem createValidFilename_id (name : String)
    (hname : name.data.all isFilenameChar = true) : createValidFilename name = name := by
  apply String.ext
  rw [createValidFilename_data]
  rw [List.all_eq_true] at hname
  conv_rhs => rw [← List.map_id name.data]
  apply List.map_congr_left
  intro c hc
  rw [if_pos (hname c hc)]
  rfl

/-- C27, as the code has it: two data sources whose names differ after
`createValidFilename` (two different names of ASCII letters and digits, for one) have
different files and, as LocalStorage sources, different sidecar files, on a host whose
`getChildFile` gives different files for different names; the pass of `saveLocalStorage`
for a node of the one source then leaves the file of the other source as it is. -/
theorem getLocalStorageFile_distinct (h : Host) (s : DB W) (a b : DataSource)
    (hchild : ∀ x y : String,
      h.getChildFile s.m_settingsDir x = h.getChildFile s.m_settingsDir y → x = y)
    (hsan : createValidFilename a.name ≠ createValidFilename b.name) :
    getLocalStorageFile h s a ≠ getLocalStorageFile h s b ∧
    (a.type = SourceType.LocalStorage → b.type = SourceType.LocalStorage →
      getJsonFile h s a ≠ getJsonFile h s b) ∧
    (∀ (acc : DB W × Bool) (it : NodePtr × List PatchPtr),
      acc.1.m_settingsDir = s.m_settingsDir →
      (acc.1.nodes it.1).map (fun n => n.toDataSource) = some a →
      mapFind (getLocalStorageFile h s b) (saveLocalStorageStep h acc it).1.files =
        mapFind (getLocalStorageFile h s b) acc.1.files) := by
  have hfile : getLocalStorageFile h s a ≠ getLocalStorageFile h s b := by
    intro hh
    exact hsan (append_right_cancel _ _ _ (hchild _ _ hh))
  refine ⟨hfile, ?_, ?_⟩
  · intro ha hb hh
    unfold getJsonFile at hh
    rw [if_pos ha, if_pos hb] at hh
    exact hfile (append_right_cancel _ _ _ hh)
  · intro acc it hdir hnode
    apply saveLocalStorageStep_other
    intro d hd
    rw [hd] at hnode
    have hda : d.toDataSource = a := Option.some.inj hnode
    have hfs : getLocalStorageFile h acc.1 d.toDataSource = getLocalStorageFile h s a := by
      unfold getLocalStorageFile
      rw [hdir, hda]
    rw [hfs]
    exact hfile

theorem exampleCodec_child (d x y : String)
    (hxy : exampleCodec.getChildFile d x = exampleCodec.getChildFile d y) : x = y :=
  append_left_cancel x y (d ++ "/") hxy

theorem getLocalStorageFile_distinct_witness :
    getLocalStorageFile exampleCodec exampleStores
        ⟨SourceType.LocalStorage, "A", DataSourceOrigin.Manual, 0⟩ ≠
      getLocalStorageFile exampleCodec exampleStores
        ⟨SourceType.LocalStorage, "B", DataSourceOrigin.Manual, 0⟩ ∧
    getJsonFile exampleCodec exampleStores
        ⟨SourceType.LocalStorage, "A", DataSourceOrigin.Manual, 0⟩ ≠
      getJsonFile exampleCodec exampleStores
        ⟨SourceType.LocalStorage, "B", DataSourceOrigin.Manual, 0⟩ :=
  have t := getLocalStorageFile_distinct exampleCodec exampleStores
    ⟨SourceType.LocalStorage, "A", DataSourceOrigin.Manual, 0⟩
    ⟨SourceType.LocalStorage, "B", DataSourceOrigin.Manual, 0⟩
    (exampleCodec_child exampleStores.m_settingsDir) (by decide)
  ⟨t.1, t.2.1 rfl rfl⟩

/-- C27 as stated fails: the names `a b` and `a_b` differ, and the two LocalStorage
sources have the same file and the same sidecar file, because `createValidFilename` maps
the blank to `_`.  When the store `a_b` is empty, `saveLocalStorage` writes the patch of
the store `a b` to the file and then deletes the file for the store `a_b`. -/
theorem getLocalStorageFile_shared :
    ("a b" : String) ≠ "a_b" ∧
    getLocalStorageFile exampleCodec exampleClashEmpty
        ⟨SourceType.LocalStorage, "a b", DataSourceOrigin.Manual, 0⟩ =
      getLocalStorageFile exampleCodec exampleClashEmpty
        ⟨SourceType.LocalStorage, "a_b", DataSourceOrigin.Manual, 0⟩ ∧
    getJsonFile exampleCodec exampleClashEmpty
        ⟨SourceType.LocalStorage, "a b", DataSourceOrigin.Manual, 0⟩ =
      getJsonFile exampleCodec exampleClashEmpty
        ⟨SourceType.LocalStorage, "a_b", DataSourceOrigin.Manual, 0⟩ ∧
    (exampleClashEmpty.nodes 0).map (fun n => n.patches) = some [5] ∧
    mapFind "cfg/a_b.syx"
      (saveLocalStorageStep exampleCodec (exampleClashEmpty, true) (0, [5])).1.files =
        some (FileContent.data [0xf0, 0, 0xf7]) ∧
    mapFind "cfg/a_b.syx" (saveLocalStorage exampleCodec exampleClashEmpty).1.files = none := by
  refine ⟨?_, ?_, ?_, ?_, ?_, ?_⟩
  · decide
  · decide
  · decide
  · rfl
  · rfl
  · rfl

/-! ### The index that `saveJson` writes -/

end PatchDB
